import Mathlib

/-!
# Domain-record transformer of ens_transformers

A shallow embedding of `transformers/domain_records/transformer.go`.

* The `Transformer` struct becomes the record `Transformer`; the interfaces embedded in it
  (`ENSRepository`, `HeaderRepository`, `Parser`, `InterfaceGetter`, `Fetcher`, `Converter`)
  become one record of operations `Env σ` over an arbitrary world state `σ`.  Every operation
  returns its result (or an error) together with the next world state.
* A method with a pointer receiver becomes a program `Prog σ α`: a function from the pair
  (transformer, world) to a result-or-error and the next pair.  The pair survives an error,
  as the fields of a Go struct do when a method returns `err`.
* Go maps are association lists with unique keys; `range` visits them in list order (Go leaves the
  order unspecified, and every statement below quantifies over all association lists).
* `int64` block numbers are `Int`: block heights stay far away from the 64-bit boundary.
* The event converters of `transformers/resolver/content_changed`,
  `transformers/registar/auction_started` and `transformers/registar/bid_revealed` are pure
  functions over lists; `geth.ParseAbi`, `UnpackLog` and `json.Marshal` are parameters, a value
  of the empty interface is a value of one of the entity types or the name of another type.
* Keccak-256 is implemented on lists of bytes, for the name hash of a subnode and for the
  check-summed form of an address.
-/

namespace DomainRecords

/-! ## Data model -/

/-- A Go `error` value, identified by its message. -/
abbrev Error := String

/-- Lookup in a Go `map[string]V`: the stored value, or the zero value `d` of `V`. -/
def mapGet {V : Type} (m : List (String × V)) (k : String) (d : V) : V :=
  match m with
  | [] => d
  | (k', v) :: rest => if k' = k then v else mapGet rest k d

/-- The `ok` of `_, ok := m[k]`. -/
def mapHas {V : Type} (m : List (String × V)) (k : String) : Bool :=
  match m with
  | [] => false
  | (k', _) :: rest => if k' = k then true else mapHas rest k

/-- Assignment `m[k] = v`: replaces the entry of an existing key, appends a new key. -/
def mapSet {V : Type} (m : List (String × V)) (k : String) (v : V) : List (String × V) :=
  match m with
  | [] => [(k, v)]
  | (k', v') :: rest => if k' = k then (k, v) :: rest else (k', v') :: mapSet rest k v

/-- Modelled from the spec: `models.DomainModel` (package `domain_records/models` is not part of
the sources at hand).  The fields are those the transformer assigns and the spec's DomainRecord
lists; `&models.DomainModel{}` is the record of zero values. -/
structure DomainModel where
  NameHash : String := ""
  BlockNumber : Int := 0
  LabelHash : String := ""
  ParentHash : String := ""
  Owner : String := ""
  ResolverAddr : String := ""
  PointsToAddr : String := ""
  Content : String := ""
  ContentType : String := ""
  Name : String := ""
  PubKeyX : String := ""
  PubKeyY : String := ""
  TTL : String := ""
  TextKey : String := ""
  IndexedTextKey : String := ""
  Multihash : String := ""
  Contenthash : String := ""
  deriving DecidableEq, Repr

/-- A decoded log, `types.Log`: the transformer reads only its `Values map[string]string`. -/
structure Log where
  Values : List (String × String)
  deriving DecidableEq, Repr

/-- The Go expression `log.Values[k]` (the empty string for an absent key). -/
def Log.value (l : Log) (k : String) : String := mapGet l.Values k ""

/-- A raw chain log as returned by `Fetcher.FetchLogs`; the transformer only counts them. -/
structure RawLog where
  Address : String
  Topics : List String
  Data : String
  deriving DecidableEq, Repr

/-- The fields of `core.Header` that the transformer reads. -/
structure Header where
  Id : Int
  BlockNumber : Int
  deriving DecidableEq, Repr

/-- An event of a contract ABI, `types.Event`: its name and its topic-0 signature `Sig()`. -/
structure Event where
  Name : String
  Sig : String
  deriving DecidableEq, Repr

/-- The fields of `contract.Contract` that the transformer sets to non-constant values
(`Methods` is always nil, `FilterArgs` and `MethodArgs` are always empty). -/
structure Contract where
  Name : String := ""
  Network : String := ""
  Address : String := ""
  Abi : String := ""
  ParsedAbi : String := ""
  StartingBlock : Int := 0
  Events : List Event := []
  deriving DecidableEq, Repr

/-- The fields of `config.ContractConfig` read by `Init`. -/
structure ContractConfig where
  Network : String := ""
  Addresses : List (String × Bool) := []
  Abis : List (String × String) := []
  StartingBlocks : List (String × Int) := []
  deriving DecidableEq, Repr

/-- The mutable fields of the Go struct `Transformer` (its embedded interfaces are in `Env`). -/
structure Transformer where
  RegistryConfig : ContractConfig := {}
  Registry : Contract := {}
  registryEventIds : List String := []
  registryEventFilters : List String := []
  ResolverAddresses : List (String × Bool) := []
  Resolvers : List (String × Contract) := []
  resolverEventIds : List (String × List String) := []
  resolverEventFilters : List (String × List String) := []
  invalidResolvers : List (String × Bool) := []
  registryIndex : Int := 0
  resolverIndex : Int := 0
  deriving DecidableEq, Repr

/-! ## The embedded interfaces -/

/-- The interfaces embedded in `Transformer`, as operations on a world state `σ`.  An operation
that returns `(value, error)` or `error` in Go returns `Except Error _` here, next to the world
state it leaves behind. -/
structure Env (σ : Type) where
  /-- The call `ENSRepository.RecordExists(nameHash)`. -/
  RecordExists : String → σ → Except Error Bool × σ
  /-- The call `ENSRepository.GetRecord(nameHash, blockNumber)`. -/
  GetRecord : String → Int → σ → Except Error DomainModel × σ
  /-- The call `ENSRepository.CreateRecord(record)`. -/
  CreateRecord : DomainModel → σ → Except Error Unit × σ
  /-- The call `HeaderRepository.AddCheckColumn(eventId)`. -/
  AddCheckColumn : String → σ → Except Error Unit × σ
  /-- The call `HeaderRepository.MissingHeadersForAll(start, end, eventIds)`. -/
  MissingHeadersForAll : Int → Int → List String → σ → Except Error (List Header) × σ
  /-- The call `HeaderRepository.MarkHeaderCheckedForAll(headerId, eventIds)`. -/
  MarkHeaderCheckedForAll : Int → List String → σ → Except Error Unit × σ
  /-- The call `Parser.Parse(contractAddr)`. -/
  Parse : String → σ → Except Error Unit × σ
  /-- The call `Parser.ParseAbiStr(abi)`. -/
  ParseAbiStr : String → σ → Except Error Unit × σ
  /-- The call `Parser.Abi()`. -/
  Abi : σ → String
  /-- The call `Parser.ParsedAbi()`. -/
  ParsedAbi : σ → String
  /-- The call `Parser.GetEvents([]string{})`. -/
  GetEvents : σ → List Event
  /-- The call `InterfaceGetter.GetABI(resolverAddr, blockNumber)`. -/
  GetABI : String → Int → σ → String × σ
  /-- The call `Fetcher.FetchLogs(addresses, topics, header)`. -/
  FetchLogs : List String → List String → Header → σ → Except Error (List RawLog) × σ
  /-- The call `Converter.Update(contract)`. -/
  Update : Contract → σ → σ
  /-- The call `Converter.ConvertBatch(logs, events, headerId)`. -/
  ConvertBatch : List RawLog → List Event → Int → σ →
    Except Error (List (String × List Log)) × σ
  /-- The pure helper `utils.CreateSubnode(parentHash, labelHash)`. -/
  CreateSubnode : String → String → String
  /-- The function `strings.ToLower` of the Go standard library, which maps every Unicode
  letter to its lower case. -/
  ToLower : String → String

/-! ## Programs over the transformer and the world -/

/-- The transformer's fields together with the state of everything behind its interfaces. -/
structure State (σ : Type) where
  tr : Transformer
  world : σ
  deriving DecidableEq

deriving instance DecidableEq for Except

/-- A method of `*Transformer`: it may fail, and it leaves a state behind in either case. -/
def Prog (σ α : Type) : Type := State σ → Except Error α × State σ

/-- Sequencing of two statements; an error of the first is returned at once (`return err`). -/
def Prog.bind {σ α β : Type} (x : Prog σ α) (f : α → Prog σ β) : Prog σ β := fun s =>
  match x s with
  | (Except.ok a, s') => f a s'
  | (Except.error e, s') => (Except.error e, s')

instance {σ : Type} : Monad (Prog σ) where
  pure a := fun s => (Except.ok a, s)
  bind := Prog.bind

/-- A call of an interface operation that can fail. -/
def call {σ α : Type} (op : σ → Except Error α × σ) : Prog σ α := fun s =>
  ((op s.world).1, { s with world := (op s.world).2 })

/-- A call of an interface operation that cannot fail. -/
def callPure {σ α : Type} (op : σ → α × σ) : Prog σ α := fun s =>
  (Except.ok (op s.world).1, { s with world := (op s.world).2 })

/-- The statement `return errors.New(msg)`. -/
def fail {σ α : Type} (e : Error) : Prog σ α := fun s => (Except.error e, s)

/-- Read of the transformer's fields. -/
def getTr {σ : Type} : Prog σ Transformer := fun s => (Except.ok s.tr, s)

/-- Read of the world behind the interfaces (for the parser's getters). -/
def getWorld {σ : Type} : Prog σ σ := fun s => (Except.ok s.world, s)

/-- Assignment to fields of the transformer. -/
def modifyTr {σ : Type} (f : Transformer → Transformer) : Prog σ Unit := fun s =>
  (Except.ok (), { s with tr := f s.tr })

/-- The loop `for _, x := range xs { body }`; `continue` is a body that ends early, an error
leaves the loop and the method. -/
def forEach {σ α : Type} (xs : List α) (body : α → Prog σ Unit) : Prog σ Unit :=
  match xs with
  | [] => pure ()
  | x :: rest => Prog.bind (body x) (fun _ => forEach rest body)

/-- The Go expression `logs[name]` on the decoded log map (nil for an absent event name). -/
def logsOf (logs : List (String × List Log)) (name : String) : List Log := mapGet logs name []

/-- Lower-casing of the ASCII letters A-Z, every other character kept.  On a string of ASCII
characters this is what Go's `strings.ToLower` returns; the interfaces of the scenarios, whose
event names and addresses are ASCII, use it for `Env.ToLower`. -/
def toLower (s : String) : String := String.mk (s.data.map Char.toLower)

/-- The value of an `int64` expression whose mathematical result is `x`: Go's integer
arithmetic wraps around modulo 2^64 into the range from -2^63 to 2^63 - 1. -/
def int64 (x : Int) : Int :=
  (x + 9223372036854775808) % 18446744073709551616 - 9223372036854775808

/-! ## The transformer's methods -/

/-- The statements shared by every loop body of `processRegistryLogs` and `processResolverLogs`
except the NewOwner one: `GetRecord(node, blockNumber)`, assignment of `BlockNumber` and of the
event's fields to the record returned, `CreateRecord` of the result. -/
def updateRecord {σ : Type} (env : Env σ) (node : String) (blockNumber : Int)
    (assign : DomainModel → DomainModel) : Prog σ Unit := do
  let lastRecord ← call (env.GetRecord node blockNumber)
  call (env.CreateRecord (assign { lastRecord with BlockNumber := blockNumber }))

/-- The body of the NewOwner loop of `processRegistryLogs`. -/
def processNewOwner {σ : Type} (env : Env σ) (blockNumber : Int) (newOwner : Log) :
    Prog σ Unit := do
  let parentHash := newOwner.value "node"
  let labelHash := newOwner.value "label"
  let subnode := env.CreateSubnode parentHash labelHash
  let found ← call (env.RecordExists subnode)
  let record ← (if found then call (env.GetRecord subnode blockNumber) else pure {})
  call (env.CreateRecord { record with
    NameHash := subnode
    ParentHash := parentHash
    LabelHash := labelHash
    Owner := newOwner.value "owner"
    BlockNumber := blockNumber })

/-- The method `Transformer.processRegistryLogs`. -/
def processRegistryLogs {σ : Type} (env : Env σ) (logs : List (String × List Log))
    (blockNumber : Int) : Prog σ Unit := do
  forEach (logsOf logs "NewOwner") (processNewOwner env blockNumber)
  forEach (logsOf logs "Transfer") (fun transfer =>
    updateRecord env (transfer.value "node") blockNumber
      (fun r => { r with Owner := transfer.value "owner" }))
  forEach (logsOf logs "NewTTL") (fun ttl =>
    updateRecord env (ttl.value "node") blockNumber
      (fun r => { r with TTL := ttl.value "ttl" }))
  forEach (logsOf logs "NewResolver") (fun newResolver => do
    updateRecord env (newResolver.value "node") blockNumber
      (fun r => { r with ResolverAddr := newResolver.value "resolver" })
    modifyTr (fun tr => { tr with
      ResolverAddresses := mapSet tr.ResolverAddresses (newResolver.value "resolver") true }))

/-- The method `Transformer.processResolverLogs`. -/
def processResolverLogs {σ : Type} (env : Env σ) (logs : List (String × List Log))
    (blockNumber : Int) : Prog σ Unit := do
  forEach (logsOf logs "AddrChanged") (fun addrChanged =>
    updateRecord env (addrChanged.value "node") blockNumber
      (fun r => { r with PointsToAddr := addrChanged.value "a" }))
  forEach (logsOf logs "NameChanged") (fun nameChanged =>
    updateRecord env (nameChanged.value "node") blockNumber
      (fun r => { r with Name := nameChanged.value "name" }))
  forEach (logsOf logs "ContentChanged") (fun contentChanged =>
    updateRecord env (contentChanged.value "node") blockNumber
      (fun r => { r with Content := contentChanged.value "hash" }))
  forEach (logsOf logs "ABIChanged") (fun abiChanged =>
    updateRecord env (abiChanged.value "node") blockNumber
      (fun r => { r with ContentType := abiChanged.value "contentType" }))
  forEach (logsOf logs "PubkeyChanged") (fun pubkeyChanged =>
    updateRecord env (pubkeyChanged.value "node") blockNumber
      (fun r => { r with
        PubKeyX := pubkeyChanged.value "x"
        PubKeyY := pubkeyChanged.value "y" }))
  forEach (logsOf logs "TextChanged") (fun textChanged =>
    updateRecord env (textChanged.value "node") blockNumber
      (fun r => { r with
        TextKey := textChanged.value "key"
        IndexedTextKey := textChanged.value "indexedKey" }))
  forEach (logsOf logs "MultihashChanged") (fun multihashChanged =>
    updateRecord env (multihashChanged.value "node") blockNumber
      (fun r => { r with Multihash := multihashChanged.value "hash" }))
  forEach (logsOf logs "ContenthashChanged") (fun contenthashChanged =>
    updateRecord env (contenthashChanged.value "node") blockNumber
      (fun r => { r with Contenthash := contenthashChanged.value "hash" }))

/-- The inner loop of `configResolvers` for one event of a new resolver: a checked_headers
column, then the event id and the topic filter. -/
def registerResolverEvent {σ : Type} (env : Env σ) (resolverAddr : String) (e : Event) :
    Prog σ Unit := do
  let eventId := env.ToLower (e.Name ++ "_" ++ resolverAddr)
  call (env.AddCheckColumn eventId)
  modifyTr (fun tr => { tr with
    resolverEventIds :=
      mapSet tr.resolverEventIds resolverAddr (mapGet tr.resolverEventIds resolverAddr [] ++ [eventId]) })
  modifyTr (fun tr => { tr with
    resolverEventFilters :=
      mapSet tr.resolverEventFilters resolverAddr
        (mapGet tr.resolverEventFilters resolverAddr [] ++ [e.Sig]) })

/-- The part of the loop body of `configResolvers` that follows the two `continue` checks: the
ABI probe, then either the poisoning of the address or its configuration as a resolver. -/
def probeResolver {σ : Type} (env : Env σ) (blockNumber : Int) (resolverAddr : String) :
    Prog σ Unit := do
  let abiStr ← callPure (env.GetABI resolverAddr (-1))
  if abiStr = "" then
    modifyTr (fun tr => { tr with
      invalidResolvers := mapSet tr.invalidResolvers resolverAddr true })
  else do
    call (env.ParseAbiStr abiStr)
    let w ← getWorld
    modifyTr (fun tr => { tr with
      Resolvers := mapSet tr.Resolvers resolverAddr
        { Name := "ENS-Resolver"
          Network := tr.RegistryConfig.Network
          Address := resolverAddr
          Abi := env.Abi w
          ParsedAbi := env.ParsedAbi w
          StartingBlock := blockNumber
          Events := env.GetEvents w } })
    let tr ← getTr
    forEach (mapGet tr.Resolvers resolverAddr {}).Events (registerResolverEvent env resolverAddr)

/-- The body of the loop of `configResolvers` for one address of `ResolverAddresses`. -/
def configResolver {σ : Type} (env : Env σ) (blockNumber : Int) (resolverAddr : String) :
    Prog σ Unit := do
  let tr ← getTr
  if mapHas tr.Resolvers resolverAddr then
    pure ()
  else if mapHas tr.invalidResolvers resolverAddr then
    pure ()
  else
    probeResolver env blockNumber resolverAddr

/-- The method `Transformer.configResolvers`. -/
def configResolvers {σ : Type} (env : Env σ) (blockNumber : Int) : Prog σ Unit := do
  let tr ← getTr
  forEach (tr.ResolverAddresses.map Prod.fst) (configResolver env blockNumber)

/-- The body of the header loop of `watchResolvers` for the resolver at `addr`. -/
def watchResolverHeader {σ : Type} (env : Env σ) (addr : String) (resolver : Contract)
    (header : Header) : Prog σ Unit := do
  let tr ← getTr
  let logs ← call (env.FetchLogs [addr] (mapGet tr.resolverEventFilters addr []) header)
  if logs.length < 1 then
    call (env.MarkHeaderCheckedForAll header.Id (mapGet tr.resolverEventIds addr []))
  else do
    let convertedLogs ← call (env.ConvertBatch logs resolver.Events header.Id)
    processResolverLogs env convertedLogs header.BlockNumber
    let tr ← getTr
    call (env.MarkHeaderCheckedForAll header.Id (mapGet tr.resolverEventIds addr []))

/-- The body of the outer loop of `watchResolvers` for one entry of `Resolvers`; the end of the
range, `tr.registryIndex-1`, is an `int64` subtraction. -/
def watchResolver {σ : Type} (env : Env σ) (entry : String × Contract) : Prog σ Unit := do
  call (fun w => (Except.ok (), env.Update entry.2 w))
  let tr ← getTr
  let missingHeaders ← call (env.MissingHeadersForAll tr.resolverIndex
    (int64 (tr.registryIndex - 1)) (mapGet tr.resolverEventIds entry.1 []))
  forEach missingHeaders (watchResolverHeader env entry.1 entry.2)

/-- The method `Transformer.watchResolvers`. -/
def watchResolvers {σ : Type} (env : Env σ) : Prog σ Unit := do
  let tr ← getTr
  forEach tr.Resolvers (watchResolver env)

/-- The body of the header loop of `Execute` (the registry pass). -/
def executeHeader {σ : Type} (env : Env σ) (header : Header) : Prog σ Unit := do
  let tr ← getTr
  let logs ← call (env.FetchLogs [tr.Registry.Address] tr.registryEventFilters header)
  if logs.length < 1 then
    call (env.MarkHeaderCheckedForAll header.Id tr.registryEventIds)
  else do
    let convertedLogs ← call (env.ConvertBatch logs tr.Registry.Events header.Id)
    processRegistryLogs env convertedLogs header.BlockNumber
    let tr ← getTr
    call (env.MarkHeaderCheckedForAll header.Id tr.registryEventIds)
    configResolvers env header.BlockNumber

/-- The cursor update of `Execute` after the registry pass (`if len(missingHeaders) > 0`); the
sum `missingHeaders[len(missingHeaders)-1].BlockNumber + 1` is an `int64` addition. -/
def advanceIndexes {σ : Type} (missingHeaders : List Header) : Prog σ Unit :=
  match missingHeaders.getLast? with
  | none => pure ()
  | some last => do
    modifyTr (fun tr => { tr with resolverIndex := tr.registryIndex })
    modifyTr (fun tr => { tr with registryIndex := int64 (last.BlockNumber + 1) })

/-- The constant `constants.EnsContractAddress` of vulcanizedb, the mainnet registry. -/
def EnsContractAddress : String := "0x314159265dD8dbb310642f98f50C066173C1259b"

/-- The loop of `Init` over the registry's events, for one event. -/
def registerRegistryEvent {σ : Type} (env : Env σ) (address : String) (e : Event) :
    Prog σ Unit := do
  let eventId := env.ToLower (e.Name ++ "_" ++ address)
  call (env.AddCheckColumn eventId)
  modifyTr (fun tr => { tr with registryEventIds := tr.registryEventIds ++ [eventId] })
  modifyTr (fun tr => { tr with registryEventFilters := tr.registryEventFilters ++ [e.Sig] })

/-- The method `Transformer.Init`.  The loop `for addr := range Addresses { address = addr }`
over a map with exactly one key leaves that key in `address`. -/
def Init {σ : Type} (env : Env σ) : Prog σ Unit := do
  call (env.Parse EnsContractAddress)
  let tr ← getTr
  if tr.RegistryConfig.Addresses.length ≠ 1 then
    fail "transformer configured with incorrect number of registry addresses"
  else do
    let address := ((tr.RegistryConfig.Addresses.map Prod.fst).getLast?).getD ""
    call (env.ParseAbiStr (mapGet tr.RegistryConfig.Abis address ""))
    let w ← getWorld
    modifyTr (fun tr => { tr with
      Registry :=
        { Name := "ENS-Registry"
          Network := tr.RegistryConfig.Network
          Address := address
          Abi := env.Abi w
          ParsedAbi := env.ParsedAbi w
          StartingBlock := mapGet tr.RegistryConfig.StartingBlocks address 0
          Events := env.GetEvents w } })
    modifyTr (fun tr => { tr with registryIndex := tr.Registry.StartingBlock })
    modifyTr (fun tr => { tr with registryEventIds := [] })
    modifyTr (fun tr => { tr with registryEventFilters := [] })
    modifyTr (fun tr => { tr with resolverEventIds := [] })
    modifyTr (fun tr => { tr with resolverEventFilters := [] })
    let tr ← getTr
    forEach tr.Registry.Events (registerRegistryEvent env address)
    modifyTr (fun tr => { tr with ResolverAddresses := [] })
    modifyTr (fun tr => { tr with Resolvers := [] })
    modifyTr (fun tr => { tr with resolverEventIds := [] })
    modifyTr (fun tr => { tr with resolverEventFilters := [] })
    modifyTr (fun tr => { tr with invalidResolvers := [] })
    modifyTr (fun tr => { tr with
      invalidResolvers :=
        mapSet tr.invalidResolvers "0x0000000000000000000000000000000000000000" true })

/-- The method `Transformer.Execute`. -/
def Execute {σ : Type} (env : Env σ) : Prog σ Unit := do
  let tr ← getTr
  call (fun w => (Except.ok (), env.Update tr.Registry w))
  let missingHeaders ← call (env.MissingHeadersForAll tr.registryIndex (-1) tr.registryEventIds)
  forEach missingHeaders (executeHeader env)
  advanceIndexes missingHeaders
  watchResolvers env

/-! ## Recording the calls made through the interfaces -/

/-- A call made through one of the embedded interfaces, with its arguments. -/
inductive Call where
  | RecordExists (nameHash : String)
  | GetRecord (nameHash : String) (blockNumber : Int)
  | CreateRecord (record : DomainModel)
  | AddCheckColumn (eventId : String)
  | MissingHeadersForAll (start stop : Int) (eventIds : List String)
  | MarkHeaderCheckedForAll (headerId : Int) (eventIds : List String)
  | Parse (contractAddr : String)
  | ParseAbiStr (abi : String)
  | GetABI (resolverAddr : String) (blockNumber : Int)
  | FetchLogs (addresses : List String) (topics : List String) (header : Header)
  | Update (contract : Contract)
  | ConvertBatch (logs : List RawLog) (events : List Event) (headerId : Int)
  deriving DecidableEq, Repr

/-- The same interfaces, with every call appended to a log kept next to the world state.  The
getters of the parser and the pure helper are not recorded. -/
def Env.traced {σ : Type} (env : Env σ) : Env (σ × List Call) where
  RecordExists h w :=
    ((env.RecordExists h w.1).1, (env.RecordExists h w.1).2, w.2 ++ [Call.RecordExists h])
  GetRecord h b w :=
    ((env.GetRecord h b w.1).1, (env.GetRecord h b w.1).2, w.2 ++ [Call.GetRecord h b])
  CreateRecord r w :=
    ((env.CreateRecord r w.1).1, (env.CreateRecord r w.1).2, w.2 ++ [Call.CreateRecord r])
  AddCheckColumn i w :=
    ((env.AddCheckColumn i w.1).1, (env.AddCheckColumn i w.1).2, w.2 ++ [Call.AddCheckColumn i])
  MissingHeadersForAll a b ids w :=
    ((env.MissingHeadersForAll a b ids w.1).1, (env.MissingHeadersForAll a b ids w.1).2,
      w.2 ++ [Call.MissingHeadersForAll a b ids])
  MarkHeaderCheckedForAll i ids w :=
    ((env.MarkHeaderCheckedForAll i ids w.1).1, (env.MarkHeaderCheckedForAll i ids w.1).2,
      w.2 ++ [Call.MarkHeaderCheckedForAll i ids])
  Parse a w := ((env.Parse a w.1).1, (env.Parse a w.1).2, w.2 ++ [Call.Parse a])
  ParseAbiStr a w :=
    ((env.ParseAbiStr a w.1).1, (env.ParseAbiStr a w.1).2, w.2 ++ [Call.ParseAbiStr a])
  Abi w := env.Abi w.1
  ParsedAbi w := env.ParsedAbi w.1
  GetEvents w := env.GetEvents w.1
  GetABI a b w := ((env.GetABI a b w.1).1, (env.GetABI a b w.1).2, w.2 ++ [Call.GetABI a b])
  FetchLogs as ts h w :=
    ((env.FetchLogs as ts h w.1).1, (env.FetchLogs as ts h w.1).2, w.2 ++ [Call.FetchLogs as ts h])
  Update c w := (env.Update c w.1, w.2 ++ [Call.Update c])
  ConvertBatch ls es i w :=
    ((env.ConvertBatch ls es i w.1).1, (env.ConvertBatch ls es i w.1).2,
      w.2 ++ [Call.ConvertBatch ls es i])
  CreateSubnode := env.CreateSubnode
  ToLower := env.ToLower

/-- The header ranges `(start, end)` requested by the recorded `MissingHeadersForAll` calls
for the given event ids, in call order. -/
def requestedRanges (eventIds : List String) (calls : List Call) : List (Int × Int) :=
  calls.filterMap (fun c =>
    match c with
    | Call.MissingHeadersForAll a b ids => if ids = eventIds then some (a, b) else none
    | _ => none)

/-- The records passed to the recorded `CreateRecord` calls, in call order. -/
def createdRecords (calls : List Call) : List DomainModel :=
  calls.filterMap (fun c =>
    match c with
    | Call.CreateRecord r => some r
    | _ => none)

/-- The headers for which the recorded `FetchLogs` calls asked for logs of `addr`. -/
def fetchedHeaders (addr : String) (calls : List Call) : List Header :=
  calls.filterMap (fun c =>
    match c with
    | Call.FetchLogs as _ h => if addr ∈ as then some h else none
    | _ => none)

/-! ## The record store and the checkpoint store, from the specification -/

/-- Two rows have the same primary key `(name_hash, block_number)`. -/
def sameKey (r x : DomainModel) : Bool :=
  decide (x.NameHash = r.NameHash) && decide (x.BlockNumber = r.BlockNumber)

/-- Modelled from the spec: `ENSRepository.CreateRecord` (package `domain_records/repository` is
not part of the sources at hand).  §6: the primary key of `ens.domain_records` is
`(name_hash, block_number)` and `create` is idempotent under that key, an upsert: a row with
the key of `r` is replaced, otherwise `r` is inserted. -/
def createRecord (store : List DomainModel) (r : DomainModel) : List DomainModel :=
  if store.any (sameKey r) then store.map (fun x => if sameKey r x then r else x)
  else store ++ [r]

/-- Modelled from the spec: `ENSRepository.RecordExists`, §4.G `exists(name-hash)`: some row
has this name hash, at whatever block. -/
def recordExists (store : List DomainModel) (nameHash : String) : Bool :=
  store.any (fun x => decide (x.NameHash = nameHash))

/-- Modelled from the spec: `ENSRepository.GetRecord`, invariant I-2: the row for `nameHash`
with the greatest block number that is at most `blockNumber`, if there is one. -/
def getRecord (store : List DomainModel) (nameHash : String) (blockNumber : Int) :
    Option DomainModel :=
  match store with
  | [] => none
  | x :: rest =>
    match getRecord rest nameHash blockNumber with
    | none => if x.NameHash = nameHash ∧ x.BlockNumber ≤ blockNumber then some x else none
    | some y =>
      if x.NameHash = nameHash ∧ x.BlockNumber ≤ blockNumber ∧ y.BlockNumber ≤ x.BlockNumber
      then some x else some y

/-- Modelled from the spec: `mark-checked-for-all` of §4.F on the set of flags that are set. -/
def markChecked (checked : List (Int × String)) (headerId : Int) (eventIds : List String) :
    List (Int × String) :=
  checked ++ (eventIds.map (fun e => (headerId, e))).filter (fun p => decide (p ∉ checked))

/-- The database and the parser and converter state behind the interfaces. -/
structure World where
  /-- The table `ens.domain_records`. -/
  records : List DomainModel := []
  /-- The table `headers`, in ascending block order. -/
  headers : List Header := []
  /-- The columns of `checked_headers`, one per registered event id. -/
  columns : List String := []
  /-- The flags of `checked_headers` that are set: (header id, event id). -/
  checked : List (Int × String) := []
  /-- The ABI string most recently loaded into the parser. -/
  parsed : String := ""
  /-- The contract most recently given to the converter. -/
  watched : Contract := {}
  deriving DecidableEq, Repr

/-- The chain and the faults of a scenario: what the node and the database answer. -/
structure Chain where
  /-- The raw logs emitted by an address in the block of a header (by header id). -/
  rawLogs : String → Int → List RawLog
  /-- The decoding of a raw log: event name and decoded values (none for an unknown topic). -/
  decode : RawLog → Option (String × Log)
  /-- The ABI that the interface getter builds for a resolver address (empty: none supported). -/
  abi : String → String
  /-- The events of an ABI string. -/
  events : String → List Event
  /-- The calls that fail in the scenario, with their error. -/
  fails : Call → Option Error
  /-- The name-hash function: keccak256(parent ‖ label) in the spec, abstract here. -/
  subnode : String → String → String
  /-- The lower-casing `strings.ToLower`; for the scenarios, whose event names and addresses
  are ASCII, the lower-casing of the letters A-Z. -/
  lower : String → String := toLower

/-- The result of an interface call in a scenario: the injected error, if any, leaves the world
as it was; otherwise the call succeeds with `ok`. -/
def answer {α : Type} (chain : Chain) (c : Call) (w : World) (ok : α × World) :
    Except Error α × World :=
  match chain.fails c with
  | some e => (Except.error e, w)
  | none => (Except.ok ok.1, ok.2)

/-- Modelled from the spec: the interfaces of a scenario.  The domain-record repository is the
one of §4.G and §6 (`createRecord`, `recordExists`, `getRecord`; `GetRecord` fails with NotFound
when there is no row); the header repository is the checkpoint store of §4.F
(`missing-headers-for-all` returns the headers within `[start, end]`, `end = -1` open, whose flag
is unset for at least one of the event ids, in ascending block order; `mark-checked-for-all`
sets the flags); fetcher, decoder, parser and interface getter answer from the `Chain`;
`ToLower` is the lower-casing `lower` of the `Chain`. -/
def simEnv (chain : Chain) : Env World where
  RecordExists h w := answer chain (Call.RecordExists h) w (recordExists w.records h, w)
  GetRecord h b w :=
    match chain.fails (Call.GetRecord h b) with
    | some e => (Except.error e, w)
    | none =>
      match getRecord w.records h b with
      | some r => (Except.ok r, w)
      | none => (Except.error "NotFound", w)
  CreateRecord r w :=
    answer chain (Call.CreateRecord r) w ((), { w with records := createRecord w.records r })
  AddCheckColumn i w :=
    answer chain (Call.AddCheckColumn i) w
      ((), { w with columns := if i ∈ w.columns then w.columns else w.columns ++ [i] })
  MissingHeadersForAll a b ids w :=
    answer chain (Call.MissingHeadersForAll a b ids) w
      (w.headers.filter (fun h =>
        decide (a ≤ h.BlockNumber) && (decide (b = -1) || decide (h.BlockNumber ≤ b)) &&
          ids.any (fun i => decide ((h.Id, i) ∉ w.checked))), w)
  MarkHeaderCheckedForAll i ids w :=
    answer chain (Call.MarkHeaderCheckedForAll i ids) w
      ((), { w with checked := markChecked w.checked i ids })
  Parse a w := answer chain (Call.Parse a) w ((), { w with parsed := chain.abi a })
  ParseAbiStr a w := answer chain (Call.ParseAbiStr a) w ((), { w with parsed := a })
  Abi w := w.parsed
  ParsedAbi w := w.parsed
  GetEvents w := chain.events w.parsed
  GetABI a _ w := (chain.abi a, w)
  FetchLogs as ts h w :=
    answer chain (Call.FetchLogs as ts h) w
      (as.flatMap (fun a => (chain.rawLogs a h.Id).filter
        (fun l => decide (l.Topics.head? ∈ ts.map some))), w)
  Update c w := { w with watched := c }
  ConvertBatch ls es i w :=
    answer chain (Call.ConvertBatch ls es i) w
      (es.map (fun e => (e.Name, ls.filterMap (fun l =>
        match chain.decode l with
        | some (n, v) => if n = e.Name then some v else none
        | none => none))), w)
  CreateSubnode := chain.subnode
  ToLower := chain.lower

/-! ## Scenarios

A registry at address `reg` with its four events, one resolver `R` with the event AddrChanged,
and the name `pl` created by a NewOwner event with parent `p` and label `l`.  The scenarios
differ in the block in which each log is emitted and in the call that fails. -/

/-- The events of the registry ABI, with their topic-0 signatures. -/
def demoRegistryEvents : List Event :=
  [⟨"NewOwner", "s1"⟩, ⟨"Transfer", "s2"⟩, ⟨"NewTTL", "s3"⟩, ⟨"NewResolver", "s4"⟩]

/-- The events of the resolver ABI. -/
def demoResolverEvents : List Event := [⟨"AddrChanged", "t1"⟩]

/-- The decoded form of the raw logs of the scenarios, which are told apart by their data. -/
def demoDecode (l : RawLog) : Option (String × Log) :=
  if l.Data = "own" then some ("NewOwner", ⟨[("node", "p"), ("label", "l"), ("owner", "A")]⟩)
  else if l.Data = "res" then some ("NewResolver", ⟨[("node", "pl"), ("resolver", "R")]⟩)
  else if l.Data = "tra" then some ("Transfer", ⟨[("node", "pl"), ("owner", "B")]⟩)
  else if l.Data = "lost" then some ("Transfer", ⟨[("node", "zz"), ("owner", "B")]⟩)
  else if l.Data = "adr" then some ("AddrChanged", ⟨[("node", "pl"), ("a", "C")]⟩)
  else none

/-- The raw registry logs NewOwner, NewResolver, Transfer, a Transfer of the unknown node `zz`,
and the raw resolver log AddrChanged. -/
def rawOwn : RawLog := ⟨"reg", ["s1"], "own"⟩
def rawRes : RawLog := ⟨"reg", ["s4"], "res"⟩
def rawTra : RawLog := ⟨"reg", ["s2"], "tra"⟩
def rawLost : RawLog := ⟨"reg", ["s2"], "lost"⟩
def rawAdr : RawLog := ⟨"R", ["t1"], "adr"⟩

/-- A scenario with the given raw logs per (address, header id) and the given faults. -/
def demoChain (rawLogs : String → Int → List RawLog) (fails : Call → Option Error) : Chain where
  rawLogs := rawLogs
  decode := demoDecode
  abi a :=
    if a = "R" then "resolver-abi" else if a = EnsContractAddress then "registry-abi" else ""
  events a :=
    if a = "resolver-abi" then demoResolverEvents
    else if a = "registry-abi" then demoRegistryEvents else []
  fails := fails
  subnode p l := p ++ l

/-- Scenario "early": header 1 (block 100) carries NewOwner and NewResolver(pl, R) and the
resolver's AddrChanged(pl, C); header 2 (block 110) carries Transfer(pl, B). -/
def earlyLogs (a : String) (i : Int) : List RawLog :=
  if a = "reg" ∧ i = 1 then [rawOwn, rawRes]
  else if a = "reg" ∧ i = 2 then [rawTra]
  else if a = "R" ∧ i = 1 then [rawAdr]
  else []

/-- Scenario "late": header 1 (block 100) carries NewOwner and an AddrChanged(pl, C) of `R`;
the resolver `R` is announced only in header 2 (block 110), by NewResolver(pl, R). -/
def lateLogs (a : String) (i : Int) : List RawLog :=
  if a = "reg" ∧ i = 1 then [rawOwn]
  else if a = "reg" ∧ i = 2 then [rawTra, rawRes]
  else if a = "R" ∧ i = 1 then [rawAdr]
  else []

/-- Scenario "lost": header 1 carries NewOwner and a Transfer of a node without a record. -/
def lostLogs (a : String) (i : Int) : List RawLog :=
  if a = "reg" ∧ i = 1 then [rawOwn, rawLost] else []

/-- No call fails. -/
def noFault (_ : Call) : Option Error := none

/-- The log fetch for resolver `R` at header 1 fails. -/
def fetchFault (c : Call) : Option Error :=
  if c = Call.FetchLogs ["R"] ["t1"] ⟨1, 100⟩ then some "FetchFailed" else none

/-- A transformer configured for the registry `reg` with starting block 100, before `Init`. -/
def demoConfigured : Transformer :=
  { RegistryConfig :=
      { Addresses := [("reg", true)]
        Abis := [("reg", "registry-abi")]
        StartingBlocks := [("reg", 100)] } }

/-- The transformer that `Init` makes of `demoConfigured` (see `Init_demoConfigured`). -/
def demoTransformer : Transformer :=
  { demoConfigured with
    Registry :=
      { Name := "ENS-Registry"
        Address := "reg"
        Abi := "registry-abi"
        ParsedAbi := "registry-abi"
        StartingBlock := 100
        Events := demoRegistryEvents }
    registryEventIds := ["newowner_reg", "transfer_reg", "newttl_reg", "newresolver_reg"]
    registryEventFilters := ["s1", "s2", "s3", "s4"]
    invalidResolvers := [("0x0000000000000000000000000000000000000000", true)]
    registryIndex := 100 }

/-- The database after `Init`, with the given headers synced. -/
def demoWorld (headers : List Header) : World :=
  { headers := headers
    columns := ["newowner_reg", "transfer_reg", "newttl_reg", "newresolver_reg"]
    parsed := "registry-abi" }

/-- The state in which the first `Execute` pass of a scenario starts: headers 1 (block 100)
and 2 (block 110) are synced. -/
def demoStart : State World := ⟨demoTransformer, demoWorld [⟨1, 100⟩, ⟨2, 110⟩]⟩

/-- The same state with the call log empty, for runs that record their calls. -/
def demoStartTraced : State (World × List Call) :=
  ⟨demoTransformer, (demoWorld [⟨1, 100⟩, ⟨2, 110⟩], [])⟩

/-- Scenario "early" with the failing fetch: the state that the aborted pass leaves behind. -/
def afterAbort : State World := (Execute (simEnv (demoChain earlyLogs fetchFault)) demoStart).2

/-- The state in which the pass after the aborted one starts: the header sync has added
header 3 (block 120) in the meantime, and the call log is empty. -/
def resumeStart : State (World × List Call) :=
  ⟨afterAbort.tr,
    ({ afterAbort.world with headers := afterAbort.world.headers ++ [⟨3, 120⟩] }, [])⟩

/-! ## Predicates on calls and on the transformer used in the statements -/

/-- The call is not a `GetABI` for the address `a`. -/
def notGetABI (a : String) : Call → Prop
  | Call.GetABI addr _ => addr ≠ a
  | _ => True

/-- The address `a` is in `invalidResolvers`, and it is in `Resolvers` exactly if `known`. -/
def poisoned (a : String) (known : Bool) (t : Transformer) : Prop :=
  mapHas t.invalidResolvers a = true ∧ mapHas t.Resolvers a = known

/-- The state after `n` consecutive `Execute` passes; a pass that returns an error is followed by
the next pass all the same, as the outer scheduler re-invokes. -/
def passes {σ : Type} (env : Env σ) (n : Nat) (s : State σ) : State σ :=
  match n with
  | 0 => s
  | n + 1 => (Execute env (passes env n s)).2

/-- The call is one of the three calls of the domain-record repository. -/
def isRepoCall : Call → Bool
  | Call.RecordExists _ => true
  | Call.GetRecord _ _ => true
  | Call.CreateRecord _ => true
  | _ => false

/-- If the call is a `CreateRecord`, its record has block number `b`. -/
def createsAt (b : Int) : Call → Prop
  | Call.CreateRecord r => r.BlockNumber = b
  | _ => True

/-- The decoded logs of header 1 in scenario "lost". -/
def lostDecoded : List (String × List Log) :=
  [("NewOwner", [⟨[("node", "p"), ("label", "l"), ("owner", "A")]⟩]),
   ("Transfer", [⟨[("node", "zz"), ("owner", "B")]⟩]),
   ("NewTTL", []),
   ("NewResolver", [])]

/-! ## Field assignments as data, and the folding of a header on the record store -/

/-- The assignments that a loop body of `processRegistryLogs` / `processResolverLogs` makes to
the fields of a record: the value assigned to a field, or none if the field is left alone. -/
structure Patch where
  NameHash : Option String := none
  BlockNumber : Option Int := none
  LabelHash : Option String := none
  ParentHash : Option String := none
  Owner : Option String := none
  ResolverAddr : Option String := none
  PointsToAddr : Option String := none
  Content : Option String := none
  ContentType : Option String := none
  Name : Option String := none
  PubKeyX : Option String := none
  PubKeyY : Option String := none
  TTL : Option String := none
  TextKey : Option String := none
  IndexedTextKey : Option String := none
  Multihash : Option String := none
  Contenthash : Option String := none
  deriving DecidableEq, Repr

/-- The record after the assignments of `p`. -/
def Patch.apply (p : Patch) (r : DomainModel) : DomainModel :=
  {
    NameHash := p.NameHash.getD r.NameHash
    BlockNumber := p.BlockNumber.getD r.BlockNumber
    LabelHash := p.LabelHash.getD r.LabelHash
    ParentHash := p.ParentHash.getD r.ParentHash
    Owner := p.Owner.getD r.Owner
    ResolverAddr := p.ResolverAddr.getD r.ResolverAddr
    PointsToAddr := p.PointsToAddr.getD r.PointsToAddr
    Content := p.Content.getD r.Content
    ContentType := p.ContentType.getD r.ContentType
    Name := p.Name.getD r.Name
    PubKeyX := p.PubKeyX.getD r.PubKeyX
    PubKeyY := p.PubKeyY.getD r.PubKeyY
    TTL := p.TTL.getD r.TTL
    TextKey := p.TextKey.getD r.TextKey
    IndexedTextKey := p.IndexedTextKey.getD r.IndexedTextKey
    Multihash := p.Multihash.getD r.Multihash
    Contenthash := p.Contenthash.getD r.Contenthash }

/-- The assignments of `p` followed by those of `q`. -/
def Patch.andThen (p q : Patch) : Patch :=
  {
    NameHash := q.NameHash <|> p.NameHash
    BlockNumber := q.BlockNumber <|> p.BlockNumber
    LabelHash := q.LabelHash <|> p.LabelHash
    ParentHash := q.ParentHash <|> p.ParentHash
    Owner := q.Owner <|> p.Owner
    ResolverAddr := q.ResolverAddr <|> p.ResolverAddr
    PointsToAddr := q.PointsToAddr <|> p.PointsToAddr
    Content := q.Content <|> p.Content
    ContentType := q.ContentType <|> p.ContentType
    Name := q.Name <|> p.Name
    PubKeyX := q.PubKeyX <|> p.PubKeyX
    PubKeyY := q.PubKeyY <|> p.PubKeyY
    TTL := q.TTL <|> p.TTL
    TextKey := q.TextKey <|> p.TextKey
    IndexedTextKey := q.IndexedTextKey <|> p.IndexedTextKey
    Multihash := q.Multihash <|> p.Multihash
    Contenthash := q.Contenthash <|> p.Contenthash }

/-- One loop iteration of `processRegistryLogs` / `processResolverLogs` as seen by the record
store: the name hash it reads and writes, whether it is a NewOwner iteration (which starts from
the record of zero values when `RecordExists` is false), and its assignments. -/
structure Step where
  key : String
  fresh : Bool
  patch : Patch
  deriving DecidableEq, Repr

/-- The record that the iteration updates: `&models.DomainModel{}` for a NewOwner of a name
without any row, else the result of `GetRecord(key, blockNumber)` (none: NotFound). -/
def Step.base (st : Step) (b : Int) (S : List DomainModel) : Option DomainModel :=
  if st.fresh = true ∧ recordExists S st.key = false then some {} else getRecord S st.key b

/-- The store after the iteration, none if `GetRecord` fails. -/
def Step.run (st : Step) (b : Int) (S : List DomainModel) : Option (List DomainModel) :=
  (st.base b S).map (fun r => createRecord S (st.patch.apply r))

/-- The store after the iterations `L` in order, none if one of them fails. -/
def runSteps (b : Int) (L : List Step) (S : List DomainModel) : Option (List DomainModel) :=
  match L with
  | [] => some S
  | st :: rest => (st.run b S).bind (runSteps b rest)

/-- The iteration of the NewOwner loop for the decoded log `l`. -/
def newOwnerStep (subnode : String → String → String) (b : Int) (l : Log) : Step :=
  { key := subnode (l.value "node") (l.value "label")
    fresh := true
    patch :=
      { NameHash := some (subnode (l.value "node") (l.value "label"))
        ParentHash := some (l.value "node")
        LabelHash := some (l.value "label")
        Owner := some (l.value "owner")
        BlockNumber := some b } }

/-- The iteration of any other loop for a log with node `node`: `BlockNumber` and the fields of
`p` are assigned; the name hash of the record read is `node` already. -/
def updateStep (b : Int) (node : String) (p : Patch) : Step :=
  { key := node
    fresh := false
    patch := { p with NameHash := some node, BlockNumber := some b } }

/-- The iterations of `processRegistryLogs` in the order in which they run. -/
def registrySteps (subnode : String → String → String) (logs : List (String × List Log))
    (b : Int) : List Step :=
  (logsOf logs "NewOwner").map (newOwnerStep subnode b) ++
  (logsOf logs "Transfer").map (fun l =>
    updateStep b (l.value "node") { Owner := some (l.value "owner") }) ++
  (logsOf logs "NewTTL").map (fun l =>
    updateStep b (l.value "node") { TTL := some (l.value "ttl") }) ++
  (logsOf logs "NewResolver").map (fun l =>
    updateStep b (l.value "node") { ResolverAddr := some (l.value "resolver") })

/-- The iterations of `processResolverLogs` in the order in which they run. -/
def resolverSteps (logs : List (String × List Log)) (b : Int) : List Step :=
  (logsOf logs "AddrChanged").map (fun l =>
    updateStep b (l.value "node") { PointsToAddr := some (l.value "a") }) ++
  (logsOf logs "NameChanged").map (fun l =>
    updateStep b (l.value "node") { Name := some (l.value "name") }) ++
  (logsOf logs "ContentChanged").map (fun l =>
    updateStep b (l.value "node") { Content := some (l.value "hash") }) ++
  (logsOf logs "ABIChanged").map (fun l =>
    updateStep b (l.value "node") { ContentType := some (l.value "contentType") }) ++
  (logsOf logs "PubkeyChanged").map (fun l =>
    updateStep b (l.value "node")
      { PubKeyX := some (l.value "x"), PubKeyY := some (l.value "y") }) ++
  (logsOf logs "TextChanged").map (fun l =>
    updateStep b (l.value "node")
      { TextKey := some (l.value "key"), IndexedTextKey := some (l.value "indexedKey") }) ++
  (logsOf logs "MultihashChanged").map (fun l =>
    updateStep b (l.value "node") { Multihash := some (l.value "hash") }) ++
  (logsOf logs "ContenthashChanged").map (fun l =>
    updateStep b (l.value "node") { Contenthash := some (l.value "hash") })

/-- No two different rows of the store have the same primary key `(name_hash, block_number)`. -/
def keyed (S : List DomainModel) : Prop :=
  ∀ x ∈ S, ∀ y ∈ S, x.NameHash = y.NameHash → x.BlockNumber = y.BlockNumber → x = y

instance (S : List DomainModel) : Decidable (keyed S) := by
  unfold keyed
  infer_instance

/-- The program `prog` folds the iterations `L` at block `b`: from every state it succeeds
exactly if the iterations succeed on the record store, and then it leaves their store. -/
def Folds (b : Int) (prog : Prog World Unit) (L : List Step) : Prop :=
  ∀ s : State World,
    match runSteps b L s.world.records with
    | some S => (prog s).1 = Except.ok () ∧ (prog s).2.world.records = S
    | none => (prog s).1 ≠ Except.ok ()

/-- No call of the domain-record repository is made to fail in the scenario: the repository
answers as §4.G says. -/
def soundRepo (chain : Chain) : Prop := ∀ c, isRepoCall c = true → chain.fails c = none

/-- What an iteration does to a row that is in the store with the key `(key, b)`. -/
def stepMap (b : Int) (st : Step) (x : DomainModel) : DomainModel :=
  if x.NameHash = st.key ∧ x.BlockNumber = b then st.patch.apply x else x

/-- What the iterations `L`, in order, do to such a row. -/
def replay (b : Int) (L : List Step) (x : DomainModel) : DomainModel :=
  L.foldl (fun y st => stepMap b st y) x

/-- The iteration writes its row under the key `(key, b)`. -/
def keyedStep (b : Int) (st : Step) : Prop :=
  st.patch.NameHash = some st.key ∧ st.patch.BlockNumber = some b

def earlyDecoded : List (String × List Log) :=
  [("NewOwner", [⟨[("node", "p"), ("label", "l"), ("owner", "A")]⟩]),
   ("Transfer", []),
   ("NewTTL", []),
   ("NewResolver", [⟨[("node", "pl"), ("resolver", "R")]⟩])]

def earlyResolverDecoded : List (String × List Log) :=
  [("AddrChanged", [⟨[("node", "pl"), ("a", "C")]⟩])]

/-- Two Transfer events of one header, for the name hashes `pl` and `zz`, in either order. -/
def transfersAB : List (String × List Log) :=
  [("Transfer", [⟨[("node", "pl"), ("owner", "B")]⟩, ⟨[("node", "zz"), ("owner", "B")]⟩])]

def transfersBA : List (String × List Log) :=
  [("Transfer", [⟨[("node", "zz"), ("owner", "B")]⟩, ⟨[("node", "pl"), ("owner", "B")]⟩])]

/-- A state whose store holds a row at block 90 for each of the given name hashes. -/
def ownedStart (names : List String) : State World :=
  ⟨demoTransformer,
    { records := names.map (fun n => { NameHash := n, BlockNumber := 90, Owner := "A" }) }⟩

/-! ## Notions used in the statements -/

/-- The program `x` leaves the observation `f` of the transformer's fields unchanged, whether it
fails or not. -/
def Keeps {σ α β : Type} (f : Transformer → β) (x : Prog σ α) : Prop :=
  ∀ s : State σ, f (x s).2.tr = f s.tr

/-- The two cursors of the transformer. -/
def indexes (t : Transformer) : Int × Int := (t.registryIndex, t.resolverIndex)

/-- The state in which `Execute` asks for the registry's missing headers: the converter has
been updated with the registry contract. -/
def afterUpdate {σ : Type} (env : Env σ) (s : State σ) : State σ :=
  { s with world := env.Update s.tr.Registry s.world }

/-- The registry pass, the cursor update and the resolver pass of `Execute`, once
`MissingHeadersForAll` has returned `hs`. -/
def executeRest {σ : Type} (env : Env σ) (hs : List Header) : Prog σ Unit :=
  Prog.bind (forEach hs (executeHeader env)) (fun _ =>
    Prog.bind (advanceIndexes hs) (fun _ => watchResolvers env))

/-- From state `s`, the program `x` keeps the invariant `I` of the transformer's fields and every
call it appends to the call log satisfies `Q`, whether `x` fails or not. -/
def EmitsAt {σ α : Type} (I : Transformer → Prop) (Q : Call → Prop)
    (x : Prog (σ × List Call) α) (s : State (σ × List Call)) : Prop :=
  I (x s).2.tr ∧ ∃ l : List Call, (x s).2.world.2 = s.world.2 ++ l ∧ ∀ c ∈ l, Q c

/-- The program `x` keeps `I` and appends only calls that satisfy `Q`, from every state in which
`I` holds. -/
def Emits {σ α : Type} (I : Transformer → Prop) (Q : Call → Prop)
    (x : Prog (σ × List Call) α) : Prop :=
  ∀ s, I s.tr → EmitsAt I Q x s

/-- What `Q` has to allow for the repository calls of a header at block `b`. -/
structure RepoCallsOk (Q : Call → Prop) (b : Int) : Prop where
  recordExists : ∀ n, Q (Call.RecordExists n)
  getRecord : ∀ n, Q (Call.GetRecord n b)
  createRecord : ∀ r : DomainModel, r.BlockNumber = b → Q (Call.CreateRecord r)

/-- The program `y` over the recording interfaces does what `x` does over the plain ones: same
result, same transformer, same world, whatever the call log holds. -/
def Agrees {σ α : Type} (x : Prog σ α) (y : Prog (σ × List Call) α) : Prop :=
  ∀ (s : State σ) (l : List Call),
    (y ⟨s.tr, (s.world, l)⟩).1 = (x s).1 ∧ (y ⟨s.tr, (s.world, l)⟩).2.tr = (x s).2.tr ∧
      (y ⟨s.tr, (s.world, l)⟩).2.world.1 = (x s).2.world

/-! ## The events of a header, one by one -/

/-- One decoded registry event of a header, tagged with its kind. -/
inductive RegistryEvent where
  | NewOwner (l : Log)
  | Transfer (l : Log)
  | NewTTL (l : Log)
  | NewResolver (l : Log)
  deriving DecidableEq

/-- The registry events of a decoded log map in the order in which `processRegistryLogs` folds
them: the four loops one after the other, each in the order of its list. -/
def registryEvents (logs : List (String × List Log)) : List RegistryEvent :=
  (logsOf logs "NewOwner").map RegistryEvent.NewOwner
    ++ ((logsOf logs "Transfer").map RegistryEvent.Transfer
    ++ ((logsOf logs "NewTTL").map RegistryEvent.NewTTL
    ++ (logsOf logs "NewResolver").map RegistryEvent.NewResolver))

/-- The loop body of `processRegistryLogs` that folds one registry event. -/
def foldRegistryEvent {σ : Type} (env : Env σ) (blockNumber : Int) :
    RegistryEvent → Prog σ Unit
  | RegistryEvent.NewOwner l => processNewOwner env blockNumber l
  | RegistryEvent.Transfer l =>
    updateRecord env (l.value "node") blockNumber (fun r => { r with Owner := l.value "owner" })
  | RegistryEvent.NewTTL l =>
    updateRecord env (l.value "node") blockNumber (fun r => { r with TTL := l.value "ttl" })
  | RegistryEvent.NewResolver l => do
    updateRecord env (l.value "node") blockNumber
      (fun r => { r with ResolverAddr := l.value "resolver" })
    modifyTr (fun tr => { tr with
      ResolverAddresses := mapSet tr.ResolverAddresses (l.value "resolver") true })

/-- The decoded log of a registry event. -/
def RegistryEvent.log : RegistryEvent → Log
  | RegistryEvent.NewOwner l => l
  | RegistryEvent.Transfer l => l
  | RegistryEvent.NewTTL l => l
  | RegistryEvent.NewResolver l => l

/-- Whether a registry event is a NewOwner event. -/
def RegistryEvent.isNewOwner : RegistryEvent → Bool
  | RegistryEvent.NewOwner _ => true
  | _ => false

/-- One decoded resolver event of a header, tagged with its kind. -/
inductive ResolverEvent where
  | AddrChanged (l : Log)
  | NameChanged (l : Log)
  | ContentChanged (l : Log)
  | ABIChanged (l : Log)
  | PubkeyChanged (l : Log)
  | TextChanged (l : Log)
  | MultihashChanged (l : Log)
  | ContenthashChanged (l : Log)
  deriving DecidableEq

/-- The resolver events of a decoded log map in the order in which `processResolverLogs` folds
them. -/
def resolverEvents (logs : List (String × List Log)) : List ResolverEvent :=
  (logsOf logs "AddrChanged").map ResolverEvent.AddrChanged
    ++ ((logsOf logs "NameChanged").map ResolverEvent.NameChanged
    ++ ((logsOf logs "ContentChanged").map ResolverEvent.ContentChanged
    ++ ((logsOf logs "ABIChanged").map ResolverEvent.ABIChanged
    ++ ((logsOf logs "PubkeyChanged").map ResolverEvent.PubkeyChanged
    ++ ((logsOf logs "TextChanged").map ResolverEvent.TextChanged
    ++ ((logsOf logs "MultihashChanged").map ResolverEvent.MultihashChanged
    ++ (logsOf logs "ContenthashChanged").map ResolverEvent.ContenthashChanged))))))

/-- The decoded log of a resolver event. -/
def ResolverEvent.log : ResolverEvent → Log
  | ResolverEvent.AddrChanged l => l
  | ResolverEvent.NameChanged l => l
  | ResolverEvent.ContentChanged l => l
  | ResolverEvent.ABIChanged l => l
  | ResolverEvent.PubkeyChanged l => l
  | ResolverEvent.TextChanged l => l
  | ResolverEvent.MultihashChanged l => l
  | ResolverEvent.ContenthashChanged l => l

/-- The fields that a resolver event assigns to the record it updates. -/
def ResolverEvent.assign : ResolverEvent → DomainModel → DomainModel
  | ResolverEvent.AddrChanged l => fun r => { r with PointsToAddr := l.value "a" }
  | ResolverEvent.NameChanged l => fun r => { r with Name := l.value "name" }
  | ResolverEvent.ContentChanged l => fun r => { r with Content := l.value "hash" }
  | ResolverEvent.ABIChanged l => fun r => { r with ContentType := l.value "contentType" }
  | ResolverEvent.PubkeyChanged l => fun r =>
    { r with PubKeyX := l.value "x", PubKeyY := l.value "y" }
  | ResolverEvent.TextChanged l => fun r =>
    { r with TextKey := l.value "key", IndexedTextKey := l.value "indexedKey" }
  | ResolverEvent.MultihashChanged l => fun r => { r with Multihash := l.value "hash" }
  | ResolverEvent.ContenthashChanged l => fun r => { r with Contenthash := l.value "hash" }

/-- The loop body of `processResolverLogs` that folds one resolver event. -/
def foldResolverEvent {σ : Type} (env : Env σ) (blockNumber : Int) (ev : ResolverEvent) :
    Prog σ Unit :=
  updateRecord env (ev.log.value "node") blockNumber ev.assign

/-- The NewOwner event of the scenarios, decoded. -/
def ownDecoded : Log := ⟨[("node", "p"), ("label", "l"), ("owner", "A")]⟩

/-- The row of the name hash `pl` at block 90 with every field filled. -/
def fullRow : DomainModel :=
  { NameHash := "pl", BlockNumber := 90, LabelHash := "l", ParentHash := "p", Owner := "A",
    ResolverAddr := "R", PointsToAddr := "C0", Content := "c0", ContentType := "t0",
    Name := "n0", PubKeyX := "x0", PubKeyY := "y0", TTL := "60", TextKey := "k0",
    IndexedTextKey := "i0", Multihash := "m0", Contenthash := "h0" }

/-- The row that an AddrChanged event to `C` at block 110 makes of `fullRow`. -/
def addrRow : DomainModel := { fullRow with BlockNumber := 110, PointsToAddr := "C" }

/-- The row that a PubkeyChanged event to (`X`, `Y`) at block 110 makes of `addrRow`. -/
def pubkeyRow : DomainModel := { addrRow with PubKeyX := "X", PubKeyY := "Y" }

/-- A state whose store holds `fullRow` only. -/
def fullStart : State World := ⟨demoTransformer, { records := [fullRow] }⟩

/-- The interfaces of scenario "lost", with the calls recorded. -/
def lostEnv : Env (World × List Call) := (simEnv (demoChain lostLogs noFault)).traced

/-- The row that the NewOwner event of the scenarios creates at block 100. -/
def ownRow : DomainModel :=
  { NameHash := "pl", ParentHash := "p", LabelHash := "l", Owner := "A", BlockNumber := 100 }

/-- The calls of the pass of scenario "lost" up to the conversion of the logs of header 1. -/
def lostCalls : List Call :=
  [Call.Update demoTransformer.Registry,
   Call.MissingHeadersForAll 100 (-1) demoTransformer.registryEventIds,
   Call.FetchLogs ["reg"] ["s1", "s2", "s3", "s4"] ⟨1, 100⟩,
   Call.ConvertBatch [rawOwn, rawLost] demoRegistryEvents 1]

/-- The state of scenario "lost" with the given rows stored and the given calls recorded. -/
def lostState (records : List DomainModel) (calls : List Call) : State (World × List Call) :=
  ⟨demoTransformer,
    ({ demoWorld [⟨1, 100⟩, ⟨2, 110⟩] with
        records := records
        watched := demoTransformer.Registry }, calls)⟩

/-- The header ids of the recorded `MarkHeaderCheckedForAll` calls, in call order. -/
def markedHeaders (calls : List Call) : List Int :=
  calls.filterMap (fun c =>
    match c with
    | Call.MarkHeaderCheckedForAll i _ => some i
    | _ => none)

/-! ## Keccak-256 and the name-hash algebra -/

/-- Rotation of a 64-bit lane to the left by `n < 64` bits. -/
def rotl64 (x n : Nat) : Nat := ((x <<< n) ||| (x >>> (64 - n))) % 2 ^ 64

/-- The round constants of Keccak-f[1600]. -/
def keccakRC : List Nat :=
  [0x0000000000000001, 0x0000000000008082, 0x800000000000808A, 0x8000000080008000,
   0x000000000000808B, 0x0000000080000001, 0x8000000080008081, 0x8000000000008009,
   0x000000000000008A, 0x0000000000000088, 0x0000000080008009, 0x000000008000000A,
   0x000000008000808B, 0x800000000000008B, 0x8000000000008089, 0x8000000000008003,
   0x8000000000008002, 0x8000000000000080, 0x000000000000800A, 0x800000008000000A,
   0x8000000080008081, 0x8000000000008080, 0x0000000080000001, 0x8000000080008008]

/-- The rotation offsets of the step rho, by lane index `x + 5 * y`. -/
def keccakRot : List Nat :=
  [0, 1, 62, 28, 27, 36, 44, 6, 55, 20, 3, 10, 43, 25, 39, 41, 45, 15, 21, 8, 18, 2, 61, 56, 14]

/-- The lane `x + 5 * y` of a state of 25 lanes. -/
def lane (st : List Nat) (i : Nat) : Nat := st.getD i 0

/-- The step theta: every lane is combined with the parities of two neighbouring columns. -/
def keccakTheta (st : List Nat) : List Nat :=
  let c := (List.range 5).map (fun x =>
    lane st x ^^^ lane st (x + 5) ^^^ lane st (x + 10) ^^^ lane st (x + 15) ^^^ lane st (x + 20))
  let d := (List.range 5).map (fun x => lane c ((x + 4) % 5) ^^^ rotl64 (lane c ((x + 1) % 5)) 1)
  (List.range 25).map (fun i => lane st i ^^^ lane d (i % 5))

/-- The steps rho and pi: the lane at `(x, y)` is rotated and moved to `(y, 2x + 3y)`; the lane
that arrives at index `X + 5 * Y` comes from `((X + 3Y) mod 5, X)`. -/
def keccakRhoPi (st : List Nat) : List Nat :=
  (List.range 25).map (fun j =>
    let src := (j % 5 + 3 * (j / 5)) % 5 + 5 * (j % 5)
    rotl64 (lane st src) (lane keccakRot src))

/-- The step chi: every lane is combined with the next two lanes of its row. -/
def keccakChi (st : List Nat) : List Nat :=
  (List.range 25).map (fun i =>
    let y := i / 5
    let x := i % 5
    lane st i ^^^
      (((2 ^ 64 - 1) ^^^ lane st ((x + 1) % 5 + 5 * y)) &&& lane st ((x + 2) % 5 + 5 * y)))

/-- The step iota: the round constant is added to lane 0. -/
def keccakIota (rc : Nat) (st : List Nat) : List Nat :=
  match st with
  | [] => []
  | a :: rest => (a ^^^ rc) :: rest

/-- One round of Keccak-f[1600]. -/
def keccakRound (st : List Nat) (rc : Nat) : List Nat :=
  keccakIota rc (keccakChi (keccakRhoPi (keccakTheta st)))

/-- The permutation Keccak-f[1600]: 24 rounds. -/
def keccakF (st : List Nat) : List Nat := keccakRC.foldl keccakRound st

/-- The 64-bit lane made of at most eight bytes, least significant byte first. -/
def laneOfBytes : List Nat → Nat
  | [] => 0
  | b :: rest => b + 256 * laneOfBytes rest

/-- The eight bytes of a lane, least significant byte first. -/
def bytesOfLane (x : Nat) : List Nat := (List.range 8).map (fun i => (x >>> (8 * i)) % 256)

/-- The lanes of a block of bytes, eight bytes per lane. -/
def lanesOfBytes : Nat → List Nat → List Nat
  | 0, _ => []
  | n + 1, bs => laneOfBytes (bs.take 8) :: lanesOfBytes n (bs.drop 8)

/-- Absorption of the padded message, 136 bytes (17 lanes) per block; `n` bounds the number of
blocks. -/
def keccakAbsorb : Nat → List Nat → List Nat → List Nat
  | 0, st, _ => st
  | n + 1, st, bs =>
    if bs.length < 136 then st
    else
      let block := lanesOfBytes 17 (bs.take 136)
      keccakAbsorb n (keccakF ((List.range 25).map (fun i => lane st i ^^^ lane block i)))
        (bs.drop 136)

/-- The padding of Keccak (not SHA-3): a byte 0x01, zero bytes, and 0x80 on the last byte of
the block of 136 bytes. -/
def keccakPad (msg : List Nat) : List Nat :=
  let k := 136 - msg.length % 136
  if k = 1 then msg ++ [0x81]
  else msg ++ [0x01] ++ List.replicate (k - 2) 0 ++ [0x80]

/-- The hash `keccak256` of a list of bytes: 32 bytes. -/
def keccak256 (msg : List Nat) : List Nat :=
  let st := keccakAbsorb (msg.length / 136 + 1) (List.replicate 25 0) (keccakPad msg)
  ((List.range 4).map (fun i => bytesOfLane (lane st i))).flatten

/-- The value of a hexadecimal digit (0 for any other character). -/
def hexDigit (c : Char) : Nat :=
  if '0' ≤ c ∧ c ≤ '9' then c.toNat - '0'.toNat
  else if 'a' ≤ c ∧ c ≤ 'f' then c.toNat - 'a'.toNat + 10
  else if 'A' ≤ c ∧ c ≤ 'F' then c.toNat - 'A'.toNat + 10
  else 0

/-- The bytes written by a list of hexadecimal digits, two digits per byte. -/
def bytesOfDigits : List Char → List Nat
  | a :: b :: rest => (16 * hexDigit a + hexDigit b) :: bytesOfDigits rest
  | _ => []

/-- The bytes of a hexadecimal string with the prefix `0x`. -/
def bytesOfHex (s : String) : List Nat := bytesOfDigits (s.data.drop 2)

/-- The lower-case hexadecimal digit of a value below 16. -/
def digitOfNat (n : Nat) : Char :=
  if n < 10 then Char.ofNat (n + '0'.toNat) else Char.ofNat (n - 10 + 'a'.toNat)

/-- The lower-case hexadecimal string, with the prefix `0x`, of a list of bytes. -/
def hexOfBytes (bs : List Nat) : String :=
  String.mk ('0' :: 'x' :: (bs.map (fun b => [digitOfNat (b / 16), digitOfNat (b % 16)])).flatten)

/-- Modelled from the spec: `utils.CreateSubnode` (package `utils` is not part of the sources
at hand).  §4.A: `subnode(parent, label) = keccak256(parent ‖ label)`, on the bytes that the
two hexadecimal strings write, rendered as a hexadecimal string again. -/
def CreateSubnode (parentHash labelHash : String) : String :=
  hexOfBytes (keccak256 (bytesOfHex parentHash ++ bytesOfHex labelHash))

/-- The node and the label of the NewOwner event of the integration test. -/
def testNode : String := "0x79aa1ec377dbfd1edf87d526cd5c116ac6ec4444e23da2a8b8ae0e9db9f46ec9"
def testLabel : String := "0xf06ea683845d8994338d98e7296850612317647cdb1db3d1051f24bafdefe9f7"

/-- The scenario whose registry emits the NewOwner event of the integration test, with the
name-hash function of the specification. -/
def keccakChain : Chain := { demoChain earlyLogs noFault with subnode := CreateSubnode }

/-- The NewOwner event of the integration test, decoded. -/
def testOwn : Log :=
  ⟨[("node", testNode), ("label", testLabel),
    ("owner", "0xA964ed4077aD3ba1946D118ce90544657bB4003B")]⟩

/-! ## The event converters -/

/-- The type `common.Address` of go-ethereum: 20 bytes, all zero in the zero value. -/
structure Common.Address where
  Bytes : List Nat := List.replicate 20 0
  deriving DecidableEq

/-- The type `common.Hash` of go-ethereum: 32 bytes, all zero in the zero value. -/
structure Common.Hash where
  Bytes : List Nat := List.replicate 32 0
  deriving DecidableEq

/-- The method `common.Hash.Hex`: the prefix `0x` and the lower-case hexadecimal digits. -/
def Common.Hash.Hex (h : Common.Hash) : String := hexOfBytes h.Bytes

/-- The two lower-case hexadecimal digits of each byte (`hex.EncodeToString`). -/
def hexDigits (bs : List Nat) : List Char :=
  (bs.map (fun b => [digitOfNat (b / 16), digitOfNat (b % 16)])).flatten

/-- The loop of `common.Address.Hex` over the digits from position `i` on: a letter whose
nibble of the hash is above 7 is written in upper case. -/
def checksumDigits (hash : List Nat) : Nat → List Char → List Char
  | _, [] => []
  | i, c :: rest =>
    let hashByte := if i % 2 = 0 then lane hash (i / 2) >>> 4 else lane hash (i / 2) &&& 0xf
    (if c > '9' ∧ hashByte > 7 then Char.ofNat (c.toNat - 32) else c)
      :: checksumDigits hash (i + 1) rest

/-- The method `common.Address.Hex`: the prefix `0x` and the hexadecimal digits in the
check-summed mixed case of EIP-55 (upper case by the Keccak-256 hash of the lower-case
digits). -/
def Common.Address.Hex (a : Common.Address) : String :=
  String.mk ('0' :: 'x' ::
    checksumDigits (keccak256 ((hexDigits a.Bytes).map Char.toNat)) 0 (hexDigits a.Bytes))

/-- The method `(*big.Int).String` on a pointer that may be nil: the decimal digits, or
`<nil>` for the nil pointer. -/
def bigString : Option Int → String
  | none => "<nil>"
  | some n => toString n

/-- The type `types.Log` of go-ethereum. -/
structure EthLog where
  Address : Common.Address := {}
  Topics : List Common.Hash := []
  Data : List Nat := []
  BlockNumber : Nat := 0
  TxHash : Common.Hash := {}
  TxIndex : Nat := 0
  BlockHash : Common.Hash := {}
  Index : Nat := 0
  Removed : Bool := false
  deriving DecidableEq

/-- The fields of `content_changed.ContentChangedEntity` that the converter reads and writes. -/
structure ContentChangedEntity where
  Resolver : Common.Address := {}
  Node : Common.Hash := {}
  Hash : Common.Hash := {}
  LogIndex : Nat := 0
  TransactionIndex : Nat := 0
  Raw : EthLog := {}
  deriving DecidableEq

/-- The fields of `content_changed.ContentChangedModel`. -/
structure ContentChangedModel where
  Resolver : String := ""
  Node : String := ""
  Hash : String := ""
  LogIndex : Nat := 0
  TransactionIndex : Nat := 0
  Raw : List Nat := []
  deriving DecidableEq

/-- The fields of `auction_started.AuctionStartedEntity`; the registration date is a
`*big.Int`, nil in the zero value. -/
structure AuctionStartedEntity where
  Hash : Common.Hash := {}
  RegistrationDate : Option Int := none
  LogIndex : Nat := 0
  TransactionIndex : Nat := 0
  Raw : EthLog := {}
  deriving DecidableEq

/-- The fields of `auction_started.AuctionStartedModel`. -/
structure AuctionStartedModel where
  Hash : String := ""
  RegistrationDate : String := ""
  LogIndex : Nat := 0
  TransactionIndex : Nat := 0
  Raw : List Nat := []
  deriving DecidableEq

/-- The fields of `bid_revealed.BidRevealedEntity`; the value is a `*big.Int`, nil in the zero
value. -/
structure BidRevealedEntity where
  Hash : Common.Hash := {}
  Owner : Common.Address := {}
  Value : Option Int := none
  Status : Nat := 0
  LogIndex : Nat := 0
  TransactionIndex : Nat := 0
  Raw : EthLog := {}
  deriving DecidableEq

/-- The fields of `bid_revealed.BidRevealedModel`. -/
structure BidRevealedModel where
  Hash : String := ""
  Owner : String := ""
  Value : String := ""
  Status : Nat := 0
  LogIndex : Nat := 0
  TransactionIndex : Nat := 0
  Raw : List Nat := []
  deriving DecidableEq

/-- An element of a Go slice `[]interface{}` of entities: a value of one of the three entity
types, or a value of any other type, of which only the name that `%T` prints matters. -/
inductive Value where
  | ContentChanged (e : ContentChangedEntity)
  | AuctionStarted (e : AuctionStartedEntity)
  | BidRevealed (e : BidRevealedEntity)
  | Other (typeName : String)
  deriving DecidableEq

/-- The name of the dynamic type of a value, as the verb `%T` of `fmt` prints it. -/
def Value.typeName : Value → String
  | Value.ContentChanged _ => "content_changed.ContentChangedEntity"
  | Value.AuctionStarted _ => "auction_started.AuctionStartedEntity"
  | Value.BidRevealed _ => "bid_revealed.BidRevealedEntity"
  | Value.Other n => n

/-- The Go loop `for _, x := range xs { y, err := body(x); if err != nil { return nil, err };
out = append(out, y) }; return out, nil`. -/
def rangeAppend {α β : Type} (body : α → Except Error β) (out : List β) :
    List α → Except Error (List β)
  | [] => Except.ok out
  | x :: rest =>
    match body x with
    | Except.error err => Except.error err
    | Except.ok y => rangeAppend body (out ++ [y]) rest

/-- The body of the loop of `ContentChangedConverter.ToModels`; `marshal` is `json.Marshal` on
a `types.Log`. -/
def ContentChangedConverter.toModel (marshal : EthLog → Except Error (List Nat))
    (entity : Value) : Except Error ContentChangedModel :=
  match entity with
  | Value.ContentChanged contentEntity =>
    match marshal contentEntity.Raw with
    | Except.error err => Except.error err
    | Except.ok rawLog =>
      Except.ok
        { Resolver := contentEntity.Resolver.Hex
          Node := contentEntity.Node.Hex
          Hash := contentEntity.Hash.Hex
          LogIndex := contentEntity.LogIndex
          TransactionIndex := contentEntity.TransactionIndex
          Raw := rawLog }
  | _ =>
    Except.error ("entity of type " ++ entity.typeName ++ ", not "
      ++ (Value.ContentChanged {}).typeName)

/-- The method `ContentChangedConverter.ToModels`. -/
def ContentChangedConverter.ToModels (marshal : EthLog → Except Error (List Nat))
    (entities : List Value) : Except Error (List ContentChangedModel) :=
  rangeAppend (ContentChangedConverter.toModel marshal) [] entities

/-- The body of the loop of `AuctionStartedConverter.ToModels`. -/
def AuctionStartedConverter.toModel (marshal : EthLog → Except Error (List Nat))
    (entity : Value) : Except Error AuctionStartedModel :=
  match entity with
  | Value.AuctionStarted auctionEntity =>
    match marshal auctionEntity.Raw with
    | Except.error err => Except.error err
    | Except.ok rawLog =>
      Except.ok
        { Hash := auctionEntity.Hash.Hex
          RegistrationDate := bigString auctionEntity.RegistrationDate
          LogIndex := auctionEntity.LogIndex
          TransactionIndex := auctionEntity.TransactionIndex
          Raw := rawLog }
  | _ =>
    Except.error ("entity of type " ++ entity.typeName ++ ", not "
      ++ (Value.AuctionStarted {}).typeName)

/-- The method `AuctionStartedConverter.ToModels`. -/
def AuctionStartedConverter.ToModels (marshal : EthLog → Except Error (List Nat))
    (entities : List Value) : Except Error (List AuctionStartedModel) :=
  rangeAppend (AuctionStartedConverter.toModel marshal) [] entities

/-- The body of the loop of `BidRevealedConverter.ToModels`. -/
def BidRevealedConverter.toModel (marshal : EthLog → Except Error (List Nat))
    (entity : Value) : Except Error BidRevealedModel :=
  match entity with
  | Value.BidRevealed bidEntity =>
    match marshal bidEntity.Raw with
    | Except.error err => Except.error err
    | Except.ok rawLog =>
      Except.ok
        { Hash := bidEntity.Hash.Hex
          Owner := bidEntity.Owner.Hex
          Value := bigString bidEntity.Value
          Status := bidEntity.Status
          LogIndex := bidEntity.LogIndex
          TransactionIndex := bidEntity.TransactionIndex
          Raw := rawLog }
  | _ =>
    Except.error ("entity of type " ++ entity.typeName ++ ", not "
      ++ (Value.BidRevealed {}).typeName)

/-- The method `BidRevealedConverter.ToModels`. -/
def BidRevealedConverter.ToModels (marshal : EthLog → Except Error (List Nat))
    (entities : List Value) : Except Error (List BidRevealedModel) :=
  rangeAppend (BidRevealedConverter.toModel marshal) [] entities

/-- The body of the loop of `ContentChangedConverter.ToEntities`; `parseAbi` is `geth.ParseAbi`
and `unpackLog abi address event log entity` is `UnpackLog(entity, event, log)` on the contract
bound to `address` with `abi`, which fills the entity from the log. -/
def ContentChangedConverter.toEntity {α : Type} (parseAbi : String → Except Error α)
    (unpackLog : α → Common.Address → String → EthLog → ContentChangedEntity →
      Except Error ContentChangedEntity)
    (contractAbi : String) (ethLog : EthLog) : Except Error Value :=
  let entity : ContentChangedEntity := { Resolver := ethLog.Address }
  match parseAbi contractAbi with
  | Except.error err => Except.error err
  | Except.ok abi =>
    match unpackLog abi entity.Resolver "ContentChanged" ethLog entity with
    | Except.error err => Except.error err
    | Except.ok entity =>
      Except.ok (Value.ContentChanged
        { entity with
          Raw := ethLog
          LogIndex := ethLog.Index
          TransactionIndex := ethLog.TxIndex })

/-- The method `ContentChangedConverter.ToEntities`. -/
def ContentChangedConverter.ToEntities {α : Type} (parseAbi : String → Except Error α)
    (unpackLog : α → Common.Address → String → EthLog → ContentChangedEntity →
      Except Error ContentChangedEntity)
    (contractAbi : String) (ethLogs : List EthLog) : Except Error (List Value) :=
  rangeAppend (ContentChangedConverter.toEntity parseAbi unpackLog contractAbi) [] ethLogs

/-- The body of the loop of `AuctionStartedConverter.ToEntities`. -/
def AuctionStartedConverter.toEntity {α : Type} (parseAbi : String → Except Error α)
    (unpackLog : α → Common.Address → String → EthLog → AuctionStartedEntity →
      Except Error AuctionStartedEntity)
    (contractAbi : String) (ethLog : EthLog) : Except Error Value :=
  let entity : AuctionStartedEntity := {}
  let address := ethLog.Address
  match parseAbi contractAbi with
  | Except.error err => Except.error err
  | Except.ok abi =>
    match unpackLog abi address "AuctionStarted" ethLog entity with
    | Except.error err => Except.error err
    | Except.ok entity =>
      Except.ok (Value.AuctionStarted
        { entity with
          Raw := ethLog
          LogIndex := ethLog.Index
          TransactionIndex := ethLog.TxIndex })

/-- The method `AuctionStartedConverter.ToEntities`. -/
def AuctionStartedConverter.ToEntities {α : Type} (parseAbi : String → Except Error α)
    (unpackLog : α → Common.Address → String → EthLog → AuctionStartedEntity →
      Except Error AuctionStartedEntity)
    (contractAbi : String) (ethLogs : List EthLog) : Except Error (List Value) :=
  rangeAppend (AuctionStartedConverter.toEntity parseAbi unpackLog contractAbi) [] ethLogs

/-- The body of the loop of `BidRevealedConverter.ToEntities`. -/
def BidRevealedConverter.toEntity {α : Type} (parseAbi : String → Except Error α)
    (unpackLog : α → Common.Address → String → EthLog → BidRevealedEntity →
      Except Error BidRevealedEntity)
    (contractAbi : String) (ethLog : EthLog) : Except Error Value :=
  let entity : BidRevealedEntity := {}
  let address := ethLog.Address
  match parseAbi contractAbi with
  | Except.error err => Except.error err
  | Except.ok abi =>
    match unpackLog abi address "BidRevealed" ethLog entity with
    | Except.error err => Except.error err
    | Except.ok entity =>
      Except.ok (Value.BidRevealed
        { entity with
          Raw := ethLog
          LogIndex := ethLog.Index
          TransactionIndex := ethLog.TxIndex })

/-- The method `BidRevealedConverter.ToEntities`. -/
def BidRevealedConverter.ToEntities {α : Type} (parseAbi : String → Except Error α)
    (unpackLog : α → Common.Address → String → EthLog → BidRevealedEntity →
      Except Error BidRevealedEntity)
    (contractAbi : String) (ethLogs : List EthLog) : Except Error (List Value) :=
  rangeAppend (BidRevealedConverter.toEntity parseAbi unpackLog contractAbi) [] ethLogs

/-- A stand-in for `json.Marshal` on a raw log that never fails: the encoding lists the
transaction index and the log index. -/
def demoJson (l : EthLog) : List Nat := [l.TxIndex, l.Index]

/-- A ContentChanged entity with the resolver address of the integration test. -/
def demoContentChanged : ContentChangedEntity :=
  { Resolver := ⟨bytesOfHex "0xa964ed4077ad3ba1946d118ce90544657bb4003b"⟩
    Node := ⟨bytesOfHex testNode⟩
    Hash := ⟨bytesOfHex testLabel⟩
    LogIndex := 78
    TransactionIndex := 50
    Raw := { TxIndex := 50, Index := 78 } }

/-- A stand-in for `geth.ParseAbi`: the string of the converter test is not an ABI. -/
def demoParseAbi (contractAbi : String) : Except Error String :=
  if contractAbi = "error abi" then Except.error "invalid character" else Except.ok contractAbi

/-- A stand-in for `UnpackLog` into an AuctionStarted entity: a log without topics is not
unpacked; otherwise the hash is the first topic and the date is the block number. -/
def demoUnpack (_ : String) (_ : Common.Address) (_ : String) (l : EthLog)
    (entity : AuctionStartedEntity) : Except Error AuctionStartedEntity :=
  match l.Topics with
  | [] => Except.error "abi: no topics"
  | t :: _ => Except.ok { entity with Hash := t, RegistrationDate := some l.BlockNumber }

/-- Two logs that are unpacked and one that is not. -/
def demoLogA : EthLog :=
  { Topics := [⟨bytesOfHex testNode⟩], BlockNumber := 26, TxIndex := 111, Index := 7 }
def demoLogB : EthLog :=
  { Topics := [⟨bytesOfHex testLabel⟩], BlockNumber := 27, TxIndex := 2, Index := 9 }
def demoLogBad : EthLog := { TxIndex := 3, Index := 4 }

/-! ## The records created by the fold of a header -/

/-- The records that the iterations `L` pass to `CreateRecord`, in order, up to the first
iteration that fails. -/
def stepsWrites (b : Int) : List Step → List DomainModel → List DomainModel
  | [], _ => []
  | st :: rest, S =>
    match st.base b S with
    | none => []
    | some r => st.patch.apply r :: stepsWrites b rest (createRecord S (st.patch.apply r))

/-- The iterations of `L` for the name hash `h`, in order. -/
def stepsOf (h : String) (L : List Step) : List Step := L.filter (fun st => decide (st.key = h))

/-- The records of a list that have the name hash `h`, in order. -/
def rowsOf (h : String) (rs : List DomainModel) : List DomainModel :=
  rs.filter (fun r => decide (r.NameHash = h))

/-- The record `base` after the assignments of the iterations `L`, in order. -/
def foldPatches (base : DomainModel) (L : List Step) : DomainModel :=
  L.foldl (fun r st => st.patch.apply r) base

/-- The program `prog`, run on interfaces that record their calls, folds the iterations `L` at
block `b`: it succeeds exactly if the iterations succeed on the record store, then it leaves
their store, and in either case the records it passes to `CreateRecord` are those of the
iterations, in order. -/
def FoldsTraced (b : Int) (prog : Prog (World × List Call) Unit) (L : List Step) : Prop :=
  ∀ s : State (World × List Call),
    createdRecords (prog s).2.world.2
      = createdRecords s.world.2 ++ stepsWrites b L s.world.1.records ∧
    match runSteps b L s.world.1.records with
    | some S => (prog s).1 = Except.ok () ∧ (prog s).2.world.1.records = S
    | none => (prog s).1 ≠ Except.ok ()

/-- The iteration of `processRegistryLogs` for a registry event, as seen by the record store. -/
def RegistryEvent.step (subnode : String → String → String) (b : Int) : RegistryEvent → Step
  | RegistryEvent.NewOwner l => newOwnerStep subnode b l
  | RegistryEvent.Transfer l => updateStep b (l.value "node") { Owner := some (l.value "owner") }
  | RegistryEvent.NewTTL l => updateStep b (l.value "node") { TTL := some (l.value "ttl") }
  | RegistryEvent.NewResolver l =>
    updateStep b (l.value "node") { ResolverAddr := some (l.value "resolver") }

/-- The iteration of `processResolverLogs` for a resolver event, as seen by the record store. -/
def ResolverEvent.step (b : Int) : ResolverEvent → Step
  | ResolverEvent.AddrChanged l =>
    updateStep b (l.value "node")
      { PointsToAddr := some (l.value "a") }
  | ResolverEvent.NameChanged l =>
    updateStep b (l.value "node")
      { Name := some (l.value "name") }
  | ResolverEvent.ContentChanged l =>
    updateStep b (l.value "node")
      { Content := some (l.value "hash") }
  | ResolverEvent.ABIChanged l =>
    updateStep b (l.value "node")
      { ContentType := some (l.value "contentType") }
  | ResolverEvent.PubkeyChanged l =>
    updateStep b (l.value "node")
      { PubKeyX := some (l.value "x"), PubKeyY := some (l.value "y") }
  | ResolverEvent.TextChanged l =>
    updateStep b (l.value "node")
      { TextKey := some (l.value "key"), IndexedTextKey := some (l.value "indexedKey") }
  | ResolverEvent.MultihashChanged l =>
    updateStep b (l.value "node")
      { Multihash := some (l.value "hash") }
  | ResolverEvent.ContenthashChanged l =>
    updateStep b (l.value "node")
      { Contenthash := some (l.value "hash") }

/-- Scenario "tie": header 1 (block 100) carries NewOwner and NewResolver(pl, R); header 2
(block 110) carries Transfer(pl, B) of the registry and AddrChanged(pl, C) of the resolver. -/
def tieLogs (a : String) (i : Int) : List RawLog :=
  if a = "reg" ∧ i = 1 then [rawOwn, rawRes]
  else if a = "reg" ∧ i = 2 then [rawTra]
  else if a = "R" ∧ i = 2 then [rawAdr]
  else []

/-- The interfaces of scenario "tie", with the calls recorded. -/
def tieEnv : Env (World × List Call) := (simEnv (demoChain tieLogs noFault)).traced

/-- The row of `pl` after header 1 of scenario "tie", and its rows after the Transfer and
after the AddrChanged event of header 2. -/
def tieRow100 : DomainModel := { ownRow with ResolverAddr := "R" }
def tieRowB : DomainModel := { tieRow100 with BlockNumber := 110, Owner := "B" }
def tieRowBC : DomainModel := { tieRowB with PointsToAddr := "C" }

/-- The decoded registry logs of header 2 of scenario "tie". -/
def tieRegistryDecoded : List (String × List Log) :=
  [("Transfer", [⟨[("node", "pl"), ("owner", "B")]⟩])]

/-- A state whose store holds the row of `pl` after header 1, with the call log empty. -/
def tieStart : State (World × List Call) := ⟨demoTransformer, ({ records := [tieRow100] }, [])⟩

/-! ## Which header and which event ids a recorded pass works on -/

/-- What a reader of the call log knows after a prefix of it: the event ids of the latest
`MissingHeadersForAll` (the contract whose loop runs), the header id of the latest `FetchLogs`
since then, and the pairs (header id, event ids) for which logs were fetched and for which
records were created. -/
structure Monitor where
  ids : List String := []
  header : Option Int := none
  fetched : List (Int × List String) := []
  created : List (Int × List String) := []
  deriving DecidableEq

/-- The reading of one more call. -/
def Monitor.step (m : Monitor) : Call → Monitor
  | Call.MissingHeadersForAll _ _ ids => { m with ids := ids, header := none }
  | Call.FetchLogs _ _ h => { m with header := some h.Id, fetched := m.fetched ++ [(h.Id, m.ids)] }
  | Call.CreateRecord _ =>
    match m.header with
    | some i => { m with created := m.created ++ [(i, m.ids)] }
    | none => m
  | _ => m

/-- The reading of a call log from its start. -/
def monitor (calls : List Call) : Monitor := calls.foldl Monitor.step {}

/-- All flags of the header `p.1` for the event ids `p.2` are set. -/
def fullyChecked (checked : List (Int × String)) (p : Int × List String) : Prop :=
  ∀ i ∈ p.2, (p.1, i) ∈ checked

instance (checked : List (Int × String)) (p : Int × List String) :
    Decidable (fullyChecked checked p) := by
  unfold fullyChecked
  infer_instance

/-- The call is neither a `MissingHeadersForAll` nor a `FetchLogs`. -/
def quietCall : Call → Prop
  | Call.MissingHeadersForAll _ _ _ => False
  | Call.FetchLogs _ _ _ => False
  | _ => True

/-- Between the states `s` and `t` the flags and the headers of the checkpoint store, the pairs
for which logs were fetched, the contract whose loop runs and the registry's event ids are the
same. -/
def Quiet (s t : State (World × List Call)) : Prop :=
  t.world.1.checked = s.world.1.checked ∧ t.world.1.headers = s.world.1.headers ∧
  (monitor t.world.2).fetched = (monitor s.world.2).fetched ∧
  (monitor t.world.2).ids = (monitor s.world.2).ids ∧
  t.tr.registryEventIds = s.tr.registryEventIds

/-- The program `x` leaves every state `Quiet`, whether it fails or not. -/
def Stays {α : Type} (x : Prog (World × List Call) α) : Prop := ∀ s, Quiet s (x s).2

/-- In the state `s` of a recorded pass that started with the flags `C0` set: these flags are
still set, no two headers of the table have the same id, logs were fetched only for pairs that
were not fully checked at the start, and for no pair twice. -/
structure Good (C0 : List (Int × String)) (s : State (World × List Call)) : Prop where
  mono : ∀ x ∈ C0, x ∈ s.world.1.checked
  table : (s.world.1.headers.map Header.Id).Nodup
  fresh : ∀ p ∈ (monitor s.world.2).fetched, ¬ fullyChecked C0 p
  nodup : (monitor s.world.2).fetched.Nodup

/-- Every pair for which logs were fetched, except the pending one, is fully checked. -/
def DoneExcept (pending : Option (Int × List String)) (s : State (World × List Call)) : Prop :=
  ∀ p ∈ (monitor s.world.2).fetched, some p ≠ pending → fullyChecked s.world.1.checked p

/-- The state of a header loop for the event ids `X` before the headers `rem`: every fetched
pair is fully checked, the latest `MissingHeadersForAll` asked for `X`, and none of the
headers left is fully checked for `X`. -/
structure Ready (C0 : List (Int × String)) (X : List String) (rem : List Header)
    (s : State (World × List Call)) : Prop where
  good : Good C0 s
  done : DoneExcept none s
  ids : (monitor s.world.2).ids = X
  todo : ∀ h ∈ rem, ¬ fullyChecked s.world.1.checked (h.Id, X)
  distinct : (rem.map Header.Id).Nodup

/-- The result `r` of a program satisfies `Q` in its state if it is a success and `R` if it is
an error. -/
def Post {σ α : Type} (r : Except Error α × State σ) (Q R : State σ → Prop) : Prop :=
  match r with
  | (Except.ok _, s) => Q s
  | (Except.error _, s) => R s

/-- Any call. -/
def anyCall (_ : Call) : Prop := True

/-- The event ids of the registry are `X`, and if `known`, the address `a` is in `Resolvers`
with the event ids `Y`. -/
def sameIds (X : List String) (a : String) (Y : List String) (known : Bool)
    (t : Transformer) : Prop :=
  t.registryEventIds = X ∧
    (known = true → mapHas t.Resolvers a = true ∧ mapGet t.resolverEventIds a [] = Y)

/-- The state `s` with an empty call log, from which a pass is recorded. -/
def startRecording (s : State World) : State (World × List Call) := ⟨s.tr, (s.world, [])⟩

/-- The call log of the pass that follows `n` passes from `s`, recorded from its start. -/
def nextPassCalls (chain : Chain) (n : Nat) (s : State World) : List Call :=
  (Execute (simEnv chain).traced (startRecording (passes (simEnv chain) n s))).2.world.2

/-! ## The calls of the fold of a registry event -/

/-- The name hash that a registry event works on: the subnode of a NewOwner event, the node of
the other events. -/
def RegistryEvent.node (subnode : String → String → String) : RegistryEvent → String
  | RegistryEvent.NewOwner l => subnode (l.value "node") (l.value "label")
  | ev => ev.log.value "node"

/-- The record `r` carries what the registry event assigns to a record at block `b`. -/
def RegistryEvent.writes (subnode : String → String → String) (b : Int) :
    RegistryEvent → DomainModel → Prop
  | RegistryEvent.NewOwner l, r =>
    r.NameHash = subnode (l.value "node") (l.value "label") ∧ r.ParentHash = l.value "node" ∧
      r.LabelHash = l.value "label" ∧ r.Owner = l.value "owner" ∧ r.BlockNumber = b
  | RegistryEvent.Transfer l, r => r.Owner = l.value "owner" ∧ r.BlockNumber = b
  | RegistryEvent.NewTTL l, r => r.TTL = l.value "ttl" ∧ r.BlockNumber = b
  | RegistryEvent.NewResolver l, r => r.ResolverAddr = l.value "resolver" ∧ r.BlockNumber = b

/-- The calls `cs` are those of one registry event folded at block `b`: lookups of the event's
name hash, then one `CreateRecord` of a record that carries the event's assignment. -/
def RegistryEvent.emitted (subnode : String → String → String) (b : Int) (ev : RegistryEvent)
    (cs : List Call) : Prop :=
  ∃ (pre : List Call) (r : DomainModel), cs = pre ++ [Call.CreateRecord r] ∧ ev.writes subnode b r ∧
    ∀ c ∈ pre, c = Call.RecordExists (ev.node subnode) ∨ c = Call.GetRecord (ev.node subnode) b

/-! ## Init and the configuration of resolvers, in stages -/

/-- The event id that `Init` and `configResolvers` build for an event of the contract at
`address`: `strings.ToLower(e.Name + "_" + address)`, with `lower` for `strings.ToLower`. -/
def eventIdOf (lower : String → String) (address : String) (e : Event) : String :=
  lower (e.Name ++ "_" ++ address)

/-- The assignments of `Init` between `ParseAbiStr` and the loop over the registry's events,
when the parser holds the world `w`. -/
def initRegistry {σ : Type} (env : Env σ) (address : String) (w : σ) (tr : Transformer) :
    Transformer :=
  { tr with
    Registry :=
      { Name := "ENS-Registry"
        Network := tr.RegistryConfig.Network
        Address := address
        Abi := env.Abi w
        ParsedAbi := env.ParsedAbi w
        StartingBlock := mapGet tr.RegistryConfig.StartingBlocks address 0
        Events := env.GetEvents w }
    registryIndex := mapGet tr.RegistryConfig.StartingBlocks address 0
    registryEventIds := []
    registryEventFilters := []
    resolverEventIds := []
    resolverEventFilters := [] }

/-- The assignments of `Init` after the loop over the registry's events. -/
def initResolvers (tr : Transformer) : Transformer :=
  { tr with
    ResolverAddresses := []
    Resolvers := []
    resolverEventIds := []
    resolverEventFilters := []
    invalidResolvers := [("0x0000000000000000000000000000000000000000", true)] }

/-- A transformer configured with two registry addresses. -/
def twoAddresses : Transformer :=
  { RegistryConfig := { Addresses := [("reg", true), ("reg2", true)] }, registryIndex := 7 }

/-- The contract that `configResolvers` stores for a new resolver address, when the parser holds
the world `w` and the header is at `blockNumber`. -/
def resolverContract {σ : Type} (env : Env σ) (blockNumber : Int) (resolverAddr : String) (w : σ)
    (tr : Transformer) : Contract :=
  { Name := "ENS-Resolver"
    Network := tr.RegistryConfig.Network
    Address := resolverAddr
    Abi := env.Abi w
    ParsedAbi := env.ParsedAbi w
    StartingBlock := blockNumber
    Events := env.GetEvents w }

/-- The state of the parser after `ParseAbiStr` of the string that `GetABI(addr, -1)` returns in
the state `w`: the ABI of the address `addr` has been loaded. -/
def parsedAbiWorld {σ : Type} (env : Env σ) (addr : String) (w : σ) : σ :=
  (env.ParseAbiStr (env.GetABI addr (-1) w).1 (env.GetABI addr (-1) w).2).2

/-- The transformer `t1` differs from `t` at most in the event ids and topic filters of the
resolver `addr`, to which the ids and topics of the events `es` have been appended. -/
def registered (lower : String → String) (addr : String) (es : List Event)
    (t t1 : Transformer) : Prop :=
  { t1 with resolverEventIds := [], resolverEventFilters := [] }
      = { t with resolverEventIds := [], resolverEventFilters := [] } ∧
    mapGet t1.resolverEventIds addr []
      = mapGet t.resolverEventIds addr [] ++ es.map (eventIdOf lower addr) ∧
    mapGet t1.resolverEventFilters addr []
      = mapGet t.resolverEventFilters addr [] ++ es.map Event.Sig ∧
    ∀ a, a ≠ addr → mapGet t1.resolverEventIds a [] = mapGet t.resolverEventIds a [] ∧
      mapGet t1.resolverEventFilters a [] = mapGet t.resolverEventFilters a []

/-- Whether the call is a `GetABI`. -/
def isGetABI : Call → Bool
  | Call.GetABI _ _ => true
  | _ => false

/-- If the call is a `GetABI`, its block argument is -1, the latest block. -/
def atLatest : Call → Prop
  | Call.GetABI _ b => b = -1
  | _ => True

/-- An invariant of the resolver maps: no address is both in `Resolvers` and in
`invalidResolvers`, an address outside `Resolvers` has neither event ids nor topic filters, and
every address has as many event ids as topic filters. -/
def tidy (t : Transformer) : Prop :=
  ∀ a, (mapHas t.Resolvers a = true → mapHas t.invalidResolvers a = false) ∧
    (mapHas t.Resolvers a = false →
      mapGet t.resolverEventIds a [] = [] ∧ mapGet t.resolverEventFilters a [] = []) ∧
    (mapGet t.resolverEventIds a []).length = (mapGet t.resolverEventFilters a []).length

/-- The state of scenario "early" in which `configResolvers` runs for header 1: the fold of the
header has put `R` into `ResolverAddresses`. -/
def announcedStart : State (World × List Call) :=
  ⟨{ demoTransformer with ResolverAddresses := [("R", true)] },
    (demoWorld [⟨1, 100⟩, ⟨2, 110⟩], [])⟩

/-- The address is in `Resolvers` or in `invalidResolvers`. -/
def settled (a : String) (t : Transformer) : Prop :=
  mapHas t.Resolvers a = true ∨ mapHas t.invalidResolvers a = true

/-- The parser rejects the ABI of the resolver `R`. -/
def parseFault (c : Call) : Option Error :=
  if c = Call.ParseAbiStr "resolver-abi" then some "ParseFailed" else none

/-- Scenario "early" with the failing parse: the state that the aborted pass leaves behind. -/
def afterParseAbort : State World :=
  (Execute (simEnv (demoChain earlyLogs parseFault)) demoStart).2

/-- The events of a resolver ABI with two events. -/
def twoResolverEvents : List Event := [⟨"AddrChanged", "t1"⟩, ⟨"NameChanged", "t2"⟩]

/-- Scenario "early" with a resolver `R` whose ABI has the events AddrChanged and NameChanged. -/
def twoEventChain (fails : Call → Option Error) : Chain :=
  { demoChain earlyLogs fails with
    events := fun a =>
      if a = "resolver-abi" then twoResolverEvents else (demoChain earlyLogs fails).events a }

/-- The checkpoint column of the event NameChanged of `R` cannot be added. -/
def columnFault (c : Call) : Option Error :=
  if c = Call.AddCheckColumn "namechanged_r" then some "ColumnFailed" else none

/-- The state that the pass aborted by the failing `AddCheckColumn` leaves behind. -/
def afterColumnAbort : State World := (Execute (simEnv (twoEventChain columnFault)) demoStart).2

/-- The address `a` is in `Resolvers`, with the contract `c`. -/
def knownAs (a : String) (c : Contract) (t : Transformer) : Prop :=
  mapHas t.Resolvers a = true ∧ mapGet t.Resolvers a {} = c

/-! ## The header repository and the cursors -/

/-- Every header that `MissingHeadersForAll` returns is at or above the requested start. -/
def fromStart {σ : Type} (env : Env σ) : Prop :=
  ∀ (a b : Int) (ids : List String) (w w1 : σ) (hs : List Header),
    env.MissingHeadersForAll a b ids w = (Except.ok hs, w1) → ∀ h ∈ hs, a ≤ h.BlockNumber

/-- The registry headers that `MissingHeadersForAll` returns in the pass that starts in state
`s` have block numbers below the largest `int64` value, so that the block number plus 1 does
not wrap around. -/
def belowLargest {σ : Type} (env : Env σ) (s : State σ) : Prop :=
  ∀ (hs : List Header) (w1 : σ),
    env.MissingHeadersForAll s.tr.registryIndex (-1) s.tr.registryEventIds
      (afterUpdate env s).world = (Except.ok hs, w1) →
    ∀ h ∈ hs, h.BlockNumber < 9223372036854775807

/-- The state after `Init` on a chain without logs whose one synced header has the largest
block number of `int64`. -/
def largestBlockStart : State World :=
  ⟨demoTransformer, demoWorld [⟨1, 9223372036854775807⟩]⟩

/-! ## The single-event repositories -/

/-- The fields of `new_ttl.NewTTLModel` that `NewTtlRepository.Create` writes (the field types
are not part of the sources at hand: values are kept as strings, indexes as naturals, the raw
log as bytes). -/
structure NewTTLModel where
  Node : String := ""
  Ttl : String := ""
  LogIndex : Nat := 0
  TransactionIndex : Nat := 0
  Raw : List Nat := []
  deriving DecidableEq, Repr

/-- The fields of `name_changed.NameChangedModel` that `NameChangedRepository.Create` writes. -/
structure NameChangedModel where
  Resolver : String := ""
  Node : String := ""
  Name : String := ""
  LogIndex : Nat := 0
  TransactionIndex : Nat := 0
  Raw : List Nat := []
  deriving DecidableEq, Repr

/-- The fields of `hash_invalidated.HashInvalidatedModel` that
`HashInvalidatedRepository.Create` writes. -/
structure HashInvalidatedModel where
  Hash : String := ""
  Name : String := ""
  Value : String := ""
  RegistrationDate : String := ""
  LogIndex : Nat := 0
  TransactionIndex : Nat := 0
  Raw : List Nat := []
  deriving DecidableEq, Repr

/-- An element of the argument `models []interface{}` of a repository: a model of one of the
three packages, or a value of another type, given by the name that `%T` prints. -/
inductive ModelValue where
  | NewTTL (m : NewTTLModel)
  | NameChanged (m : NameChangedModel)
  | HashInvalidated (m : HashInvalidatedModel)
  | Other (typeName : String)
  deriving DecidableEq, Repr

/-- The type name that `%T` prints for a model value. -/
def ModelValue.typeName : ModelValue → String
  | ModelValue.NewTTL _ => "new_ttl.NewTTLModel"
  | ModelValue.NameChanged _ => "name_changed.NameChangedModel"
  | ModelValue.HashInvalidated _ => "hash_invalidated.HashInvalidatedModel"
  | ModelValue.Other n => n

/-- The type assertion `model.(NewTTLModel)`. -/
def ModelValue.asNewTTL : ModelValue → Option NewTTLModel
  | ModelValue.NewTTL m => some m
  | _ => none

/-- The type assertion `model.(NameChangedModel)`. -/
def ModelValue.asNameChanged : ModelValue → Option NameChangedModel
  | ModelValue.NameChanged m => some m
  | _ => none

/-- The type assertion `model.(HashInvalidatedModel)`. -/
def ModelValue.asHashInvalidated : ModelValue → Option HashInvalidatedModel
  | ModelValue.HashInvalidated m => some m
  | _ => none

/-- The columns `(header_id, tx_idx, log_idx)` of the unique constraint of an event table. -/
abbrev RowKey := Int × Nat × Nat

/-- An event table of the database together with the flags of `checked_headers` that are set,
as (header id, column). -/
structure EventTable (ρ : Type) where
  rows : List (RowKey × ρ) := []
  checked : List (Int × String) := []
  deriving DecidableEq

/-- The statement `INSERT ... ON CONFLICT (header_id, tx_idx, log_idx) DO UPDATE SET ...` with
every other column assigned: the row under the key is replaced, or a new row is added. -/
def upsertRow {ρ : Type} (rows : List (RowKey × ρ)) (k : RowKey) (r : ρ) : List (RowKey × ρ) :=
  match rows with
  | [] => [(k, r)]
  | (k1, r1) :: rest => if k1 = k then (k, r) :: rest else (k1, r1) :: upsertRow rest k r

/-- The row stored under a key, if there is one. -/
def rowAt {ρ : Type} (rows : List (RowKey × ρ)) (k : RowKey) : Option ρ :=
  match rows with
  | [] => none
  | (k1, r1) :: rest => if k1 = k then some r1 else rowAt rest k

/-- A call on the database handle or on the transaction of a `Create`. -/
inductive DbCall where
  | Beginx
  | Exec (key : RowKey)
  | MarkHeaderCheckedInTransaction (headerID : Int) (column : String)
  | Rollback
  | Commit
  deriving DecidableEq, Repr

/-- The database calls of a scenario that fail, with their error. -/
structure DbFaults where
  /-- The call `db.Beginx()`. -/
  begin : Option Error := none
  /-- The call `tx.Exec` of the insert for a key. -/
  exec : RowKey → Option Error := fun _ => none
  /-- The call `repo.MarkHeaderCheckedInTransaction(headerID, tx, column)`. -/
  mark : Int → String → Option Error := fun _ _ => none
  /-- The call `tx.Rollback()`. -/
  rollback : Option Error := none
  /-- The call `tx.Commit()`. -/
  commit : Option Error := none

/-- The database as a repository sees it while `Create` runs: the committed state `db`, the
state `tx` that the statements of the open transaction have produced (none when no transaction
is open), the calls made so far, and the messages of `log.Error`. -/
structure Session (ρ : Type) where
  db : EventTable ρ
  tx : Option (EventTable ρ) := none
  calls : List DbCall := []
  logged : List String := []
  deriving DecidableEq

/-- The call `db.Beginx()`: a transaction is opened on the committed state. -/
def Session.Beginx {ρ : Type} (f : DbFaults) (s : Session ρ) : Except Error Unit × Session ρ :=
  match f.begin with
  | some dBaseErr => (Except.error dBaseErr, { s with calls := s.calls ++ [DbCall.Beginx] })
  | none => (Except.ok (), { s with tx := some s.db, calls := s.calls ++ [DbCall.Beginx] })

/-- The call `tx.Exec` of the insert of the row `r` under the key `k`: on success the row is
upserted in the state of the transaction. -/
def Session.Exec {ρ : Type} (f : DbFaults) (k : RowKey) (r : ρ) (s : Session ρ) :
    Except Error Unit × Session ρ :=
  match f.exec k with
  | some execErr => (Except.error execErr, { s with calls := s.calls ++ [DbCall.Exec k] })
  | none =>
    (Except.ok (), { s with
      tx := s.tx.map (fun t => { t with rows := upsertRow t.rows k r })
      calls := s.calls ++ [DbCall.Exec k] })

/-- The call `repo.MarkHeaderCheckedInTransaction(headerID, tx, column)`: on success the flag
of the header is set in the state of the transaction. -/
def Session.MarkHeaderCheckedInTransaction {ρ : Type} (f : DbFaults) (headerID : Int)
    (column : String) (s : Session ρ) : Except Error Unit × Session ρ :=
  match f.mark headerID column with
  | some checkHeaderErr =>
    (Except.error checkHeaderErr,
      { s with calls := s.calls ++ [DbCall.MarkHeaderCheckedInTransaction headerID column] })
  | none =>
    (Except.ok (), { s with
      tx := s.tx.map (fun t => { t with
        checked :=
          if (headerID, column) ∈ t.checked then t.checked else t.checked ++ [(headerID, column)] })
      calls := s.calls ++ [DbCall.MarkHeaderCheckedInTransaction headerID column] })

/-- The call `tx.Rollback()` with the logging of its error: the transaction is closed and its
statements are discarded. -/
def Session.Rollback {ρ : Type} (f : DbFaults) (s : Session ρ) : Session ρ :=
  { db := s.db
    tx := none
    calls := s.calls ++ [DbCall.Rollback]
    logged :=
      match f.rollback with
      | some rollbackErr => s.logged ++ ["failed to rollback " ++ rollbackErr]
      | none => s.logged }

/-- The call `tx.Commit()`: the transaction is closed, and its state becomes the committed
state unless the commit fails, which discards it. -/
def Session.Commit {ρ : Type} (f : DbFaults) (s : Session ρ) : Except Error Unit × Session ρ :=
  match f.commit with
  | some e => (Except.error e, { s with tx := none, calls := s.calls ++ [DbCall.Commit] })
  | none =>
    (Except.ok (),
      { s with db := s.tx.getD s.db, tx := none, calls := s.calls ++ [DbCall.Commit] })

/-- The loop of `Create` over `models`, which the three repositories share up to the model
type and the table: the type assertion and the insert of each model; on a failure the
transaction is rolled back and the error returned. -/
def insertModels {ρ : Type} (f : DbFaults) (cast : ModelValue → Option ρ) (key : ρ → Nat × Nat)
    (expected : String) (headerID : Int) :
    List ModelValue → Session ρ → Except Error Unit × Session ρ
  | [], s => (Except.ok (), s)
  | model :: rest, s =>
    match cast model with
    | none =>
      (Except.error ("model of type " ++ model.typeName ++ ", not " ++ expected), s.Rollback f)
    | some m =>
      match s.Exec f (headerID, (key m).1, (key m).2) m with
      | (Except.error execErr, s1) => (Except.error execErr, s1.Rollback f)
      | (Except.ok _, s1) => insertModels f cast key expected headerID rest s1

/-- The shape of `Create`: `Beginx`, whose error is returned as it is; the loop over `models`;
the header mark in the same transaction, rolled back on failure; the commit. -/
def createWith {ρ : Type} (f : DbFaults) (cast : ModelValue → Option ρ) (key : ρ → Nat × Nat)
    (expected column : String) (db : EventTable ρ) (headerID : Int) (models : List ModelValue) :
    Except Error Unit × Session ρ :=
  match Session.Beginx f { db := db } with
  | (Except.error dBaseErr, s) => (Except.error dBaseErr, s)
  | (Except.ok _, s) =>
    match insertModels f cast key expected headerID models s with
    | (Except.error err, s1) => (Except.error err, s1)
    | (Except.ok _, s1) =>
      match s1.MarkHeaderCheckedInTransaction f headerID column with
      | (Except.error checkHeaderErr, s2) => (Except.error checkHeaderErr, s2.Rollback f)
      | (Except.ok _, s2) => s2.Commit f

/-- The method `NewTtlRepository.Create`, on the table `ens.new_ttl`; the name of the checked
column, `constants.NewTtlChecked`, is a parameter. -/
def NewTtlRepository.Create (NewTtlChecked : String) (f : DbFaults)
    (db : EventTable NewTTLModel) (headerID : Int) (models : List ModelValue) :
    Except Error Unit × Session NewTTLModel :=
  createWith f ModelValue.asNewTTL (fun ttlModel => (ttlModel.TransactionIndex, ttlModel.LogIndex))
    "new_ttl.NewTTLModel" NewTtlChecked db headerID models

/-- The method `NameChangedRepository.Create`, on the table `ens.name_changed`; the name of the
checked column, `constants.NameChangedChecked`, is a parameter. -/
def NameChangedRepository.Create (NameChangedChecked : String) (f : DbFaults)
    (db : EventTable NameChangedModel) (headerID : Int) (models : List ModelValue) :
    Except Error Unit × Session NameChangedModel :=
  createWith f ModelValue.asNameChanged
    (fun nameModel => (nameModel.TransactionIndex, nameModel.LogIndex))
    "name_changed.NameChangedModel" NameChangedChecked db headerID models

/-- The method `HashInvalidatedRepository.Create`, on the table `ens.hash_invalidated`; the name
of the checked column, `constants.HashInvalidatedChecked`, is a parameter. -/
def HashInvalidatedRepository.Create (HashInvalidatedChecked : String) (f : DbFaults)
    (db : EventTable HashInvalidatedModel) (headerID : Int) (models : List ModelValue) :
    Except Error Unit × Session HashInvalidatedModel :=
  createWith f ModelValue.asHashInvalidated
    (fun hashModel => (hashModel.TransactionIndex, hashModel.LogIndex))
    "hash_invalidated.HashInvalidatedModel" HashInvalidatedChecked db headerID models

/-- The rows after the inserts of the models `xs` of a header, in order. -/
def insertAll {ρ : Type} (key : ρ → Nat × Nat) (headerID : Int) (rows : List (RowKey × ρ)) :
    List ρ → List (RowKey × ρ)
  | [] => rows
  | x :: rest => insertAll key headerID (upsertRow rows (headerID, (key x).1, (key x).2) x) rest

/-- The calls of a `Create` that succeeds for the models `xs`: the transaction is opened, every
model is inserted and the header is marked within it, and it is committed. -/
def committedCalls {ρ : Type} (key : ρ → Nat × Nat) (headerID : Int) (column : String)
    (xs : List ρ) : List DbCall :=
  [DbCall.Beginx] ++ xs.map (fun x => DbCall.Exec (headerID, (key x).1, (key x).2))
    ++ [DbCall.MarkHeaderCheckedInTransaction headerID column, DbCall.Commit]

/-- What it means for a `Create` with the type assertion `cast`, the key columns `key`, the
model type `expected` and the checked column `column` to be atomic.

Whatever the result, no transaction is left open.  An error leaves the committed database as it
was: no row of the batch is stored and no header is marked.  An error is returned when `Beginx`
fails, when some model is not of the model type (with the message "model of type <actual>, not
<expected>" when nothing failed before that model), when the insert of some model fails, and
when the header mark fails; in the last three cases the transaction has been opened, the last
call is its `Rollback`, and it is never committed.

On success every element of `models` is of the model type; the calls are `Beginx`, the insert of
every model in order, the header mark and `Commit`, so rows and mark belong to one transaction;
the committed rows are those of the inserts, which hold a row under the key (header id, tx
index, log index) of every model, the model itself when the keys of the batch are distinct; and
the header is marked.  Success is what happens when no call fails and every model is of the
model type, for an empty `models` too. -/
def AtomicCreate {ρ : Type}
    (create : DbFaults → EventTable ρ → Int → List ModelValue → Except Error Unit × Session ρ)
    (cast : ModelValue → Option ρ) (key : ρ → Nat × Nat) (expected column : String) : Prop :=
  ∀ (f : DbFaults) (db : EventTable ρ) (headerID : Int) (models : List ModelValue),
    (create f db headerID models).2.tx = none ∧
    (∀ e, (create f db headerID models).1 = Except.error e →
      (create f db headerID models).2.db = db) ∧
    (f.begin ≠ none → ∃ e, (create f db headerID models).1 = Except.error e) ∧
    (f.begin = none →
      ((∃ m ∈ models, cast m = none) ∨
        (∃ m ∈ models, ∃ y, cast m = some y ∧
          f.exec (headerID, (key y).1, (key y).2) ≠ none) ∨
        f.mark headerID column ≠ none) →
      (∃ e, (create f db headerID models).1 = Except.error e) ∧
      (create f db headerID models).2.calls.head? = some DbCall.Beginx ∧
      (create f db headerID models).2.calls.getLast? = some DbCall.Rollback ∧
      DbCall.Commit ∉ (create f db headerID models).2.calls) ∧
    (∀ pre m post, models = pre ++ m :: post → cast m = none → f.begin = none →
      (∀ x ∈ pre, ∃ y, cast x = some y ∧ f.exec (headerID, (key y).1, (key y).2) = none) →
      (create f db headerID models).1
        = Except.error ("model of type " ++ m.typeName ++ ", not " ++ expected)) ∧
    ((create f db headerID models).1 = Except.ok () →
      ∃ xs : List ρ, models.map cast = xs.map some ∧
        (create f db headerID models).2.calls = committedCalls key headerID column xs ∧
        (create f db headerID models).2.db.rows = insertAll key headerID db.rows xs ∧
        (headerID, column) ∈ (create f db headerID models).2.db.checked ∧
        (∀ p ∈ db.checked, p ∈ (create f db headerID models).2.db.checked) ∧
        (∀ x ∈ xs, (rowAt (create f db headerID models).2.db.rows
          (headerID, (key x).1, (key x).2)).isSome = true) ∧
        ((xs.map key).Nodup → ∀ x ∈ xs,
          rowAt (create f db headerID models).2.db.rows (headerID, (key x).1, (key x).2)
            = some x)) ∧
    (f.begin = none →
      (∀ m ∈ models, ∃ y, cast m = some y ∧ f.exec (headerID, (key y).1, (key y).2) = none) →
      f.mark headerID column = none → f.commit = none →
      (create f db headerID models).1 = Except.ok ())

/-- A NewTTL model of the log with index 0 of transaction 1. -/
def ttlA : NewTTLModel := { Node := "n1", Ttl := "5", LogIndex := 0, TransactionIndex := 1 }

/-- A NewTTL model of the log with index 1 of transaction 1. -/
def ttlB : NewTTLModel := { Node := "n2", Ttl := "9", LogIndex := 1, TransactionIndex := 1 }

/-- A database in which the insert of the row (7, 1, 1) fails. -/
def secondInsertFails : DbFaults :=
  { exec := fun k => if k = (7, 1, 1) then some "insert failed" else none }

/-- A table of `ens.new_ttl` that already holds the row of `ttlA` for header 3, marked. -/
def oneRowTable : EventTable NewTTLModel :=
  { rows := [((3, 1, 0), ttlA)], checked := [(3, "new_ttl_checked")] }

/-- A batch whose second element is a model of another repository. -/
def mixedBatch : List ModelValue := [ModelValue.NewTTL ttlB, ModelValue.NameChanged {}]

/-! ## The rows of one key -/

/-- The decoded registry logs of a header in which the name `pl` has two events, a Transfer to
`B` and a NewTTL with ttl 7. -/
def twoForOneName : List (String × List Log) :=
  [("Transfer", [⟨[("node", "pl"), ("owner", "B")]⟩]),
   ("NewTTL", [⟨[("node", "pl"), ("ttl", "7")]⟩])]

/-- The row of `pl` at block 110 after the Transfer and the NewTTL event of `twoForOneName`. -/
def tieRowTtl : DomainModel := { tieRowB with TTL := "7" }

/-- The rows of the store with the primary key `(h, b)`. -/
def rowsAt (h : String) (b : Int) (S : List DomainModel) : List DomainModel :=
  S.filter (fun r => decide (r.NameHash = h) && decide (r.BlockNumber = b))

/-- A lower-casing that agrees with `strings.ToLower` on the strings of ASCII characters and on
the string `ÄddrÇhanged_R`, whose letters outside ASCII have lower-case forms too. -/
def unicodeLower (s : String) : String :=
  if s = "ÄddrÇhanged_R" then "äddrçhanged_r" else toLower s

/-- The interfaces of scenario "early" with `unicodeLower` for `strings.ToLower`. -/
def unicodeEnv : Env World :=
  simEnv { demoChain earlyLogs noFault with lower := unicodeLower }

/-! ## Frame lemmas: what a method leaves unchanged in the transformer -/

theorem Prog.pure_run {σ α : Type} (a : α) (s : State σ) :
    (pure a : Prog σ α) s = (Except.ok a, s) := rfl

theorem Prog.bind_run {σ α β : Type} (x : Prog σ α) (f : α → Prog σ β) (s : State σ) :
    (x >>= f) s = Prog.bind x f s := rfl

theorem Keeps.of_pure {σ α β : Type} (f : Transformer → β) (a : α) :
    Keeps f (pure a : Prog σ α) := fun _ => rfl

theorem Keeps.of_bind {σ α β γ : Type} {f : Transformer → γ} {x : Prog σ α} {g : α → Prog σ β}
    (hx : Keeps f x) (hg : ∀ a, Keeps f (g a)) : Keeps f (x >>= g) := by
  intro s
  have h1 := hx s
  rw [Prog.bind_run]
  unfold Prog.bind
  rcases hxs : x s with ⟨r, s1⟩
  rw [hxs] at h1
  cases r with
  | error e => simpa using h1
  | ok a => simpa using (hg a s1).trans h1

theorem Keeps.of_bind_raw {σ α β γ : Type} {f : Transformer → γ} {x : Prog σ α} {g : α → Prog σ β}
    (hx : Keeps f x) (hg : ∀ a, Keeps f (g a)) : Keeps f (Prog.bind x g) :=
  Keeps.of_bind hx hg

theorem Keeps.of_call {σ α β : Type} (f : Transformer → β) (op : σ → Except Error α × σ) :
    Keeps f (call op) := fun _ => rfl

theorem Keeps.of_callPure {σ α β : Type} (f : Transformer → β) (op : σ → α × σ) :
    Keeps f (callPure op) := fun _ => rfl

theorem Keeps.of_getTr {σ β : Type} (f : Transformer → β) : Keeps f (getTr : Prog σ Transformer) :=
  fun _ => rfl

theorem Keeps.of_getWorld {σ β : Type} (f : Transformer → β) : Keeps f (getWorld : Prog σ σ) :=
  fun _ => rfl

theorem Keeps.of_modifyTr {σ β : Type} {f : Transformer → β} {g : Transformer → Transformer}
    (h : ∀ t, f (g t) = f t) : Keeps f (modifyTr g : Prog σ Unit) := fun s => h s.tr

theorem Keeps.of_ite {σ α β : Type} {f : Transformer → β} {c : Prop} [Decidable c]
    {x y : Prog σ α} (hx : Keeps f x) (hy : Keeps f y) : Keeps f (if c then x else y) := by
  split
  · exact hx
  · exact hy

theorem Keeps.of_forEach {σ α β : Type} {f : Transformer → β} {body : α → Prog σ Unit}
    (h : ∀ a, Keeps f (body a)) (xs : List α) : Keeps f (forEach xs body) := by
  induction xs with
  | nil => exact Keeps.of_pure f ()
  | cons x rest ih =>
    unfold DomainRecords.forEach
    exact Keeps.of_bind_raw (h x) (fun _ => ih)

theorem Keeps.of_updateRecord {σ β : Type} (f : Transformer → β) (env : Env σ) (node : String)
    (b : Int) (assign : DomainModel → DomainModel) :
    Keeps f (updateRecord env node b assign) :=
  Keeps.of_bind (Keeps.of_call f _) (fun _ => Keeps.of_call f _)

theorem Keeps.of_processNewOwner {σ β : Type} (f : Transformer → β) (env : Env σ) (b : Int)
    (l : Log) : Keeps f (processNewOwner env b l) :=
  Keeps.of_bind (Keeps.of_call f _) (fun _ =>
    Keeps.of_bind (Keeps.of_ite (Keeps.of_call f _) (Keeps.of_pure f _)) (fun _ => Keeps.of_call f _))

theorem Keeps.of_processRegistryLogs {σ β : Type} {f : Transformer → β}
    (h : ∀ t addrs, f { t with ResolverAddresses := addrs } = f t)
    (env : Env σ) (logs : List (String × List Log)) (b : Int) :
    Keeps f (processRegistryLogs env logs b) :=
  Keeps.of_bind (Keeps.of_forEach (Keeps.of_processNewOwner f env b) _) (fun _ =>
    Keeps.of_bind (Keeps.of_forEach (fun _ => Keeps.of_updateRecord f env _ b _) _) (fun _ =>
      Keeps.of_bind (Keeps.of_forEach (fun _ => Keeps.of_updateRecord f env _ b _) _) (fun _ =>
        Keeps.of_forEach (fun _ =>
          Keeps.of_bind (Keeps.of_updateRecord f env _ b _) (fun _ =>
            Keeps.of_modifyTr (fun t => h t _))) _)))

theorem Keeps.of_processResolverLogs {σ β : Type} (f : Transformer → β)
    (env : Env σ) (logs : List (String × List Log)) (b : Int) :
    Keeps f (processResolverLogs env logs b) :=
  Keeps.of_bind (Keeps.of_forEach (fun _ => Keeps.of_updateRecord f env _ b _) _) (fun _ =>
  Keeps.of_bind (Keeps.of_forEach (fun _ => Keeps.of_updateRecord f env _ b _) _) (fun _ =>
  Keeps.of_bind (Keeps.of_forEach (fun _ => Keeps.of_updateRecord f env _ b _) _) (fun _ =>
  Keeps.of_bind (Keeps.of_forEach (fun _ => Keeps.of_updateRecord f env _ b _) _) (fun _ =>
  Keeps.of_bind (Keeps.of_forEach (fun _ => Keeps.of_updateRecord f env _ b _) _) (fun _ =>
  Keeps.of_bind (Keeps.of_forEach (fun _ => Keeps.of_updateRecord f env _ b _) _) (fun _ =>
  Keeps.of_bind (Keeps.of_forEach (fun _ => Keeps.of_updateRecord f env _ b _) _) (fun _ =>
  Keeps.of_forEach (fun _ => Keeps.of_updateRecord f env _ b _) _)))))))

theorem Keeps.of_registerResolverEvent {σ : Type} (env : Env σ) (addr : String) (e : Event) :
    Keeps indexes (registerResolverEvent env addr e) :=
  Keeps.of_bind (Keeps.of_call _ _) (fun _ =>
    Keeps.of_bind (Keeps.of_modifyTr (fun _ => rfl)) (fun _ => Keeps.of_modifyTr (fun _ => rfl)))

theorem Keeps.of_probeResolver {σ : Type} (env : Env σ) (b : Int) (addr : String) :
    Keeps indexes (probeResolver env b addr) :=
  Keeps.of_bind (Keeps.of_callPure _ _) (fun _ =>
    Keeps.of_ite (Keeps.of_modifyTr (fun _ => rfl))
      (Keeps.of_bind (Keeps.of_call _ _) (fun _ =>
        Keeps.of_bind (Keeps.of_getWorld _) (fun _ =>
          Keeps.of_bind (Keeps.of_modifyTr (fun _ => rfl)) (fun _ =>
            Keeps.of_bind (Keeps.of_getTr _) (fun _ =>
              Keeps.of_forEach (Keeps.of_registerResolverEvent env addr) _))))))

theorem Keeps.of_configResolver {σ : Type} (env : Env σ) (b : Int) (addr : String) :
    Keeps indexes (configResolver env b addr) :=
  Keeps.of_bind (Keeps.of_getTr _) (fun _ =>
    Keeps.of_ite (Keeps.of_pure _ _) (Keeps.of_ite (Keeps.of_pure _ _) (Keeps.of_probeResolver env b addr)))

theorem Keeps.of_configResolvers {σ : Type} (env : Env σ) (b : Int) :
    Keeps indexes (configResolvers env b) :=
  Keeps.of_bind (Keeps.of_getTr _) (fun _ => Keeps.of_forEach (Keeps.of_configResolver env b) _)

theorem Keeps.of_watchResolverHeader {σ : Type} (env : Env σ) (addr : String) (c : Contract)
    (h : Header) : Keeps indexes (watchResolverHeader env addr c h) :=
  Keeps.of_bind (Keeps.of_getTr _) (fun _ =>
    Keeps.of_bind (Keeps.of_call _ _) (fun _ =>
      Keeps.of_ite (Keeps.of_call _ _)
        (Keeps.of_bind (Keeps.of_call _ _) (fun _ =>
          Keeps.of_bind (Keeps.of_processResolverLogs _ env _ _) (fun _ =>
            Keeps.of_bind (Keeps.of_getTr _) (fun _ => Keeps.of_call _ _))))))

theorem Keeps.of_watchResolver {σ : Type} (env : Env σ) (entry : String × Contract) :
    Keeps indexes (watchResolver env entry) :=
  Keeps.of_bind (Keeps.of_call _ _) (fun _ =>
    Keeps.of_bind (Keeps.of_getTr _) (fun _ =>
      Keeps.of_bind (Keeps.of_call _ _) (fun _ =>
        Keeps.of_forEach (Keeps.of_watchResolverHeader env _ _) _)))

theorem Keeps.of_watchResolvers {σ : Type} (env : Env σ) :
    Keeps indexes (watchResolvers env) :=
  Keeps.of_bind (Keeps.of_getTr _) (fun _ => Keeps.of_forEach (Keeps.of_watchResolver env) _)

theorem Keeps.of_executeHeader {σ : Type} (env : Env σ) (h : Header) :
    Keeps indexes (executeHeader env h) :=
  Keeps.of_bind (Keeps.of_getTr _) (fun _ =>
    Keeps.of_bind (Keeps.of_call _ _) (fun _ =>
      Keeps.of_ite (Keeps.of_call _ _)
        (Keeps.of_bind (Keeps.of_call _ _) (fun _ =>
          Keeps.of_bind (Keeps.of_processRegistryLogs (f := indexes) (fun _ _ => rfl) env _ _) (fun _ =>
            Keeps.of_bind (Keeps.of_getTr _) (fun _ =>
              Keeps.of_bind (Keeps.of_call _ _) (fun _ => Keeps.of_configResolvers env _)))))))

theorem Prog.bind_ok {σ α β : Type} {x : Prog σ α} {f : α → Prog σ β} {s s1 : State σ} {a : α}
    (h : x s = (Except.ok a, s1)) : Prog.bind x f s = f a s1 := by
  simp [Prog.bind, h]

theorem Prog.bind_error {σ α β : Type} {x : Prog σ α} {f : α → Prog σ β} {s s1 : State σ}
    {e : Error} (h : x s = (Except.error e, s1)) : Prog.bind x f s = (Except.error e, s1) := by
  simp [Prog.bind, h]

theorem Prog.seq_ok {σ α β : Type} {x : Prog σ α} {f : α → Prog σ β} {s s1 : State σ} {a : α}
    (h : x s = (Except.ok a, s1)) : (x >>= f) s = f a s1 :=
  Prog.bind_ok h

theorem Prog.seq_error {σ α β : Type} {x : Prog σ α} {f : α → Prog σ β} {s s1 : State σ}
    {e : Error} (h : x s = (Except.error e, s1)) : (x >>= f) s = (Except.error e, s1) :=
  Prog.bind_error h

theorem Execute_ok {σ : Type} (env : Env σ) (s : State σ) (hs : List Header) (w1 : σ)
    (h : env.MissingHeadersForAll s.tr.registryIndex (-1) s.tr.registryEventIds
      (afterUpdate env s).world = (Except.ok hs, w1)) :
    Execute env s = executeRest env hs { s with world := w1 } := by
  unfold afterUpdate at h
  unfold Execute executeRest
  simp only [Prog.bind_run, Prog.bind, getTr, call, h]

theorem Execute_error {σ : Type} (env : Env σ) (s : State σ) (e : Error) (w1 : σ)
    (h : env.MissingHeadersForAll s.tr.registryIndex (-1) s.tr.registryEventIds
      (afterUpdate env s).world = (Except.error e, w1)) :
    Execute env s = (Except.error e, { s with world := w1 }) := by
  unfold afterUpdate at h
  unfold Execute
  simp only [Prog.bind_run, Prog.bind, getTr, call, h]

theorem advanceIndexes_nil {σ : Type} (s : State σ) :
    advanceIndexes ([] : List Header) s = (Except.ok (), s) := rfl

theorem advanceIndexes_last {σ : Type} (hs : List Header) (last : Header)
    (h : hs.getLast? = some last) (s : State σ) :
    advanceIndexes hs s = (Except.ok (),
      { s with tr := { s.tr with
          resolverIndex := s.tr.registryIndex
          registryIndex := int64 (last.BlockNumber + 1) } }) := by
  unfold advanceIndexes
  rw [h]
  rfl

/-- The cursors after the three stages of `Execute` that follow `MissingHeadersForAll`, when
the registry pass over `hs` does not fail: advanced if `hs` has a last header, else unchanged.
The resolver pass does not touch them, whether it fails or not. -/
theorem executeRest_indexes {σ : Type} (env : Env σ) (hs : List Header) (s s2 : State σ)
    (h1 : forEach hs (executeHeader env) s = (Except.ok (), s2)) :
    indexes (executeRest env hs s).2.tr =
      match hs.getLast? with
      | none => indexes s.tr
      | some last => (int64 (last.BlockNumber + 1), s.tr.registryIndex) := by
  have k1 : indexes s2.tr = indexes s.tr := by
    have := Keeps.of_forEach (Keeps.of_executeHeader env) hs s
    rw [h1] at this
    exact this
  unfold executeRest
  rw [Prog.bind_ok h1]
  cases hl : hs.getLast? with
  | none =>
    have hnil : hs = [] := List.getLast?_eq_none_iff.mp hl
    subst hnil
    rw [Prog.bind_ok (advanceIndexes_nil s2)]
    exact (Keeps.of_watchResolvers env s2).trans k1
  | some last =>
    rw [Prog.bind_ok (advanceIndexes_last hs last hl s2)]
    refine (Keeps.of_watchResolvers env _).trans ?_
    simp only [indexes, Prod.mk.injEq] at k1 ⊢
    exact ⟨trivial, k1.1⟩

/-- An `int64` expression whose mathematical result is within the range has that result. -/
theorem int64_of_range (x : Int) (h1 : -9223372036854775808 ≤ x)
    (h2 : x < 9223372036854775808) : int64 x = x := by
  unfold int64
  omega

/-- The result of an `int64` expression is within the range of `int64`. -/
theorem int64_range (x : Int) :
    -9223372036854775808 ≤ int64 x ∧ int64 x < 9223372036854775808 := by
  unfold int64
  omega

/-- C1: an `Execute` pass that returns no error leaves the cursors as follows.  If
`MissingHeadersForAll` returned a non-empty list `hs` for the registry, `resolverIndex` is the
old `registryIndex` and `registryIndex` is the `int64` sum of the block number of the last
header of `hs` and 1: that block number plus 1 for every block number of the `int64` range
below the largest one, 9223372036854775807, at which the sum wraps around to
-9223372036854775808.  If it returned the empty list, both cursors are unchanged. -/
theorem Execute_success_indexes {σ : Type} (env : Env σ) (s : State σ) (hs : List Header)
    (w1 : σ)
    (hmissing : env.MissingHeadersForAll s.tr.registryIndex (-1) s.tr.registryEventIds
      (afterUpdate env s).world = (Except.ok hs, w1))
    (hok : (Execute env s).1 = Except.ok ()) :
    (∀ hne : hs ≠ [],
      (Execute env s).2.tr.resolverIndex = s.tr.registryIndex ∧
      (Execute env s).2.tr.registryIndex = int64 ((hs.getLast hne).BlockNumber + 1) ∧
      (-9223372036854775808 ≤ (hs.getLast hne).BlockNumber →
        (hs.getLast hne).BlockNumber < 9223372036854775807 →
        (Execute env s).2.tr.registryIndex = (hs.getLast hne).BlockNumber + 1) ∧
      ((hs.getLast hne).BlockNumber = 9223372036854775807 →
        (Execute env s).2.tr.registryIndex = -9223372036854775808)) ∧
    (hs = [] →
      (Execute env s).2.tr.resolverIndex = s.tr.resolverIndex ∧
      (Execute env s).2.tr.registryIndex = s.tr.registryIndex) := by
  rw [Execute_ok env s hs w1 hmissing] at hok ⊢
  rcases h1 : forEach hs (executeHeader env) { s with world := w1 } with ⟨r1, s2⟩
  cases r1 with
  | error e =>
    unfold executeRest at hok
    rw [Prog.bind_error h1] at hok
    cases hok
  | ok u =>
    have key := executeRest_indexes env hs _ s2 h1
    constructor
    · intro hne
      rw [List.getLast?_eq_getLast hs hne] at key
      simp only [indexes, Prod.mk.injEq] at key
      refine ⟨key.2, key.1, fun h1 h2 => ?_, fun h => ?_⟩
      · rw [key.1]
        exact int64_of_range _ (by omega) (by omega)
      · rw [key.1, h]
        decide
    · intro hnil
      subst hnil
      simp only [indexes, List.getLast?_nil, Prod.mk.injEq] at key
      exact ⟨key.2, key.1⟩

/-- The scenarios start in the state that `Init` produces. -/
theorem Init_demoConfigured :
    Init (simEnv (demoChain earlyLogs noFault)) ⟨demoConfigured, { headers := [⟨1, 100⟩, ⟨2, 110⟩] }⟩
      = (Except.ok (), demoStart) := by
  decide!

/-- C1, at the scenario "early": both headers are returned, the pass succeeds, and the cursors
end at 100 (the old registry cursor) and 111. -/
theorem Execute_success_indexes_witness :
    (Execute (simEnv (demoChain earlyLogs noFault)) demoStart).1 = Except.ok () ∧
    (Execute (simEnv (demoChain earlyLogs noFault)) demoStart).2.tr.resolverIndex = 100 ∧
    (Execute (simEnv (demoChain earlyLogs noFault)) demoStart).2.tr.registryIndex = 111 := by
  have hok : (Execute (simEnv (demoChain earlyLogs noFault)) demoStart).1 = Except.ok () := by
    decide!
  have h := (Execute_success_indexes (simEnv (demoChain earlyLogs noFault)) demoStart
    [⟨1, 100⟩, ⟨2, 110⟩] (afterUpdate (simEnv (demoChain earlyLogs noFault)) demoStart).world
    (by decide!) hok).1 (by decide)
  exact ⟨hok, h.1, h.2.2.1 (by decide) (by decide)⟩

/-- C2, at the failing input: in scenario "early" the log fetch for resolver `R` fails in the
resolver pass.  `Execute` returns the error, yet the cursors have moved from (100, 0) to
(111, 100): lines 215-218 assign them before `watchResolvers` runs. -/
theorem Execute_resolver_error_moves_indexes :
    (Execute (simEnv (demoChain earlyLogs fetchFault)) demoStart).1 = Except.error "FetchFailed" ∧
    demoStart.tr.registryIndex = 100 ∧ demoStart.tr.resolverIndex = 0 ∧
    (Execute (simEnv (demoChain earlyLogs fetchFault)) demoStart).2.tr.registryIndex = 111 ∧
    (Execute (simEnv (demoChain earlyLogs fetchFault)) demoStart).2.tr.resolverIndex = 100 := by
  decide!

/-- C4, at the failing input: the pass of scenario "early" is aborted by the failing fetch for
`R` at header 1 (block 100), which stays unchecked for `R`.  The next pass, in which nothing
fails and the registry has the new header 3 (block 120), succeeds; it asks for the headers of
`R` in [111, 120] only, never fetches the logs of `R` at header 1, and leaves header 1
unchecked for `R`, with the cursors at 121 and 111. -/
theorem Execute_skips_header_after_abort :
    (Execute (simEnv (demoChain earlyLogs fetchFault)) demoStart).1 = Except.error "FetchFailed" ∧
    (1, "addrchanged_r") ∉ afterAbort.world.checked ∧
    (Execute (simEnv (demoChain earlyLogs noFault)).traced resumeStart).1 = Except.ok () ∧
    requestedRanges ["addrchanged_r"]
        (Execute (simEnv (demoChain earlyLogs noFault)).traced resumeStart).2.world.2
      = [(111, 120)] ∧
    Call.FetchLogs ["R"] ["t1"] ⟨1, 100⟩ ∉
      (Execute (simEnv (demoChain earlyLogs noFault)).traced resumeStart).2.world.2 ∧
    (1, "addrchanged_r") ∉
      (Execute (simEnv (demoChain earlyLogs noFault)).traced resumeStart).2.world.1.checked ∧
    indexes (Execute (simEnv (demoChain earlyLogs noFault)).traced resumeStart).2.tr
      = (121, 111) := by
  decide!

/-! ## Calls made by a method, under an invariant of the transformer -/

theorem EmitsAt.refl {σ : Type} {I : Transformer → Prop} {Q : Call → Prop}
    (s : State (σ × List Call)) (h : I s.tr) :
    I s.tr ∧ ∃ l : List Call, s.world.2 = s.world.2 ++ l ∧ ∀ c ∈ l, Q c :=
  ⟨h, [], by simp, by simp⟩

theorem Emits.pure {σ α : Type} (I : Transformer → Prop) (Q : Call → Prop) (a : α) :
    Emits I Q (pure a : Prog (σ × List Call) α) :=
  fun s h => EmitsAt.refl s h

theorem Emits.fail {σ α : Type} (I : Transformer → Prop) (Q : Call → Prop) (e : Error) :
    Emits I Q (fail e : Prog (σ × List Call) α) :=
  fun s h => EmitsAt.refl s h

theorem Emits.getTr {σ : Type} (I : Transformer → Prop) (Q : Call → Prop) :
    Emits I Q (getTr : Prog (σ × List Call) Transformer) :=
  fun s h => EmitsAt.refl s h

theorem Emits.getWorld {σ : Type} (I : Transformer → Prop) (Q : Call → Prop) :
    Emits I Q (getWorld : Prog (σ × List Call) (σ × List Call)) :=
  fun s h => EmitsAt.refl s h

theorem Emits.modifyTr {σ : Type} {I : Transformer → Prop} (Q : Call → Prop)
    {g : Transformer → Transformer} (hg : ∀ t, I t → I (g t)) :
    Emits I Q (modifyTr g : Prog (σ × List Call) Unit) :=
  fun s h => ⟨hg s.tr h, [], by simp [DomainRecords.modifyTr], by simp⟩

theorem EmitsAt.andThen {σ α β : Type} {I : Transformer → Prop} {Q : Call → Prop}
    {x : Prog (σ × List Call) α} {f : α → Prog (σ × List Call) β} {s : State (σ × List Call)}
    (hx : EmitsAt I Q x s) (hf : ∀ a, Emits I Q (f a)) : EmitsAt I Q (x >>= f) s := by
  unfold EmitsAt at hx ⊢
  rw [Prog.bind_run]
  unfold Prog.bind
  rcases hxs : x s with ⟨r, s1⟩
  rw [hxs] at hx
  obtain ⟨hI, l, hl, hQ⟩ := hx
  cases r with
  | error e => exact ⟨hI, l, hl, hQ⟩
  | ok a =>
    obtain ⟨hI2, l2, hl2, hQ2⟩ := hf a s1 hI
    refine ⟨hI2, l ++ l2, ?_, ?_⟩
    · simp only at hl hl2 ⊢
      rw [hl2, hl, List.append_assoc]
    · intro c hc
      rcases List.mem_append.mp hc with h | h
      · exact hQ c h
      · exact hQ2 c h

theorem Emits.bind {σ α β : Type} {I : Transformer → Prop} {Q : Call → Prop}
    {x : Prog (σ × List Call) α} {f : α → Prog (σ × List Call) β}
    (hx : Emits I Q x) (hf : ∀ a, Emits I Q (f a)) : Emits I Q (x >>= f) :=
  fun s h => EmitsAt.andThen (hx s h) hf

theorem Emits.ite {σ α : Type} {I : Transformer → Prop} {Q : Call → Prop} {c : Prop}
    [Decidable c] {x y : Prog (σ × List Call) α} (hx : Emits I Q x) (hy : Emits I Q y) :
    Emits I Q (if c then x else y) := by
  split
  · exact hx
  · exact hy

theorem Emits.forEach {σ α : Type} {I : Transformer → Prop} {Q : Call → Prop}
    {body : α → Prog (σ × List Call) Unit} (h : ∀ a, Emits I Q (body a)) (xs : List α) :
    Emits I Q (forEach xs body) := by
  induction xs with
  | nil => exact Emits.pure I Q ()
  | cons x rest ih =>
    unfold DomainRecords.forEach
    exact Emits.bind (h x) (fun _ => ih)

/-- A call through a recording interface: the one call `c` is appended. -/
theorem Emits.call {σ α : Type} (I : Transformer → Prop) {Q : Call → Prop}
    (op : σ × List Call → Except Error α × (σ × List Call)) (c : Call)
    (hop : ∀ w, (op w).2.2 = w.2 ++ [c]) (hc : Q c) : Emits I Q (call op) :=
  fun s h => ⟨h, [c], hop s.world, by simpa using hc⟩

theorem Emits.callPure {σ α : Type} (I : Transformer → Prop) {Q : Call → Prop}
    (op : σ × List Call → α × (σ × List Call)) (c : Call)
    (hop : ∀ w, (op w).2.2 = w.2 ++ [c]) (hc : Q c) : Emits I Q (callPure op) :=
  fun s h => ⟨h, [c], hop s.world, by simpa using hc⟩

theorem Emits.weaken {σ α : Type} {I : Transformer → Prop} {Q R : Call → Prop}
    {x : Prog (σ × List Call) α} (h : Emits I Q x) (hQR : ∀ c, Q c → R c) : Emits I R x := by
  intro s hs
  obtain ⟨hI, l, hl, hQ⟩ := h s hs
  exact ⟨hI, l, hl, fun c hc => hQR c (hQ c hc)⟩

/-- The calls of `updateRecord`: one `GetRecord`, then at most one `CreateRecord`, of a
record with the block number of the header. -/
theorem updateRecord_emits {σ : Type} (I : Transformer → Prop) {Q : Call → Prop} (env : Env σ)
    (node : String) (b : Int) (assign : DomainModel → DomainModel)
    (hget : Q (Call.GetRecord node b))
    (hcreate : ∀ r : DomainModel, Q (Call.CreateRecord (assign { r with BlockNumber := b }))) :
    Emits I Q (updateRecord env.traced node b assign) :=
  Emits.bind (Emits.call I _ _ (fun _ => rfl) hget)
    (fun r => Emits.call I _ _ (fun _ => rfl) (hcreate r))

/-! ## Scenarios evaluated -/

/-- C3, counterexample: in scenario "lost" the store is empty before header 1, whose events are
NewOwner(p, l, A) and a Transfer of a node without a record.  `Execute` returns NotFound and
marks nothing checked, yet the row created for NewOwner is in the store: the writes of the header
are neither all persisted nor all absent. -/
theorem Execute_partial_header_writes :
    demoStart.world.records = [] ∧
    (Execute (simEnv (demoChain lostLogs noFault)) demoStart).1 = Except.error "NotFound" ∧
    (Execute (simEnv (demoChain lostLogs noFault)) demoStart).2.world.checked = [] ∧
    (Execute (simEnv (demoChain lostLogs noFault)) demoStart).2.world.records =
      [{ NameHash := "pl", BlockNumber := 100, LabelHash := "l", ParentHash := "p",
         Owner := "A" }] := by
  decide!

/-- C5, at the failing input: in scenario "late" the resolver `R` is announced in header 2 and
configured with StartingBlock 110.  The same pass asks for the headers of `R` in [100, 110],
fetches the logs of `R` at header 1 (block 100) and folds its AddrChanged into a row at
block 100. -/
theorem watchResolvers_below_StartingBlock :
    (Execute (simEnv (demoChain lateLogs noFault)).traced demoStartTraced).1 = Except.ok () ∧
    (mapGet (Execute (simEnv (demoChain lateLogs noFault)).traced demoStartTraced).2.tr.Resolvers
      "R" {}).StartingBlock = 110 ∧
    requestedRanges ["addrchanged_r"]
        (Execute (simEnv (demoChain lateLogs noFault)).traced demoStartTraced).2.world.2
      = [(100, 110)] ∧
    fetchedHeaders "R"
        (Execute (simEnv (demoChain lateLogs noFault)).traced demoStartTraced).2.world.2
      = [⟨1, 100⟩, ⟨2, 110⟩] ∧
    (createdRecords
        (Execute (simEnv (demoChain lateLogs noFault)).traced demoStartTraced).2.world.2).getLast?
      = some { NameHash := "pl", BlockNumber := 100, LabelHash := "l", ParentHash := "p",
               Owner := "A", PointsToAddr := "C" } := by
  decide!

/-- C7, at the failing input: in scenario "early" the pass succeeds.  The only event that sets
points-to-addr of `pl` is AddrChanged(pl, C) at block 100, and it is folded into the row at
block 100; the row of `pl` with the greatest block number, 110, has an empty
points-to-addr. -/
theorem Execute_latest_row_misses_resolver_field :
    (Execute (simEnv (demoChain earlyLogs noFault)) demoStart).1 = Except.ok () ∧
    (getRecord (Execute (simEnv (demoChain earlyLogs noFault)) demoStart).2.world.records
      "pl" 100).map (fun r => (r.BlockNumber, r.Owner, r.PointsToAddr))
        = some (100, "A", "C") ∧
    (Execute (simEnv (demoChain earlyLogs noFault)) demoStart).2.world.records.map
      (fun r => r.BlockNumber) = [100, 110] ∧
    (getRecord (Execute (simEnv (demoChain earlyLogs noFault)) demoStart).2.world.records
      "pl" 110).map (fun r => (r.BlockNumber, r.Owner, r.PointsToAddr))
        = some (110, "B", "") := by
  decide!

/-- C8, counterexample: in scenario "early" the headers are returned in ascending block order
and the `CreateRecord` calls for the name hash `pl` carry the block numbers 100, 100, 110, 100:
the resolver pass creates a record at block 100 after the registry pass has created one at
block 110.  That last call also replaces the existing row (pl, 100), whose points-to-addr
changes from empty to C. -/
theorem Execute_creates_out_of_block_order :
    requestedRanges demoTransformer.registryEventIds
        (Execute (simEnv (demoChain earlyLogs noFault)).traced demoStartTraced).2.world.2
      = [(100, -1)] ∧
    ((createdRecords
        (Execute (simEnv (demoChain earlyLogs noFault)).traced demoStartTraced).2.world.2).filter
      (fun r => decide (r.NameHash = "pl"))).map (fun r => (r.BlockNumber, r.PointsToAddr))
      = [(100, ""), (100, ""), (110, ""), (100, "C")] ∧
    (Execute (simEnv (demoChain earlyLogs noFault)).traced demoStartTraced).2.world.1.records.map
      (fun r => (r.NameHash, r.BlockNumber, r.PointsToAddr))
      = [("pl", 100, "C"), ("pl", 110, "")] := by
  decide!

/-! ## The poison set -/

theorem mapHas_mapSet {V : Type} (m : List (String × V)) (k a : String) (v : V) :
    mapHas (mapSet m k v) a = (decide (k = a) || mapHas m a) := by
  induction m with
  | nil => simp [mapSet, mapHas]
  | cons x rest ih =>
    obtain ⟨k1, v1⟩ := x
    by_cases h1 : k1 = k
    · by_cases h2 : k = a
      · simp [mapSet, mapHas, h1, h2]
      · simp [mapSet, mapHas, h1, h2]
    · by_cases h2 : k1 = a
      · subst h2
        simp [mapSet, mapHas, h1]
      · simp [mapSet, mapHas, h1, h2, ih]

theorem mapHas_mapSet_of_ne {V : Type} (m : List (String × V)) (k a : String) (v : V)
    (h : k ≠ a) : mapHas (mapSet m k v) a = mapHas m a := by
  simp [mapHas_mapSet, h]

theorem updateRecord_emits_ok {σ : Type} (I : Transformer → Prop) {Q : Call → Prop}
    (env : Env σ) (node : String) {b : Int} (hQ : RepoCallsOk Q b)
    (assign : DomainModel → DomainModel)
    (hassign : ∀ r, (assign r).BlockNumber = r.BlockNumber) :
    Emits I Q (updateRecord env.traced node b assign) :=
  updateRecord_emits I env node b assign (hQ.getRecord node)
    (fun _ => hQ.createRecord _ ((hassign _).trans rfl))

theorem processNewOwner_emits {σ : Type} (I : Transformer → Prop) {Q : Call → Prop}
    (env : Env σ) {b : Int} (hQ : RepoCallsOk Q b) (l : Log) :
    Emits I Q (processNewOwner env.traced b l) :=
  Emits.bind (Emits.call I _ _ (fun _ => rfl) (hQ.recordExists _)) (fun _ =>
    Emits.bind
      (Emits.ite (Emits.call I _ _ (fun _ => rfl) (hQ.getRecord _)) (Emits.pure I Q _))
      (fun _ => Emits.call I _ _ (fun _ => rfl) (hQ.createRecord _ rfl)))

theorem processRegistryLogs_emits {σ : Type} {I : Transformer → Prop} {Q : Call → Prop}
    (hI : ∀ t addrs, I t → I { t with ResolverAddresses := addrs })
    (env : Env σ) (logs : List (String × List Log)) {b : Int} (hQ : RepoCallsOk Q b) :
    Emits I Q (processRegistryLogs env.traced logs b) :=
  Emits.bind (Emits.forEach (processNewOwner_emits I env hQ) _) (fun _ =>
    Emits.bind (Emits.forEach (fun _ => updateRecord_emits_ok I env _ hQ _ (by intro _; rfl)) _)
      (fun _ =>
      Emits.bind (Emits.forEach (fun _ => updateRecord_emits_ok I env _ hQ _ (by intro _; rfl)) _)
        (fun _ =>
        Emits.forEach (fun _ =>
          Emits.bind (updateRecord_emits_ok I env _ hQ _ (by intro _; rfl)) (fun _ =>
            Emits.modifyTr Q (fun t h => hI t _ h))) _)))

theorem processResolverLogs_emits {σ : Type} (I : Transformer → Prop) {Q : Call → Prop}
    (env : Env σ) (logs : List (String × List Log)) {b : Int} (hQ : RepoCallsOk Q b) :
    Emits I Q (processResolverLogs env.traced logs b) :=
  Emits.bind (Emits.forEach (fun _ => updateRecord_emits_ok I env _ hQ _ (by intro _; rfl)) _) (fun _ =>
  Emits.bind (Emits.forEach (fun _ => updateRecord_emits_ok I env _ hQ _ (by intro _; rfl)) _) (fun _ =>
  Emits.bind (Emits.forEach (fun _ => updateRecord_emits_ok I env _ hQ _ (by intro _; rfl)) _) (fun _ =>
  Emits.bind (Emits.forEach (fun _ => updateRecord_emits_ok I env _ hQ _ (by intro _; rfl)) _) (fun _ =>
  Emits.bind (Emits.forEach (fun _ => updateRecord_emits_ok I env _ hQ _ (by intro _; rfl)) _) (fun _ =>
  Emits.bind (Emits.forEach (fun _ => updateRecord_emits_ok I env _ hQ _ (by intro _; rfl)) _) (fun _ =>
  Emits.bind (Emits.forEach (fun _ => updateRecord_emits_ok I env _ hQ _ (by intro _; rfl)) _) (fun _ =>
  Emits.forEach (fun _ => updateRecord_emits_ok I env _ hQ _ (by intro _; rfl)) _)))))))

theorem notGetABI_repo (a : String) (b : Int) : RepoCallsOk (notGetABI a) b :=
  ⟨fun _ => trivial, fun _ => trivial, fun _ _ => trivial⟩

theorem registerResolverEvent_poisoned {σ : Type} (env : Env σ) (a : String)
    (known : Bool) (addr : String) (e : Event) :
    Emits (poisoned a known) (notGetABI a) (registerResolverEvent env.traced addr e) :=
  Emits.bind (Emits.call _ _ _ (fun _ => rfl) trivial) (fun _ =>
    Emits.bind (Emits.modifyTr _ (fun _ h => h)) (fun _ => Emits.modifyTr _ (fun _ h => h)))

theorem EmitsAt.getTr_bind {σ β : Type} {I : Transformer → Prop} {Q : Call → Prop}
    {f : Transformer → Prog (σ × List Call) β} {s : State (σ × List Call)}
    (h : EmitsAt I Q (f s.tr) s) : EmitsAt I Q (getTr >>= f) s := h

/-- The probe of an address `addr` other than `a`. -/
theorem probeResolver_poisoned {σ : Type} (env : Env σ) (a : String) (known : Bool)
    (b : Int) (addr : String) (hne : addr ≠ a) :
    Emits (poisoned a known) (notGetABI a) (probeResolver env.traced b addr) := by
  unfold probeResolver
  refine Emits.bind (Emits.callPure _ _ _ (fun _ => rfl) hne) (fun abiStr => Emits.ite ?_ ?_)
  · refine Emits.modifyTr _ (fun t h => ⟨?_, h.2⟩)
    show mapHas (mapSet t.invalidResolvers addr true) a = true
    rw [mapHas_mapSet_of_ne _ _ _ _ hne]
    exact h.1
  · refine Emits.bind (Emits.call _ _ _ (fun _ => rfl) trivial) (fun _ =>
      Emits.bind (Emits.getWorld _ _) (fun w =>
        Emits.bind (Emits.modifyTr _ (fun t h => ⟨h.1, ?_⟩)) (fun _ =>
          Emits.bind (Emits.getTr _ _) (fun _ =>
            Emits.forEach (registerResolverEvent_poisoned env a known addr) _))))
    show mapHas (mapSet t.Resolvers addr _) a = known
    rw [mapHas_mapSet_of_ne _ _ _ _ hne]
    exact h.2

theorem configResolver_poisoned {σ : Type} (env : Env σ) (a : String) (known : Bool)
    (b : Int) (addr : String) :
    Emits (poisoned a known) (notGetABI a) (configResolver env.traced b addr) := by
  intro s hI
  unfold configResolver
  apply EmitsAt.getTr_bind
  by_cases h1 : mapHas s.tr.Resolvers addr = true
  · rw [if_pos h1]
    exact Emits.pure _ _ _ s hI
  · rw [if_neg h1]
    by_cases h2 : mapHas s.tr.invalidResolvers addr = true
    · rw [if_pos h2]
      exact Emits.pure _ _ _ s hI
    · rw [if_neg h2]
      have hne : addr ≠ a := by
        intro h
        rw [h] at h2
        exact h2 hI.1
      exact probeResolver_poisoned env a known b addr hne s hI

theorem configResolvers_poisoned {σ : Type} (env : Env σ) (a : String) (known : Bool)
    (b : Int) : Emits (poisoned a known) (notGetABI a) (configResolvers env.traced b) :=
  Emits.bind (Emits.getTr _ _) (fun _ =>
    Emits.forEach (configResolver_poisoned env a known b) _)

theorem watchResolverHeader_poisoned {σ : Type} (env : Env σ) (a : String) (known : Bool)
    (addr : String) (c : Contract) (h : Header) :
    Emits (poisoned a known) (notGetABI a) (watchResolverHeader env.traced addr c h) :=
  Emits.bind (Emits.getTr _ _) (fun _ =>
    Emits.bind (Emits.call _ _ _ (fun _ => rfl) trivial) (fun _ =>
      Emits.ite (Emits.call _ _ _ (fun _ => rfl) trivial)
        (Emits.bind (Emits.call _ _ _ (fun _ => rfl) trivial) (fun _ =>
          Emits.bind (processResolverLogs_emits _ env _ (notGetABI_repo a _)) (fun _ =>
            Emits.bind (Emits.getTr _ _) (fun _ =>
              Emits.call _ _ _ (fun _ => rfl) trivial))))))

theorem watchResolver_poisoned {σ : Type} (env : Env σ) (a : String) (known : Bool)
    (entry : String × Contract) :
    Emits (poisoned a known) (notGetABI a) (watchResolver env.traced entry) :=
  Emits.bind (Emits.call _ _ _ (fun _ => rfl) trivial) (fun _ =>
    Emits.bind (Emits.getTr _ _) (fun _ =>
      Emits.bind (Emits.call _ _ _ (fun _ => rfl) trivial) (fun _ =>
        Emits.forEach (watchResolverHeader_poisoned env a known _ _) _)))

theorem watchResolvers_poisoned {σ : Type} (env : Env σ) (a : String) (known : Bool) :
    Emits (poisoned a known) (notGetABI a) (watchResolvers env.traced) :=
  Emits.bind (Emits.getTr _ _) (fun _ =>
    Emits.forEach (watchResolver_poisoned env a known) _)

theorem executeHeader_poisoned {σ : Type} (env : Env σ) (a : String) (known : Bool)
    (h : Header) : Emits (poisoned a known) (notGetABI a) (executeHeader env.traced h) :=
  Emits.bind (Emits.getTr _ _) (fun _ =>
    Emits.bind (Emits.call _ _ _ (fun _ => rfl) trivial) (fun _ =>
      Emits.ite (Emits.call _ _ _ (fun _ => rfl) trivial)
        (Emits.bind (Emits.call _ _ _ (fun _ => rfl) trivial) (fun _ =>
          Emits.bind
            (processRegistryLogs_emits (fun _ _ h => h) env _ (notGetABI_repo a _)) (fun _ =>
            Emits.bind (Emits.getTr _ _) (fun _ =>
              Emits.bind (Emits.call _ _ _ (fun _ => rfl) trivial) (fun _ =>
                configResolvers_poisoned env a known _)))))))

theorem advanceIndexes_poisoned {σ : Type} (a : String) (known : Bool)
    (hs : List Header) :
    Emits (poisoned a known) (notGetABI a) (advanceIndexes hs : Prog (σ × List Call) Unit) := by
  unfold advanceIndexes
  cases hs.getLast? with
  | none => exact Emits.pure _ _ _
  | some last =>
    exact Emits.bind (Emits.modifyTr _ (fun _ h => h)) (fun _ => Emits.modifyTr _ (fun _ h => h))

theorem Execute_poisoned {σ : Type} (env : Env σ) (a : String) (known : Bool) :
    Emits (poisoned a known) (notGetABI a) (Execute env.traced) :=
  Emits.bind (Emits.getTr _ _) (fun _ =>
    Emits.bind (Emits.call _ _ _ (fun _ => rfl) trivial) (fun _ =>
      Emits.bind (Emits.call _ _ _ (fun _ => rfl) trivial) (fun hs =>
        Emits.bind (Emits.forEach (executeHeader_poisoned env a known) _) (fun _ =>
          Emits.bind (advanceIndexes_poisoned a known hs) (fun _ =>
            watchResolvers_poisoned env a known)))))

theorem not_mem_of_notGetABI (a : String) (l : List Call) (h : ∀ c ∈ l, notGetABI a c) (b : Int) :
    Call.GetABI a b ∉ l :=
  fun hmem => h _ hmem rfl

/-- C6: once the address `a` is in `invalidResolvers` (as the zero address is after `Init`), then
after any number `n` of further `Execute` passes, failed or not, `a` is still in
`invalidResolvers`, it is in `Resolvers` only if it was there before, and the call log holds no
`GetABI` call for `a` that was not already in it: no pass probes the address again. -/
theorem poison_set_is_permanent {σ : Type} (env : Env σ) (a : String) (n : Nat)
    (s : State (σ × List Call))
    (hin : mapHas s.tr.invalidResolvers a = true)
    (hlog : ∀ b, Call.GetABI a b ∉ s.world.2) :
    mapHas (passes env.traced n s).tr.invalidResolvers a = true ∧
    mapHas (passes env.traced n s).tr.Resolvers a = mapHas s.tr.Resolvers a ∧
    ∀ b, Call.GetABI a b ∉ (passes env.traced n s).world.2 := by
  induction n with
  | zero => exact ⟨hin, rfl, hlog⟩
  | succ n ih =>
    obtain ⟨h1, h2, h3⟩ := ih
    obtain ⟨hI, l, hl, hQ⟩ :=
      Execute_poisoned env a (mapHas s.tr.Resolvers a) (passes env.traced n s) ⟨h1, h2⟩
    refine ⟨hI.1, hI.2, fun b hmem => ?_⟩
    have hmem2 : Call.GetABI a b ∈ (passes env.traced n s).world.2 ++ l := by
      rw [← hl]
      exact hmem
    rcases List.mem_append.mp hmem2 with h | h
    · exact h3 b h
    · exact not_mem_of_notGetABI a l hQ b h

/-- C6, at the zero address seeded by `Init`, over two passes of scenario "early". -/
theorem poison_set_is_permanent_witness :
    mapHas (passes (simEnv (demoChain earlyLogs noFault)).traced 2
      demoStartTraced).tr.invalidResolvers "0x0000000000000000000000000000000000000000" = true ∧
    mapHas (passes (simEnv (demoChain earlyLogs noFault)).traced 2
      demoStartTraced).tr.Resolvers "0x0000000000000000000000000000000000000000" = false ∧
    ∀ b, Call.GetABI "0x0000000000000000000000000000000000000000" b ∉
      (passes (simEnv (demoChain earlyLogs noFault)).traced 2 demoStartTraced).world.2 :=
  poison_set_is_permanent (simEnv (demoChain earlyLogs noFault))
    "0x0000000000000000000000000000000000000000" 2 demoStartTraced (by decide!)
    (fun _ => List.not_mem_nil _)

/-! ## The calls of the two header loops -/

theorem registerResolverEvent_calls {σ : Type} (env : Env σ) {Q : Call → Prop}
    (hother : ∀ c, isRepoCall c = false → Q c) (addr : String) (e : Event) :
    Emits (fun _ => True) Q (registerResolverEvent env.traced addr e) :=
  Emits.bind (Emits.call _ _ _ (fun _ => rfl) (hother _ rfl)) (fun _ =>
    Emits.bind (Emits.modifyTr _ (fun _ h => h)) (fun _ => Emits.modifyTr _ (fun _ h => h)))

theorem probeResolver_calls {σ : Type} (env : Env σ) {Q : Call → Prop}
    (hother : ∀ c, isRepoCall c = false → Q c) (b : Int) (addr : String) :
    Emits (fun _ => True) Q (probeResolver env.traced b addr) :=
  Emits.bind (Emits.callPure _ _ _ (fun _ => rfl) (hother _ rfl)) (fun _ =>
    Emits.ite (Emits.modifyTr _ (fun _ h => h))
      (Emits.bind (Emits.call _ _ _ (fun _ => rfl) (hother _ rfl)) (fun _ =>
        Emits.bind (Emits.getWorld _ _) (fun _ =>
          Emits.bind (Emits.modifyTr _ (fun _ h => h)) (fun _ =>
            Emits.bind (Emits.getTr _ _) (fun _ =>
              Emits.forEach (registerResolverEvent_calls env hother addr) _))))))

theorem configResolvers_calls {σ : Type} (env : Env σ) {Q : Call → Prop}
    (hother : ∀ c, isRepoCall c = false → Q c) (b : Int) :
    Emits (fun _ => True) Q (configResolvers env.traced b) :=
  Emits.bind (Emits.getTr _ _) (fun _ =>
    Emits.forEach (fun addr =>
      Emits.bind (Emits.getTr _ _) (fun _ =>
        Emits.ite (Emits.pure _ _ _)
          (Emits.ite (Emits.pure _ _ _) (probeResolver_calls env hother b addr)))) _)

theorem executeHeader_calls {σ : Type} (env : Env σ) {Q : Call → Prop} (h : Header)
    (hrepo : RepoCallsOk Q h.BlockNumber) (hother : ∀ c, isRepoCall c = false → Q c) :
    Emits (fun _ => True) Q (executeHeader env.traced h) :=
  Emits.bind (Emits.getTr _ _) (fun _ =>
    Emits.bind (Emits.call _ _ _ (fun _ => rfl) (hother _ rfl)) (fun _ =>
      Emits.ite (Emits.call _ _ _ (fun _ => rfl) (hother _ rfl))
        (Emits.bind (Emits.call _ _ _ (fun _ => rfl) (hother _ rfl)) (fun _ =>
          Emits.bind (processRegistryLogs_emits (fun _ _ h => h) env _ hrepo) (fun _ =>
            Emits.bind (Emits.getTr _ _) (fun _ =>
              Emits.bind (Emits.call _ _ _ (fun _ => rfl) (hother _ rfl)) (fun _ =>
                configResolvers_calls env hother _)))))))

theorem watchResolverHeader_calls {σ : Type} (env : Env σ) {Q : Call → Prop} (addr : String)
    (c : Contract) (h : Header)
    (hrepo : RepoCallsOk Q h.BlockNumber) (hother : ∀ c, isRepoCall c = false → Q c) :
    Emits (fun _ => True) Q (watchResolverHeader env.traced addr c h) :=
  Emits.bind (Emits.getTr _ _) (fun _ =>
    Emits.bind (Emits.call _ _ _ (fun _ => rfl) (hother _ rfl)) (fun _ =>
      Emits.ite (Emits.call _ _ _ (fun _ => rfl) (hother _ rfl))
        (Emits.bind (Emits.call _ _ _ (fun _ => rfl) (hother _ rfl)) (fun _ =>
          Emits.bind (processResolverLogs_emits _ env _ hrepo) (fun _ =>
            Emits.bind (Emits.getTr _ _) (fun _ =>
              Emits.call _ _ _ (fun _ => rfl) (hother _ rfl)))))))

theorem createsAt_repo (b : Int) : RepoCallsOk (createsAt b) b :=
  ⟨fun _ => trivial, fun _ => trivial, fun _ h => h⟩

theorem createsAt_other (b : Int) (c : Call) (h : isRepoCall c = false) : createsAt b c := by
  cases c <;> trivial

theorem createdRecords_append (l1 l2 : List Call) :
    createdRecords (l1 ++ l2) = createdRecords l1 ++ createdRecords l2 := by
  simp [createdRecords, List.filterMap_append]

theorem createdRecords_block (b : Int) (l : List Call) (h : ∀ c ∈ l, createsAt b c) :
    ∀ r ∈ createdRecords l, r.BlockNumber = b := by
  intro r hr
  unfold createdRecords at hr
  obtain ⟨c, hc, hcr⟩ := List.mem_filterMap.mp hr
  cases c <;> simp at hcr
  subst hcr
  exact h _ hc

/-- A loop over headers in ascending block order, whose body creates records only at the block
of its header, creates records in ascending block order. -/
theorem forEach_creates_sorted {σ : Type} (body : Header → Prog (σ × List Call) Unit)
    (hbody : ∀ h, Emits (fun _ => True) (createsAt h.BlockNumber) (body h))
    (hs : List Header) (hsorted : hs.Pairwise (fun h1 h2 => h1.BlockNumber ≤ h2.BlockNumber))
    (s : State (σ × List Call)) :
    ∃ l, (forEach hs body s).2.world.2 = s.world.2 ++ l ∧
      (createdRecords l).Pairwise (fun r1 r2 => r1.BlockNumber ≤ r2.BlockNumber) ∧
      ∀ r ∈ createdRecords l, ∃ h ∈ hs, r.BlockNumber = h.BlockNumber := by
  induction hs generalizing s with
  | nil => exact ⟨[], by simp [forEach, Prog.pure_run], by simp [createdRecords], by simp [createdRecords]⟩
  | cons h rest ih =>
    obtain ⟨hhead, hrest⟩ := List.pairwise_cons.mp hsorted
    obtain ⟨-, l1, hl1, hQ1⟩ := hbody h s trivial
    have hb1 := createdRecords_block h.BlockNumber l1 hQ1
    have hpw1 : (createdRecords l1).Pairwise (fun r1 r2 => r1.BlockNumber ≤ r2.BlockNumber) :=
      List.pairwise_iff_forall_sublist.mpr (fun {r1 r2} hsub => by
        have h1 := hb1 r1 (hsub.subset (List.mem_cons_self _ _))
        have h2 := hb1 r2 (hsub.subset (List.mem_cons_of_mem _ (List.mem_singleton_self _)))
        rw [h1, h2])
    unfold forEach
    rcases hx : body h s with ⟨r, s1⟩
    rw [hx] at hl1
    cases r with
    | error e =>
      rw [Prog.bind_error hx]
      exact ⟨l1, hl1, hpw1, fun r hr => ⟨h, List.mem_cons_self _ _, hb1 r hr⟩⟩
    | ok u =>
      rw [Prog.bind_ok hx]
      obtain ⟨l2, hl2, hpw2, hmem2⟩ := ih hrest s1
      refine ⟨l1 ++ l2, ?_, ?_, ?_⟩
      · simp only at hl1
        rw [hl2, hl1, List.append_assoc]
      · rw [createdRecords_append]
        refine List.pairwise_append.mpr ⟨hpw1, hpw2, fun r1 hr1 r2 hr2 => ?_⟩
        obtain ⟨h2, hh2, e2⟩ := hmem2 r2 hr2
        rw [hb1 r1 hr1, e2]
        exact hhead h2 hh2
      · intro r hr
        rw [createdRecords_append] at hr
        rcases List.mem_append.mp hr with hr | hr
        · exact ⟨h, List.mem_cons_self _ _, hb1 r hr⟩
        · obtain ⟨h2, hh2, e2⟩ := hmem2 r hr
          exact ⟨h2, List.mem_cons_of_mem _ hh2, e2⟩

/-- C8, as amended: within the registry's header loop of one `Execute` pass, and within the
header loop of one resolver, over headers `hs` in ascending block order, the `CreateRecord` calls
made for a name hash `h` have non-decreasing block numbers, each the block number of a header of
`hs`.  The calls of the loop are those appended to the call log of the state it starts in. -/
theorem header_loop_creates_in_block_order {σ : Type} (env : Env σ) (hs : List Header)
    (hsorted : hs.Pairwise (fun h1 h2 => h1.BlockNumber ≤ h2.BlockNumber))
    (s : State (σ × List Call)) (h : String) :
    (∃ l, (forEach hs (executeHeader env.traced) s).2.world.2 = s.world.2 ++ l ∧
      ((createdRecords l).filter (fun r => decide (r.NameHash = h))).Pairwise
        (fun r1 r2 => r1.BlockNumber ≤ r2.BlockNumber) ∧
      ∀ r ∈ createdRecords l, ∃ x ∈ hs, r.BlockNumber = x.BlockNumber) ∧
    (∀ addr c,
      ∃ l, (forEach hs (watchResolverHeader env.traced addr c) s).2.world.2 = s.world.2 ++ l ∧
        ((createdRecords l).filter (fun r => decide (r.NameHash = h))).Pairwise
          (fun r1 r2 => r1.BlockNumber ≤ r2.BlockNumber) ∧
        ∀ r ∈ createdRecords l, ∃ x ∈ hs, r.BlockNumber = x.BlockNumber) := by
  constructor
  · obtain ⟨l, hl, hpw, hmem⟩ := forEach_creates_sorted (executeHeader env.traced)
      (fun x => executeHeader_calls env x (createsAt_repo _) (createsAt_other _)) hs hsorted s
    exact ⟨l, hl, hpw.filter _, hmem⟩
  · intro addr c
    obtain ⟨l, hl, hpw, hmem⟩ := forEach_creates_sorted (watchResolverHeader env.traced addr c)
      (fun x => watchResolverHeader_calls env addr c x (createsAt_repo _) (createsAt_other _))
      hs hsorted s
    exact ⟨l, hl, hpw.filter _, hmem⟩

/-- C8 as amended, at the registry loop of scenario "early" over its two headers. -/
theorem header_loop_creates_in_block_order_witness :
    ∃ l, (forEach [⟨1, 100⟩, ⟨2, 110⟩]
        (executeHeader (simEnv (demoChain earlyLogs noFault)).traced) demoStartTraced).2.world.2
        = demoStartTraced.world.2 ++ l ∧
      ((createdRecords l).filter (fun r => decide (r.NameHash = "pl"))).Pairwise
        (fun r1 r2 => r1.BlockNumber ≤ r2.BlockNumber) ∧
      ∀ r ∈ createdRecords l, ∃ x ∈ [(⟨1, 100⟩ : Header), ⟨2, 110⟩],
        r.BlockNumber = x.BlockNumber :=
  (header_loop_creates_in_block_order (simEnv (demoChain earlyLogs noFault))
    [⟨1, 100⟩, ⟨2, 110⟩] (by decide) demoStartTraced "pl").1

/-- C3, as amended: when `processRegistryLogs` (for the registry) or `processResolverLogs` (for
a resolver) returns an error for the decoded logs of a header, the loop body returns that error
and leaves exactly the state that the failed call left: nothing is rolled back, and nothing
more is called, so the header is not marked checked. -/
theorem header_process_error_aborts {σ : Type} (env : Env σ) (header : Header)
    (s s1 s2 s3 : State σ) (raw : List RawLog) (logs : List (String × List Log)) (e : Error)
    (hraw : ¬ raw.length < 1) :
    (call (env.FetchLogs [s.tr.Registry.Address] s.tr.registryEventFilters header) s
        = (Except.ok raw, s1) →
      call (env.ConvertBatch raw s.tr.Registry.Events header.Id) s1 = (Except.ok logs, s2) →
      processRegistryLogs env logs header.BlockNumber s2 = (Except.error e, s3) →
      executeHeader env header s = (Except.error e, s3)) ∧
    (∀ addr resolver,
      call (env.FetchLogs [addr] (mapGet s.tr.resolverEventFilters addr []) header) s
        = (Except.ok raw, s1) →
      call (env.ConvertBatch raw resolver.Events header.Id) s1 = (Except.ok logs, s2) →
      processResolverLogs env logs header.BlockNumber s2 = (Except.error e, s3) →
      watchResolverHeader env addr resolver header s = (Except.error e, s3)) := by
  constructor
  · intro h1 h2 h3
    unfold executeHeader
    rw [Prog.seq_ok (show getTr s = (Except.ok s.tr, s) from rfl), Prog.seq_ok h1, if_neg hraw,
      Prog.seq_ok h2, Prog.seq_error h3]
  · intro addr resolver h1 h2 h3
    unfold watchResolverHeader
    rw [Prog.seq_ok (show getTr s = (Except.ok s.tr, s) from rfl), Prog.seq_ok h1, if_neg hraw,
      Prog.seq_ok h2, Prog.seq_error h3]

/-- C3 as amended, at header 1 of scenario "lost": the loop body returns NotFound and leaves the
state of the failed `processRegistryLogs`, in which the NewOwner row is stored and no flag is
set. -/
theorem header_process_error_aborts_witness :
    executeHeader (simEnv (demoChain lostLogs noFault)) ⟨1, 100⟩ demoStart =
      (Except.error "NotFound",
        (processRegistryLogs (simEnv (demoChain lostLogs noFault)) lostDecoded 100 demoStart).2) ∧
    (processRegistryLogs (simEnv (demoChain lostLogs noFault)) lostDecoded 100
      demoStart).2.world.records.map (fun r => (r.NameHash, r.BlockNumber, r.Owner))
        = [("pl", 100, "A")] ∧
    (processRegistryLogs (simEnv (demoChain lostLogs noFault)) lostDecoded 100
      demoStart).2.world.checked = [] :=
  ⟨(header_process_error_aborts (simEnv (demoChain lostLogs noFault)) ⟨1, 100⟩ demoStart demoStart
      demoStart
      (processRegistryLogs (simEnv (demoChain lostLogs noFault)) lostDecoded 100 demoStart).2
      [rawOwn, rawLost] lostDecoded "NotFound" (by decide)).1
      (by decide!) (by decide!) (by decide!),
    by decide!, by decide!⟩

/-! ## The record store: get-latest obeys I-2 -/

theorem getRecord_mem (S : List DomainModel) (h : String) (B : Int) (r : DomainModel)
    (hr : getRecord S h B = some r) : r ∈ S ∧ r.NameHash = h ∧ r.BlockNumber ≤ B := by
  induction S generalizing r with
  | nil => simp [getRecord] at hr
  | cons x rest ih =>
    unfold getRecord at hr
    cases hrest : getRecord rest h B with
    | none =>
      rw [hrest] at hr
      simp only at hr
      split at hr
      · rename_i hx
        cases hr
        exact ⟨List.mem_cons_self _ _, hx.1, hx.2⟩
      · cases hr
    | some y =>
      rw [hrest] at hr
      simp only at hr
      split at hr
      · rename_i hx
        cases hr
        exact ⟨List.mem_cons_self _ _, hx.1, hx.2.1⟩
      · cases hr
        obtain ⟨h1, h2, h3⟩ := ih r hrest
        exact ⟨List.mem_cons_of_mem _ h1, h2, h3⟩

theorem getRecord_max (S : List DomainModel) (h : String) (B : Int) (r : DomainModel)
    (hr : getRecord S h B = some r) :
    ∀ x ∈ S, x.NameHash = h → x.BlockNumber ≤ B → x.BlockNumber ≤ r.BlockNumber := by
  induction S generalizing r with
  | nil => simp [getRecord] at hr
  | cons x rest ih =>
    unfold getRecord at hr
    cases hrest : getRecord rest h B with
    | none =>
      rw [hrest] at hr
      simp only at hr
      have hnone : ∀ z ∈ rest, ¬ (z.NameHash = h ∧ z.BlockNumber ≤ B) := by
        intro z hz hzz
        clear hr ih
        induction rest with
        | nil => cases hz
        | cons w rest2 ih2 =>
          unfold getRecord at hrest
          cases h2 : getRecord rest2 h B with
          | none =>
            rw [h2] at hrest
            simp only at hrest
            split at hrest
            · cases hrest
            · rename_i hw
              rcases List.mem_cons.mp hz with e | e
              · subst e
                exact hw hzz
              · exact ih2 h2 e
          | some y =>
            rw [h2] at hrest
            simp only at hrest
            split at hrest <;> cases hrest
      split at hr
      · cases hr
        intro z hz h1 h2
        rcases List.mem_cons.mp hz with e | e
        · rw [e]
        · exact absurd ⟨h1, h2⟩ (hnone z e)
      · cases hr
    | some y =>
      rw [hrest] at hr
      simp only at hr
      have ihy := ih y hrest
      split at hr
      · rename_i hx
        cases hr
        intro z hz h1 h2
        rcases List.mem_cons.mp hz with e | e
        · rw [e]
        · exact le_trans (ihy z e h1 h2) hx.2.2
      · rename_i hx
        cases hr
        intro z hz h1 h2
        rcases List.mem_cons.mp hz with e | e
        · subst e
          by_contra hlt
          exact hx ⟨h1, h2, le_of_lt (lt_of_not_le hlt)⟩
        · exact ihy z e h1 h2

theorem getRecord_isSome (S : List DomainModel) (h : String) (B : Int) (x : DomainModel)
    (hx : x ∈ S) (h1 : x.NameHash = h) (h2 : x.BlockNumber ≤ B) :
    ∃ r, getRecord S h B = some r := by
  induction S with
  | nil => cases hx
  | cons w rest ih =>
    unfold getRecord
    cases hrest : getRecord rest h B with
    | none =>
      simp only
      rcases List.mem_cons.mp hx with e | e
      · subst e
        exact ⟨x, by rw [if_pos ⟨h1, h2⟩]⟩
      · obtain ⟨r, hr⟩ := ih e
        rw [hrest] at hr
        cases hr
    | some y =>
      simp only
      split
      · exact ⟨w, rfl⟩
      · exact ⟨y, rfl⟩

theorem getRecord_eq_none (S : List DomainModel) (h : String) (B : Int)
    (hnone : ∀ x ∈ S, ¬ (x.NameHash = h ∧ x.BlockNumber ≤ B)) : getRecord S h B = none := by
  cases hr : getRecord S h B with
  | none => rfl
  | some r =>
    obtain ⟨h1, h2, h3⟩ := getRecord_mem S h B r hr
    exact absurd ⟨h2, h3⟩ (hnone r h1)

/-! ## The algebra of field assignments -/

theorem getD_orElse {α : Type} (a b : Option α) (d : α) :
    (a <|> b).getD d = a.getD (b.getD d) := by
  cases a <;> rfl

theorem getD_getD {α : Type} (a : Option α) (d : α) : a.getD (a.getD d) = a.getD d := by
  cases a <;> rfl

theorem Patch.apply_andThen (p q : Patch) (r : DomainModel) :
    (p.andThen q).apply r = q.apply (p.apply r) := by
  simp [Patch.apply, Patch.andThen, getD_orElse]

theorem Patch.apply_apply (p : Patch) (r : DomainModel) : p.apply (p.apply r) = p.apply r := by
  simp only [Patch.apply, DomainModel.mk.injEq]
  refine ⟨?_, ?_, ?_, ?_, ?_, ?_, ?_, ?_, ?_, ?_, ?_, ?_, ?_, ?_, ?_, ?_, ?_⟩ <;>
    exact getD_getD _ _

theorem getD_absorb {α : Type} (a c : Option α) (d : α) :
    a.getD (c.getD (a.getD d)) = a.getD (c.getD d) := by
  cases a <;> cases c <;> rfl

/-- Assigning `p`, then `q`, then `p` again is assigning `q`, then `p`. -/
theorem Patch.apply_absorb (p q : Patch) (r : DomainModel) :
    p.apply (q.apply (p.apply r)) = p.apply (q.apply r) := by
  simp only [Patch.apply, DomainModel.mk.injEq]
  refine ⟨?_, ?_, ?_, ?_, ?_, ?_, ?_, ?_, ?_, ?_, ?_, ?_, ?_, ?_, ?_, ?_, ?_⟩ <;>
    exact getD_absorb _ _ _

/-! ## The header fold on the record store of the specification -/

theorem runSteps_append (b : Int) (L1 L2 : List Step) (S : List DomainModel) :
    runSteps b (L1 ++ L2) S = (runSteps b L1 S).bind (runSteps b L2) := by
  induction L1 generalizing S with
  | nil => rfl
  | cons st rest ih =>
    simp only [List.cons_append, runSteps]
    cases st.run b S with
    | none => rfl
    | some S1 => simpa using ih S1

theorem Folds.nil (b : Int) : Folds b (pure ()) [] := fun _ => ⟨rfl, rfl⟩

theorem Folds.seq {b : Int} {x y : Prog World Unit} {L1 L2 : List Step}
    (hx : Folds b x L1) (hy : Folds b y L2) : Folds b (x >>= fun _ => y) (L1 ++ L2) := by
  intro s
  have h1 := hx s
  rw [runSteps_append]
  rcases hxs : x s with ⟨r, s1⟩
  rw [hxs] at h1
  cases h1s : runSteps b L1 s.world.records with
  | none =>
    rw [h1s] at h1
    simp only at h1
    cases r with
    | ok u => exact absurd rfl h1
    | error e =>
      rw [Prog.seq_error hxs]
      simp
  | some S1 =>
    rw [h1s] at h1
    simp only at h1
    obtain ⟨e1, e2⟩ := h1
    subst e1
    rw [Prog.seq_ok hxs]
    have h2 := hy s1
    rw [e2] at h2
    simpa using h2

theorem Folds.loop {α : Type} {b : Int} {body : α → Prog World Unit} {toStep : α → Step}
    (h : ∀ a, Folds b (body a) [toStep a]) (xs : List α) :
    Folds b (forEach xs body) (xs.map toStep) := by
  induction xs with
  | nil => exact Folds.nil b
  | cons x rest ih => exact Folds.seq (h x) ih

theorem Folds.then_modifyTr {b : Int} {x : Prog World Unit} {L : List Step}
    (hx : Folds b x L) (g : Transformer → Transformer) :
    Folds b (x >>= fun _ => modifyTr g) L := by
  have h := Folds.seq hx (show Folds b (modifyTr g) [] from fun _ => ⟨rfl, rfl⟩)
  simpa using h

theorem updateRecord_folds (chain : Chain) (hf : soundRepo chain) (b : Int) (node : String)
    (assign : DomainModel → DomainModel) (p : Patch)
    (hassign : ∀ r : DomainModel, r.NameHash = node →
      assign { r with BlockNumber := b } = (updateStep b node p).patch.apply r) :
    Folds b (updateRecord (simEnv chain) node b assign) [updateStep b node p] := by
  intro s
  have hg := hf (Call.GetRecord node b) rfl
  simp only [runSteps, Step.run, Step.base, updateStep, Bool.false_eq_true, false_and,
    if_false]
  cases hr : getRecord s.world.records node b with
  | none =>
    simp [updateRecord, Prog.bind_run, Prog.bind, call, simEnv, hg, hr]
  | some r =>
    have hc := hf (Call.CreateRecord (assign { r with BlockNumber := b })) rfl
    have hn := (getRecord_mem _ _ _ _ hr).2.1
    have ha := hassign r hn
    simp only [updateStep] at ha
    rw [ha] at hc
    simp [updateRecord, Prog.bind_run, Prog.bind, call, simEnv, hg, hr, answer, hc, ha]

theorem processNewOwner_folds (chain : Chain) (hf : soundRepo chain) (b : Int) (l : Log) :
    Folds b (processNewOwner (simEnv chain) b l) [newOwnerStep chain.subnode b l] := by
  intro s
  have he := hf (Call.RecordExists (chain.subnode (l.value "node") (l.value "label"))) rfl
  have hg := hf (Call.GetRecord (chain.subnode (l.value "node") (l.value "label")) b) rfl
  have hc := fun r => hf (Call.CreateRecord r) rfl
  simp only [runSteps, Step.run, Step.base, newOwnerStep, true_and]
  cases hx : recordExists s.world.records (chain.subnode (l.value "node") (l.value "label")) with
  | false =>
    simp [processNewOwner, Prog.bind_run, Prog.bind, call, simEnv, answer, he, hx, hc,
      Prog.pure_run, Patch.apply]
  | true =>
    cases hr : getRecord s.world.records (chain.subnode (l.value "node") (l.value "label")) b with
    | none =>
      simp [processNewOwner, Prog.bind_run, Prog.bind, call, simEnv, answer, he, hx, hg, hr]
    | some r =>
      simp [processNewOwner, Prog.bind_run, Prog.bind, call, simEnv, answer, he, hx, hg, hr, hc,
        Patch.apply]

theorem processRegistryLogs_folds (chain : Chain) (hf : soundRepo chain)
    (logs : List (String × List Log)) (b : Int) :
    Folds b (processRegistryLogs (simEnv chain) logs b) (registrySteps chain.subnode logs b) := by
  unfold processRegistryLogs registrySteps
  simp only [List.append_assoc]
  exact Folds.seq (Folds.loop (processNewOwner_folds chain hf b) (logsOf logs "NewOwner"))
    (Folds.seq
      (Folds.loop (fun l => updateRecord_folds chain hf b (l.value "node") _
        { Owner := some (l.value "owner") }
        (by intro r hr; simp [updateStep, Patch.apply, hr])) (logsOf logs "Transfer"))
      (Folds.seq
        (Folds.loop (fun l => updateRecord_folds chain hf b (l.value "node") _
          { TTL := some (l.value "ttl") }
          (by intro r hr; simp [updateStep, Patch.apply, hr])) (logsOf logs "NewTTL"))
        (Folds.loop (fun l => Folds.then_modifyTr
          (updateRecord_folds chain hf b (l.value "node") _
            { ResolverAddr := some (l.value "resolver") }
            (by intro r hr; simp [updateStep, Patch.apply, hr])) _) (logsOf logs "NewResolver"))))

theorem processResolverLogs_folds (chain : Chain) (hf : soundRepo chain)
    (logs : List (String × List Log)) (b : Int) :
    Folds b (processResolverLogs (simEnv chain) logs b) (resolverSteps logs b) := by
  unfold processResolverLogs resolverSteps
  simp only [List.append_assoc]
  exact Folds.seq
    (Folds.loop (fun l => updateRecord_folds chain hf b (l.value "node") _
      { PointsToAddr := some (l.value "a") }
      (by intro r hr; simp [updateStep, Patch.apply, hr])) (logsOf logs "AddrChanged"))
    (Folds.seq
    (Folds.loop (fun l => updateRecord_folds chain hf b (l.value "node") _
      { Name := some (l.value "name") }
      (by intro r hr; simp [updateStep, Patch.apply, hr])) (logsOf logs "NameChanged"))
    (Folds.seq
    (Folds.loop (fun l => updateRecord_folds chain hf b (l.value "node") _
      { Content := some (l.value "hash") }
      (by intro r hr; simp [updateStep, Patch.apply, hr])) (logsOf logs "ContentChanged"))
    (Folds.seq
    (Folds.loop (fun l => updateRecord_folds chain hf b (l.value "node") _
      { ContentType := some (l.value "contentType") }
      (by intro r hr; simp [updateStep, Patch.apply, hr])) (logsOf logs "ABIChanged"))
    (Folds.seq
    (Folds.loop (fun l => updateRecord_folds chain hf b (l.value "node") _
      { PubKeyX := some (l.value "x"), PubKeyY := some (l.value "y") }
      (by intro r hr; simp [updateStep, Patch.apply, hr])) (logsOf logs "PubkeyChanged"))
    (Folds.seq
    (Folds.loop (fun l => updateRecord_folds chain hf b (l.value "node") _
      { TextKey := some (l.value "key"), IndexedTextKey := some (l.value "indexedKey") }
      (by intro r hr; simp [updateStep, Patch.apply, hr])) (logsOf logs "TextChanged"))
    (Folds.seq
    (Folds.loop (fun l => updateRecord_folds chain hf b (l.value "node") _
      { Multihash := some (l.value "hash") }
      (by intro r hr; simp [updateStep, Patch.apply, hr])) (logsOf logs "MultihashChanged"))
    (Folds.loop (fun l => updateRecord_folds chain hf b (l.value "node") _
      { Contenthash := some (l.value "hash") }
      (by intro r hr; simp [updateStep, Patch.apply, hr]))
      (logsOf logs "ContenthashChanged"))))))))

/-! ## The upsert -/

theorem sameKey_iff (r x : DomainModel) :
    sameKey r x = true ↔ x.NameHash = r.NameHash ∧ x.BlockNumber = r.BlockNumber := by
  simp [sameKey]

theorem createRecord_of_present (S : List DomainModel) (r : DomainModel)
    (h : ∃ x ∈ S, sameKey r x = true) :
    createRecord S r = S.map (fun x => if sameKey r x then r else x) := by
  unfold createRecord
  rw [if_pos (List.any_eq_true.mpr h)]

theorem createRecord_of_absent (S : List DomainModel) (r : DomainModel)
    (h : ∀ x ∈ S, sameKey r x = false) : createRecord S r = S ++ [r] := by
  unfold createRecord
  rw [if_neg]
  intro hany
  obtain ⟨x, hx, hk⟩ := List.any_eq_true.mp hany
  rw [h x hx] at hk
  cases hk

theorem mem_createRecord (S : List DomainModel) (r x : DomainModel) :
    x ∈ createRecord S r ↔ x = r ∨ (x ∈ S ∧ sameKey r x = false) := by
  by_cases h : ∃ y ∈ S, sameKey r y = true
  · rw [createRecord_of_present S r h, List.mem_map]
    constructor
    · rintro ⟨y, hy, rfl⟩
      by_cases hk : sameKey r y = true
      · left
        rw [if_pos hk]
      · right
        rw [if_neg hk]
        exact ⟨hy, by simpa using hk⟩
    · rintro (rfl | ⟨hx, hk⟩)
      · obtain ⟨y, hy, hk⟩ := h
        exact ⟨y, hy, by rw [if_pos hk]⟩
      · exact ⟨x, hx, by rw [hk]; rfl⟩
  · have h2 : ∀ y ∈ S, sameKey r y = false := by
      intro y hy
      by_contra hk
      exact h ⟨y, hy, by simpa using hk⟩
    rw [createRecord_of_absent S r h2, List.mem_append, List.mem_singleton]
    constructor
    · rintro (hx | rfl)
      · exact Or.inr ⟨hx, h2 x hx⟩
      · exact Or.inl rfl
    · rintro (rfl | ⟨hx, -⟩)
      · exact Or.inr rfl
      · exact Or.inl hx

theorem keyed_createRecord (S : List DomainModel) (r : DomainModel) (hk : keyed S) :
    keyed (createRecord S r) := by
  intro x hx y hy h1 h2
  rcases (mem_createRecord S r x).mp hx with rfl | ⟨hx1, hx2⟩
  · rcases (mem_createRecord S x y).mp hy with rfl | ⟨-, hy2⟩
    · rfl
    · have : sameKey x y = true := (sameKey_iff x y).mpr ⟨h1.symm, h2.symm⟩
      rw [this] at hy2
      cases hy2
  · rcases (mem_createRecord S r y).mp hy with rfl | ⟨hy1, -⟩
    · have : sameKey y x = true := (sameKey_iff y x).mpr ⟨h1, h2⟩
      rw [this] at hx2
      cases hx2
    · exact hk x hx1 y hy1 h1 h2

theorem getRecord_of_present (S : List DomainModel) (hk : keyed S) (x : DomainModel)
    (hx : x ∈ S) : getRecord S x.NameHash x.BlockNumber = some x := by
  obtain ⟨r, hr⟩ := getRecord_isSome S x.NameHash x.BlockNumber x hx rfl le_rfl
  obtain ⟨h1, h2, h3⟩ := getRecord_mem _ _ _ _ hr
  have h4 := getRecord_max _ _ _ _ hr x hx rfl le_rfl
  rw [hr, hk r h1 x hx h2 (le_antisymm h3 h4)]

theorem recordExists_of_mem (S : List DomainModel) (x : DomainModel) (hx : x ∈ S) :
    recordExists S x.NameHash = true := by
  unfold recordExists
  exact List.any_eq_true.mpr ⟨x, hx, by simp⟩

theorem mem_of_recordExists (S : List DomainModel) (k : String)
    (h : recordExists S k = true) : ∃ x ∈ S, x.NameHash = k := by
  unfold recordExists at h
  obtain ⟨x, hx, hk⟩ := List.any_eq_true.mp h
  exact ⟨x, hx, by simpa using hk⟩

/-! ## Folding a header twice -/

theorem apply_key (b : Int) (st : Step) (hst : keyedStep b st) (x : DomainModel) :
    (st.patch.apply x).NameHash = st.key ∧ (st.patch.apply x).BlockNumber = b := by
  simp [Patch.apply, hst.1, hst.2]

theorem stepMap_key (b : Int) (st : Step) (hst : keyedStep b st) (x : DomainModel) :
    (stepMap b st x).NameHash = x.NameHash ∧ (stepMap b st x).BlockNumber = x.BlockNumber := by
  unfold stepMap
  split
  · rename_i h
    rw [(apply_key b st hst x).1, (apply_key b st hst x).2, h.1, h.2]
    exact ⟨rfl, rfl⟩
  · exact ⟨rfl, rfl⟩

theorem replay_cons (b : Int) (st : Step) (L : List Step) (x : DomainModel) :
    replay b (st :: L) x = replay b L (stepMap b st x) := rfl

theorem replay_append (b : Int) (L : List Step) (st : Step) (x : DomainModel) :
    replay b (L ++ [st]) x = stepMap b st (replay b L x) := by
  simp [replay, List.foldl_append]

theorem replay_key (b : Int) (L : List Step) (hL : ∀ st ∈ L, keyedStep b st) (x : DomainModel) :
    (replay b L x).NameHash = x.NameHash ∧ (replay b L x).BlockNumber = x.BlockNumber := by
  induction L generalizing x with
  | nil => exact ⟨rfl, rfl⟩
  | cons st rest ih =>
    rw [replay_cons]
    have h1 := ih (fun t ht => hL t (List.mem_cons_of_mem _ ht)) (stepMap b st x)
    have h2 := stepMap_key b st (hL st (List.mem_cons_self _ _)) x
    exact ⟨h1.1.trans h2.1, h1.2.trans h2.2⟩

/-- A row whose key no iteration of `L` writes is left alone. -/
theorem replay_other (b : Int) (L : List Step) (x : DomainModel)
    (h : ∀ st ∈ L, ¬ (x.NameHash = st.key ∧ x.BlockNumber = b)) : replay b L x = x := by
  induction L with
  | nil => rfl
  | cons st rest ih =>
    rw [replay_cons]
    have h1 : stepMap b st x = x := by
      unfold stepMap
      rw [if_neg (h st (List.mem_cons_self _ _))]
    rw [h1]
    exact ih (fun t ht => h t (List.mem_cons_of_mem _ ht))

theorem Patch.apply_empty (x : DomainModel) : ({} : Patch).apply x = x := rfl

/-- On the rows with key `(k, b)` the iterations `L` amount to one set of assignments. -/
theorem replay_eq_apply (b : Int) (L : List Step) (hL : ∀ st ∈ L, keyedStep b st) (k : String) :
    ∃ m : Patch, ∀ x : DomainModel, x.NameHash = k → x.BlockNumber = b →
      replay b L x = m.apply x := by
  induction L with
  | nil => exact ⟨{}, fun x _ _ => (Patch.apply_empty x).symm⟩
  | cons st rest ih =>
    obtain ⟨m, hm⟩ := ih (fun t ht => hL t (List.mem_cons_of_mem _ ht))
    by_cases hk : st.key = k
    · refine ⟨st.patch.andThen m, fun x h1 h2 => ?_⟩
      have hkey := apply_key b st (hL st (List.mem_cons_self _ _)) x
      rw [replay_cons, Patch.apply_andThen]
      unfold stepMap
      rw [if_pos ⟨h1.trans hk.symm, h2⟩]
      exact hm _ (hkey.1.trans hk) hkey.2
    · refine ⟨m, fun x h1 h2 => ?_⟩
      rw [replay_cons]
      unfold stepMap
      rw [if_neg (fun h => hk (h.1.symm.trans h1))]
      exact hm x h1 h2

theorem keyed_map (S : List DomainModel) (f : DomainModel → DomainModel) (hk : keyed S)
    (hf : ∀ x, (f x).NameHash = x.NameHash ∧ (f x).BlockNumber = x.BlockNumber) :
    keyed (S.map f) := by
  intro x hx y hy h1 h2
  obtain ⟨x0, hx0, rfl⟩ := List.mem_map.mp hx
  obtain ⟨y0, hy0, rfl⟩ := List.mem_map.mp hy
  rw [(hf x0).1, (hf y0).1] at h1
  rw [(hf x0).2, (hf y0).2] at h2
  rw [hk x0 hx0 y0 hy0 h1 h2]

/-- On a store that has a row under the key of every iteration, the iterations succeed and
rewrite the rows in place. -/
theorem runSteps_of_present (b : Int) (L : List Step) (S : List DomainModel) (hk : keyed S)
    (hL : ∀ st ∈ L, keyedStep b st)
    (hpres : ∀ st ∈ L, ∃ x ∈ S, x.NameHash = st.key ∧ x.BlockNumber = b) :
    runSteps b L S = some (S.map (replay b L)) := by
  induction L generalizing S with
  | nil =>
    have : replay b [] = id := rfl
    simp [runSteps, this]
  | cons st rest ih =>
    have hst := hL st (List.mem_cons_self _ _)
    obtain ⟨x0, hx0, hx0k, hx0b⟩ := hpres st (List.mem_cons_self _ _)
    have hex : recordExists S st.key = true := hx0k ▸ recordExists_of_mem S x0 hx0
    have hget : getRecord S st.key b = some x0 := by
      have := getRecord_of_present S hk x0 hx0
      rwa [hx0k, hx0b] at this
    have hkey := apply_key b st hst x0
    have hcreate : createRecord S (st.patch.apply x0) = S.map (stepMap b st) := by
      rw [createRecord_of_present S _ ⟨x0, hx0, (sameKey_iff _ _).mpr
        ⟨hx0k.trans hkey.1.symm, hx0b.trans hkey.2.symm⟩⟩]
      refine List.map_congr_left (fun x hx => ?_)
      unfold stepMap
      by_cases hxk : x.NameHash = st.key ∧ x.BlockNumber = b
      · have hxe : x = x0 := hk x hx x0 hx0 (hxk.1.trans hx0k.symm) (hxk.2.trans hx0b.symm)
        rw [if_pos hxk, if_pos ((sameKey_iff _ _).mpr
          ⟨hxk.1.trans hkey.1.symm, hxk.2.trans hkey.2.symm⟩), hxe]
      · rw [if_neg hxk, if_neg]
        intro hs
        have := (sameKey_iff _ _).mp hs
        exact hxk ⟨this.1.trans hkey.1, this.2.trans hkey.2⟩
    have hrun : st.run b S = some (S.map (stepMap b st)) := by
      simp [Step.run, Step.base, hex, hget, hcreate]
    unfold runSteps
    rw [hrun]
    simp only [Option.some_bind]
    rw [ih (S.map (stepMap b st)) (keyed_map S _ hk (stepMap_key b st hst))
      (fun t ht => hL t (List.mem_cons_of_mem _ ht))
      (fun t ht => by
        obtain ⟨y, hy, hyk, hyb⟩ := hpres t (List.mem_cons_of_mem _ ht)
        exact ⟨stepMap b st y, List.mem_map_of_mem _ hy,
          (stepMap_key b st hst y).1.trans hyk, (stepMap_key b st hst y).2.trans hyb⟩)]
    simp [List.map_map, Function.comp, replay_cons]

theorem Step.run_some (b : Int) (st : Step) (S S1 : List DomainModel)
    (h : st.run b S = some S1) :
    ∃ r, st.base b S = some r ∧ S1 = createRecord S (st.patch.apply r) := by
  unfold Step.run at h
  cases hb : st.base b S with
  | none => rw [hb] at h; cases h
  | some r =>
    rw [hb] at h
    simp only [Option.map_some'] at h
    exact ⟨r, rfl, (Option.some.inj h).symm⟩

/-- After the iterations `L` have succeeded, the store is keyed, it has a row under the key of
every iteration, and replaying the iterations on any of its rows changes nothing. -/
theorem replay_fixed_of_run (b : Int) (L : List Step) (S0 S1 : List DomainModel)
    (hk : keyed S0) (hL : ∀ st ∈ L, keyedStep b st) (hrun : runSteps b L S0 = some S1) :
    keyed S1 ∧ (∀ st ∈ L, ∃ x ∈ S1, x.NameHash = st.key ∧ x.BlockNumber = b) ∧
      ∀ x ∈ S1, replay b L x = x := by
  induction L using List.reverseRecOn generalizing S1 with
  | nil =>
    simp only [runSteps, Option.some.injEq] at hrun
    subst hrun
    exact ⟨hk, fun _ h => absurd h (List.not_mem_nil _), fun _ _ => rfl⟩
  | append_singleton L st ih =>
    rw [runSteps_append] at hrun
    cases hL1 : runSteps b L S0 with
    | none => rw [hL1] at hrun; cases hrun
    | some S =>
      rw [hL1] at hrun
      simp only [Option.some_bind, runSteps] at hrun
      have hrun2 : st.run b S = some S1 := by
        cases hs : st.run b S with
        | none => rw [hs] at hrun; cases hrun
        | some T => rw [hs] at hrun; simpa using hrun
      have hLL : ∀ t ∈ L, keyedStep b t := fun t ht => hL t (List.mem_append_left _ ht)
      have hst : keyedStep b st := hL st (List.mem_append_right _ (List.mem_singleton_self _))
      obtain ⟨hkS, hpresS, hfixS⟩ := ih S hLL hL1
      obtain ⟨r, hbase, rfl⟩ := Step.run_some b st S S1 hrun2
      have hkey := apply_key b st hst r
      refine ⟨keyed_createRecord S _ hkS, ?_, ?_⟩
      · intro t ht
        rcases List.mem_append.mp ht with ht | ht
        · obtain ⟨x, hx, hxk, hxb⟩ := hpresS t ht
          by_cases hs : sameKey (st.patch.apply r) x = true
          · have := (sameKey_iff _ _).mp hs
            exact ⟨st.patch.apply r, (mem_createRecord _ _ _).mpr (Or.inl rfl),
              this.1.symm.trans hxk, this.2.symm.trans hxb⟩
          · exact ⟨x, (mem_createRecord _ _ _).mpr (Or.inr ⟨hx, by simpa using hs⟩), hxk, hxb⟩
        · rw [List.mem_singleton.mp ht]
          exact ⟨st.patch.apply r, (mem_createRecord _ _ _).mpr (Or.inl rfl), hkey.1, hkey.2⟩
      · intro x hx
        rw [replay_append]
        rcases (mem_createRecord _ _ _).mp hx with rfl | ⟨hxS, hxk⟩
        · -- the row written by the last iteration
          have hrk := replay_key b L hLL (st.patch.apply r)
          have hstep : stepMap b st (replay b L (st.patch.apply r)) =
              st.patch.apply (replay b L (st.patch.apply r)) := by
            unfold stepMap
            rw [if_pos ⟨hrk.1.trans hkey.1, hrk.2.trans hkey.2⟩]
          rw [hstep]
          by_cases hex : ∃ t ∈ L, t.key = st.key
          · obtain ⟨t, ht, htk⟩ := hex
            obtain ⟨x0, hx0, hx0k, hx0b⟩ := hpresS t ht
            have hrx : r = x0 := by
              have hexi : recordExists S st.key = true :=
                (hx0k.trans htk) ▸ recordExists_of_mem S x0 hx0
              have hget := getRecord_of_present S hkS x0 hx0
              rw [hx0k, hx0b, htk] at hget
              unfold Step.base at hbase
              rw [if_neg (by simp [hexi]), hget] at hbase
              exact (Option.some.inj hbase).symm
            subst hrx
            obtain ⟨m, hm⟩ := replay_eq_apply b L hLL st.key
            have hfix := hfixS r hx0
            rw [hm r (hx0k.trans htk) hx0b] at hfix
            rw [hm _ hkey.1 hkey.2, Patch.apply_absorb, hfix]
          · rw [replay_other b L _ (fun t ht hh => hex ⟨t, ht, (hkey.1.symm.trans hh.1).symm⟩),
              Patch.apply_apply]
        · -- a row that the last iteration left alone
          rw [hfixS x hxS]
          unfold stepMap
          rw [if_neg]
          intro hh
          have : sameKey (st.patch.apply r) x = true :=
            (sameKey_iff _ _).mpr ⟨hh.1.trans hkey.1.symm, hh.2.trans hkey.2.symm⟩
          rw [this] at hxk
          cases hxk

theorem registrySteps_keyed (sub : String → String → String) (logs : List (String × List Log))
    (b : Int) : ∀ st ∈ registrySteps sub logs b, keyedStep b st := by
  intro st hst
  simp only [registrySteps, List.mem_append, List.mem_map] at hst
  rcases hst with ((⟨l, -, rfl⟩ | ⟨l, -, rfl⟩) | ⟨l, -, rfl⟩) | ⟨l, -, rfl⟩ <;> exact ⟨rfl, rfl⟩

theorem resolverSteps_keyed (logs : List (String × List Log)) (b : Int) :
    ∀ st ∈ resolverSteps logs b, keyedStep b st := by
  intro st hst
  simp only [resolverSteps, List.mem_append, List.mem_map] at hst
  rcases hst with
    ((((((⟨l, -, rfl⟩ | ⟨l, -, rfl⟩) | ⟨l, -, rfl⟩) | ⟨l, -, rfl⟩) | ⟨l, -, rfl⟩) |
      ⟨l, -, rfl⟩) | ⟨l, -, rfl⟩) | ⟨l, -, rfl⟩ <;> exact ⟨rfl, rfl⟩

/-- Running the iterations again on the store they left changes nothing. -/
theorem runSteps_twice (b : Int) (L : List Step) (S0 S1 : List DomainModel)
    (hk : keyed S0) (hL : ∀ st ∈ L, keyedStep b st) (hrun : runSteps b L S0 = some S1) :
    runSteps b L S1 = some S1 := by
  obtain ⟨hk1, hpres, hfix⟩ := replay_fixed_of_run b L S0 S1 hk hL hrun
  rw [runSteps_of_present b L S1 hk1 hL hpres]
  congr 1
  conv_rhs => rw [← List.map_id S1]
  exact List.map_congr_left (fun x hx => hfix x hx)

/-- A program that folds `L` is idempotent on the record store once it has succeeded. -/
theorem Folds.twice {b : Int} {prog : Prog World Unit} {L : List Step} (h : Folds b prog L)
    (hL : ∀ st ∈ L, keyedStep b st) (s : State World) (hk : keyed s.world.records)
    (hok : (prog s).1 = Except.ok ()) :
    (prog (prog s).2).1 = Except.ok () ∧
      (prog (prog s).2).2.world.records = (prog s).2.world.records := by
  have h1 := h s
  cases hrun : runSteps b L s.world.records with
  | none =>
    rw [hrun] at h1
    exact absurd hok h1
  | some S1 =>
    rw [hrun] at h1
    simp only at h1
    have h2 := h (prog s).2
    rw [h1.2, runSteps_twice b L _ S1 hk hL hrun] at h2
    simp only at h2
    rw [h1.2]
    exact h2

/-- C9: on the record store of the specification (upsert by (name-hash, block-number),
get-latest per I-2, no call made to fail), for every keyed store, decoded log map and block
number: if `processRegistryLogs` succeeds, running it again with the same logs and block number
succeeds and leaves the store equal to the store after the first run; the same holds for
`processResolverLogs`. -/
theorem refold_is_idempotent (chain : Chain) (hf : soundRepo chain) (b : Int) :
    (∀ (logs : List (String × List Log)) (s : State World), keyed s.world.records →
      (processRegistryLogs (simEnv chain) logs b s).1 = Except.ok () →
      (processRegistryLogs (simEnv chain) logs b
        (processRegistryLogs (simEnv chain) logs b s).2).1 = Except.ok () ∧
      (processRegistryLogs (simEnv chain) logs b
        (processRegistryLogs (simEnv chain) logs b s).2).2.world.records =
        (processRegistryLogs (simEnv chain) logs b s).2.world.records) ∧
    (∀ (logs : List (String × List Log)) (s : State World), keyed s.world.records →
      (processResolverLogs (simEnv chain) logs b s).1 = Except.ok () →
      (processResolverLogs (simEnv chain) logs b
        (processResolverLogs (simEnv chain) logs b s).2).1 = Except.ok () ∧
      (processResolverLogs (simEnv chain) logs b
        (processResolverLogs (simEnv chain) logs b s).2).2.world.records =
        (processResolverLogs (simEnv chain) logs b s).2.world.records) :=
  ⟨fun logs s hk hok =>
      (processRegistryLogs_folds chain hf logs b).twice (registrySteps_keyed _ logs b) s hk hok,
    fun logs s hk hok =>
      (processResolverLogs_folds chain hf logs b).twice (resolverSteps_keyed logs b) s hk hok⟩

theorem soundRepo_noFault (rawLogs : String → Int → List RawLog) :
    soundRepo (demoChain rawLogs noFault) := fun _ _ => rfl

/-- C9, at header 1 of scenario "early": the registry fold from the empty store, and the
resolver fold from the store that the registry fold left. -/
theorem refold_is_idempotent_witness :
    ((processRegistryLogs (simEnv (demoChain earlyLogs noFault)) earlyDecoded 100
        (processRegistryLogs (simEnv (demoChain earlyLogs noFault)) earlyDecoded 100
          demoStart).2).1 = Except.ok () ∧
      (processRegistryLogs (simEnv (demoChain earlyLogs noFault)) earlyDecoded 100
        (processRegistryLogs (simEnv (demoChain earlyLogs noFault)) earlyDecoded 100
          demoStart).2).2.world.records =
        (processRegistryLogs (simEnv (demoChain earlyLogs noFault)) earlyDecoded 100
          demoStart).2.world.records) ∧
    ((processResolverLogs (simEnv (demoChain earlyLogs noFault)) earlyResolverDecoded 100
        (processResolverLogs (simEnv (demoChain earlyLogs noFault)) earlyResolverDecoded 100
          (processRegistryLogs (simEnv (demoChain earlyLogs noFault)) earlyDecoded 100
            demoStart).2).2).1 = Except.ok () ∧
      (processResolverLogs (simEnv (demoChain earlyLogs noFault)) earlyResolverDecoded 100
        (processResolverLogs (simEnv (demoChain earlyLogs noFault)) earlyResolverDecoded 100
          (processRegistryLogs (simEnv (demoChain earlyLogs noFault)) earlyDecoded 100
            demoStart).2).2).2.world.records =
        (processResolverLogs (simEnv (demoChain earlyLogs noFault)) earlyResolverDecoded 100
          (processRegistryLogs (simEnv (demoChain earlyLogs noFault)) earlyDecoded 100
            demoStart).2).2.world.records) :=
  ⟨(refold_is_idempotent (demoChain earlyLogs noFault) (soundRepo_noFault earlyLogs) 100).1
      earlyDecoded demoStart (by decide!) (by decide!),
    (refold_is_idempotent (demoChain earlyLogs noFault) (soundRepo_noFault earlyLogs) 100).2
      earlyResolverDecoded
      (processRegistryLogs (simEnv (demoChain earlyLogs noFault)) earlyDecoded 100 demoStart).2
      (by decide!) (by decide!)⟩

/-! ## The order of the iterations -/

theorem keyed_perm (S T : List DomainModel) (hp : S.Perm T) (hk : keyed S) : keyed T :=
  fun x hx y hy h1 h2 => hk x (hp.mem_iff.mpr hx) y (hp.mem_iff.mpr hy) h1 h2

/-- In keyed stores, get-latest for a name hash depends only on the rows of that name hash. -/
theorem getRecord_congr (S T : List DomainModel) (hS : keyed S) (k : String) (B : Int)
    (h : ∀ x : DomainModel, x.NameHash = k → (x ∈ S ↔ x ∈ T)) :
    getRecord S k B = getRecord T k B := by
  cases hr : getRecord S k B with
  | none =>
    symm
    apply getRecord_eq_none
    intro x hx hxx
    obtain ⟨r, hr2⟩ := getRecord_isSome S k B x ((h x hxx.1).mpr hx) hxx.1 hxx.2
    rw [hr] at hr2
    cases hr2
  | some r =>
    obtain ⟨h1, h2, h3⟩ := getRecord_mem _ _ _ _ hr
    have h4 := getRecord_max _ _ _ _ hr
    obtain ⟨r2, hr2⟩ := getRecord_isSome T k B r ((h r h2).mp h1) h2 h3
    obtain ⟨g1, g2, g3⟩ := getRecord_mem _ _ _ _ hr2
    have g4 := getRecord_max _ _ _ _ hr2
    have e : r2 = r := hS r2 ((h r2 g2).mpr g1) r h1 (g2.trans h2.symm)
      (le_antisymm (h4 r2 ((h r2 g2).mpr g1) g2 g3) (g4 r ((h r h2).mp h1) h2 h3))
    rw [hr2, e]

theorem getRecord_perm (S T : List DomainModel) (hp : S.Perm T) (hS : keyed S) (k : String)
    (B : Int) : getRecord S k B = getRecord T k B :=
  getRecord_congr S T hS k B (fun _ _ => hp.mem_iff)

theorem recordExists_iff (S : List DomainModel) (k : String) :
    recordExists S k = true ↔ ∃ x ∈ S, x.NameHash = k := by
  simp [recordExists]

theorem recordExists_congr (S T : List DomainModel) (k : String)
    (h : ∀ x : DomainModel, x.NameHash = k → (x ∈ S ↔ x ∈ T)) :
    recordExists S k = recordExists T k := by
  rw [Bool.eq_iff_iff, recordExists_iff, recordExists_iff]
  constructor
  · rintro ⟨x, hx, hk⟩
    exact ⟨x, (h x hk).mp hx, hk⟩
  · rintro ⟨x, hx, hk⟩
    exact ⟨x, (h x hk).mpr hx, hk⟩

theorem createRecord_perm (S T : List DomainModel) (hp : S.Perm T) (r : DomainModel) :
    (createRecord S r).Perm (createRecord T r) := by
  by_cases h : ∃ x ∈ S, sameKey r x = true
  · have h2 : ∃ x ∈ T, sameKey r x = true := by
      obtain ⟨x, hx, hk⟩ := h
      exact ⟨x, hp.mem_iff.mp hx, hk⟩
    rw [createRecord_of_present S r h, createRecord_of_present T r h2]
    exact hp.map _
  · have h1 : ∀ x ∈ S, sameKey r x = false := by
      intro x hx
      by_contra hk
      exact h ⟨x, hx, by simpa using hk⟩
    have h2 : ∀ x ∈ T, sameKey r x = false := fun x hx => h1 x (hp.mem_iff.mpr hx)
    rw [createRecord_of_absent S r h1, createRecord_of_absent T r h2]
    exact hp.append_right _

theorem mem_createRecord_other (S : List DomainModel) (r x : DomainModel)
    (h : x.NameHash ≠ r.NameHash) : x ∈ createRecord S r ↔ x ∈ S := by
  rw [mem_createRecord]
  have hk : sameKey r x = false := by
    cases hs : sameKey r x with
    | false => rfl
    | true => exact absurd ((sameKey_iff _ _).mp hs).1 h
  constructor
  · rintro (rfl | ⟨hx, -⟩)
    · exact absurd rfl h
    · exact hx
  · exact fun hx => Or.inr ⟨hx, hk⟩

/-- An iteration does not see the upsert of a row with another name hash. -/
theorem Step.base_createRecord_other (b : Int) (st : Step) (S : List DomainModel)
    (hS : keyed S) (r : DomainModel) (h : r.NameHash ≠ st.key) :
    st.base b (createRecord S r) = st.base b S := by
  have hmem : ∀ x : DomainModel, x.NameHash = st.key → (x ∈ createRecord S r ↔ x ∈ S) :=
    fun x hx => mem_createRecord_other S r x (by rw [hx]; exact fun e => h e.symm)
  unfold Step.base
  rw [recordExists_congr _ _ _ hmem,
    getRecord_congr _ _ (keyed_createRecord S r hS) st.key b hmem]

theorem Step.base_perm (b : Int) (st : Step) (S T : List DomainModel) (hp : S.Perm T)
    (hS : keyed S) : st.base b S = st.base b T := by
  unfold Step.base
  rw [recordExists_congr S T st.key (fun _ _ => hp.mem_iff), getRecord_perm S T hp hS]

theorem Step.run_perm (b : Int) (st : Step) (S T S1 : List DomainModel) (hp : S.Perm T)
    (hS : keyed S) (h : st.run b S = some S1) :
    ∃ T1, st.run b T = some T1 ∧ S1.Perm T1 := by
  obtain ⟨r, hbase, rfl⟩ := Step.run_some b st S S1 h
  refine ⟨createRecord T (st.patch.apply r), ?_, createRecord_perm S T hp _⟩
  unfold Step.run
  rw [← Step.base_perm b st S T hp hS, hbase]
  rfl

theorem Step.run_keyed (b : Int) (st : Step) (S S1 : List DomainModel) (hS : keyed S)
    (h : st.run b S = some S1) : keyed S1 := by
  obtain ⟨r, -, rfl⟩ := Step.run_some b st S S1 h
  exact keyed_createRecord S _ hS

theorem runSteps_cons_some (b : Int) (st : Step) (L : List Step) (S T : List DomainModel)
    (h : runSteps b (st :: L) S = some T) :
    ∃ S1, st.run b S = some S1 ∧ runSteps b L S1 = some T := by
  unfold runSteps at h
  cases hs : st.run b S with
  | none => rw [hs] at h; cases h
  | some S1 => rw [hs] at h; exact ⟨S1, rfl, by simpa using h⟩

theorem runSteps_cons_of (b : Int) (st : Step) (L : List Step) (S S1 : List DomainModel)
    (h : st.run b S = some S1) : runSteps b (st :: L) S = runSteps b L S1 := by
  conv_lhs => unfold runSteps
  rw [h]
  rfl

theorem runSteps_keyed (b : Int) (L : List Step) (S T : List DomainModel) (hS : keyed S)
    (h : runSteps b L S = some T) : keyed T := by
  induction L generalizing S with
  | nil =>
    simp only [runSteps, Option.some.injEq] at h
    exact h ▸ hS
  | cons st rest ih =>
    obtain ⟨S1, h1, h2⟩ := runSteps_cons_some b st rest S T h
    exact ih S1 (Step.run_keyed b st S S1 hS h1) h2

/-- The same iterations on a permuted store give a permuted store. -/
theorem runSteps_perm_store (b : Int) (L : List Step) (S S2 T : List DomainModel)
    (hp : S.Perm S2) (hS : keyed S) (h : runSteps b L S = some T) :
    ∃ T2, runSteps b L S2 = some T2 ∧ T.Perm T2 := by
  induction L generalizing S S2 with
  | nil =>
    simp only [runSteps, Option.some.injEq] at h
    exact ⟨S2, rfl, h ▸ hp⟩
  | cons st rest ih =>
    obtain ⟨S1, h1, h2⟩ := runSteps_cons_some b st rest S T h
    obtain ⟨T1, g1, g2⟩ := Step.run_perm b st S S2 S1 hp hS h1
    obtain ⟨T2, k1, k2⟩ := ih S1 T1 g2 (Step.run_keyed b st S S1 hS h1) h2
    exact ⟨T2, by rw [runSteps_cons_of b st rest S2 T1 g1]; exact k1, k2⟩

theorem sameKey_false_of_ne (r x : DomainModel) (h : x.NameHash ≠ r.NameHash) :
    sameKey r x = false := by
  cases hs : sameKey r x with
  | false => rfl
  | true => exact absurd ((sameKey_iff _ _).mp hs).1 h

theorem present_createRecord_other (S : List DomainModel) (r1 r2 : DomainModel)
    (h : r1.NameHash ≠ r2.NameHash) :
    (∃ x ∈ createRecord S r1, sameKey r2 x = true) ↔ ∃ x ∈ S, sameKey r2 x = true := by
  constructor
  · rintro ⟨x, hx, hk⟩
    have hn : x.NameHash ≠ r1.NameHash := by
      rw [((sameKey_iff _ _).mp hk).1]
      exact fun e => h e.symm
    exact ⟨x, (mem_createRecord_other S r1 x hn).mp hx, hk⟩
  · rintro ⟨x, hx, hk⟩
    have hn : x.NameHash ≠ r1.NameHash := by
      rw [((sameKey_iff _ _).mp hk).1]
      exact fun e => h e.symm
    exact ⟨x, (mem_createRecord_other S r1 x hn).mpr hx, hk⟩

theorem absent_of_not_present (S : List DomainModel) (r : DomainModel)
    (h : ¬ ∃ x ∈ S, sameKey r x = true) : ∀ x ∈ S, sameKey r x = false := by
  intro x hx
  by_contra hk
  exact h ⟨x, hx, by simpa using hk⟩

/-- Upserts of rows with different name hashes commute, up to the order of the rows. -/
theorem createRecord_comm (S : List DomainModel) (r1 r2 : DomainModel)
    (h : r1.NameHash ≠ r2.NameHash) :
    (createRecord (createRecord S r1) r2).Perm (createRecord (createRecord S r2) r1) := by
  have h12 : sameKey r1 r2 = false := sameKey_false_of_ne r1 r2 (fun e => h e.symm)
  have h21 : sameKey r2 r1 = false := sameKey_false_of_ne r2 r1 h
  by_cases p1 : ∃ x ∈ S, sameKey r1 x = true
  · by_cases p2 : ∃ x ∈ S, sameKey r2 x = true
    · rw [createRecord_of_present _ r2 ((present_createRecord_other S r1 r2 h).mpr p2),
        createRecord_of_present _ r1 ((present_createRecord_other S r2 r1 h.symm).mpr p1),
        createRecord_of_present S r1 p1, createRecord_of_present S r2 p2,
        List.map_map, List.map_map]
      apply List.Perm.of_eq
      apply List.map_congr_left
      intro x _
      simp only [Function.comp]
      by_cases k1 : sameKey r1 x = true
      · have k2 : sameKey r2 x = false :=
          sameKey_false_of_ne r2 x (by rw [((sameKey_iff _ _).mp k1).1]; exact h)
        simp [k1, k2, h21]
      · by_cases k2 : sameKey r2 x = true
        · simp [k1, k2, h12]
        · simp [k1, k2]
    · have a2 := absent_of_not_present _ _ (fun hp => p2 ((present_createRecord_other S r1 r2 h).mp hp))
      rw [createRecord_of_absent _ r2 a2,
        createRecord_of_present _ r1 ((present_createRecord_other S r2 r1 h.symm).mpr p1),
        createRecord_of_present S r1 p1, createRecord_of_absent S r2 (absent_of_not_present _ _ p2)]
      simp [h12]
  · by_cases p2 : ∃ x ∈ S, sameKey r2 x = true
    · have a1 := absent_of_not_present _ _
        (fun hp => p1 ((present_createRecord_other S r2 r1 h.symm).mp hp))
      rw [createRecord_of_present _ r2 ((present_createRecord_other S r1 r2 h).mpr p2),
        createRecord_of_absent _ r1 a1,
        createRecord_of_absent S r1 (absent_of_not_present _ _ p1), createRecord_of_present S r2 p2]
      simp [h21]
    · have a1 := absent_of_not_present _ _
        (fun hp => p1 ((present_createRecord_other S r2 r1 h.symm).mp hp))
      have a2 := absent_of_not_present _ _
        (fun hp => p2 ((present_createRecord_other S r1 r2 h).mp hp))
      rw [createRecord_of_absent _ r2 a2, createRecord_of_absent _ r1 a1,
        createRecord_of_absent S r1 (absent_of_not_present _ _ p1),
        createRecord_of_absent S r2 (absent_of_not_present _ _ p2),
        List.append_assoc, List.append_assoc]
      exact List.Perm.append_left S (List.Perm.swap r2 r1 [])

/-- Two iterations on different name hashes can be exchanged. -/
theorem Step.run_swap (b : Int) (x y : Step) (hx : keyedStep b x) (hy : keyedStep b y)
    (hne : x.key ≠ y.key) (S S1 S2 : List DomainModel) (hS : keyed S)
    (h1 : y.run b S = some S1) (h2 : x.run b S1 = some S2) :
    ∃ T1 T2, x.run b S = some T1 ∧ y.run b T1 = some T2 ∧ S2.Perm T2 := by
  obtain ⟨ry, hby, rfl⟩ := Step.run_some b y S S1 h1
  obtain ⟨rx, hbx, rfl⟩ := Step.run_some b x _ S2 h2
  have ky := apply_key b y hy ry
  have kx := apply_key b x hx rx
  rw [Step.base_createRecord_other b x S hS _ (by rw [ky.1]; exact fun e => hne e.symm)] at hbx
  refine ⟨createRecord S (x.patch.apply rx),
    createRecord (createRecord S (x.patch.apply rx)) (y.patch.apply ry), ?_, ?_, ?_⟩
  · unfold Step.run
    rw [hbx]
    rfl
  · unfold Step.run
    rw [Step.base_createRecord_other b y S hS _ (by rw [kx.1]; exact hne), hby]
    rfl
  · exact createRecord_comm S _ _ (by rw [ky.1, kx.1]; exact fun e => hne e.symm)

/-- Iterations on pairwise different name hashes can be run in any order: if they succeed in
one order they succeed in every other, and the stores have the same rows. -/
theorem runSteps_perm (b : Int) (L L2 : List Step) (hp : L.Perm L2) :
    (∀ st ∈ L, keyedStep b st) → (L.map Step.key).Nodup →
    ∀ S S2 T : List DomainModel, S.Perm S2 → keyed S → runSteps b L S = some T →
      ∃ T2, runSteps b L2 S2 = some T2 ∧ T.Perm T2 := by
  induction hp with
  | nil =>
    intro _ _ S S2 T hS _ h
    simp only [runSteps, Option.some.injEq] at h
    exact ⟨S2, rfl, h ▸ hS⟩
  | cons st _ ih =>
    intro hL hnd S S2 T hS hk h
    obtain ⟨S1, h1, h2⟩ := runSteps_cons_some b st _ S T h
    obtain ⟨T1, g1, g2⟩ := Step.run_perm b st S S2 S1 hS hk h1
    obtain ⟨T2, k1, k2⟩ := ih (fun t ht => hL t (List.mem_cons_of_mem _ ht))
      (List.nodup_cons.mp (by simpa using hnd)).2 S1 T1 T g2
      (Step.run_keyed b st S S1 hk h1) h2
    exact ⟨T2, by rw [runSteps_cons_of b st _ S2 T1 g1]; exact k1, k2⟩
  | swap x y l =>
    intro hL hnd S S2 T hS hk h
    obtain ⟨S1, h1, h2⟩ := runSteps_cons_some b y (x :: l) S T h
    obtain ⟨S3, h3, h4⟩ := runSteps_cons_some b x l S1 T h2
    have hne : x.key ≠ y.key := by
      simp only [List.map_cons, List.nodup_cons, List.mem_cons, not_or] at hnd
      exact fun e => hnd.1.1 e.symm
    obtain ⟨T1, T2, g1, g2, g3⟩ := Step.run_swap b x y
      (hL x (List.mem_cons_of_mem _ (List.mem_cons_self _ _))) (hL y (List.mem_cons_self _ _))
      hne S S1 S3 hk h1 h3
    obtain ⟨U1, u1, u2⟩ := Step.run_perm b x S S2 T1 hS hk g1
    have kT1 := Step.run_keyed b x S T1 hk g1
    obtain ⟨U2, v1, v2⟩ := Step.run_perm b y T1 U1 T2 u2 kT1 g2
    have kS3 := Step.run_keyed b x S1 S3 (Step.run_keyed b y S S1 hk h1) h3
    obtain ⟨T3, w1, w2⟩ := runSteps_perm_store b l S3 U2 T (g3.trans v2) kS3 h4
    exact ⟨T3, by rw [runSteps_cons_of b x _ S2 U1 u1, runSteps_cons_of b y _ U1 U2 v1]; exact w1,
      w2⟩
  | @trans l1 l2 l3 hp1 _ ih1 ih2 =>
    intro hL hnd S S2 T hS hk h
    obtain ⟨T1, g1, g2⟩ := ih1 hL hnd S S T (List.Perm.refl S) hk h
    have hL2 : ∀ st ∈ l2, keyedStep b st := fun t ht => hL t (hp1.mem_iff.mpr ht)
    have hnd2 : (l2.map Step.key).Nodup := (hp1.map Step.key).nodup_iff.mp hnd
    obtain ⟨T2, k1, k2⟩ := ih2 hL2 hnd2 S S2 T1 hS hk g1
    exact ⟨T2, k1, g2.trans k2⟩

theorem registrySteps_perm (sub : String → String → String)
    (logs logs2 : List (String × List Log)) (b : Int)
    (h : ∀ name, (logsOf logs name).Perm (logsOf logs2 name)) :
    (registrySteps sub logs b).Perm (registrySteps sub logs2 b) := by
  unfold registrySteps
  exact ((((h "NewOwner").map _).append ((h "Transfer").map _)).append
    ((h "NewTTL").map _)).append ((h "NewResolver").map _)

theorem resolverSteps_perm (logs logs2 : List (String × List Log)) (b : Int)
    (h : ∀ name, (logsOf logs name).Perm (logsOf logs2 name)) :
    (resolverSteps logs b).Perm (resolverSteps logs2 b) := by
  unfold resolverSteps
  exact ((((((((h "AddrChanged").map _).append ((h "NameChanged").map _)).append
    ((h "ContentChanged").map _)).append ((h "ABIChanged").map _)).append
    ((h "PubkeyChanged").map _)).append ((h "TextChanged").map _)).append
    ((h "MultihashChanged").map _)).append ((h "ContenthashChanged").map _)

/-- Two programs that fold permutations of iterations on pairwise different name hashes: if
the first succeeds, so does the second, and get-latest answers the same on their stores. -/
theorem Folds.perm {b : Int} {prog prog2 : Prog World Unit} {L L2 : List Step}
    (h : Folds b prog L) (h2 : Folds b prog2 L2) (hp : L.Perm L2)
    (hL : ∀ st ∈ L, keyedStep b st) (hnd : (L.map Step.key).Nodup)
    (s : State World) (hk : keyed s.world.records) (hok : (prog s).1 = Except.ok ()) :
    (prog2 s).1 = Except.ok () ∧
      ∀ k B, getRecord (prog2 s).2.world.records k B = getRecord (prog s).2.world.records k B := by
  have h1 := h s
  cases hrun : runSteps b L s.world.records with
  | none =>
    rw [hrun] at h1
    exact absurd hok h1
  | some T =>
    rw [hrun] at h1
    simp only at h1
    obtain ⟨T2, g1, g2⟩ := runSteps_perm b L L2 hp hL hnd _ _ T (List.Perm.refl _) hk hrun
    have h3 := h2 s
    rw [g1] at h3
    simp only at h3
    refine ⟨h3.1, fun k B => ?_⟩
    rw [h3.2, h1.2]
    exact (getRecord_perm T T2 g2 (runSteps_keyed b L _ T hk hrun) k B).symm

/-- C10, as amended: on the record store of the specification, for every keyed store and every
decoded log map of one header whose events touch pairwise distinct name hashes, if
`processRegistryLogs` returns no error, then on every log map that permutes the events inside
each event-kind list it returns no error either, and get-latest returns the same record for
every name hash and block; the same holds for `processResolverLogs`. -/
theorem fold_is_order_independent (chain : Chain) (hf : soundRepo chain) (b : Int) :
    (∀ (logs logs2 : List (String × List Log)) (s : State World), keyed s.world.records →
      (∀ name, (logsOf logs name).Perm (logsOf logs2 name)) →
      ((registrySteps chain.subnode logs b).map Step.key).Nodup →
      (processRegistryLogs (simEnv chain) logs b s).1 = Except.ok () →
      (processRegistryLogs (simEnv chain) logs2 b s).1 = Except.ok () ∧
      ∀ k B, getRecord (processRegistryLogs (simEnv chain) logs2 b s).2.world.records k B =
        getRecord (processRegistryLogs (simEnv chain) logs b s).2.world.records k B) ∧
    (∀ (logs logs2 : List (String × List Log)) (s : State World), keyed s.world.records →
      (∀ name, (logsOf logs name).Perm (logsOf logs2 name)) →
      ((resolverSteps logs b).map Step.key).Nodup →
      (processResolverLogs (simEnv chain) logs b s).1 = Except.ok () →
      (processResolverLogs (simEnv chain) logs2 b s).1 = Except.ok () ∧
      ∀ k B, getRecord (processResolverLogs (simEnv chain) logs2 b s).2.world.records k B =
        getRecord (processResolverLogs (simEnv chain) logs b s).2.world.records k B) :=
  ⟨fun logs logs2 s hk hp hnd hok =>
      (processRegistryLogs_folds chain hf logs b).perm (processRegistryLogs_folds chain hf logs2 b)
        (registrySteps_perm _ logs logs2 b hp) (registrySteps_keyed _ logs b) hnd s hk hok,
    fun logs logs2 s hk hp hnd hok =>
      (processResolverLogs_folds chain hf logs b).perm (processResolverLogs_folds chain hf logs2 b)
        (resolverSteps_perm logs logs2 b hp) (resolverSteps_keyed logs b) hnd s hk hok⟩

theorem logsOf_transfers_perm (name : String) :
    (logsOf transfersAB name).Perm (logsOf transfersBA name) := by
  unfold logsOf transfersAB transfersBA mapGet
  split
  · exact List.Perm.swap _ _ []
  · exact List.Perm.refl _

/-- C10 as amended, at the two Transfer events, on a store that has a row for `pl` and for
`zz`: both orders succeed and, for instance, the latest row of `pl` is the same. -/
theorem fold_is_order_independent_witness :
    (processRegistryLogs (simEnv (demoChain earlyLogs noFault)) transfersBA 100
      (ownedStart ["pl", "zz"])).1 = Except.ok () ∧
    ∀ k B,
      getRecord (processRegistryLogs (simEnv (demoChain earlyLogs noFault)) transfersBA 100
        (ownedStart ["pl", "zz"])).2.world.records k B =
      getRecord (processRegistryLogs (simEnv (demoChain earlyLogs noFault)) transfersAB 100
        (ownedStart ["pl", "zz"])).2.world.records k B :=
  (fold_is_order_independent (demoChain earlyLogs noFault) (soundRepo_noFault earlyLogs) 100).1
    transfersAB transfersBA (ownedStart ["pl", "zz"]) (by decide!) logsOf_transfers_perm
    (by decide!) (by decide!)

/-- C10, counterexample: the store holds a row for `pl` (block 90, owner A) and none for `zz`.
The events Transfer(pl, B) and Transfer(zz, B) touch different name hashes.  With Transfer(pl)
first, `processRegistryLogs` writes the row (pl, 100) with owner B and then returns NotFound;
with Transfer(zz) first it returns NotFound at once.  After the two runs get-latest(pl, 100)
returns different records. -/
theorem fold_order_matters_on_error :
    ((registrySteps (demoChain earlyLogs noFault).subnode transfersAB 100).map Step.key)
      = ["pl", "zz"] ∧
    logsOf transfersBA "Transfer" = (logsOf transfersAB "Transfer").reverse ∧
    (processRegistryLogs (simEnv (demoChain earlyLogs noFault)) transfersAB 100
      (ownedStart ["pl"])).1 = Except.error "NotFound" ∧
    (processRegistryLogs (simEnv (demoChain earlyLogs noFault)) transfersBA 100
      (ownedStart ["pl"])).1 = Except.error "NotFound" ∧
    (getRecord (processRegistryLogs (simEnv (demoChain earlyLogs noFault)) transfersAB 100
      (ownedStart ["pl"])).2.world.records "pl" 100).map (fun r => (r.BlockNumber, r.Owner))
        = some (100, "B") ∧
    (getRecord (processRegistryLogs (simEnv (demoChain earlyLogs noFault)) transfersBA 100
      (ownedStart ["pl"])).2.world.records "pl" 100).map (fun r => (r.BlockNumber, r.Owner))
        = some (90, "A") := by
  decide!

/-- An error of the registry pass (from `MissingHeadersForAll` or from the header loop) is
returned before the cursors are assigned: both keep their values. -/
theorem Execute_registry_error_keeps_indexes {σ : Type} (env : Env σ) (s : State σ) :
    (∀ e w1, env.MissingHeadersForAll s.tr.registryIndex (-1) s.tr.registryEventIds
        (afterUpdate env s).world = (Except.error e, w1) →
      indexes (Execute env s).2.tr = indexes s.tr) ∧
    (∀ hs w1 e s2, env.MissingHeadersForAll s.tr.registryIndex (-1) s.tr.registryEventIds
        (afterUpdate env s).world = (Except.ok hs, w1) →
      forEach hs (executeHeader env) { s with world := w1 } = (Except.error e, s2) →
      (Execute env s).1 = Except.error e ∧ indexes (Execute env s).2.tr = indexes s.tr) := by
  constructor
  · intro e w1 h
    rw [Execute_error env s e w1 h]
  · intro hs w1 e s2 h h1
    rw [Execute_ok env s hs w1 h]
    unfold executeRest
    rw [Prog.bind_error h1]
    refine ⟨rfl, ?_⟩
    have := Keeps.of_forEach (Keeps.of_executeHeader env) hs { s with world := w1 }
    rw [h1] at this
    exact this

theorem Agrees.on_pure {σ α : Type} (a : α) :
    Agrees (pure a : Prog σ α) (pure a : Prog (σ × List Call) α) :=
  fun _ _ => ⟨rfl, rfl, rfl⟩

theorem Agrees.on_getTr {σ : Type} :
    Agrees (getTr : Prog σ Transformer) (getTr : Prog (σ × List Call) Transformer) :=
  fun _ _ => ⟨rfl, rfl, rfl⟩

theorem Agrees.on_modifyTr {σ : Type} (g : Transformer → Transformer) :
    Agrees (modifyTr g : Prog σ Unit) (modifyTr g : Prog (σ × List Call) Unit) :=
  fun _ _ => ⟨rfl, rfl, rfl⟩

theorem Agrees.on_bind {σ α β : Type} {x : Prog σ α} {y : Prog (σ × List Call) α}
    {f : α → Prog σ β} {g : α → Prog (σ × List Call) β}
    (hx : Agrees x y) (hf : ∀ a, Agrees (f a) (g a)) : Agrees (x >>= f) (y >>= g) := by
  intro s l
  obtain ⟨h1, h2, h3⟩ := hx s l
  rw [Prog.bind_run, Prog.bind_run]
  unfold Prog.bind
  rcases hxs : x s with ⟨r, s1⟩
  rcases hys : y ⟨s.tr, (s.world, l)⟩ with ⟨r2, t1⟩
  rw [hxs, hys] at h1 h2 h3
  simp only at h1 h2 h3
  subst h1
  cases r2 with
  | error e => exact ⟨rfl, h2, h3⟩
  | ok a =>
    have := hf a s1 t1.world.2
    have e : (⟨s1.tr, (s1.world, t1.world.2)⟩ : State (σ × List Call)) = t1 := by
      rcases t1 with ⟨ttr, tw, tl⟩
      simp only at h2 h3
      subst h2 h3
      rfl
    rw [e] at this
    exact this

theorem Agrees.on_ite {σ α : Type} {c : Prop} [Decidable c] {x x2 : Prog σ α}
    {y y2 : Prog (σ × List Call) α} (h1 : Agrees x y) (h2 : Agrees x2 y2) :
    Agrees (if c then x else x2) (if c then y else y2) := by
  split
  · exact h1
  · exact h2

theorem Agrees.on_forEach {σ α : Type} {f : α → Prog σ Unit} {g : α → Prog (σ × List Call) Unit}
    (h : ∀ a, Agrees (f a) (g a)) (xs : List α) : Agrees (forEach xs f) (forEach xs g) := by
  induction xs with
  | nil => exact Agrees.on_pure ()
  | cons x rest ih =>
    unfold DomainRecords.forEach
    exact Agrees.on_bind (h x) (fun _ => ih)

theorem Agrees.on_call {σ α : Type} (op : σ → Except Error α × σ)
    (opT : σ × List Call → Except Error α × (σ × List Call))
    (h : ∀ w, (opT w).1 = (op w.1).1 ∧ (opT w).2.1 = (op w.1).2) :
    Agrees (call op) (call opT) :=
  fun s l => ⟨(h (s.world, l)).1, rfl, (h (s.world, l)).2⟩

theorem Agrees.on_callPure {σ α : Type} (op : σ → α × σ)
    (opT : σ × List Call → α × (σ × List Call))
    (h : ∀ w, (opT w).1 = (op w.1).1 ∧ (opT w).2.1 = (op w.1).2) :
    Agrees (callPure op) (callPure opT) :=
  fun s l => ⟨congrArg Except.ok (h (s.world, l)).1, rfl, (h (s.world, l)).2⟩

theorem Agrees.on_getWorld_bind {σ β : Type} {f : σ → Prog σ β}
    {g : σ × List Call → Prog (σ × List Call) β} (h : ∀ w l, Agrees (f w) (g (w, l))) :
    Agrees (getWorld >>= f) (getWorld >>= g) :=
  fun s l => h s.world l s l

theorem Agrees.on_updateRecord {σ : Type} (env : Env σ) (node : String) (b : Int)
    (assign : DomainModel → DomainModel) :
    Agrees (updateRecord env node b assign) (updateRecord env.traced node b assign) :=
  Agrees.on_bind (Agrees.on_call _ _ (fun _ => ⟨rfl, rfl⟩))
    (fun _ => Agrees.on_call _ _ (fun _ => ⟨rfl, rfl⟩))

theorem Agrees.on_processNewOwner {σ : Type} (env : Env σ) (b : Int) (l : Log) :
    Agrees (processNewOwner env b l) (processNewOwner env.traced b l) :=
  Agrees.on_bind (Agrees.on_call _ _ (fun _ => ⟨rfl, rfl⟩)) (fun _ =>
    Agrees.on_bind
      (Agrees.on_ite (Agrees.on_call _ _ (fun _ => ⟨rfl, rfl⟩)) (Agrees.on_pure _))
      (fun _ => Agrees.on_call _ _ (fun _ => ⟨rfl, rfl⟩)))

theorem Agrees.on_processRegistryLogs {σ : Type} (env : Env σ)
    (logs : List (String × List Log)) (b : Int) :
    Agrees (processRegistryLogs env logs b) (processRegistryLogs env.traced logs b) :=
  Agrees.on_bind (Agrees.on_forEach (Agrees.on_processNewOwner env b) _) (fun _ =>
    Agrees.on_bind (Agrees.on_forEach (fun _ => Agrees.on_updateRecord env _ b _) _) (fun _ =>
      Agrees.on_bind (Agrees.on_forEach (fun _ => Agrees.on_updateRecord env _ b _) _) (fun _ =>
        Agrees.on_forEach (fun _ =>
          Agrees.on_bind (Agrees.on_updateRecord env _ b _) (fun _ =>
            Agrees.on_modifyTr _)) _)))

theorem Agrees.on_processResolverLogs {σ : Type} (env : Env σ)
    (logs : List (String × List Log)) (b : Int) :
    Agrees (processResolverLogs env logs b) (processResolverLogs env.traced logs b) :=
  Agrees.on_bind (Agrees.on_forEach (fun _ => Agrees.on_updateRecord env _ b _) _) (fun _ =>
  Agrees.on_bind (Agrees.on_forEach (fun _ => Agrees.on_updateRecord env _ b _) _) (fun _ =>
  Agrees.on_bind (Agrees.on_forEach (fun _ => Agrees.on_updateRecord env _ b _) _) (fun _ =>
  Agrees.on_bind (Agrees.on_forEach (fun _ => Agrees.on_updateRecord env _ b _) _) (fun _ =>
  Agrees.on_bind (Agrees.on_forEach (fun _ => Agrees.on_updateRecord env _ b _) _) (fun _ =>
  Agrees.on_bind (Agrees.on_forEach (fun _ => Agrees.on_updateRecord env _ b _) _) (fun _ =>
  Agrees.on_bind (Agrees.on_forEach (fun _ => Agrees.on_updateRecord env _ b _) _) (fun _ =>
  Agrees.on_forEach (fun _ => Agrees.on_updateRecord env _ b _) _)))))))

theorem Agrees.on_registerResolverEvent {σ : Type} (env : Env σ) (addr : String) (e : Event) :
    Agrees (registerResolverEvent env addr e) (registerResolverEvent env.traced addr e) :=
  Agrees.on_bind (Agrees.on_call _ _ (fun _ => ⟨rfl, rfl⟩)) (fun _ =>
    Agrees.on_bind (Agrees.on_modifyTr _) (fun _ => Agrees.on_modifyTr _))

theorem Agrees.on_probeResolver {σ : Type} (env : Env σ) (b : Int) (addr : String) :
    Agrees (probeResolver env b addr) (probeResolver env.traced b addr) :=
  Agrees.on_bind (Agrees.on_callPure _ _ (fun _ => ⟨rfl, rfl⟩)) (fun _ =>
    Agrees.on_ite (Agrees.on_modifyTr _)
      (Agrees.on_bind (Agrees.on_call _ _ (fun _ => ⟨rfl, rfl⟩)) (fun _ =>
        Agrees.on_getWorld_bind (fun _ _ =>
          Agrees.on_bind (Agrees.on_modifyTr _) (fun _ =>
            Agrees.on_bind Agrees.on_getTr (fun _ =>
              Agrees.on_forEach (Agrees.on_registerResolverEvent env addr) _))))))

theorem Agrees.on_configResolvers {σ : Type} (env : Env σ) (b : Int) :
    Agrees (configResolvers env b) (configResolvers env.traced b) :=
  Agrees.on_bind Agrees.on_getTr (fun _ =>
    Agrees.on_forEach (fun addr =>
      Agrees.on_bind Agrees.on_getTr (fun _ =>
        Agrees.on_ite (Agrees.on_pure _)
          (Agrees.on_ite (Agrees.on_pure _) (Agrees.on_probeResolver env b addr)))) _)

theorem Agrees.on_watchResolverHeader {σ : Type} (env : Env σ) (addr : String) (c : Contract)
    (h : Header) :
    Agrees (watchResolverHeader env addr c h) (watchResolverHeader env.traced addr c h) :=
  Agrees.on_bind Agrees.on_getTr (fun _ =>
    Agrees.on_bind (Agrees.on_call _ _ (fun _ => ⟨rfl, rfl⟩)) (fun _ =>
      Agrees.on_ite (Agrees.on_call _ _ (fun _ => ⟨rfl, rfl⟩))
        (Agrees.on_bind (Agrees.on_call _ _ (fun _ => ⟨rfl, rfl⟩)) (fun _ =>
          Agrees.on_bind (Agrees.on_processResolverLogs env _ _) (fun _ =>
            Agrees.on_bind Agrees.on_getTr (fun _ =>
              Agrees.on_call _ _ (fun _ => ⟨rfl, rfl⟩)))))))

theorem Agrees.on_watchResolvers {σ : Type} (env : Env σ) :
    Agrees (watchResolvers env) (watchResolvers env.traced) :=
  Agrees.on_bind Agrees.on_getTr (fun _ =>
    Agrees.on_forEach (fun _ =>
      Agrees.on_bind (Agrees.on_call _ _ (fun _ => ⟨rfl, rfl⟩)) (fun _ =>
        Agrees.on_bind Agrees.on_getTr (fun _ =>
          Agrees.on_bind (Agrees.on_call _ _ (fun _ => ⟨rfl, rfl⟩)) (fun _ =>
            Agrees.on_forEach (Agrees.on_watchResolverHeader env _ _) _)))) _)

theorem Agrees.on_executeHeader {σ : Type} (env : Env σ) (h : Header) :
    Agrees (executeHeader env h) (executeHeader env.traced h) :=
  Agrees.on_bind Agrees.on_getTr (fun _ =>
    Agrees.on_bind (Agrees.on_call _ _ (fun _ => ⟨rfl, rfl⟩)) (fun _ =>
      Agrees.on_ite (Agrees.on_call _ _ (fun _ => ⟨rfl, rfl⟩))
        (Agrees.on_bind (Agrees.on_call _ _ (fun _ => ⟨rfl, rfl⟩)) (fun _ =>
          Agrees.on_bind (Agrees.on_processRegistryLogs env _ _) (fun _ =>
            Agrees.on_bind Agrees.on_getTr (fun _ =>
              Agrees.on_bind (Agrees.on_call _ _ (fun _ => ⟨rfl, rfl⟩)) (fun _ =>
                Agrees.on_configResolvers env _)))))))

theorem Agrees.on_advanceIndexes {σ : Type} (hs : List Header) :
    Agrees (advanceIndexes hs : Prog σ Unit) (advanceIndexes hs) := by
  unfold advanceIndexes
  cases hs.getLast? with
  | none => exact Agrees.on_pure _
  | some last => exact Agrees.on_bind (Agrees.on_modifyTr _) (fun _ => Agrees.on_modifyTr _)

/-- Recording the calls does not change what `Execute` does. -/
theorem Execute_traced {σ : Type} (env : Env σ) : Agrees (Execute env) (Execute env.traced) :=
  Agrees.on_bind Agrees.on_getTr (fun _ =>
    Agrees.on_bind (Agrees.on_call _ _ (fun _ => ⟨rfl, rfl⟩)) (fun _ =>
      Agrees.on_bind (Agrees.on_call _ _ (fun _ => ⟨rfl, rfl⟩)) (fun hs =>
        Agrees.on_bind (Agrees.on_forEach (Agrees.on_executeHeader env) _) (fun _ =>
          Agrees.on_bind (Agrees.on_advanceIndexes hs) (fun _ =>
            Agrees.on_watchResolvers env)))))

/-! ## The folds, event by event -/

theorem forEach_nil {σ α : Type} (body : α → Prog σ Unit) :
    forEach ([] : List α) body = pure () := rfl

theorem forEach_cons {σ α : Type} (x : α) (rest : List α) (body : α → Prog σ Unit) :
    forEach (x :: rest) body = Prog.bind (body x) (fun _ => forEach rest body) := rfl

theorem forEach_append {σ α : Type} (xs ys : List α) (body : α → Prog σ Unit) :
    forEach (xs ++ ys) body = (forEach xs body >>= fun _ => forEach ys body) := by
  funext s
  induction xs generalizing s with
  | nil => rfl
  | cons x rest ih =>
    show Prog.bind (body x) (fun _ => forEach (rest ++ ys) body) s
      = Prog.bind (Prog.bind (body x) (fun _ => forEach rest body)) (fun _ => forEach ys body) s
    unfold Prog.bind
    cases h : body x s with
    | mk r s1 =>
      cases r with
      | error e => rfl
      | ok a => exact ih s1

theorem forEach_map {σ α β : Type} (g : α → β) (xs : List α) (body : β → Prog σ Unit) :
    forEach (xs.map g) body = forEach xs (fun x => body (g x)) := by
  induction xs with
  | nil => rfl
  | cons x rest ih =>
    show Prog.bind (body (g x)) (fun _ => forEach (rest.map g) body) = _
    rw [ih]; rfl

/-- The method `processRegistryLogs` folds the registry events of the log map one after the
other, each with the loop body of its kind. -/
theorem processRegistryLogs_eq_forEach {σ : Type} (env : Env σ)
    (logs : List (String × List Log)) (b : Int) :
    processRegistryLogs env logs b = forEach (registryEvents logs) (foldRegistryEvent env b) := by
  unfold processRegistryLogs registryEvents
  simp only [forEach_append, forEach_map]
  rfl

/-- The method `processResolverLogs` folds the resolver events of the log map one after the
other, each with the loop body of its kind. -/
theorem processResolverLogs_eq_forEach {σ : Type} (env : Env σ)
    (logs : List (String × List Log)) (b : Int) :
    processResolverLogs env logs b = forEach (resolverEvents logs) (foldResolverEvent env b) := by
  unfold processResolverLogs resolverEvents
  simp only [forEach_append, forEach_map]
  rfl

theorem forEach_reach {σ α : Type} (pre post : List α) (x : α) (body : α → Prog σ Unit)
    (s0 s : State σ) (h : forEach pre body s0 = (Except.ok (), s)) :
    forEach (pre ++ x :: post) body s0 = Prog.bind (body x) (fun _ => forEach post body) s := by
  rw [forEach_append, Prog.seq_ok h, forEach_cons]

theorem forEach_abort {σ α : Type} (pre post : List α) (x : α) (body : α → Prog σ Unit)
    (s0 s s1 : State σ) (e : Error) (h : forEach pre body s0 = (Except.ok (), s))
    (hx : body x s = (Except.error e, s1)) :
    forEach (pre ++ x :: post) body s0 = (Except.error e, s1) := by
  rw [forEach_reach pre post x body s0 s h, Prog.bind_error hx]

theorem updateRecord_ok {σ : Type} (env : Env σ) (node : String) (b : Int)
    (assign : DomainModel → DomainModel) (s s1 : State σ) (r : DomainModel)
    (h : call (env.GetRecord node b) s = (Except.ok r, s1)) :
    updateRecord env node b assign s
      = call (env.CreateRecord (assign { r with BlockNumber := b })) s1 := by
  unfold updateRecord
  rw [Prog.seq_ok h]

theorem updateRecord_error {σ : Type} (env : Env σ) (node : String) (b : Int)
    (assign : DomainModel → DomainModel) (s s1 : State σ) (e : Error)
    (h : call (env.GetRecord node b) s = (Except.error e, s1)) :
    updateRecord env node b assign s = (Except.error e, s1) := by
  unfold updateRecord
  rw [Prog.seq_error h]

theorem Prog.bind_congr_left {σ α β : Type} {x y : Prog σ α} {f : α → Prog σ β}
    {s s1 : State σ} (h : x s = y s1) : Prog.bind x f s = Prog.bind y f s1 := by
  unfold Prog.bind; rw [h]

/-- C12: for every NewOwner event (node p, label l, owner o) among the registry events of a
header at block b, once the events before it are folded, `processRegistryLogs` calls
`CreateRecord` with the base record in which name hash, parent hash, label hash, owner and
block number are set to CreateSubnode(p, l), p, l, o and b and every other field is that of
the base; the base is the empty record when `RecordExists(subnode)` answers false and the
record that `GetRecord(subnode, b)` returns when it answers true. -/
theorem newOwner_persists_base_with_fields {σ : Type} (env : Env σ)
    (logs : List (String × List Log)) (b : Int) (pre post : List RegistryEvent) (l : Log)
    (s0 s s1 : State σ)
    (hev : registryEvents logs = pre ++ RegistryEvent.NewOwner l :: post)
    (hpre : forEach pre (foldRegistryEvent env b) s0 = (Except.ok (), s)) :
    (call (env.RecordExists (env.CreateSubnode (l.value "node") (l.value "label"))) s
        = (Except.ok false, s1) →
      processRegistryLogs env logs b s0
        = Prog.bind (call (env.CreateRecord
            { NameHash := env.CreateSubnode (l.value "node") (l.value "label")
              ParentHash := l.value "node"
              LabelHash := l.value "label"
              Owner := l.value "owner"
              BlockNumber := b }))
          (fun _ => forEach post (foldRegistryEvent env b)) s1) ∧
    (∀ (r : DomainModel) (s2 : State σ),
      call (env.RecordExists (env.CreateSubnode (l.value "node") (l.value "label"))) s
        = (Except.ok true, s1) →
      call (env.GetRecord (env.CreateSubnode (l.value "node") (l.value "label")) b) s1
        = (Except.ok r, s2) →
      processRegistryLogs env logs b s0
        = Prog.bind (call (env.CreateRecord
            { r with
              NameHash := env.CreateSubnode (l.value "node") (l.value "label")
              ParentHash := l.value "node"
              LabelHash := l.value "label"
              Owner := l.value "owner"
              BlockNumber := b }))
          (fun _ => forEach post (foldRegistryEvent env b)) s2) := by
  rw [processRegistryLogs_eq_forEach, hev, forEach_reach pre post _ _ s0 s hpre]
  constructor
  · intro h
    apply Prog.bind_congr_left
    show processNewOwner env b l s = _
    unfold processNewOwner
    rw [Prog.seq_ok h]
    rfl
  · intro r s2 h hg
    apply Prog.bind_congr_left
    show processNewOwner env b l s = _
    unfold processNewOwner
    rw [Prog.seq_ok h]
    simp only [if_true]
    rw [Prog.seq_ok hg]

/-- C12 on header 1 of scenario "early": without a row for the subnode the record created is
the empty record with the five fields set; with a row at block 90 it is that row with the five
fields set. -/
theorem newOwner_persists_base_with_fields_witness :
    processRegistryLogs (simEnv (demoChain earlyLogs noFault)) earlyDecoded 100 demoStart
      = Prog.bind (call ((simEnv (demoChain earlyLogs noFault)).CreateRecord
          { NameHash := "pl", ParentHash := "p", LabelHash := "l", Owner := "A",
            BlockNumber := 100 }))
        (fun _ => forEach [RegistryEvent.NewResolver ⟨[("node", "pl"), ("resolver", "R")]⟩]
          (foldRegistryEvent (simEnv (demoChain earlyLogs noFault)) 100)) demoStart ∧
    processRegistryLogs (simEnv (demoChain earlyLogs noFault)) earlyDecoded 100
        (ownedStart ["pl"])
      = Prog.bind (call ((simEnv (demoChain earlyLogs noFault)).CreateRecord
          { NameHash := "pl", ParentHash := "p", LabelHash := "l", Owner := "A",
            BlockNumber := 100 }))
        (fun _ => forEach [RegistryEvent.NewResolver ⟨[("node", "pl"), ("resolver", "R")]⟩]
          (foldRegistryEvent (simEnv (demoChain earlyLogs noFault)) 100)) (ownedStart ["pl"]) :=
  ⟨(newOwner_persists_base_with_fields (simEnv (demoChain earlyLogs noFault)) earlyDecoded 100 []
      [RegistryEvent.NewResolver ⟨[("node", "pl"), ("resolver", "R")]⟩] ownDecoded
      demoStart demoStart demoStart (by decide!) rfl).1 (by decide!),
   (newOwner_persists_base_with_fields (simEnv (demoChain earlyLogs noFault)) earlyDecoded 100 []
      [RegistryEvent.NewResolver ⟨[("node", "pl"), ("resolver", "R")]⟩] ownDecoded
      (ownedStart ["pl"]) (ownedStart ["pl"]) (ownedStart ["pl"]) (by decide!) rfl).2
      { NameHash := "pl", BlockNumber := 90, Owner := "A" } (ownedStart ["pl"])
      (by decide!) (by decide!)⟩

theorem foldRegistryEvent_reach {σ : Type} (env : Env σ) (logs : List (String × List Log))
    (b : Int) (pre post : List RegistryEvent) (ev : RegistryEvent) (s0 s : State σ)
    (hev : registryEvents logs = pre ++ ev :: post)
    (hpre : forEach pre (foldRegistryEvent env b) s0 = (Except.ok (), s)) :
    processRegistryLogs env logs b s0
      = Prog.bind (foldRegistryEvent env b ev)
          (fun _ => forEach post (foldRegistryEvent env b)) s := by
  rw [processRegistryLogs_eq_forEach, hev, forEach_reach pre post _ _ s0 s hpre]

theorem foldResolverEvent_reach {σ : Type} (env : Env σ) (logs : List (String × List Log))
    (b : Int) (pre post : List ResolverEvent) (ev : ResolverEvent) (s0 s : State σ)
    (hev : resolverEvents logs = pre ++ ev :: post)
    (hpre : forEach pre (foldResolverEvent env b) s0 = (Except.ok (), s)) :
    processResolverLogs env logs b s0
      = Prog.bind (foldResolverEvent env b ev)
          (fun _ => forEach post (foldResolverEvent env b)) s := by
  rw [processResolverLogs_eq_forEach, hev, forEach_reach pre post _ _ s0 s hpre]

theorem foldResolverEvent_ok {σ : Type} (env : Env σ) (logs : List (String × List Log))
    (b : Int) (pre post : List ResolverEvent) (ev : ResolverEvent) (s0 s s1 : State σ)
    (r : DomainModel)
    (hev : resolverEvents logs = pre ++ ev :: post)
    (hpre : forEach pre (foldResolverEvent env b) s0 = (Except.ok (), s))
    (hget : call (env.GetRecord (ev.log.value "node") b) s = (Except.ok r, s1)) :
    processResolverLogs env logs b s0
      = Prog.bind (call (env.CreateRecord (ev.assign { r with BlockNumber := b })))
          (fun _ => forEach post (foldResolverEvent env b)) s1 := by
  rw [foldResolverEvent_reach env logs b pre post ev s0 s hev hpre]
  exact Prog.bind_congr_left (updateRecord_ok env (ev.log.value "node") b ev.assign s s1 r hget)

/-- C14: for every Transfer, NewTTL or NewResolver event on a node among the registry events of
a header at block b, once the events before it are folded and `GetRecord(node, b)` returns r,
`processRegistryLogs` calls `CreateRecord` with r in which the block number is b and the owner,
the ttl or the resolver address, respectively, is the event's value; every other field is that
of r.  After the record of a NewResolver event is created its resolver address is added to
`ResolverAddresses`. -/
theorem registry_update_changes_one_field {σ : Type} (env : Env σ)
    (logs : List (String × List Log)) (b : Int) (pre post : List RegistryEvent) (l : Log)
    (s0 s s1 : State σ) (r : DomainModel)
    (hpre : forEach pre (foldRegistryEvent env b) s0 = (Except.ok (), s))
    (hget : call (env.GetRecord (l.value "node") b) s = (Except.ok r, s1)) :
    (registryEvents logs = pre ++ RegistryEvent.Transfer l :: post →
      processRegistryLogs env logs b s0
        = Prog.bind (call (env.CreateRecord
            { r with BlockNumber := b, Owner := l.value "owner" }))
          (fun _ => forEach post (foldRegistryEvent env b)) s1) ∧
    (registryEvents logs = pre ++ RegistryEvent.NewTTL l :: post →
      processRegistryLogs env logs b s0
        = Prog.bind (call (env.CreateRecord
            { r with BlockNumber := b, TTL := l.value "ttl" }))
          (fun _ => forEach post (foldRegistryEvent env b)) s1) ∧
    (registryEvents logs = pre ++ RegistryEvent.NewResolver l :: post →
      processRegistryLogs env logs b s0
        = Prog.bind (call (env.CreateRecord
            { r with BlockNumber := b, ResolverAddr := l.value "resolver" }))
          (fun _ => Prog.bind
            (modifyTr (fun tr => { tr with
              ResolverAddresses := mapSet tr.ResolverAddresses (l.value "resolver") true }))
            (fun _ => forEach post (foldRegistryEvent env b))) s1) := by
  refine ⟨?_, ?_, ?_⟩
  · intro hev
    rw [foldRegistryEvent_reach env logs b pre post _ s0 s hev hpre]
    exact Prog.bind_congr_left (updateRecord_ok env (l.value "node") b
      (fun r => { r with Owner := l.value "owner" }) s s1 r hget)
  · intro hev
    rw [foldRegistryEvent_reach env logs b pre post _ s0 s hev hpre]
    exact Prog.bind_congr_left (updateRecord_ok env (l.value "node") b
      (fun r => { r with TTL := l.value "ttl" }) s s1 r hget)
  · intro hev
    rw [foldRegistryEvent_reach env logs b pre post _ s0 s hev hpre]
    show Prog.bind (Prog.bind (updateRecord env (l.value "node") b
      (fun r => { r with ResolverAddr := l.value "resolver" })) _) _ s = _
    have h := updateRecord_ok env (l.value "node") b
      (fun r => { r with ResolverAddr := l.value "resolver" }) s s1 r hget
    unfold Prog.bind
    rw [h]
    simp only
    cases hc : call (env.CreateRecord
      { r with BlockNumber := b, ResolverAddr := l.value "resolver" }) s1 with
    | mk res s2 =>
      cases res with
      | error e => rfl
      | ok u => rfl

/-- C14 at header 2 of scenario "early", and for a NewTTL and a NewResolver event on the same
row: the record created is the row of block 90 with the block number 110 and the one field
changed. -/
theorem registry_update_changes_one_field_witness :
    processRegistryLogs (simEnv (demoChain earlyLogs noFault))
        [("Transfer", [⟨[("node", "pl"), ("owner", "B")]⟩])] 110 (ownedStart ["pl"])
      = Prog.bind (call ((simEnv (demoChain earlyLogs noFault)).CreateRecord
          { NameHash := "pl", BlockNumber := 110, Owner := "B" }))
        (fun _ => forEach [] (foldRegistryEvent (simEnv (demoChain earlyLogs noFault)) 110))
        (ownedStart ["pl"]) ∧
    processRegistryLogs (simEnv (demoChain earlyLogs noFault))
        [("NewTTL", [⟨[("node", "pl"), ("ttl", "3600")]⟩])] 110 (ownedStart ["pl"])
      = Prog.bind (call ((simEnv (demoChain earlyLogs noFault)).CreateRecord
          { NameHash := "pl", BlockNumber := 110, Owner := "A", TTL := "3600" }))
        (fun _ => forEach [] (foldRegistryEvent (simEnv (demoChain earlyLogs noFault)) 110))
        (ownedStart ["pl"]) ∧
    (processRegistryLogs (simEnv (demoChain earlyLogs noFault))
        [("NewResolver", [⟨[("node", "pl"), ("resolver", "R")]⟩])] 110
        (ownedStart ["pl"])).2.world.records
      = [{ NameHash := "pl", BlockNumber := 90, Owner := "A" },
         { NameHash := "pl", BlockNumber := 110, Owner := "A", ResolverAddr := "R" }] :=
  ⟨(registry_update_changes_one_field (simEnv (demoChain earlyLogs noFault))
      [("Transfer", [⟨[("node", "pl"), ("owner", "B")]⟩])] 110 [] []
      ⟨[("node", "pl"), ("owner", "B")]⟩ (ownedStart ["pl"]) (ownedStart ["pl"])
      (ownedStart ["pl"]) { NameHash := "pl", BlockNumber := 90, Owner := "A" } rfl
      (by decide!)).1 (by decide!),
   (registry_update_changes_one_field (simEnv (demoChain earlyLogs noFault))
      [("NewTTL", [⟨[("node", "pl"), ("ttl", "3600")]⟩])] 110 [] []
      ⟨[("node", "pl"), ("ttl", "3600")]⟩ (ownedStart ["pl"]) (ownedStart ["pl"])
      (ownedStart ["pl"]) { NameHash := "pl", BlockNumber := 90, Owner := "A" } rfl
      (by decide!)).2.1 (by decide!),
   by decide!⟩

/-- C15: for every resolver event on a node among the resolver events of a header at block b,
once the events before it are folded and `GetRecord(node, b)` returns r, `processResolverLogs`
calls `CreateRecord` with r in which the block number is b and exactly the fields of the
event's kind are the event's values: AddrChanged the address pointed to, NameChanged the name,
ContentChanged the content, ABIChanged the content type, PubkeyChanged the two public-key
coordinates, TextChanged the text key and the indexed text key, MultihashChanged the multihash,
ContenthashChanged the contenthash.  Every other field is that of r. -/
theorem resolver_update_changes_own_fields {σ : Type} (env : Env σ)
    (logs : List (String × List Log)) (b : Int) (pre post : List ResolverEvent) (l : Log)
    (s0 s s1 : State σ) (r : DomainModel)
    (hpre : forEach pre (foldResolverEvent env b) s0 = (Except.ok (), s))
    (hget : call (env.GetRecord (l.value "node") b) s = (Except.ok r, s1)) :
    (resolverEvents logs = pre ++ ResolverEvent.AddrChanged l :: post →
      processResolverLogs env logs b s0
        = Prog.bind (call (env.CreateRecord
            { r with BlockNumber := b, PointsToAddr := l.value "a" }))
          (fun _ => forEach post (foldResolverEvent env b)) s1) ∧
    (resolverEvents logs = pre ++ ResolverEvent.NameChanged l :: post →
      processResolverLogs env logs b s0
        = Prog.bind (call (env.CreateRecord
            { r with BlockNumber := b, Name := l.value "name" }))
          (fun _ => forEach post (foldResolverEvent env b)) s1) ∧
    (resolverEvents logs = pre ++ ResolverEvent.ContentChanged l :: post →
      processResolverLogs env logs b s0
        = Prog.bind (call (env.CreateRecord
            { r with BlockNumber := b, Content := l.value "hash" }))
          (fun _ => forEach post (foldResolverEvent env b)) s1) ∧
    (resolverEvents logs = pre ++ ResolverEvent.ABIChanged l :: post →
      processResolverLogs env logs b s0
        = Prog.bind (call (env.CreateRecord
            { r with BlockNumber := b, ContentType := l.value "contentType" }))
          (fun _ => forEach post (foldResolverEvent env b)) s1) ∧
    (resolverEvents logs = pre ++ ResolverEvent.PubkeyChanged l :: post →
      processResolverLogs env logs b s0
        = Prog.bind (call (env.CreateRecord
            { r with BlockNumber := b, PubKeyX := l.value "x", PubKeyY := l.value "y" }))
          (fun _ => forEach post (foldResolverEvent env b)) s1) ∧
    (resolverEvents logs = pre ++ ResolverEvent.TextChanged l :: post →
      processResolverLogs env logs b s0
        = Prog.bind (call (env.CreateRecord
            { r with
              BlockNumber := b, TextKey := l.value "key", IndexedTextKey := l.value "indexedKey" }))
          (fun _ => forEach post (foldResolverEvent env b)) s1) ∧
    (resolverEvents logs = pre ++ ResolverEvent.MultihashChanged l :: post →
      processResolverLogs env logs b s0
        = Prog.bind (call (env.CreateRecord
            { r with BlockNumber := b, Multihash := l.value "hash" }))
          (fun _ => forEach post (foldResolverEvent env b)) s1) ∧
    (resolverEvents logs = pre ++ ResolverEvent.ContenthashChanged l :: post →
      processResolverLogs env logs b s0
        = Prog.bind (call (env.CreateRecord
            { r with BlockNumber := b, Contenthash := l.value "hash" }))
          (fun _ => forEach post (foldResolverEvent env b)) s1) :=
  ⟨
    fun hev => foldResolverEvent_ok env logs b pre post (ResolverEvent.AddrChanged l) s0 s s1 r hev
      hpre hget,
    fun hev => foldResolverEvent_ok env logs b pre post (ResolverEvent.NameChanged l) s0 s s1 r hev
      hpre hget,
    fun hev => foldResolverEvent_ok env logs b pre post (ResolverEvent.ContentChanged l) s0 s s1 r hev
      hpre hget,
    fun hev => foldResolverEvent_ok env logs b pre post (ResolverEvent.ABIChanged l) s0 s s1 r hev
      hpre hget,
    fun hev => foldResolverEvent_ok env logs b pre post (ResolverEvent.PubkeyChanged l) s0 s s1 r hev
      hpre hget,
    fun hev => foldResolverEvent_ok env logs b pre post (ResolverEvent.TextChanged l) s0 s s1 r hev
      hpre hget,
    fun hev => foldResolverEvent_ok env logs b pre post (ResolverEvent.MultihashChanged l) s0 s s1 r hev
      hpre hget,
    fun hev => foldResolverEvent_ok env logs b pre post (ResolverEvent.ContenthashChanged l) s0 s s1 r hev
      hpre hget⟩

/-- C15 on a PubkeyChanged event that follows an AddrChanged event of the same header at block
110: the record created is the row left by the AddrChanged event with the two coordinates
changed, and the store ends with that row next to the untouched row of block 90. -/
theorem resolver_update_changes_own_fields_witness :
    processResolverLogs (simEnv (demoChain earlyLogs noFault))
        [("AddrChanged", [⟨[("node", "pl"), ("a", "C")]⟩]),
         ("PubkeyChanged", [⟨[("node", "pl"), ("x", "X"), ("y", "Y")]⟩])] 110 fullStart
      = Prog.bind (call ((simEnv (demoChain earlyLogs noFault)).CreateRecord
          pubkeyRow))
        (fun _ => forEach [] (foldResolverEvent (simEnv (demoChain earlyLogs noFault)) 110))
        ⟨demoTransformer,
          { records := [fullRow, addrRow] }⟩ ∧
    (processResolverLogs (simEnv (demoChain earlyLogs noFault))
        [("AddrChanged", [⟨[("node", "pl"), ("a", "C")]⟩]),
         ("PubkeyChanged", [⟨[("node", "pl"), ("x", "X"), ("y", "Y")]⟩])] 110
        fullStart).2.world.records
      = [fullRow,
         pubkeyRow] :=
  ⟨(resolver_update_changes_own_fields (simEnv (demoChain earlyLogs noFault))
      [("AddrChanged", [⟨[("node", "pl"), ("a", "C")]⟩]),
       ("PubkeyChanged", [⟨[("node", "pl"), ("x", "X"), ("y", "Y")]⟩])] 110
      [ResolverEvent.AddrChanged ⟨[("node", "pl"), ("a", "C")]⟩] []
      ⟨[("node", "pl"), ("x", "X"), ("y", "Y")]⟩ fullStart
      ⟨demoTransformer,
        { records := [fullRow, addrRow] }⟩
      ⟨demoTransformer,
        { records := [fullRow, addrRow] }⟩
      addrRow
      (by decide!) (by decide!)).2.2.2.2.1 (by decide!),
   by decide!⟩

theorem foldRegistryEvent_error {σ : Type} (env : Env σ) (b : Int) (ev : RegistryEvent)
    (hev : ev.isNewOwner = false) (s s1 : State σ) (e : Error)
    (hget : call (env.GetRecord (ev.log.value "node") b) s = (Except.error e, s1)) :
    foldRegistryEvent env b ev s = (Except.error e, s1) := by
  cases ev with
  | NewOwner l => cases hev
  | Transfer l =>
    exact updateRecord_error env (l.value "node") b
      (fun r => { r with Owner := l.value "owner" }) s s1 e hget
  | NewTTL l =>
    exact updateRecord_error env (l.value "node") b
      (fun r => { r with TTL := l.value "ttl" }) s s1 e hget
  | NewResolver l =>
    exact Prog.bind_error (updateRecord_error env (l.value "node") b
      (fun r => { r with ResolverAddr := l.value "resolver" }) s s1 e hget)

theorem watchResolvers_run {σ : Type} (env : Env σ) (s : State σ) :
    watchResolvers env s = forEach s.tr.Resolvers (watchResolver env) s := rfl

theorem watchResolver_ok {σ : Type} (env : Env σ) (entry : String × Contract) (s : State σ)
    (hs : List Header) (w1 : σ)
    (h : env.MissingHeadersForAll s.tr.resolverIndex (int64 (s.tr.registryIndex - 1))
      (mapGet s.tr.resolverEventIds entry.1 []) (env.Update entry.2 s.world)
        = (Except.ok hs, w1)) :
    watchResolver env entry s
      = forEach hs (watchResolverHeader env entry.1 entry.2) { s with world := w1 } := by
  unfold watchResolver
  simp only [Prog.bind_run, Prog.bind, getTr, call, h]

/-- C16: an event other than NewOwner whose `GetRecord(node, b)` returns an error ends the fold
of its header.  Once the events before it are folded, `processRegistryLogs` and
`processResolverLogs` return that error in the state that the failed `GetRecord` left, so that
no record is created for the event or for any event after it.  The loop body of the header
returns the error of the fold in the same state, before its `MarkHeaderCheckedForAll`; the
header loop returns it without running the headers that follow; and `Execute` returns it,
from the registry pass and from the resolver pass alike. -/
theorem missing_record_aborts_header {σ : Type} (env : Env σ) (e : Error) :
    (∀ logs b pre ev post (s0 s s1 : State σ),
      registryEvents logs = pre ++ ev :: post → ev.isNewOwner = false →
      forEach pre (foldRegistryEvent env b) s0 = (Except.ok (), s) →
      call (env.GetRecord (ev.log.value "node") b) s = (Except.error e, s1) →
      processRegistryLogs env logs b s0 = (Except.error e, s1)) ∧
    (∀ logs b pre ev post (s0 s s1 : State σ),
      resolverEvents logs = pre ++ ev :: post →
      forEach pre (foldResolverEvent env b) s0 = (Except.ok (), s) →
      call (env.GetRecord (ev.log.value "node") b) s = (Except.error e, s1) →
      processResolverLogs env logs b s0 = (Except.error e, s1)) ∧
    (∀ header raw logs (s s1 s2 s3 : State σ), ¬ raw.length < 1 →
      call (env.FetchLogs [s.tr.Registry.Address] s.tr.registryEventFilters header) s
        = (Except.ok raw, s1) →
      call (env.ConvertBatch raw s.tr.Registry.Events header.Id) s1 = (Except.ok logs, s2) →
      processRegistryLogs env logs header.BlockNumber s2 = (Except.error e, s3) →
      executeHeader env header s = (Except.error e, s3)) ∧
    (∀ addr resolver header raw logs (s s1 s2 s3 : State σ), ¬ raw.length < 1 →
      call (env.FetchLogs [addr] (mapGet s.tr.resolverEventFilters addr []) header) s
        = (Except.ok raw, s1) →
      call (env.ConvertBatch raw resolver.Events header.Id) s1 = (Except.ok logs, s2) →
      processResolverLogs env logs header.BlockNumber s2 = (Except.error e, s3) →
      watchResolverHeader env addr resolver header s = (Except.error e, s3)) ∧
    (∀ hpre header hpost w1 (s sh s3 : State σ),
      env.MissingHeadersForAll s.tr.registryIndex (-1) s.tr.registryEventIds
        (afterUpdate env s).world = (Except.ok (hpre ++ header :: hpost), w1) →
      forEach hpre (executeHeader env) { s with world := w1 } = (Except.ok (), sh) →
      executeHeader env header sh = (Except.error e, s3) →
      Execute env s = (Except.error e, s3)) ∧
    (∀ entry hpre header hpost w1 (s sh s3 : State σ),
      env.MissingHeadersForAll s.tr.resolverIndex (int64 (s.tr.registryIndex - 1))
        (mapGet s.tr.resolverEventIds entry.1 []) (env.Update entry.2 s.world)
          = (Except.ok (hpre ++ header :: hpost), w1) →
      forEach hpre (watchResolverHeader env entry.1 entry.2) { s with world := w1 }
        = (Except.ok (), sh) →
      watchResolverHeader env entry.1 entry.2 header sh = (Except.error e, s3) →
      watchResolver env entry s = (Except.error e, s3)) ∧
    (∀ hs w1 rpre entry rpost (s s2 sr s3 : State σ),
      env.MissingHeadersForAll s.tr.registryIndex (-1) s.tr.registryEventIds
        (afterUpdate env s).world = (Except.ok hs, w1) →
      forEach hs (executeHeader env) { s with world := w1 } = (Except.ok (), s2) →
      (advanceIndexes hs s2).2.tr.Resolvers = rpre ++ entry :: rpost →
      forEach rpre (watchResolver env) (advanceIndexes hs s2).2 = (Except.ok (), sr) →
      watchResolver env entry sr = (Except.error e, s3) →
      Execute env s = (Except.error e, s3)) := by
  refine ⟨?_, ?_, ?_, ?_, ?_, ?_, ?_⟩
  · intro logs b pre ev post s0 s s1 hev hno hpre hget
    rw [processRegistryLogs_eq_forEach, hev]
    exact forEach_abort pre post ev _ s0 s s1 e hpre
      (foldRegistryEvent_error env b ev hno s s1 e hget)
  · intro logs b pre ev post s0 s s1 hev hpre hget
    rw [processResolverLogs_eq_forEach, hev]
    exact forEach_abort pre post ev _ s0 s s1 e hpre
      (updateRecord_error env (ev.log.value "node") b ev.assign s s1 e hget)
  · intro header raw logs s s1 s2 s3 hraw h1 h2 h3
    unfold executeHeader
    rw [Prog.seq_ok (show getTr s = (Except.ok s.tr, s) from rfl), Prog.seq_ok h1, if_neg hraw,
      Prog.seq_ok h2, Prog.seq_error h3]
  · intro addr resolver header raw logs s s1 s2 s3 hraw h1 h2 h3
    unfold watchResolverHeader
    rw [Prog.seq_ok (show getTr s = (Except.ok s.tr, s) from rfl), Prog.seq_ok h1, if_neg hraw,
      Prog.seq_ok h2, Prog.seq_error h3]
  · intro hpre header hpost w1 s sh s3 hm hp hh
    rw [Execute_ok env s _ w1 hm]
    unfold executeRest
    exact Prog.bind_error (forEach_abort hpre hpost header _ _ sh s3 e hp hh)
  · intro entry hpre header hpost w1 s sh s3 hm hp hh
    rw [watchResolver_ok env entry s _ w1 hm]
    exact forEach_abort hpre hpost header _ _ sh s3 e hp hh
  · intro hs w1 rpre entry rpost s s2 sr s3 hm hreg hres hp hh
    rw [Execute_ok env s _ w1 hm]
    unfold executeRest
    rw [Prog.bind_ok hreg]
    have ha : advanceIndexes hs s2 = (Except.ok (), (advanceIndexes hs s2).2) := by
      unfold advanceIndexes
      cases hs.getLast? with
      | none => rfl
      | some last => rfl
    rw [Prog.bind_ok ha, watchResolvers_run, hres]
    exact forEach_abort rpre rpost entry _ _ sr s3 e hp hh

/-- C16 in scenario "lost" (header 1 carries NewOwner and a Transfer of the node `zz`, which
has no record): the fold of header 1 and the whole pass return NotFound in the state that the
failed `GetRecord("zz", 100)` left; the only record created is the one of the NewOwner event,
no header is marked checked, and header 2 is not fetched. -/
theorem missing_record_aborts_header_witness :
    processRegistryLogs lostEnv lostDecoded 100 (lostState [] lostCalls)
      = (Except.error "NotFound",
          lostState [ownRow] (lostCalls ++ [Call.RecordExists "pl", Call.CreateRecord ownRow,
            Call.GetRecord "zz" 100])) ∧
    Execute lostEnv demoStartTraced
      = (Except.error "NotFound",
          lostState [ownRow] (lostCalls ++ [Call.RecordExists "pl", Call.CreateRecord ownRow,
            Call.GetRecord "zz" 100])) ∧
    markedHeaders (lostCalls ++ [Call.RecordExists "pl", Call.CreateRecord ownRow,
      Call.GetRecord "zz" 100]) = [] ∧
    (lostState [ownRow] []).world.1.checked = [] :=
  ⟨(missing_record_aborts_header lostEnv "NotFound").1 lostDecoded 100
      [RegistryEvent.NewOwner ⟨[("node", "p"), ("label", "l"), ("owner", "A")]⟩]
      (RegistryEvent.Transfer ⟨[("node", "zz"), ("owner", "B")]⟩) []
      (lostState [] lostCalls)
      (lostState [ownRow] (lostCalls ++ [Call.RecordExists "pl", Call.CreateRecord ownRow]))
      _ (by decide!) rfl (by decide!) (by decide!),
   (missing_record_aborts_header lostEnv "NotFound").2.2.2.2.1 [] ⟨1, 100⟩ [⟨2, 110⟩]
      (lostState [] [Call.Update demoTransformer.Registry,
        Call.MissingHeadersForAll 100 (-1) demoTransformer.registryEventIds]).world
      demoStartTraced
      (lostState [] [Call.Update demoTransformer.Registry,
        Call.MissingHeadersForAll 100 (-1) demoTransformer.registryEventIds])
      _ (by decide!) (by decide!) (by decide!),
   by decide!, by decide!⟩

/-! ## The name hash of a NewOwner event -/

theorem traced_CreateSubnode {σ : Type} (env : Env σ) :
    env.traced.CreateSubnode = env.CreateSubnode := rfl

theorem createdRecords_singleton_append (l : List Call) (c : Call) :
    createdRecords (l ++ [c]) = createdRecords l ++ createdRecords [c] := by
  simp [createdRecords, List.filterMap_append]

/-- C13: when `CreateSubnode` is the function of the specification, a NewOwner event (node p,
label l) that is folded without error has exactly one record created, and the name hash of
that record is the hexadecimal form of keccak256 of the bytes of p followed by the bytes of l,
which are 64 bytes when p and l are 32-byte hashes; for the node and the label of the
integration test the name hash is 0xbb87bd90…06de. -/
theorem newOwner_nameHash_is_keccak {σ : Type} (env : Env σ)
    (henv : env.CreateSubnode = CreateSubnode) (b : Int) (l : Log)
    (s : State (σ × List Call))
    (hok : (processNewOwner env.traced b l s).1 = Except.ok ()) :
    (∃ calls r, (processNewOwner env.traced b l s).2.world.2 = s.world.2 ++ calls ∧
      createdRecords calls = [r] ∧
      r.NameHash
        = hexOfBytes (keccak256 (bytesOfHex (l.value "node") ++ bytesOfHex (l.value "label")))) ∧
    ((bytesOfHex (l.value "node")).length = 32 → (bytesOfHex (l.value "label")).length = 32 →
      (bytesOfHex (l.value "node") ++ bytesOfHex (l.value "label")).length = 64) ∧
    CreateSubnode testNode testLabel
      = "0xbb87bd9021ba9da3248899e6fdd901a68efb0e15ac691ac9ce5cc88ebcb306de" := by
  refine ⟨?_, ?_, by decide!⟩
  · revert hok
    unfold processNewOwner
    simp only [Prog.bind_run, Prog.bind, call, Env.traced, henv]
    cases h1 : env.RecordExists (CreateSubnode (l.value "node") (l.value "label")) s.world.1 with
    | mk res w1 =>
      cases res with
      | error e => intro hok; simp at hok
      | ok found =>
        cases found with
        | false =>
          simp only [Bool.false_eq_true, if_false]
          intro hok
          refine ⟨[Call.RecordExists (CreateSubnode (l.value "node") (l.value "label")),
            Call.CreateRecord
              { NameHash := CreateSubnode (l.value "node") (l.value "label")
                ParentHash := l.value "node"
                LabelHash := l.value "label"
                Owner := l.value "owner"
                BlockNumber := b }], _, ?_, rfl, rfl⟩
          simp [Pure.pure]
        | true =>
          simp only [if_true]
          cases h2 : env.GetRecord (CreateSubnode (l.value "node") (l.value "label")) b w1 with
          | mk res2 w2 =>
            cases res2 with
            | error e =>
              simp only [call, h2]
              intro hok
              cases hok
            | ok r =>
              simp only [call, h2]
              intro hok
              refine ⟨[Call.RecordExists (CreateSubnode (l.value "node") (l.value "label")),
                Call.GetRecord (CreateSubnode (l.value "node") (l.value "label")) b,
                Call.CreateRecord
                  { r with
                    NameHash := CreateSubnode (l.value "node") (l.value "label")
                    ParentHash := l.value "node"
                    LabelHash := l.value "label"
                    Owner := l.value "owner"
                    BlockNumber := b }], _, ?_, rfl, rfl⟩
              simp
  · intro hp hl
    rw [List.length_append, hp, hl]

/-- C13 on the NewOwner event of the integration test: it is folded without error, the one
record created has the name hash 0xbb87bd90…06de that the test expects for the subnode, and
that is keccak256 of the 64 bytes of node and label. -/
theorem newOwner_nameHash_is_keccak_witness :
    (processNewOwner (simEnv keccakChain).traced 100 testOwn demoStartTraced).1 = Except.ok () ∧
    createdRecords (processNewOwner (simEnv keccakChain).traced 100 testOwn
        demoStartTraced).2.world.2
      = [{ NameHash := "0xbb87bd9021ba9da3248899e6fdd901a68efb0e15ac691ac9ce5cc88ebcb306de"
           ParentHash := testNode
           LabelHash := testLabel
           Owner := "0xA964ed4077aD3ba1946D118ce90544657bB4003B"
           BlockNumber := 100 }] ∧
    (bytesOfHex testNode ++ bytesOfHex testLabel).length = 64 ∧
    CreateSubnode testNode testLabel
      = "0xbb87bd9021ba9da3248899e6fdd901a68efb0e15ac691ac9ce5cc88ebcb306de" :=
  ⟨by decide!, by decide!,
    (newOwner_nameHash_is_keccak (simEnv keccakChain) rfl 100 testOwn demoStartTraced
      (by decide!)).2.1 (by decide!) (by decide!),
    (newOwner_nameHash_is_keccak (simEnv keccakChain) rfl 100 testOwn demoStartTraced
      (by decide!)).2.2⟩

/-! ## The loops of the converters -/

theorem rangeAppend_ok {α β : Type} (body : α → Except Error β) (g : α → β) (xs : List α)
    (out : List β) (h : ∀ x ∈ xs, body x = Except.ok (g x)) :
    rangeAppend body out xs = Except.ok (out ++ xs.map g) := by
  induction xs generalizing out with
  | nil => simp [rangeAppend]
  | cons x rest ih =>
    unfold rangeAppend
    rw [h x (List.mem_cons_self _ _)]
    simp only
    rw [ih (out ++ [g x]) (fun y hy => h y (List.mem_cons_of_mem _ hy))]
    simp

theorem rangeAppend_error {α β : Type} (body : α → Except Error β) (pre post : List α)
    (x : α) (e : Error) (out : List β) (hpre : ∀ y ∈ pre, ∃ z, body y = Except.ok z)
    (hx : body x = Except.error e) :
    rangeAppend body out (pre ++ x :: post) = Except.error e := by
  induction pre generalizing out with
  | nil =>
    show rangeAppend body out (x :: post) = _
    unfold rangeAppend
    rw [hx]
  | cons y rest ih =>
    obtain ⟨z, hz⟩ := hpre y (List.mem_cons_self _ _)
    show rangeAppend body out (y :: (rest ++ x :: post)) = _
    unfold rangeAppend
    rw [hz]
    exact ih (out ++ [z]) (fun y hy => hpre y (List.mem_cons_of_mem _ hy))

theorem rangeAppend_fails {α β : Type} (body : α → Except Error β) (xs : List α) (x : α)
    (e : Error) (out : List β) (hmem : x ∈ xs) (hx : body x = Except.error e) :
    ∃ err, rangeAppend body out xs = Except.error err := by
  induction xs generalizing out with
  | nil => cases hmem
  | cons y rest ih =>
    unfold rangeAppend
    cases hy : body y with
    | error err => exact ⟨err, rfl⟩
    | ok z =>
      simp only
      rcases List.mem_cons.mp hmem with h | h
      · rw [← h, hx] at hy
        cases hy
      · exact ih (out ++ [z]) h

theorem contentChanged_toModel_wrong (marshal : EthLog → Except Error (List Nat)) (x : Value)
    (hx : ∀ e, x ≠ Value.ContentChanged e) :
    ContentChangedConverter.toModel marshal x
      = Except.error
          ("entity of type " ++ x.typeName ++ ", not " ++ "content_changed.ContentChangedEntity") := by
  cases x with
  | ContentChanged e => exact absurd rfl (hx e)
  | _ => rfl

theorem contentChanged_toModel_own (marshal : EthLog → Except Error (List Nat))
    (y : Value) (h : ∃ e raw, y = Value.ContentChanged e ∧ marshal e.Raw = Except.ok raw) :
    ∃ m, ContentChangedConverter.toModel marshal y = Except.ok m := by
  obtain ⟨e, raw, rfl, hm⟩ := h
  unfold ContentChangedConverter.toModel
  simp only [hm]
  exact ⟨_, rfl⟩

theorem auctionStarted_toModel_wrong (marshal : EthLog → Except Error (List Nat)) (x : Value)
    (hx : ∀ e, x ≠ Value.AuctionStarted e) :
    AuctionStartedConverter.toModel marshal x
      = Except.error
          ("entity of type " ++ x.typeName ++ ", not " ++ "auction_started.AuctionStartedEntity") := by
  cases x with
  | AuctionStarted e => exact absurd rfl (hx e)
  | _ => rfl

theorem auctionStarted_toModel_own (marshal : EthLog → Except Error (List Nat))
    (y : Value) (h : ∃ e raw, y = Value.AuctionStarted e ∧ marshal e.Raw = Except.ok raw) :
    ∃ m, AuctionStartedConverter.toModel marshal y = Except.ok m := by
  obtain ⟨e, raw, rfl, hm⟩ := h
  unfold AuctionStartedConverter.toModel
  simp only [hm]
  exact ⟨_, rfl⟩

theorem bidRevealed_toModel_wrong (marshal : EthLog → Except Error (List Nat)) (x : Value)
    (hx : ∀ e, x ≠ Value.BidRevealed e) :
    BidRevealedConverter.toModel marshal x
      = Except.error
          ("entity of type " ++ x.typeName ++ ", not " ++ "bid_revealed.BidRevealedEntity") := by
  cases x with
  | BidRevealed e => exact absurd rfl (hx e)
  | _ => rfl

theorem bidRevealed_toModel_own (marshal : EthLog → Except Error (List Nat))
    (y : Value) (h : ∃ e raw, y = Value.BidRevealed e ∧ marshal e.Raw = Except.ok raw) :
    ∃ m, BidRevealedConverter.toModel marshal y = Except.ok m := by
  obtain ⟨e, raw, rfl, hm⟩ := h
  unfold BidRevealedConverter.toModel
  simp only [hm]
  exact ⟨_, rfl⟩

/-- C18: for each of the converters of ContentChanged, AuctionStarted and BidRevealed, `ToModels`
returns an error, and so no models, for every list that contains an element that is not of the
converter's entity type; when the elements before the first such element are converted (they
are of the entity type and their raw logs are marshalled), the error is the message `entity of
type T, not E`, where T is the name of the dynamic type of that element and E the name of the
converter's entity type. -/
theorem ToModels_rejects_other_types :
    (∀ (marshal : EthLog → Except Error (List Nat)) (pre post : List Value) (x : Value),
      (∀ y ∈ pre, ∃ e raw, y = Value.ContentChanged e ∧ marshal e.Raw = Except.ok raw) →
      (∀ e, x ≠ Value.ContentChanged e) →
      ContentChangedConverter.ToModels marshal (pre ++ x :: post)
        = Except.error
            ("entity of type " ++ x.typeName ++ ", not " ++ "content_changed.ContentChangedEntity")) ∧
    (∀ (marshal : EthLog → Except Error (List Nat)) (entities : List Value) (x : Value),
      x ∈ entities → (∀ e, x ≠ Value.ContentChanged e) →
      ∃ err, ContentChangedConverter.ToModels marshal entities = Except.error err) ∧
    (∀ (marshal : EthLog → Except Error (List Nat)) (pre post : List Value) (x : Value),
      (∀ y ∈ pre, ∃ e raw, y = Value.AuctionStarted e ∧ marshal e.Raw = Except.ok raw) →
      (∀ e, x ≠ Value.AuctionStarted e) →
      AuctionStartedConverter.ToModels marshal (pre ++ x :: post)
        = Except.error
            ("entity of type " ++ x.typeName ++ ", not " ++ "auction_started.AuctionStartedEntity")) ∧
    (∀ (marshal : EthLog → Except Error (List Nat)) (entities : List Value) (x : Value),
      x ∈ entities → (∀ e, x ≠ Value.AuctionStarted e) →
      ∃ err, AuctionStartedConverter.ToModels marshal entities = Except.error err) ∧
    (∀ (marshal : EthLog → Except Error (List Nat)) (pre post : List Value) (x : Value),
      (∀ y ∈ pre, ∃ e raw, y = Value.BidRevealed e ∧ marshal e.Raw = Except.ok raw) →
      (∀ e, x ≠ Value.BidRevealed e) →
      BidRevealedConverter.ToModels marshal (pre ++ x :: post)
        = Except.error
            ("entity of type " ++ x.typeName ++ ", not " ++ "bid_revealed.BidRevealedEntity")) ∧
    (∀ (marshal : EthLog → Except Error (List Nat)) (entities : List Value) (x : Value),
      x ∈ entities → (∀ e, x ≠ Value.BidRevealed e) →
      ∃ err, BidRevealedConverter.ToModels marshal entities = Except.error err) :=
  ⟨
    fun marshal pre post x hpre hx =>
      rangeAppend_error _ pre post x _ []
        (fun y hy => contentChanged_toModel_own marshal y (hpre y hy))
        (contentChanged_toModel_wrong marshal x hx),
    fun marshal entities x hmem hx =>
      rangeAppend_fails _ entities x _ [] hmem (contentChanged_toModel_wrong marshal x hx),
    fun marshal pre post x hpre hx =>
      rangeAppend_error _ pre post x _ []
        (fun y hy => auctionStarted_toModel_own marshal y (hpre y hy))
        (auctionStarted_toModel_wrong marshal x hx),
    fun marshal entities x hmem hx =>
      rangeAppend_fails _ entities x _ [] hmem (auctionStarted_toModel_wrong marshal x hx),
    fun marshal pre post x hpre hx =>
      rangeAppend_error _ pre post x _ []
        (fun y hy => bidRevealed_toModel_own marshal y (hpre y hy))
        (bidRevealed_toModel_wrong marshal x hx),
    fun marshal entities x hmem hx =>
      rangeAppend_fails _ entities x _ [] hmem (bidRevealed_toModel_wrong marshal x hx)⟩

/-- C18 on the list of the converter test, whose only element is a `test_data.WrongEntity`, and
on a list in which a converted entity precedes an entity of another converter. -/
theorem ToModels_rejects_other_types_witness :
    ContentChangedConverter.ToModels (fun _ => Except.ok [])
        [Value.Other "test_data.WrongEntity"]
      = Except.error
          "entity of type test_data.WrongEntity, not content_changed.ContentChangedEntity" ∧
    BidRevealedConverter.ToModels (fun _ => Except.ok [])
        [Value.BidRevealed {}, Value.AuctionStarted {}, Value.BidRevealed {}]
      = Except.error
          "entity of type auction_started.AuctionStartedEntity, not bid_revealed.BidRevealedEntity" :=
  ⟨ToModels_rejects_other_types.1 (fun _ => Except.ok []) [] []
      (Value.Other "test_data.WrongEntity") (by simp) (by simp),
   ToModels_rejects_other_types.2.2.2.2.1 (fun _ => Except.ok []) [Value.BidRevealed {}]
      [Value.BidRevealed {}] (Value.AuctionStarted {})
      (by
        intro y hy
        rw [List.mem_singleton] at hy
        exact ⟨{}, [], hy, rfl⟩)
      (by simp)⟩

/-- C19: when `json.Marshal` returns the encoding `json l` for the raw log `l` of every entity
of a list, `ToModels` of each converter returns, for the list of these entities taken as
values of the empty interface, no error and the list of their models, one per entity in the
same order: the model carries the hexadecimal form of the entity's hashes and addresses and the
decimal form of its big integers, its `LogIndex` and `TransactionIndex`, and the JSON encoding
of its raw log.  The zero address is rendered as `0x` and 40 zeros, the zero hash as `0x` and
64 zeros, a nil big integer as `<nil>`. -/
theorem ToModels_renders_each_entity (marshal : EthLog → Except Error (List Nat))
    (json : EthLog → List Nat) :
    (∀ es : List ContentChangedEntity, (∀ e ∈ es, marshal e.Raw = Except.ok (json e.Raw)) →
      ContentChangedConverter.ToModels marshal (es.map Value.ContentChanged)
        = Except.ok (es.map (fun e =>
          {
            Resolver := e.Resolver.Hex
            Node := e.Node.Hex
            Hash := e.Hash.Hex
            LogIndex := e.LogIndex
            TransactionIndex := e.TransactionIndex
            Raw := json e.Raw }))) ∧
    (∀ es : List AuctionStartedEntity, (∀ e ∈ es, marshal e.Raw = Except.ok (json e.Raw)) →
      AuctionStartedConverter.ToModels marshal (es.map Value.AuctionStarted)
        = Except.ok (es.map (fun e =>
          {
            Hash := e.Hash.Hex
            RegistrationDate := bigString e.RegistrationDate
            LogIndex := e.LogIndex
            TransactionIndex := e.TransactionIndex
            Raw := json e.Raw }))) ∧
    (∀ es : List BidRevealedEntity, (∀ e ∈ es, marshal e.Raw = Except.ok (json e.Raw)) →
      BidRevealedConverter.ToModels marshal (es.map Value.BidRevealed)
        = Except.ok (es.map (fun e =>
          {
            Hash := e.Hash.Hex
            Owner := e.Owner.Hex
            Value := bigString e.Value
            Status := e.Status
            LogIndex := e.LogIndex
            TransactionIndex := e.TransactionIndex
            Raw := json e.Raw }))) ∧
    ({} : Common.Address).Hex = "0x0000000000000000000000000000000000000000" ∧
    ({} : Common.Hash).Hex
      = "0x0000000000000000000000000000000000000000000000000000000000000000" ∧
    bigString none = "<nil>" := by
  refine ⟨?_, ?_, ?_, by decide!, by decide!, rfl⟩
  · intro es hm
    unfold ContentChangedConverter.ToModels
    rw [rangeAppend_ok _ (fun v => match v with
      | Value.ContentChanged e =>
        ({
            Resolver := e.Resolver.Hex
            Node := e.Node.Hex
            Hash := e.Hash.Hex
            LogIndex := e.LogIndex
            TransactionIndex := e.TransactionIndex
            Raw := json e.Raw } : ContentChangedModel)
      | _ => {}) (es.map Value.ContentChanged) []]
    · simp [List.map_map, Function.comp_def]
    · intro x hx
      obtain ⟨e, he, rfl⟩ := List.mem_map.mp hx
      unfold ContentChangedConverter.toModel
      simp only [hm e he]
  · intro es hm
    unfold AuctionStartedConverter.ToModels
    rw [rangeAppend_ok _ (fun v => match v with
      | Value.AuctionStarted e =>
        ({
            Hash := e.Hash.Hex
            RegistrationDate := bigString e.RegistrationDate
            LogIndex := e.LogIndex
            TransactionIndex := e.TransactionIndex
            Raw := json e.Raw } : AuctionStartedModel)
      | _ => {}) (es.map Value.AuctionStarted) []]
    · simp [List.map_map, Function.comp_def]
    · intro x hx
      obtain ⟨e, he, rfl⟩ := List.mem_map.mp hx
      unfold AuctionStartedConverter.toModel
      simp only [hm e he]
  · intro es hm
    unfold BidRevealedConverter.ToModels
    rw [rangeAppend_ok _ (fun v => match v with
      | Value.BidRevealed e =>
        ({
            Hash := e.Hash.Hex
            Owner := e.Owner.Hex
            Value := bigString e.Value
            Status := e.Status
            LogIndex := e.LogIndex
            TransactionIndex := e.TransactionIndex
            Raw := json e.Raw } : BidRevealedModel)
      | _ => {}) (es.map Value.BidRevealed) []]
    · simp [List.map_map, Function.comp_def]
    · intro x hx
      obtain ⟨e, he, rfl⟩ := List.mem_map.mp hx
      unfold BidRevealedConverter.toModel
      simp only [hm e he]

/-- C20: for each of the converters of ContentChanged, AuctionStarted and BidRevealed, with
`geth.ParseAbi` and `UnpackLog` behind the parameters `parseAbi` and `unpackLog`: `ToEntities`
returns the error of `ParseAbi`, and no entities, for every non-empty list of logs when the ABI
string is not parsed; it returns the error of `UnpackLog`, and no entities, at the first log
that is not unpacked, so it returns an error whenever some log of the list is not unpacked; and
when every log is unpacked it returns one entity per log in the order of the logs, the unpacked
entity with `Raw`, `LogIndex` and `TransactionIndex` set to the log, its `Index` and its
`TxIndex`. -/
theorem ToEntities_fails_or_copies_log_fields {α : Type} (parseAbi : String → Except Error α) :
    (∀ (unpackLog : α → Common.Address → String → EthLog → ContentChangedEntity →
        Except Error ContentChangedEntity)
        (contractAbi : String),
      (∀ (l : EthLog) (rest : List EthLog) (err : Error),
        parseAbi contractAbi = Except.error err →
        ContentChangedConverter.ToEntities parseAbi unpackLog contractAbi (l :: rest)
          = Except.error err) ∧
      (∀ (abi : α) (pre post : List EthLog) (l : EthLog) (err : Error),
        parseAbi contractAbi = Except.ok abi →
        (∀ l ∈ pre, ∃ u,
          unpackLog abi l.Address "ContentChanged" l { Resolver := l.Address } = Except.ok u) →
        unpackLog abi l.Address "ContentChanged" l { Resolver := l.Address } = Except.error err →
        ContentChangedConverter.ToEntities parseAbi unpackLog contractAbi (pre ++ l :: post)
          = Except.error err) ∧
      (∀ (abi : α) (ethLogs : List EthLog) (l : EthLog) (err : Error),
        parseAbi contractAbi = Except.ok abi → l ∈ ethLogs →
        unpackLog abi l.Address "ContentChanged" l { Resolver := l.Address } = Except.error err →
        ∃ err, ContentChangedConverter.ToEntities parseAbi unpackLog contractAbi ethLogs
          = Except.error err) ∧
      (∀ (abi : α) (unpacked : EthLog → ContentChangedEntity) (ethLogs : List EthLog),
        parseAbi contractAbi = Except.ok abi →
        (∀ l ∈ ethLogs,
          unpackLog abi l.Address "ContentChanged" l { Resolver := l.Address }
            = Except.ok (unpacked l)) →
        ContentChangedConverter.ToEntities parseAbi unpackLog contractAbi ethLogs
          = Except.ok (ethLogs.map (fun l => Value.ContentChanged
              { unpacked l with
                Raw := l
                LogIndex := l.Index
                TransactionIndex := l.TxIndex })))) ∧
    (∀ (unpackLog : α → Common.Address → String → EthLog → AuctionStartedEntity →
        Except Error AuctionStartedEntity)
        (contractAbi : String),
      (∀ (l : EthLog) (rest : List EthLog) (err : Error),
        parseAbi contractAbi = Except.error err →
        AuctionStartedConverter.ToEntities parseAbi unpackLog contractAbi (l :: rest)
          = Except.error err) ∧
      (∀ (abi : α) (pre post : List EthLog) (l : EthLog) (err : Error),
        parseAbi contractAbi = Except.ok abi →
        (∀ l ∈ pre, ∃ u, unpackLog abi l.Address "AuctionStarted" l {} = Except.ok u) →
        unpackLog abi l.Address "AuctionStarted" l {} = Except.error err →
        AuctionStartedConverter.ToEntities parseAbi unpackLog contractAbi (pre ++ l :: post)
          = Except.error err) ∧
      (∀ (abi : α) (ethLogs : List EthLog) (l : EthLog) (err : Error),
        parseAbi contractAbi = Except.ok abi → l ∈ ethLogs →
        unpackLog abi l.Address "AuctionStarted" l {} = Except.error err →
        ∃ err, AuctionStartedConverter.ToEntities parseAbi unpackLog contractAbi ethLogs
          = Except.error err) ∧
      (∀ (abi : α) (unpacked : EthLog → AuctionStartedEntity) (ethLogs : List EthLog),
        parseAbi contractAbi = Except.ok abi →
        (∀ l ∈ ethLogs,
          unpackLog abi l.Address "AuctionStarted" l {} = Except.ok (unpacked l)) →
        AuctionStartedConverter.ToEntities parseAbi unpackLog contractAbi ethLogs
          = Except.ok (ethLogs.map (fun l => Value.AuctionStarted
              { unpacked l with
                Raw := l
                LogIndex := l.Index
                TransactionIndex := l.TxIndex })))) ∧
    (∀ (unpackLog : α → Common.Address → String → EthLog → BidRevealedEntity →
        Except Error BidRevealedEntity)
        (contractAbi : String),
      (∀ (l : EthLog) (rest : List EthLog) (err : Error),
        parseAbi contractAbi = Except.error err →
        BidRevealedConverter.ToEntities parseAbi unpackLog contractAbi (l :: rest)
          = Except.error err) ∧
      (∀ (abi : α) (pre post : List EthLog) (l : EthLog) (err : Error),
        parseAbi contractAbi = Except.ok abi →
        (∀ l ∈ pre, ∃ u, unpackLog abi l.Address "BidRevealed" l {} = Except.ok u) →
        unpackLog abi l.Address "BidRevealed" l {} = Except.error err →
        BidRevealedConverter.ToEntities parseAbi unpackLog contractAbi (pre ++ l :: post)
          = Except.error err) ∧
      (∀ (abi : α) (ethLogs : List EthLog) (l : EthLog) (err : Error),
        parseAbi contractAbi = Except.ok abi → l ∈ ethLogs →
        unpackLog abi l.Address "BidRevealed" l {} = Except.error err →
        ∃ err, BidRevealedConverter.ToEntities parseAbi unpackLog contractAbi ethLogs
          = Except.error err) ∧
      (∀ (abi : α) (unpacked : EthLog → BidRevealedEntity) (ethLogs : List EthLog),
        parseAbi contractAbi = Except.ok abi →
        (∀ l ∈ ethLogs, unpackLog abi l.Address "BidRevealed" l {} = Except.ok (unpacked l)) →
        BidRevealedConverter.ToEntities parseAbi unpackLog contractAbi ethLogs
          = Except.ok (ethLogs.map (fun l => Value.BidRevealed
              { unpacked l with
                Raw := l
                LogIndex := l.Index
                TransactionIndex := l.TxIndex })))) := by
  refine ⟨?_, ?_, ?_⟩
  · intro unpackLog contractAbi
    refine ⟨?_, ?_, ?_, ?_⟩
    · intro l rest err hp
      unfold ContentChangedConverter.ToEntities rangeAppend ContentChangedConverter.toEntity
      simp only [hp]
    · intro abi pre post l err hp hpre hl
      unfold ContentChangedConverter.ToEntities
      refine rangeAppend_error _ pre post l err [] ?_ ?_
      · intro y hy
        obtain ⟨u, hu⟩ := hpre y hy
        unfold ContentChangedConverter.toEntity
        simp only [hp, hu]
        exact ⟨_, rfl⟩
      · unfold ContentChangedConverter.toEntity
        simp only [hp, hl]
    · intro abi ethLogs l err hp hmem hl
      unfold ContentChangedConverter.ToEntities
      refine rangeAppend_fails _ ethLogs l err [] hmem ?_
      unfold ContentChangedConverter.toEntity
      simp only [hp, hl]
    · intro abi unpacked ethLogs hp hall
      unfold ContentChangedConverter.ToEntities
      rw [rangeAppend_ok _ (fun l => Value.ContentChanged
        { unpacked l with
          Raw := l
          LogIndex := l.Index
          TransactionIndex := l.TxIndex }) ethLogs []]
      · simp
      · intro l hl
        unfold ContentChangedConverter.toEntity
        simp only [hp, hall l hl]
  · intro unpackLog contractAbi
    refine ⟨?_, ?_, ?_, ?_⟩
    · intro l rest err hp
      unfold AuctionStartedConverter.ToEntities rangeAppend AuctionStartedConverter.toEntity
      simp only [hp]
    · intro abi pre post l err hp hpre hl
      unfold AuctionStartedConverter.ToEntities
      refine rangeAppend_error _ pre post l err [] ?_ ?_
      · intro y hy
        obtain ⟨u, hu⟩ := hpre y hy
        unfold AuctionStartedConverter.toEntity
        simp only [hp, hu]
        exact ⟨_, rfl⟩
      · unfold AuctionStartedConverter.toEntity
        simp only [hp, hl]
    · intro abi ethLogs l err hp hmem hl
      unfold AuctionStartedConverter.ToEntities
      refine rangeAppend_fails _ ethLogs l err [] hmem ?_
      unfold AuctionStartedConverter.toEntity
      simp only [hp, hl]
    · intro abi unpacked ethLogs hp hall
      unfold AuctionStartedConverter.ToEntities
      rw [rangeAppend_ok _ (fun l => Value.AuctionStarted
        { unpacked l with
          Raw := l
          LogIndex := l.Index
          TransactionIndex := l.TxIndex }) ethLogs []]
      · simp
      · intro l hl
        unfold AuctionStartedConverter.toEntity
        simp only [hp, hall l hl]
  · intro unpackLog contractAbi
    refine ⟨?_, ?_, ?_, ?_⟩
    · intro l rest err hp
      unfold BidRevealedConverter.ToEntities rangeAppend BidRevealedConverter.toEntity
      simp only [hp]
    · intro abi pre post l err hp hpre hl
      unfold BidRevealedConverter.ToEntities
      refine rangeAppend_error _ pre post l err [] ?_ ?_
      · intro y hy
        obtain ⟨u, hu⟩ := hpre y hy
        unfold BidRevealedConverter.toEntity
        simp only [hp, hu]
        exact ⟨_, rfl⟩
      · unfold BidRevealedConverter.toEntity
        simp only [hp, hl]
    · intro abi ethLogs l err hp hmem hl
      unfold BidRevealedConverter.ToEntities
      refine rangeAppend_fails _ ethLogs l err [] hmem ?_
      unfold BidRevealedConverter.toEntity
      simp only [hp, hl]
    · intro abi unpacked ethLogs hp hall
      unfold BidRevealedConverter.ToEntities
      rw [rangeAppend_ok _ (fun l => Value.BidRevealed
        { unpacked l with
          Raw := l
          LogIndex := l.Index
          TransactionIndex := l.TxIndex }) ethLogs []]
      · simp
      · intro l hl
        unfold BidRevealedConverter.toEntity
        simp only [hp, hall l hl]

/-- C19 on a zero-valued ContentChanged entity followed by `demoContentChanged`, and on a
zero-valued BidRevealed entity: the models come in the order of the entities, with the
check-summed address, the hashes in lower case, the indexes and the encoding of the raw log;
the nil value of the zero-valued bid is rendered as `<nil>`. -/
theorem ToModels_renders_each_entity_witness :
    ContentChangedConverter.ToModels (fun l => Except.ok (demoJson l))
        [Value.ContentChanged {}, Value.ContentChanged demoContentChanged]
      = Except.ok
        [{ Resolver := "0x0000000000000000000000000000000000000000"
           Node := "0x0000000000000000000000000000000000000000000000000000000000000000"
           Hash := "0x0000000000000000000000000000000000000000000000000000000000000000"
           LogIndex := 0
           TransactionIndex := 0
           Raw := [0, 0] },
         { Resolver := "0xA964ed4077aD3ba1946D118ce90544657bB4003B"
           Node := testNode
           Hash := testLabel
           LogIndex := 78
           TransactionIndex := 50
           Raw := [50, 78] }] ∧
    BidRevealedConverter.ToModels (fun l => Except.ok (demoJson l)) [Value.BidRevealed {}]
      = Except.ok
        [{ Hash := "0x0000000000000000000000000000000000000000000000000000000000000000"
           Owner := "0x0000000000000000000000000000000000000000"
           Value := "<nil>"
           Status := 0
           LogIndex := 0
           TransactionIndex := 0
           Raw := [0, 0] }] :=
  ⟨((ToModels_renders_each_entity (fun l => Except.ok (demoJson l)) demoJson).1
      [{}, demoContentChanged] (fun _ _ => rfl)).trans (by decide!),
   ((ToModels_renders_each_entity (fun l => Except.ok (demoJson l)) demoJson).2.2.1
      [{}] (fun _ _ => rfl)).trans (by decide!)⟩

/-- C20 on the AuctionStarted converter: the string `error abi` gives the parser's error for a
list of one log; a log without topics after a good one gives the error of `UnpackLog`; two good
logs give two entities in the order of the logs, each with its log and the log's indexes. -/
theorem ToEntities_fails_or_copies_log_fields_witness :
    AuctionStartedConverter.ToEntities demoParseAbi demoUnpack "error abi" [demoLogA]
      = Except.error "invalid character" ∧
    AuctionStartedConverter.ToEntities demoParseAbi demoUnpack "abi"
        [demoLogA, demoLogBad, demoLogB]
      = Except.error "abi: no topics" ∧
    AuctionStartedConverter.ToEntities demoParseAbi demoUnpack "abi" [demoLogA, demoLogB]
      = Except.ok
        [Value.AuctionStarted
          { Hash := ⟨bytesOfHex testNode⟩, RegistrationDate := some 26, LogIndex := 7,
            TransactionIndex := 111, Raw := demoLogA },
         Value.AuctionStarted
          { Hash := ⟨bytesOfHex testLabel⟩, RegistrationDate := some 27, LogIndex := 9,
            TransactionIndex := 2, Raw := demoLogB }] :=
  ⟨((ToEntities_fails_or_copies_log_fields demoParseAbi).2.1 demoUnpack "error abi").1
      demoLogA [] "invalid character" (by decide!),
   ((ToEntities_fails_or_copies_log_fields demoParseAbi).2.1 demoUnpack "abi").2.1
      "abi" [demoLogA] [demoLogB] demoLogBad "abi: no topics" (by decide!)
      (by
        intro l hl
        rw [List.mem_singleton] at hl
        subst hl
        exact ⟨_, rfl⟩)
      (by decide!),
   (((ToEntities_fails_or_copies_log_fields demoParseAbi).2.1 demoUnpack "abi").2.2.2
      "abi" (fun l => { Hash := l.Topics.headD {}, RegistrationDate := some l.BlockNumber })
      [demoLogA, demoLogB] (by decide!)
      (by
        intro l hl
        simp only [List.mem_cons, List.mem_singleton, List.not_mem_nil, or_false] at hl
        rcases hl with rfl | rfl <;> rfl)).trans (by decide!)⟩

/-! ## Several events for one name in one header -/

theorem getLast?_cons_ne {α : Type} (a : α) (l : List α) (h : l ≠ []) :
    (a :: l).getLast? = l.getLast? := by
  cases l with
  | nil => exact absurd rfl h
  | cons b t => simp [List.getLast?_cons_cons]

theorem stepsWrites_cons (b : Int) (st : Step) (rest : List Step) (S : List DomainModel)
    (r : DomainModel) (h : st.base b S = some r) :
    stepsWrites b (st :: rest) S
      = st.patch.apply r :: stepsWrites b rest (createRecord S (st.patch.apply r)) := by
  conv_lhs => unfold stepsWrites
  rw [h]

theorem stepsWrites_length (b : Int) (L : List Step) (S S1 : List DomainModel)
    (hrun : runSteps b L S = some S1) : (stepsWrites b L S).length = L.length := by
  induction L generalizing S with
  | nil => rfl
  | cons st rest ih =>
    obtain ⟨S2, h1, h2⟩ := runSteps_cons_some b st rest S S1 hrun
    obtain ⟨r, hr, rfl⟩ := Step.run_some b st S S2 h1
    rw [stepsWrites_cons b st rest S r hr, List.length_cons, List.length_cons, ih _ h2]

theorem rowsOf_stepsWrites_length (b : Int) (h : String) (L : List Step)
    (hL : ∀ st ∈ L, keyedStep b st) (S S1 : List DomainModel)
    (hrun : runSteps b L S = some S1) :
    (rowsOf h (stepsWrites b L S)).length = (stepsOf h L).length := by
  induction L generalizing S with
  | nil => rfl
  | cons st rest ih =>
    obtain ⟨S2, h1, h2⟩ := runSteps_cons_some b st rest S S1 hrun
    obtain ⟨r, hr, rfl⟩ := Step.run_some b st S S2 h1
    have hk := (apply_key b st (hL st (List.mem_cons_self _ _)) r).1
    have ih2 := ih (fun x hx => hL x (List.mem_cons_of_mem _ hx)) _ h2
    rw [stepsWrites_cons b st rest S r hr]
    unfold rowsOf stepsOf at *
    by_cases hh : st.key = h
    · rw [List.filter_cons_of_pos (by simpa using hk.trans hh),
        List.filter_cons_of_pos (by simpa using hh), List.length_cons, List.length_cons, ih2]
    · rw [List.filter_cons_of_neg (by simpa using fun e => hh (hk.symm.trans e)),
        List.filter_cons_of_neg (by simpa using hh), ih2]

/-- When the row `x` with the key `(h, b)` is in the store, the fold of `L` leaves under that
key the row `x` after the assignments of the iterations for `h`, and that row is the last
record created for `h`, if any is. -/
theorem runSteps_row_of_present (b : Int) (h : String) (L : List Step)
    (hL : ∀ st ∈ L, keyedStep b st) (S S1 : List DomainModel) (hS : keyed S)
    (hrun : runSteps b L S = some S1) (x : DomainModel) (hx : x ∈ S) (hxh : x.NameHash = h)
    (hxb : x.BlockNumber = b) :
    getRecord S1 h b = some (foldPatches x (stepsOf h L)) ∧
    (stepsOf h L ≠ [] →
      (rowsOf h (stepsWrites b L S)).getLast? = some (foldPatches x (stepsOf h L))) := by
  induction L generalizing S x with
  | nil =>
    simp only [runSteps, Option.some.injEq] at hrun
    subst hrun
    refine ⟨?_, fun hne => absurd rfl hne⟩
    have := getRecord_of_present S hS x hx
    rw [hxh, hxb] at this
    exact this
  | cons st rest ih =>
    obtain ⟨S2, h1, h2⟩ := runSteps_cons_some b st rest S S1 hrun
    obtain ⟨r, hr, rfl⟩ := Step.run_some b st S S2 h1
    have hst := hL st (List.mem_cons_self _ _)
    have hk := apply_key b st hst r
    have hL2 : ∀ y ∈ rest, keyedStep b y := fun y hy => hL y (List.mem_cons_of_mem _ hy)
    have hS2 := keyed_createRecord S (st.patch.apply r) hS
    rw [stepsWrites_cons b st rest S r hr]
    by_cases hh : st.key = h
    · have hrx : r = x := by
        have he : recordExists S st.key = true := by
          rw [hh, ← hxh]; exact recordExists_of_mem S x hx
        have hg := getRecord_of_present S hS x hx
        unfold Step.base at hr
        rw [he] at hr
        simp only [Bool.true_eq_false, and_false, if_false] at hr
        rw [hh, ← hxh, ← hxb, hg] at hr
        exact (Option.some.inj hr).symm
      subst hrx
      have hw : st.patch.apply r ∈ createRecord S (st.patch.apply r) :=
        (mem_createRecord S _ _).mpr (Or.inl rfl)
      obtain ⟨i1, i2⟩ := ih hL2 _ hS2 h2 (st.patch.apply r) hw (hk.1.trans hh) hk.2
      have hso : stepsOf h (st :: rest) = st :: stepsOf h rest := by
        unfold stepsOf
        rw [List.filter_cons_of_pos (by simpa using hh)]
      have hro : rowsOf h (st.patch.apply r :: stepsWrites b rest
          (createRecord S (st.patch.apply r)))
          = st.patch.apply r :: rowsOf h (stepsWrites b rest
            (createRecord S (st.patch.apply r))) := by
        unfold rowsOf
        rw [List.filter_cons_of_pos (by simpa using hk.1.trans hh)]
      rw [hso, hro]
      refine ⟨i1, fun _ => ?_⟩
      by_cases hne : stepsOf h rest = []
      · have hlen := rowsOf_stepsWrites_length b h rest hL2 _ _ h2
        rw [hne, List.length_nil, List.length_eq_zero] at hlen
        rw [hlen, hne]
        rfl
      · have hlen := rowsOf_stepsWrites_length b h rest hL2 _ _ h2
        have hne2 : rowsOf h (stepsWrites b rest (createRecord S (st.patch.apply r))) ≠ [] := by
          intro e
          rw [e, List.length_nil] at hlen
          exact hne (List.length_eq_zero.mp hlen.symm)
        rw [getLast?_cons_ne _ _ hne2]
        exact i2 hne
    · have hne : (st.patch.apply r).NameHash ≠ h := fun e => hh (hk.1.symm.trans e)
      have hx2 : x ∈ createRecord S (st.patch.apply r) :=
        (mem_createRecord_other S _ x (by rw [hxh]; exact fun e => hne e.symm)).mpr hx
      obtain ⟨i1, i2⟩ := ih hL2 _ hS2 h2 x hx2 hxh hxb
      have hso : stepsOf h (st :: rest) = stepsOf h rest := by
        unfold stepsOf
        rw [List.filter_cons_of_neg (by simpa using hh)]
      have hro : rowsOf h (st.patch.apply r :: stepsWrites b rest
          (createRecord S (st.patch.apply r)))
          = rowsOf h (stepsWrites b rest (createRecord S (st.patch.apply r))) := by
        unfold rowsOf
        rw [List.filter_cons_of_neg (by simpa using hne)]
      rw [hso, hro]
      exact ⟨i1, i2⟩

theorem stepsWrites_append (b : Int) (L1 L2 : List Step) (S : List DomainModel) :
    stepsWrites b (L1 ++ L2) S
      = stepsWrites b L1 S ++
        (match runSteps b L1 S with
          | some S1 => stepsWrites b L2 S1
          | none => []) := by
  induction L1 generalizing S with
  | nil => rfl
  | cons st rest ih =>
    cases hb : st.base b S with
    | none =>
      have hr : runSteps b (st :: rest) S = none := by
        simp [runSteps, Step.run, hb]
      rw [hr]
      show stepsWrites b (st :: (rest ++ L2)) S = stepsWrites b (st :: rest) S ++ []
      unfold stepsWrites
      simp [hb]
    | some r =>
      have hr : st.run b S = some (createRecord S (st.patch.apply r)) := by
        simp [Step.run, hb]
      rw [runSteps_cons_of b st rest S _ hr]
      show stepsWrites b (st :: (rest ++ L2)) S = _
      rw [stepsWrites_cons b st _ S r hb, stepsWrites_cons b st _ S r hb, ih]
      rfl

theorem foldsTraced_nil (b : Int) : FoldsTraced b (pure ()) [] :=
  fun _ => ⟨by simp [stepsWrites, Pure.pure], rfl, rfl⟩

theorem foldsTraced_seq {b : Int} {x y : Prog (World × List Call) Unit} {L1 L2 : List Step}
    (hx : FoldsTraced b x L1) (hy : FoldsTraced b y L2) :
    FoldsTraced b (x >>= fun _ => y) (L1 ++ L2) := by
  intro s
  obtain ⟨t1, h1⟩ := hx s
  rw [runSteps_append, stepsWrites_append]
  rcases hxs : x s with ⟨r, s1⟩
  rw [hxs] at h1 t1
  cases h1s : runSteps b L1 s.world.1.records with
  | none =>
    rw [h1s] at h1
    simp only at h1
    cases r with
    | ok u => exact absurd rfl h1
    | error e =>
      rw [Prog.seq_error hxs]
      simpa using t1
  | some S1 =>
    rw [h1s] at h1
    simp only at h1
    obtain ⟨e1, e2⟩ := h1
    subst e1
    rw [Prog.seq_ok hxs]
    obtain ⟨t2, h2⟩ := hy s1
    rw [e2] at h2 t2
    refine ⟨?_, by simpa using h2⟩
    simp only at t1 ⊢
    rw [t2, t1, List.append_assoc]

theorem foldsTraced_loop {α : Type} {b : Int} {body : α → Prog (World × List Call) Unit}
    {toStep : α → Step} (h : ∀ a, FoldsTraced b (body a) [toStep a]) (xs : List α) :
    FoldsTraced b (forEach xs body) (xs.map toStep) := by
  induction xs with
  | nil => exact foldsTraced_nil b
  | cons x rest ih => exact foldsTraced_seq (h x) ih

theorem foldsTraced_modifyTr {b : Int} {x : Prog (World × List Call) Unit} {L : List Step}
    (hx : FoldsTraced b x L) (g : Transformer → Transformer) :
    FoldsTraced b (x >>= fun _ => modifyTr g) L := by
  have h := foldsTraced_seq hx
    (show FoldsTraced b (modifyTr g) [] from fun _ => ⟨by simp [stepsWrites, modifyTr], rfl, rfl⟩)
  simpa using h

theorem updateRecord_foldsTraced (chain : Chain) (hf : soundRepo chain) (b : Int)
    (node : String) (assign : DomainModel → DomainModel) (p : Patch)
    (hassign : ∀ r : DomainModel, r.NameHash = node →
      assign { r with BlockNumber := b } = (updateStep b node p).patch.apply r) :
    FoldsTraced b (updateRecord (simEnv chain).traced node b assign) [updateStep b node p] := by
  intro s
  have hg := hf (Call.GetRecord node b) rfl
  simp only [runSteps, Step.run, Step.base, stepsWrites, updateStep, Bool.false_eq_true,
    false_and, if_false]
  cases hr : getRecord s.world.1.records node b with
  | none =>
    simp [updateRecord, Prog.bind_run, Prog.bind, call, simEnv, Env.traced, hg, hr,
      createdRecords]
  | some r =>
    have hc := hf (Call.CreateRecord (assign { r with BlockNumber := b })) rfl
    have hn := (getRecord_mem _ _ _ _ hr).2.1
    have ha := hassign r hn
    simp only [updateStep] at ha
    rw [ha] at hc
    simp [updateRecord, Prog.bind_run, Prog.bind, call, simEnv, Env.traced, hg, hr, answer, hc,
      ha, createdRecords]

theorem processNewOwner_foldsTraced (chain : Chain) (hf : soundRepo chain) (b : Int)
    (l : Log) :
    FoldsTraced b (processNewOwner (simEnv chain).traced b l)
      [newOwnerStep chain.subnode b l] := by
  intro s
  have he := hf (Call.RecordExists (chain.subnode (l.value "node") (l.value "label"))) rfl
  have hg := hf (Call.GetRecord (chain.subnode (l.value "node") (l.value "label")) b) rfl
  have hc := fun r => hf (Call.CreateRecord r) rfl
  simp only [runSteps, Step.run, Step.base, stepsWrites, newOwnerStep, true_and]
  cases hx : recordExists s.world.1.records
      (chain.subnode (l.value "node") (l.value "label")) with
  | false =>
    simp [processNewOwner, Prog.bind_run, Prog.bind, call, simEnv, Env.traced, answer, he, hx,
      hc, Prog.pure_run, Patch.apply, createdRecords]
  | true =>
    cases hr : getRecord s.world.1.records
        (chain.subnode (l.value "node") (l.value "label")) b with
    | none =>
      simp [processNewOwner, Prog.bind_run, Prog.bind, call, simEnv, Env.traced, answer, he, hx,
        hg, hr, createdRecords]
    | some r =>
      simp [processNewOwner, Prog.bind_run, Prog.bind, call, simEnv, Env.traced, answer, he, hx,
        hg, hr, hc, Patch.apply, createdRecords]

theorem registrySteps_eq_map (subnode : String → String → String)
    (logs : List (String × List Log)) (b : Int) :
    registrySteps subnode logs b = (registryEvents logs).map (RegistryEvent.step subnode b) := by
  unfold registrySteps registryEvents
  simp only [List.map_append, List.map_map, List.append_assoc]
  rfl

theorem resolverSteps_eq_map (logs : List (String × List Log)) (b : Int) :
    resolverSteps logs b = (resolverEvents logs).map (ResolverEvent.step b) := by
  unfold resolverSteps resolverEvents
  simp only [List.map_append, List.map_map, List.append_assoc]
  rfl

theorem foldRegistryEvent_foldsTraced (chain : Chain) (hf : soundRepo chain) (b : Int)
    (ev : RegistryEvent) :
    FoldsTraced b (foldRegistryEvent (simEnv chain).traced b ev)
      [ev.step chain.subnode b] := by
  cases ev with
  | NewOwner l => exact processNewOwner_foldsTraced chain hf b l
  | Transfer l =>
    exact updateRecord_foldsTraced chain hf b (l.value "node")
      (fun r => { r with Owner := l.value "owner" }) { Owner := some (l.value "owner") }
      (by intro r hr; simp [updateStep, Patch.apply, hr])
  | NewTTL l =>
    exact updateRecord_foldsTraced chain hf b (l.value "node")
      (fun r => { r with TTL := l.value "ttl" }) { TTL := some (l.value "ttl") }
      (by intro r hr; simp [updateStep, Patch.apply, hr])
  | NewResolver l =>
    exact foldsTraced_modifyTr
      (updateRecord_foldsTraced chain hf b (l.value "node")
        (fun r => { r with ResolverAddr := l.value "resolver" })
        { ResolverAddr := some (l.value "resolver") }
        (by intro r hr; simp [updateStep, Patch.apply, hr]))
      (fun tr => { tr with
        ResolverAddresses := mapSet tr.ResolverAddresses (l.value "resolver") true })

theorem foldResolverEvent_foldsTraced (chain : Chain) (hf : soundRepo chain) (b : Int)
    (ev : ResolverEvent) :
    FoldsTraced b (foldResolverEvent (simEnv chain).traced b ev) [ev.step b] := by
  cases ev with
  | AddrChanged l =>
    exact updateRecord_foldsTraced chain hf b (l.value "node")
      (fun r => { r with PointsToAddr := l.value "a" })
      { PointsToAddr := some (l.value "a") }
      (by intro r hr; simp [updateStep, Patch.apply, hr])
  | NameChanged l =>
    exact updateRecord_foldsTraced chain hf b (l.value "node")
      (fun r => { r with Name := l.value "name" })
      { Name := some (l.value "name") }
      (by intro r hr; simp [updateStep, Patch.apply, hr])
  | ContentChanged l =>
    exact updateRecord_foldsTraced chain hf b (l.value "node")
      (fun r => { r with Content := l.value "hash" })
      { Content := some (l.value "hash") }
      (by intro r hr; simp [updateStep, Patch.apply, hr])
  | ABIChanged l =>
    exact updateRecord_foldsTraced chain hf b (l.value "node")
      (fun r => { r with ContentType := l.value "contentType" })
      { ContentType := some (l.value "contentType") }
      (by intro r hr; simp [updateStep, Patch.apply, hr])
  | PubkeyChanged l =>
    exact updateRecord_foldsTraced chain hf b (l.value "node")
      (fun r => { r with PubKeyX := l.value "x", PubKeyY := l.value "y" })
      { PubKeyX := some (l.value "x"), PubKeyY := some (l.value "y") }
      (by intro r hr; simp [updateStep, Patch.apply, hr])
  | TextChanged l =>
    exact updateRecord_foldsTraced chain hf b (l.value "node")
      (fun r => { r with TextKey := l.value "key", IndexedTextKey := l.value "indexedKey" })
      { TextKey := some (l.value "key"), IndexedTextKey := some (l.value "indexedKey") }
      (by intro r hr; simp [updateStep, Patch.apply, hr])
  | MultihashChanged l =>
    exact updateRecord_foldsTraced chain hf b (l.value "node")
      (fun r => { r with Multihash := l.value "hash" })
      { Multihash := some (l.value "hash") }
      (by intro r hr; simp [updateStep, Patch.apply, hr])
  | ContenthashChanged l =>
    exact updateRecord_foldsTraced chain hf b (l.value "node")
      (fun r => { r with Contenthash := l.value "hash" })
      { Contenthash := some (l.value "hash") }
      (by intro r hr; simp [updateStep, Patch.apply, hr])

theorem processRegistryLogs_foldsTraced (chain : Chain) (hf : soundRepo chain)
    (logs : List (String × List Log)) (b : Int) :
    FoldsTraced b (processRegistryLogs (simEnv chain).traced logs b)
      (registrySteps chain.subnode logs b) := by
  rw [processRegistryLogs_eq_forEach, registrySteps_eq_map]
  exact foldsTraced_loop (foldRegistryEvent_foldsTraced chain hf b) _

theorem processResolverLogs_foldsTraced (chain : Chain) (hf : soundRepo chain)
    (logs : List (String × List Log)) (b : Int) :
    FoldsTraced b (processResolverLogs (simEnv chain).traced logs b) (resolverSteps logs b) := by
  rw [processResolverLogs_eq_forEach, resolverSteps_eq_map]
  exact foldsTraced_loop (foldResolverEvent_foldsTraced chain hf b) _

theorem stepsOf_cons_pos (h : String) (st : Step) (rest : List Step) (hh : st.key = h) :
    stepsOf h (st :: rest) = st :: stepsOf h rest := by
  unfold stepsOf
  rw [List.filter_cons_of_pos (by simpa using hh)]

theorem stepsOf_cons_neg (h : String) (st : Step) (rest : List Step) (hh : st.key ≠ h) :
    stepsOf h (st :: rest) = stepsOf h rest := by
  unfold stepsOf
  rw [List.filter_cons_of_neg (by simpa using hh)]

theorem rowsOf_cons_pos (h : String) (r : DomainModel) (rest : List DomainModel)
    (hh : r.NameHash = h) : rowsOf h (r :: rest) = r :: rowsOf h rest := by
  unfold rowsOf
  rw [List.filter_cons_of_pos (by simpa using hh)]

theorem rowsOf_cons_neg (h : String) (r : DomainModel) (rest : List DomainModel)
    (hh : r.NameHash ≠ h) : rowsOf h (r :: rest) = rowsOf h rest := by
  unfold rowsOf
  rw [List.filter_cons_of_neg (by simpa using hh)]

/-- The fold of `L` leaves under the key `(h, b)` the base record of the first iteration for
`h` after the assignments of all iterations for `h`, and that row is the last record created
for `h`. -/
theorem runSteps_row_of_steps (b : Int) (h : String) (L : List Step)
    (hL : ∀ st ∈ L, keyedStep b st) (S S1 : List DomainModel) (hS : keyed S)
    (hrun : runSteps b L S = some S1) (hne : stepsOf h L ≠ []) :
    ∃ st0 base, (stepsOf h L).head? = some st0 ∧ st0.base b S = some base ∧
      getRecord S1 h b = some (foldPatches base (stepsOf h L)) ∧
      (rowsOf h (stepsWrites b L S)).getLast? = some (foldPatches base (stepsOf h L)) := by
  induction L generalizing S with
  | nil => exact absurd rfl hne
  | cons st rest ih =>
    obtain ⟨S2, h1, h2⟩ := runSteps_cons_some b st rest S S1 hrun
    obtain ⟨r, hr, rfl⟩ := Step.run_some b st S S2 h1
    have hst := hL st (List.mem_cons_self _ _)
    have hk := apply_key b st hst r
    have hL2 : ∀ y ∈ rest, keyedStep b y := fun y hy => hL y (List.mem_cons_of_mem _ hy)
    have hS2 := keyed_createRecord S (st.patch.apply r) hS
    rw [stepsWrites_cons b st rest S r hr]
    by_cases hh : st.key = h
    · have hw : st.patch.apply r ∈ createRecord S (st.patch.apply r) :=
        (mem_createRecord S _ _).mpr (Or.inl rfl)
      obtain ⟨i1, i2⟩ := runSteps_row_of_present b h rest hL2 _ S1 hS2 h2 (st.patch.apply r) hw
        (hk.1.trans hh) hk.2
      rw [stepsOf_cons_pos h st rest hh, rowsOf_cons_pos h _ _ (hk.1.trans hh)]
      refine ⟨st, r, rfl, hr, i1, ?_⟩
      have hlen := rowsOf_stepsWrites_length b h rest hL2 _ _ h2
      by_cases hn : stepsOf h rest = []
      · rw [hn, List.length_nil, List.length_eq_zero] at hlen
        rw [hlen, hn]
        rfl
      · have hne2 : rowsOf h (stepsWrites b rest (createRecord S (st.patch.apply r))) ≠ [] := by
          intro e
          rw [e, List.length_nil] at hlen
          exact hn (List.length_eq_zero.mp hlen.symm)
        rw [getLast?_cons_ne _ _ hne2]
        exact i2 hn
    · have hwn : (st.patch.apply r).NameHash ≠ h := fun e => hh (hk.1.symm.trans e)
      rw [stepsOf_cons_neg h st rest hh] at hne ⊢
      rw [rowsOf_cons_neg h _ _ hwn]
      obtain ⟨st0, base, j1, j2, j3, j4⟩ := ih hL2 _ hS2 h2 hne
      have hkey : st0.key = h := by
        have hm : st0 ∈ stepsOf h rest := List.mem_of_mem_head? j1
        unfold stepsOf at hm
        simpa using (List.mem_filter.mp hm).2
      refine ⟨st0, base, j1, ?_, j3, j4⟩
      rw [← Step.base_createRecord_other b st0 S hS (st.patch.apply r)
        (fun e => hwn (e.trans hkey))]
      exact j2

theorem stepsWrites_block (b : Int) (L : List Step) (hL : ∀ st ∈ L, keyedStep b st)
    (S : List DomainModel) : ∀ x ∈ stepsWrites b L S, x.BlockNumber = b := by
  induction L generalizing S with
  | nil =>
    intro x hx
    simp [stepsWrites] at hx
  | cons st rest ih =>
    intro x hx
    cases hb : st.base b S with
    | none =>
      unfold stepsWrites at hx
      rw [hb] at hx
      cases hx
    | some r =>
      rw [stepsWrites_cons b st rest S r hb] at hx
      rcases List.mem_cons.mp hx with e | e
      · rw [e]
        exact (apply_key b st (hL st (List.mem_cons_self _ _)) r).2
      · exact ih (fun y hy => hL y (List.mem_cons_of_mem _ hy)) _ x e

/-- What a fold of the iterations `L` at block `b` does for a name hash `h` that has iterations
in it, when it ends without error on a store with unique keys: one record is created per
iteration; the last record created for `h` is the record from which the first iteration for `h`
started with the assignments of all iterations for `h`, in order; and that record is the row
that the store holds under the key `(h, b)` afterwards, every row under that key being it. -/
theorem foldsTraced_tie_break (b : Int) (prog : Prog (World × List Call) Unit) (L : List Step)
    (hfold : FoldsTraced b prog L) (hL : ∀ st ∈ L, keyedStep b st)
    (s : State (World × List Call)) (hS : keyed s.world.1.records) (h : String)
    (hok : (prog s).1 = Except.ok ()) (hne : stepsOf h L ≠ []) :
    ∃ st0 base ws,
      (stepsOf h L).head? = some st0 ∧
      st0.base b s.world.1.records = some base ∧
      createdRecords (prog s).2.world.2 = createdRecords s.world.2 ++ ws ∧
      ws.length = L.length ∧
      (rowsOf h ws).length = (stepsOf h L).length ∧
      (rowsOf h ws).getLast? = some (foldPatches base (stepsOf h L)) ∧
      getRecord (prog s).2.world.1.records h b = some (foldPatches base (stepsOf h L)) ∧
      foldPatches base (stepsOf h L) ∈ rowsAt h b (prog s).2.world.1.records ∧
      ∀ r ∈ rowsAt h b (prog s).2.world.1.records, r = foldPatches base (stepsOf h L) := by
  obtain ⟨ht, hm⟩ := hfold s
  cases hrun : runSteps b L s.world.1.records with
  | none =>
    rw [hrun] at hm
    exact absurd hok hm
  | some S1 =>
    rw [hrun] at hm
    obtain ⟨-, hrec⟩ := hm
    obtain ⟨st0, base, j1, j2, j3, j4⟩ := runSteps_row_of_steps b h _ hL _ S1 hS hrun hne
    have hk1 : keyed S1 := runSteps_keyed b L _ S1 hS hrun
    obtain ⟨m1, m2, _⟩ := getRecord_mem _ _ _ _ j3
    have hb : (foldPatches base (stepsOf h L)).BlockNumber = b := by
      have hmem : foldPatches base (stepsOf h L) ∈ rowsOf h (stepsWrites b L s.world.1.records) :=
        List.mem_of_mem_getLast? (Option.mem_def.mpr j4)
      unfold rowsOf at hmem
      exact stepsWrites_block b L hL _ _ (List.mem_filter.mp hmem).1
    refine ⟨st0, base, _, j1, j2, ht, stepsWrites_length b _ _ S1 hrun,
      rowsOf_stepsWrites_length b h _ hL _ S1 hrun, j4, ?_, ?_, ?_⟩
    · rw [hrec]
      exact j3
    · rw [hrec]
      unfold rowsAt
      exact List.mem_filter.mpr ⟨m1, by simp [m2, hb]⟩
    · rw [hrec]
      intro r hr
      unfold rowsAt at hr
      obtain ⟨r1, r2⟩ := List.mem_filter.mp hr
      simp only [Bool.and_eq_true, decide_eq_true_eq] at r2
      exact hk1 r r1 _ m1 (r2.1.trans m2.symm) (r2.2.trans hb.symm)

theorem resolverSteps_not_fresh (logs : List (String × List Log)) (b : Int) :
    ∀ st ∈ resolverSteps logs b, st.fresh = false := by
  intro st hst
  rw [resolverSteps_eq_map] at hst
  obtain ⟨ev, -, rfl⟩ := List.mem_map.mp hst
  cases ev <;> rfl

/-- C11, counterexample: in scenario "tie" the name `pl` receives two events in header 2 (block
110), Transfer(pl, B) of the registry and AddrChanged(pl, C) of the resolver, and two in header
1.  The pass succeeds and calls `CreateRecord` once per event, four times; the two records
created for header 2 have the same key (pl, 110), so the second replaces the first: the store
ends with two rows, one per header, not with one row per event, and the row created for the
Transfer event is not in it. -/
theorem events_of_one_name_share_one_row :
    (Execute tieEnv demoStartTraced).1 = Except.ok () ∧
    createdRecords (Execute tieEnv demoStartTraced).2.world.2
      = [ownRow, tieRow100, tieRowB, tieRowBC] ∧
    (tieRowB.NameHash, tieRowB.BlockNumber) = ("pl", 110) ∧
    (tieRowBC.NameHash, tieRowBC.BlockNumber) = ("pl", 110) ∧
    (Execute tieEnv demoStartTraced).2.world.1.records = [tieRow100, tieRowBC] ∧
    rowsAt "pl" 110 (Execute tieEnv demoStartTraced).2.world.1.records = [tieRowBC] ∧
    tieRowB ∉ (Execute tieEnv demoStartTraced).2.world.1.records := by
  refine ⟨?_, ?_, ?_, ?_, ?_, ?_, ?_⟩ <;> decide!

/-- C11, amended: when a fold of the registry events, or of the resolver events, of a header at
block b ends without error on the repository of the specification, `CreateRecord` is called
once per event, each time with the key (name hash, b).  For a name hash h that has events in the
fold, as many of the records created have the name hash h as h has events; the last of them is
the record from which the first event for h started with the assignments of all events for h
made in the order of the fold (NewOwner, Transfer, NewTTL, NewResolver for the registry; the
eight resolver kinds for a resolver): the fields of the last event, and those of the earlier
events that no later one assigned again.  The store holds one row under the key (h, b)
afterwards, which is that record: each call has replaced the row of the call before.  The first
resolver event for h starts from the row that the store holds under (h, b), when there is one,
which is the row that the registry fold of the same header left. -/
theorem tie_break_last_record (chain : Chain) (hf : soundRepo chain) (b : Int)
    (logs : List (String × List Log)) (s : State (World × List Call))
    (hS : keyed s.world.1.records) (h : String) :
    ((processRegistryLogs (simEnv chain).traced logs b s).1 = Except.ok () →
      stepsOf h (registrySteps chain.subnode logs b) ≠ [] →
      ∃ st0 base ws,
        (stepsOf h (registrySteps chain.subnode logs b)).head? = some st0 ∧
        st0.base b s.world.1.records = some base ∧
        createdRecords (processRegistryLogs (simEnv chain).traced logs b s).2.world.2
          = createdRecords s.world.2 ++ ws ∧
        ws.length = (registryEvents logs).length ∧
        (rowsOf h ws).length = (stepsOf h (registrySteps chain.subnode logs b)).length ∧
        (rowsOf h ws).getLast?
          = some (foldPatches base (stepsOf h (registrySteps chain.subnode logs b))) ∧
        getRecord (processRegistryLogs (simEnv chain).traced logs b s).2.world.1.records h b
          = some (foldPatches base (stepsOf h (registrySteps chain.subnode logs b))) ∧
        foldPatches base (stepsOf h (registrySteps chain.subnode logs b))
          ∈ rowsAt h b (processRegistryLogs (simEnv chain).traced logs b s).2.world.1.records ∧
        ∀ r ∈ rowsAt h b (processRegistryLogs (simEnv chain).traced logs b s).2.world.1.records,
          r = foldPatches base (stepsOf h (registrySteps chain.subnode logs b))) ∧
    ((processResolverLogs (simEnv chain).traced logs b s).1 = Except.ok () →
      stepsOf h (resolverSteps logs b) ≠ [] →
      ∃ st0 base ws,
        (stepsOf h (resolverSteps logs b)).head? = some st0 ∧
        st0.base b s.world.1.records = some base ∧
        (∀ r0 ∈ rowsAt h b s.world.1.records, base = r0) ∧
        createdRecords (processResolverLogs (simEnv chain).traced logs b s).2.world.2
          = createdRecords s.world.2 ++ ws ∧
        ws.length = (resolverEvents logs).length ∧
        (rowsOf h ws).length = (stepsOf h (resolverSteps logs b)).length ∧
        (rowsOf h ws).getLast? = some (foldPatches base (stepsOf h (resolverSteps logs b))) ∧
        getRecord (processResolverLogs (simEnv chain).traced logs b s).2.world.1.records h b
          = some (foldPatches base (stepsOf h (resolverSteps logs b))) ∧
        foldPatches base (stepsOf h (resolverSteps logs b))
          ∈ rowsAt h b (processResolverLogs (simEnv chain).traced logs b s).2.world.1.records ∧
        ∀ r ∈ rowsAt h b (processResolverLogs (simEnv chain).traced logs b s).2.world.1.records,
          r = foldPatches base (stepsOf h (resolverSteps logs b))) := by
  constructor
  · intro hok hne
    obtain ⟨st0, base, ws, j1, j2, j3, j4, j5, j6, j7, j8, j9⟩ :=
      foldsTraced_tie_break b _ _ (processRegistryLogs_foldsTraced chain hf logs b)
        (registrySteps_keyed _ _ _) s hS h hok hne
    refine ⟨st0, base, ws, j1, j2, j3, ?_, j5, j6, j7, j8, j9⟩
    rw [j4, registrySteps_eq_map, List.length_map]
  · intro hok hne
    obtain ⟨st0, base, ws, j1, j2, j3, j4, j5, j6, j7, j8, j9⟩ :=
      foldsTraced_tie_break b _ _ (processResolverLogs_foldsTraced chain hf logs b)
        (resolverSteps_keyed _ _) s hS h hok hne
    refine ⟨st0, base, ws, j1, j2, ?_, j3, ?_, j5, j6, j7, j8, j9⟩
    · intro r0 hr0
      have hm : st0 ∈ stepsOf h (resolverSteps logs b) := List.mem_of_mem_head? j1
      unfold stepsOf at hm
      obtain ⟨hm1, hm2⟩ := List.mem_filter.mp hm
      have hkey : st0.key = h := by simpa using hm2
      have hfresh := resolverSteps_not_fresh logs b st0 hm1
      unfold rowsAt at hr0
      obtain ⟨r1, r2⟩ := List.mem_filter.mp hr0
      simp only [Bool.and_eq_true, decide_eq_true_eq] at r2
      have hg := getRecord_of_present _ hS r0 r1
      rw [r2.1, r2.2] at hg
      unfold Step.base at j2
      rw [hfresh, hkey] at j2
      simp only [Bool.false_eq_true, false_and, if_false] at j2
      rw [hg] at j2
      exact (Option.some.inj j2).symm
    · rw [j4, resolverSteps_eq_map, List.length_map]

/-- C11, amended, on examples.  The registry fold of a header at block 110 with a Transfer and
a NewTTL event for `pl`, from the store with the row of `pl` at block 100, creates two records
and leaves the one row of (pl, 110) with the owner of the Transfer and the ttl of NewTTL.  In
scenario "tie" (Transfer(pl, B) of the registry and AddrChanged(pl, C) of the resolver in the
header at block 110) the pass ends with the row of (pl, 110) that has owner B, address C and
block 110. -/
theorem tie_break_last_record_witness :
    keyed tieStart.world.1.records ∧
    (processRegistryLogs (simEnv (demoChain tieLogs noFault)).traced twoForOneName 110
      tieStart).1 = Except.ok () ∧
    stepsOf "pl" (registrySteps (demoChain tieLogs noFault).subnode twoForOneName 110) ≠ [] ∧
    (∃ st0 base ws,
      (stepsOf "pl" (registrySteps (demoChain tieLogs noFault).subnode twoForOneName
        110)).head? = some st0 ∧
      st0.base 110 tieStart.world.1.records = some base ∧
      createdRecords (processRegistryLogs (simEnv (demoChain tieLogs noFault)).traced
          twoForOneName 110 tieStart).2.world.2 = createdRecords tieStart.world.2 ++ ws ∧
      ws.length = (registryEvents twoForOneName).length ∧
      (rowsOf "pl" ws).getLast?
        = some (foldPatches base
            (stepsOf "pl" (registrySteps (demoChain tieLogs noFault).subnode twoForOneName
              110))) ∧
      ∀ r ∈ rowsAt "pl" 110 (processRegistryLogs (simEnv (demoChain tieLogs noFault)).traced
          twoForOneName 110 tieStart).2.world.1.records,
        r = foldPatches base
          (stepsOf "pl" (registrySteps (demoChain tieLogs noFault).subnode twoForOneName
            110))) ∧
    createdRecords (processRegistryLogs (simEnv (demoChain tieLogs noFault)).traced
      twoForOneName 110 tieStart).2.world.2 = [tieRowB, tieRowTtl] ∧
    (processRegistryLogs (simEnv (demoChain tieLogs noFault)).traced twoForOneName 110
      tieStart).2.world.1.records = [tieRow100, tieRowTtl] ∧
    (tieRowTtl.Owner, tieRowTtl.TTL, tieRowTtl.BlockNumber) = ("B", "7", 110) ∧
    rowsAt "pl" 110 (Execute tieEnv demoStartTraced).2.world.1.records = [tieRowBC] ∧
    (tieRowBC.Owner, tieRowBC.PointsToAddr, tieRowBC.BlockNumber) = ("B", "C", 110) := by
  have hk : keyed tieStart.world.1.records := by decide!
  have hok : (processRegistryLogs (simEnv (demoChain tieLogs noFault)).traced twoForOneName 110
      tieStart).1 = Except.ok () := by decide!
  have hne : stepsOf "pl" (registrySteps (demoChain tieLogs noFault).subnode twoForOneName 110)
      ≠ [] := by decide!
  obtain ⟨st0, base, ws, j1, j2, j3, j4, _, j6, _, _, j9⟩ :=
    (tie_break_last_record (demoChain tieLogs noFault) (soundRepo_noFault tieLogs) 110
      twoForOneName tieStart hk "pl").1 hok hne
  exact ⟨hk, hok, hne, ⟨st0, base, ws, j1, j2, j3, j4, j6, j9⟩, by decide!, by decide!,
    by decide!, by decide!, by decide!⟩

/-! ## At most once per header and contract -/

theorem monitor_snoc (t : List Call) (c : Call) :
    monitor (t ++ [c]) = (monitor t).step c := by
  simp [monitor, List.foldl_append]

theorem monitor_quiet (t : List Call) (c : Call) (hc : quietCall c) :
    (monitor (t ++ [c])).fetched = (monitor t).fetched ∧
    (monitor (t ++ [c])).ids = (monitor t).ids := by
  rw [monitor_snoc]
  cases c <;> first
    | exact ⟨rfl, rfl⟩
    | exact False.elim hc
    | (simp only [Monitor.step]; split <;> exact ⟨rfl, rfl⟩)

theorem monitor_fetch (t : List Call) (as ts : List String) (h : Header) :
    (monitor (t ++ [Call.FetchLogs as ts h])).fetched
        = (monitor t).fetched ++ [(h.Id, (monitor t).ids)] ∧
    (monitor (t ++ [Call.FetchLogs as ts h])).ids = (monitor t).ids := by
  rw [monitor_snoc]
  exact ⟨rfl, rfl⟩

theorem monitor_missing (t : List Call) (a b : Int) (ids : List String) :
    (monitor (t ++ [Call.MissingHeadersForAll a b ids])).fetched = (monitor t).fetched ∧
    (monitor (t ++ [Call.MissingHeadersForAll a b ids])).ids = ids := by
  rw [monitor_snoc]
  exact ⟨rfl, rfl⟩

/-- Records are created only for a pair for which logs were fetched before. -/
theorem monitor_created_fetched (t : List Call) :
    (∀ p ∈ (monitor t).created, p ∈ (monitor t).fetched) ∧
    (∀ i, (monitor t).header = some i → (i, (monitor t).ids) ∈ (monitor t).fetched) := by
  induction t using List.reverseRecOn with
  | nil => exact ⟨fun p hp => (by cases hp), fun i hi => (by cases hi)⟩
  | append_singleton t c ih =>
    obtain ⟨ih1, ih2⟩ := ih
    rw [monitor_snoc]
    cases c with
    | MissingHeadersForAll a b ids =>
      exact ⟨ih1, fun i hi => (by cases hi)⟩
    | FetchLogs as ts h =>
      refine ⟨fun p hp => List.mem_append_left _ (ih1 p hp), fun i hi => ?_⟩
      simp only [Monitor.step, Option.some.injEq] at hi
      subst hi
      exact List.mem_append_right _ (List.mem_singleton_self _)
    | CreateRecord r =>
      simp only [Monitor.step]
      cases hh : (monitor t).header with
      | none =>
        simp only
        exact ⟨ih1, fun i hi => ih2 i (hh ▸ hi)⟩
      | some j =>
        simp only
        refine ⟨fun p hp => ?_, fun i hi => ?_⟩
        · rcases List.mem_append.mp hp with h1 | h1
          · exact ih1 p h1
          · rw [List.mem_singleton] at h1
            subst h1
            exact ih2 j hh
        · simp only [Option.some.injEq] at hi
          subst hi
          exact ih2 j hh
    | _ => exact ⟨ih1, ih2⟩

theorem quiet_refl (s : State (World × List Call)) : Quiet s s := ⟨rfl, rfl, rfl, rfl, rfl⟩

theorem quiet_trans {s t u : State (World × List Call)} (h1 : Quiet s t) (h2 : Quiet t u) :
    Quiet s u :=
  ⟨h2.1.trans h1.1, h2.2.1.trans h1.2.1, h2.2.2.1.trans h1.2.2.1,
    h2.2.2.2.1.trans h1.2.2.2.1, h2.2.2.2.2.trans h1.2.2.2.2⟩

theorem stays_pure {α : Type} (a : α) : Stays (pure a : Prog (World × List Call) α) :=
  fun s => quiet_refl s

theorem stays_getTr : Stays (getTr : Prog (World × List Call) Transformer) :=
  fun s => quiet_refl s

theorem stays_getWorld : Stays (getWorld : Prog (World × List Call) (World × List Call)) :=
  fun s => quiet_refl s

theorem stays_bind {α β : Type} {x : Prog (World × List Call) α}
    {f : α → Prog (World × List Call) β} (hx : Stays x) (hf : ∀ a, Stays (f a)) :
    Stays (x >>= f) := by
  intro s
  have h1 := hx s
  rw [Prog.bind_run]
  unfold Prog.bind
  rcases hxs : x s with ⟨r, s1⟩
  rw [hxs] at h1
  cases r with
  | error e => exact h1
  | ok a => exact quiet_trans h1 (hf a s1)

theorem stays_bind_raw {α β : Type} {x : Prog (World × List Call) α}
    {f : α → Prog (World × List Call) β} (hx : Stays x) (hf : ∀ a, Stays (f a)) :
    Stays (Prog.bind x f) := stays_bind hx hf

theorem stays_ite {α : Type} {c : Prop} [Decidable c] {x y : Prog (World × List Call) α}
    (hx : Stays x) (hy : Stays y) : Stays (if c then x else y) := by
  split
  · exact hx
  · exact hy

theorem stays_forEach {α : Type} {body : α → Prog (World × List Call) Unit}
    (h : ∀ a, Stays (body a)) (xs : List α) : Stays (forEach xs body) := by
  induction xs with
  | nil => exact stays_pure ()
  | cons x rest ih => exact stays_bind_raw (h x) (fun _ => ih)

theorem stays_modifyTr {g : Transformer → Transformer}
    (h : ∀ t, (g t).registryEventIds = t.registryEventIds) :
    Stays (modifyTr g : Prog (World × List Call) Unit) :=
  fun s => ⟨rfl, rfl, rfl, rfl, h s.tr⟩

theorem stays_call {α : Type} (op : World × List Call → Except Error α × (World × List Call))
    (c : Call) (hc : quietCall c)
    (hop : ∀ w, (op w).2.1.checked = w.1.checked ∧ (op w).2.1.headers = w.1.headers ∧
      (op w).2.2 = w.2 ++ [c]) : Stays (call op) := by
  intro s
  obtain ⟨h1, h2, h3⟩ := hop s.world
  refine ⟨h1, h2, ?_, ?_, rfl⟩
  · show (monitor (op s.world).2.2).fetched = _
    rw [h3]
    exact (monitor_quiet _ c hc).1
  · show (monitor (op s.world).2.2).ids = _
    rw [h3]
    exact (monitor_quiet _ c hc).2

theorem stays_callPure {α : Type} (op : World × List Call → α × (World × List Call))
    (c : Call) (hc : quietCall c)
    (hop : ∀ w, (op w).2.1.checked = w.1.checked ∧ (op w).2.1.headers = w.1.headers ∧
      (op w).2.2 = w.2 ++ [c]) : Stays (callPure op) := by
  intro s
  obtain ⟨h1, h2, h3⟩ := hop s.world
  refine ⟨h1, h2, ?_, ?_, rfl⟩
  · show (monitor (op s.world).2.2).fetched = _
    rw [h3]
    exact (monitor_quiet _ c hc).1
  · show (monitor (op s.world).2.2).ids = _
    rw [h3]
    exact (monitor_quiet _ c hc).2

theorem answer_keeps {α β : Type} (chain : Chain) (c : Call) (w : World) (ok : α × World)
    (f : World → β) (h : f ok.2 = f w) : f (answer chain c w ok).2 = f w := by
  unfold answer
  split
  · rfl
  · exact h

theorem stays_RecordExists (chain : Chain) (h : String) :
    Stays (call ((simEnv chain).traced.RecordExists h)) :=
  stays_call _ (Call.RecordExists h) trivial (fun w =>
    ⟨answer_keeps chain _ w.1 _ (fun v => v.checked) rfl,
      answer_keeps chain _ w.1 _ (fun v => v.headers) rfl, rfl⟩)

theorem stays_GetRecord (chain : Chain) (h : String) (b : Int) :
    Stays (call ((simEnv chain).traced.GetRecord h b)) :=
  stays_call _ (Call.GetRecord h b) trivial (fun w => by
    have hw : ((simEnv chain).GetRecord h b w.1).2 = w.1 := by
      simp only [simEnv]
      split
      · rfl
      · split <;> rfl
    exact ⟨congrArg World.checked hw, congrArg World.headers hw, rfl⟩)

theorem stays_CreateRecord (chain : Chain) (r : DomainModel) :
    Stays (call ((simEnv chain).traced.CreateRecord r)) :=
  stays_call _ (Call.CreateRecord r) trivial (fun w =>
    ⟨answer_keeps chain _ w.1 _ (fun v => v.checked) rfl,
      answer_keeps chain _ w.1 _ (fun v => v.headers) rfl, rfl⟩)

theorem stays_AddCheckColumn (chain : Chain) (i : String) :
    Stays (call ((simEnv chain).traced.AddCheckColumn i)) :=
  stays_call _ (Call.AddCheckColumn i) trivial (fun w =>
    ⟨answer_keeps chain _ w.1 _ (fun v => v.checked) rfl,
      answer_keeps chain _ w.1 _ (fun v => v.headers) rfl, rfl⟩)

theorem stays_ParseAbiStr (chain : Chain) (a : String) :
    Stays (call ((simEnv chain).traced.ParseAbiStr a)) :=
  stays_call _ (Call.ParseAbiStr a) trivial (fun w =>
    ⟨answer_keeps chain _ w.1 _ (fun v => v.checked) rfl,
      answer_keeps chain _ w.1 _ (fun v => v.headers) rfl, rfl⟩)

theorem stays_ConvertBatch (chain : Chain) (ls : List RawLog) (es : List Event) (i : Int) :
    Stays (call ((simEnv chain).traced.ConvertBatch ls es i)) :=
  stays_call _ (Call.ConvertBatch ls es i) trivial (fun w =>
    ⟨answer_keeps chain _ w.1 _ (fun v => v.checked) rfl,
      answer_keeps chain _ w.1 _ (fun v => v.headers) rfl, rfl⟩)

theorem stays_GetABI (chain : Chain) (a : String) (b : Int) :
    Stays (callPure ((simEnv chain).traced.GetABI a b)) :=
  stays_callPure _ (Call.GetABI a b) trivial (fun _ => ⟨rfl, rfl, rfl⟩)

theorem stays_Update (chain : Chain) (c : Contract) :
    Stays (call (fun w => (Except.ok (), (simEnv chain).traced.Update c w))) :=
  stays_call _ (Call.Update c) trivial (fun _ => ⟨rfl, rfl, rfl⟩)

theorem stays_updateRecord (chain : Chain) (node : String) (b : Int)
    (assign : DomainModel → DomainModel) :
    Stays (updateRecord (simEnv chain).traced node b assign) :=
  stays_bind (stays_GetRecord chain node b) (fun _ => stays_CreateRecord chain _)

theorem stays_processNewOwner (chain : Chain) (b : Int) (l : Log) :
    Stays (processNewOwner (simEnv chain).traced b l) :=
  stays_bind (stays_RecordExists chain _) (fun _ =>
    stays_bind (stays_ite (stays_GetRecord chain _ b) (stays_pure _)) (fun _ =>
      stays_CreateRecord chain _))

theorem stays_processRegistryLogs (chain : Chain) (logs : List (String × List Log)) (b : Int) :
    Stays (processRegistryLogs (simEnv chain).traced logs b) := by
  rw [processRegistryLogs_eq_forEach]
  refine stays_forEach (fun ev => ?_) _
  cases ev with
  | NewOwner l => exact stays_processNewOwner chain b l
  | Transfer l => exact stays_updateRecord chain _ b _
  | NewTTL l => exact stays_updateRecord chain _ b _
  | NewResolver l =>
    exact stays_bind (stays_updateRecord chain _ b _) (fun _ => stays_modifyTr (fun _ => rfl))

theorem stays_processResolverLogs (chain : Chain) (logs : List (String × List Log)) (b : Int) :
    Stays (processResolverLogs (simEnv chain).traced logs b) := by
  rw [processResolverLogs_eq_forEach]
  exact stays_forEach (fun ev => stays_updateRecord chain _ b _) _

theorem stays_registerResolverEvent (chain : Chain) (addr : String) (e : Event) :
    Stays (registerResolverEvent (simEnv chain).traced addr e) :=
  stays_bind (stays_AddCheckColumn chain _) (fun _ =>
    stays_bind (stays_modifyTr (fun _ => rfl)) (fun _ => stays_modifyTr (fun _ => rfl)))

theorem stays_probeResolver (chain : Chain) (b : Int) (addr : String) :
    Stays (probeResolver (simEnv chain).traced b addr) :=
  stays_bind (stays_GetABI chain _ _) (fun _ =>
    stays_ite (stays_modifyTr (fun _ => rfl))
      (stays_bind (stays_ParseAbiStr chain _) (fun _ =>
        stays_bind stays_getWorld (fun _ =>
          stays_bind (stays_modifyTr (fun _ => rfl)) (fun _ =>
            stays_bind stays_getTr (fun _ =>
              stays_forEach (stays_registerResolverEvent chain addr) _))))))

theorem stays_configResolver (chain : Chain) (b : Int) (addr : String) :
    Stays (configResolver (simEnv chain).traced b addr) :=
  stays_bind stays_getTr (fun _ =>
    stays_ite (stays_pure _) (stays_ite (stays_pure _) (stays_probeResolver chain b addr)))

theorem stays_configResolvers (chain : Chain) (b : Int) :
    Stays (configResolvers (simEnv chain).traced b) :=
  stays_bind stays_getTr (fun _ => stays_forEach (stays_configResolver chain b) _)

theorem good_of_quiet {C0 : List (Int × String)} {s t : State (World × List Call)}
    (hq : Quiet s t) (hg : Good C0 s) : Good C0 t :=
  ⟨fun x hx => hq.1 ▸ hg.mono x hx, hq.2.1 ▸ hg.table,
    fun p hp => hg.fresh p (hq.2.2.1 ▸ hp), hq.2.2.1 ▸ hg.nodup⟩

theorem doneExcept_of_quiet {pending : Option (Int × List String)}
    {s t : State (World × List Call)} (hq : Quiet s t) (hd : DoneExcept pending s) :
    DoneExcept pending t := by
  intro p hp hne
  rw [hq.2.2.1] at hp
  rw [hq.1]
  exact hd p hp hne

theorem mem_markChecked (C : List (Int × String)) (i : Int) (ids : List String)
    (x : Int × String) : x ∈ markChecked C i ids ↔ x ∈ C ∨ (x.1 = i ∧ x.2 ∈ ids) := by
  unfold markChecked
  simp only [List.mem_append, List.mem_filter, List.mem_map, decide_eq_true_eq]
  constructor
  · rintro (h | ⟨⟨e, he, rfl⟩, -⟩)
    · exact Or.inl h
    · exact Or.inr ⟨rfl, he⟩
  · rintro (h | ⟨h1, h2⟩)
    · exact Or.inl h
    · by_cases hx : x ∈ C
      · exact Or.inl hx
      · exact Or.inr ⟨⟨x.2, h2, by rw [← h1]⟩, hx⟩

/-- The state after the `FetchLogs` call for the first header of a ready loop. -/
theorem fetch_step (chain : Chain) (C0 : List (Int × String)) (X : List String) (h : Header)
    (rem : List Header) (as ts : List String) (s : State (World × List Call))
    (hr : Ready C0 X (h :: rem) s) :
    Good C0 (call ((simEnv chain).traced.FetchLogs as ts h) s).2 ∧
    DoneExcept (some (h.Id, X)) (call ((simEnv chain).traced.FetchLogs as ts h) s).2 ∧
    (monitor (call ((simEnv chain).traced.FetchLogs as ts h) s).2.world.2).ids = X ∧
    (call ((simEnv chain).traced.FetchLogs as ts h) s).2.world.1.checked = s.world.1.checked ∧
    (call ((simEnv chain).traced.FetchLogs as ts h) s).2.tr = s.tr := by
  have hw : ((simEnv chain).FetchLogs as ts h s.world.1).2 = s.world.1 := by
    simp only [simEnv]
    unfold answer
    split <;> rfl
  have ht : (call ((simEnv chain).traced.FetchLogs as ts h) s).2.world.2
      = s.world.2 ++ [Call.FetchLogs as ts h] := rfl
  have hw1 : (call ((simEnv chain).traced.FetchLogs as ts h) s).2.world.1 = s.world.1 := hw
  have hf := (monitor_fetch s.world.2 as ts h).1
  have hi := (monitor_fetch s.world.2 as ts h).2
  rw [hr.ids] at hf
  have hnew : (h.Id, X) ∉ (monitor s.world.2).fetched := fun hm =>
    hr.todo h (List.mem_cons_self _ _) (hr.done _ hm (by simp))
  refine ⟨⟨?_, ?_, ?_, ?_⟩, ?_, ?_, ?_, rfl⟩
  · rw [hw1]; exact hr.good.mono
  · rw [hw1]; exact hr.good.table
  · rw [ht, hf]
    intro p hp hfull
    rcases List.mem_append.mp hp with h1 | h1
    · exact hr.good.fresh p h1 hfull
    · rw [List.mem_singleton] at h1
      subst h1
      exact hr.todo h (List.mem_cons_self _ _) (fun i hi => hr.good.mono _ (hfull i hi))
  · rw [ht, hf]
    exact List.nodup_append.mpr ⟨hr.good.nodup, List.nodup_singleton _, by
      intro a ha hb
      rw [List.mem_singleton] at hb
      subst hb
      exact hnew ha⟩
  · intro p hp hne
    rw [ht, hf] at hp
    rw [hw1]
    rcases List.mem_append.mp hp with h1 | h1
    · exact hr.done p h1 (by simp)
    · rw [List.mem_singleton] at h1
      subst h1
      exact absurd rfl hne
  · rw [ht, hi]; exact hr.ids
  · rw [hw1]

theorem ready_of_quiet {C0 : List (Int × String)} {X : List String} {rem : List Header}
    {s t : State (World × List Call)} (hq : Quiet s t) (hr : Ready C0 X rem s) :
    Ready C0 X rem t :=
  ⟨good_of_quiet hq hr.good, doneExcept_of_quiet hq hr.done, hq.2.2.2.1.trans hr.ids,
    fun h hh => hq.1 ▸ hr.todo h hh, hr.distinct⟩

/-- The state after the `MarkHeaderCheckedForAll` call for the pending header of a loop. -/
theorem mark_step (chain : Chain) (C0 : List (Int × String)) (X : List String) (h : Header)
    (rem : List Header) (s : State (World × List Call)) (hg : Good C0 s)
    (hd : DoneExcept (some (h.Id, X)) s) (hids : (monitor s.world.2).ids = X)
    (htodo : ∀ k ∈ rem, ¬ fullyChecked s.world.1.checked (k.Id, X))
    (hdist : ((h :: rem).map Header.Id).Nodup) :
    Post (call ((simEnv chain).traced.MarkHeaderCheckedForAll h.Id X) s)
      (fun t => Ready C0 X rem t ∧ t.tr = s.tr) (Good C0) := by
  have hm := monitor_quiet s.world.2 (Call.MarkHeaderCheckedForAll h.Id X) trivial
  cases hfail : chain.fails (Call.MarkHeaderCheckedForAll h.Id X) with
  | some e =>
    have hrun : call ((simEnv chain).traced.MarkHeaderCheckedForAll h.Id X) s
        = (Except.error e, { s with world := (s.world.1,
            s.world.2 ++ [Call.MarkHeaderCheckedForAll h.Id X]) }) := by
      simp [call, Env.traced, simEnv, answer, hfail]
    rw [hrun]
    exact ⟨hg.mono, hg.table, fun p hp => hg.fresh p (hm.1 ▸ hp), hm.1 ▸ hg.nodup⟩
  | none =>
    have hrun : call ((simEnv chain).traced.MarkHeaderCheckedForAll h.Id X) s
        = (Except.ok (), { s with world :=
            ({ s.world.1 with checked := markChecked s.world.1.checked h.Id X },
              s.world.2 ++ [Call.MarkHeaderCheckedForAll h.Id X]) }) := by
      simp [call, Env.traced, simEnv, answer, hfail]
    rw [hrun]
    have hsub : ∀ x ∈ s.world.1.checked, x ∈ markChecked s.world.1.checked h.Id X :=
      fun x hx => (mem_markChecked _ _ _ _).mpr (Or.inl hx)
    refine ⟨⟨⟨fun x hx => hsub x (hg.mono x hx), hg.table,
      fun p hp => hg.fresh p (hm.1 ▸ hp), hm.1 ▸ hg.nodup⟩, ?_, hm.2.trans hids, ?_,
      (List.nodup_cons.mp hdist).2⟩, rfl⟩
    · intro p hp _
      have hp2 : p ∈ (monitor s.world.2).fetched := hm.1 ▸ hp
      by_cases hpe : p = (h.Id, X)
      · subst hpe
        exact fun i hi => (mem_markChecked _ _ _ _).mpr (Or.inr ⟨rfl, hi⟩)
      · exact fun i hi => hsub _ (hd p hp2 (fun e => hpe (Option.some.inj e)) i hi)
    · intro k hk hfull
      have hne : k.Id ≠ h.Id := by
        intro e
        have hmem : k.Id ∈ rem.map Header.Id := List.mem_map.mpr ⟨k, hk, rfl⟩
        rw [e] at hmem
        exact (List.nodup_cons.mp hdist).1 hmem
      refine htodo k hk (fun i hi => ?_)
      rcases (mem_markChecked _ _ _ _).mp (hfull i hi) with h1 | ⟨h1, -⟩
      · exact h1
      · exact absurd h1 hne

theorem post_of_stays {α : Type} {x : Prog (World × List Call) α} (hx : Stays x)
    (s : State (World × List Call)) {Q : State (World × List Call) → Prop}
    (hQ : ∀ t, Quiet s t → Q t) : Post (x s) Q Q := by
  have h := hx s
  rcases hxs : x s with ⟨r, t⟩
  rw [hxs] at h
  cases r with
  | ok a => exact hQ t h
  | error e => exact hQ t h

/-- The body of the header loop of `Execute` takes a ready loop of the registry to the next
header, or fails in a good state. -/
theorem executeHeader_ready (chain : Chain) (C0 : List (Int × String)) (X : List String)
    (h : Header) (rem : List Header) (s : State (World × List Call))
    (hr : Ready C0 X (h :: rem) s) (hX : s.tr.registryEventIds = X) :
    Post (executeHeader (simEnv chain).traced h s)
      (fun t => Ready C0 X rem t ∧ t.tr.registryEventIds = X) (Good C0) := by
  obtain ⟨f1, f2, f3, f4, f5⟩ := fetch_step chain C0 X h rem [s.tr.Registry.Address]
    s.tr.registryEventFilters s hr
  have htodo : ∀ k ∈ rem, ¬ fullyChecked s.world.1.checked (k.Id, X) :=
    fun k hk => hr.todo k (List.mem_cons_of_mem _ hk)
  unfold executeHeader
  rw [Prog.seq_ok (show getTr s = (Except.ok s.tr, s) from rfl)]
  rcases hf : call ((simEnv chain).traced.FetchLogs [s.tr.Registry.Address]
      s.tr.registryEventFilters h) s with ⟨r1, s1⟩
  rw [hf] at f1 f2 f3 f4 f5
  simp only at f1 f2 f3 f4 f5
  cases r1 with
  | error e =>
    rw [Prog.seq_error hf]
    exact f1
  | ok raw =>
    rw [Prog.seq_ok hf]
    by_cases hlen : raw.length < 1
    · rw [if_pos hlen, hX]
      have hm := mark_step chain C0 X h rem s1 f1 f2 f3 (fun k hk => f4 ▸ htodo k hk)
        hr.distinct
      rcases hmk : call ((simEnv chain).traced.MarkHeaderCheckedForAll h.Id X) s1 with ⟨r2, s2⟩
      rw [hmk] at hm
      cases r2 with
      | error e => exact hm
      | ok u => exact ⟨hm.1, by rw [hm.2, f5]; exact hX⟩
    · rw [if_neg hlen]
      have q1 := stays_ConvertBatch chain raw s.tr.Registry.Events h.Id s1
      rcases hc : call ((simEnv chain).traced.ConvertBatch raw s.tr.Registry.Events h.Id) s1
        with ⟨r2, s2⟩
      rw [hc] at q1
      simp only at q1
      cases r2 with
      | error e =>
        rw [Prog.seq_error hc]
        exact good_of_quiet q1 f1
      | ok logs =>
        rw [Prog.seq_ok hc]
        have q2 := stays_processRegistryLogs chain logs h.BlockNumber s2
        rcases hp : processRegistryLogs (simEnv chain).traced logs h.BlockNumber s2
          with ⟨r3, s3⟩
        rw [hp] at q2
        simp only at q2
        have q12 := quiet_trans q1 q2
        cases r3 with
        | error e =>
          rw [Prog.seq_error hp]
          exact good_of_quiet q12 f1
        | ok u =>
          rw [Prog.seq_ok hp, Prog.seq_ok (show getTr s3 = (Except.ok s3.tr, s3) from rfl)]
          have hX3 : s3.tr.registryEventIds = X := by
            rw [q12.2.2.2.2, f5]; exact hX
          rw [hX3]
          have hm := mark_step chain C0 X h rem s3 (good_of_quiet q12 f1)
            (doneExcept_of_quiet q12 f2) (q12.2.2.2.1.trans f3)
            (fun k hk => by rw [q12.1, f4]; exact htodo k hk) hr.distinct
          rcases hmk : call ((simEnv chain).traced.MarkHeaderCheckedForAll h.Id X) s3
            with ⟨r4, s4⟩
          rw [hmk] at hm
          cases r4 with
          | error e =>
            rw [Prog.seq_error hmk]
            exact hm
          | ok u2 =>
            rw [Prog.seq_ok hmk]
            obtain ⟨hm1, hm2⟩ := hm
            have q5 := stays_configResolvers chain h.BlockNumber s4
            rcases hcr : configResolvers (simEnv chain).traced h.BlockNumber s4 with ⟨r5, s5⟩
            rw [hcr] at q5
            simp only at q5
            cases r5 with
            | error e => exact good_of_quiet q5 hm1.good
            | ok u3 =>
              exact ⟨ready_of_quiet q5 hm1, by rw [q5.2.2.2.2, hm2]; exact hX3⟩

/-- The body of the header loop of `watchResolvers` takes a ready loop of the resolver at
`addr` to the next header, or fails in a good state. -/
theorem watchResolverHeader_ready (chain : Chain) (C0 : List (Int × String)) (X : List String)
    (addr : String) (c : Contract) (h : Header) (rem : List Header)
    (s : State (World × List Call)) (hr : Ready C0 X (h :: rem) s)
    (hX : mapGet s.tr.resolverEventIds addr [] = X) :
    Post (watchResolverHeader (simEnv chain).traced addr c h s)
      (fun t => Ready C0 X rem t ∧ mapGet t.tr.resolverEventIds addr [] = X) (Good C0) := by
  obtain ⟨f1, f2, f3, f4, f5⟩ := fetch_step chain C0 X h rem [addr]
    (mapGet s.tr.resolverEventFilters addr []) s hr
  have htodo : ∀ k ∈ rem, ¬ fullyChecked s.world.1.checked (k.Id, X) :=
    fun k hk => hr.todo k (List.mem_cons_of_mem _ hk)
  unfold watchResolverHeader
  rw [Prog.seq_ok (show getTr s = (Except.ok s.tr, s) from rfl)]
  rcases hf : call ((simEnv chain).traced.FetchLogs [addr]
      (mapGet s.tr.resolverEventFilters addr []) h) s with ⟨r1, s1⟩
  rw [hf] at f1 f2 f3 f4 f5
  simp only at f1 f2 f3 f4 f5
  cases r1 with
  | error e =>
    rw [Prog.seq_error hf]
    exact f1
  | ok raw =>
    rw [Prog.seq_ok hf]
    by_cases hlen : raw.length < 1
    · rw [if_pos hlen, hX]
      have hm := mark_step chain C0 X h rem s1 f1 f2 f3 (fun k hk => f4 ▸ htodo k hk)
        hr.distinct
      rcases hmk : call ((simEnv chain).traced.MarkHeaderCheckedForAll h.Id X) s1 with ⟨r2, s2⟩
      rw [hmk] at hm
      cases r2 with
      | error e => exact hm
      | ok u => exact ⟨hm.1, by rw [hm.2, f5]; exact hX⟩
    · rw [if_neg hlen]
      have q1 := stays_ConvertBatch chain raw c.Events h.Id s1
      have t1 : (call ((simEnv chain).traced.ConvertBatch raw c.Events h.Id) s1).2.tr = s1.tr :=
        rfl
      rcases hc : call ((simEnv chain).traced.ConvertBatch raw c.Events h.Id) s1 with ⟨r2, s2⟩
      rw [hc] at q1 t1
      simp only at q1 t1
      cases r2 with
      | error e =>
        rw [Prog.seq_error hc]
        exact good_of_quiet q1 f1
      | ok logs =>
        rw [Prog.seq_ok hc]
        have q2 := stays_processResolverLogs chain logs h.BlockNumber s2
        have t2 := Keeps.of_processResolverLogs (fun t => mapGet t.resolverEventIds addr [])
          (simEnv chain).traced logs h.BlockNumber s2
        rcases hp : processResolverLogs (simEnv chain).traced logs h.BlockNumber s2
          with ⟨r3, s3⟩
        rw [hp] at q2 t2
        simp only at q2 t2
        have q12 := quiet_trans q1 q2
        cases r3 with
        | error e =>
          rw [Prog.seq_error hp]
          exact good_of_quiet q12 f1
        | ok u =>
          rw [Prog.seq_ok hp, Prog.seq_ok (show getTr s3 = (Except.ok s3.tr, s3) from rfl)]
          have hX3 : mapGet s3.tr.resolverEventIds addr [] = X := by
            rw [t2, t1, f5]; exact hX
          rw [hX3]
          have hm := mark_step chain C0 X h rem s3 (good_of_quiet q12 f1)
            (doneExcept_of_quiet q12 f2) (q12.2.2.2.1.trans f3)
            (fun k hk => by rw [q12.1, f4]; exact htodo k hk) hr.distinct
          rcases hmk : call ((simEnv chain).traced.MarkHeaderCheckedForAll h.Id X) s3
            with ⟨r4, s4⟩
          rw [hmk] at hm
          cases r4 with
          | error e => exact hm
          | ok u2 => exact ⟨hm.1, by rw [hm.2]; exact hX3⟩

/-- A header loop whose body takes a ready loop to the next header ends with every fetched
pair fully checked, or fails in a good state. -/
theorem forEach_ready (C0 : List (Int × String)) (X : List String)
    (body : Header → Prog (World × List Call) Unit) (P : State (World × List Call) → Prop)
    (hbody : ∀ h rem s, Ready C0 X (h :: rem) s → P s →
      Post (body h s) (fun t => Ready C0 X rem t ∧ P t) (Good C0))
    (hs : List Header) (s : State (World × List Call)) (hr : Ready C0 X hs s) (hP : P s) :
    Post (forEach hs body s) (fun t => Good C0 t ∧ DoneExcept none t ∧ P t) (Good C0) := by
  induction hs generalizing s with
  | nil => exact ⟨hr.good, hr.done, hP⟩
  | cons h rem ih =>
    have hb := hbody h rem s hr hP
    rw [forEach_cons]
    rcases hx : body h s with ⟨r, s1⟩
    rw [hx] at hb
    cases r with
    | error e =>
      rw [Prog.bind_error hx]
      exact hb
    | ok u =>
      rw [Prog.bind_ok hx]
      exact ih s1 hb.1 hb.2

/-- The state after a `MissingHeadersForAll` call for the event ids `X`: a ready loop over the
headers returned, or an error in a good state. -/
theorem missing_step (chain : Chain) (C0 : List (Int × String)) (a b : Int) (X : List String)
    (s : State (World × List Call)) (hg : Good C0 s) (hd : DoneExcept none s) :
    (∀ hs t, call ((simEnv chain).traced.MissingHeadersForAll a b X) s = (Except.ok hs, t) →
      Ready C0 X hs t ∧ t.tr = s.tr) ∧
    (∀ e t, call ((simEnv chain).traced.MissingHeadersForAll a b X) s = (Except.error e, t) →
      Good C0 t) := by
  have hm := monitor_missing s.world.2 a b X
  cases hfail : chain.fails (Call.MissingHeadersForAll a b X) with
  | some e =>
    have hrun : call ((simEnv chain).traced.MissingHeadersForAll a b X) s
        = (Except.error e, { s with world := (s.world.1,
            s.world.2 ++ [Call.MissingHeadersForAll a b X]) }) := by
      simp [call, Env.traced, simEnv, answer, hfail]
    rw [hrun]
    refine ⟨fun hs t ht => (by cases ht), fun e2 t ht => ?_⟩
    cases ht
    exact ⟨hg.mono, hg.table, fun p hp => hg.fresh p (hm.1 ▸ hp), hm.1 ▸ hg.nodup⟩
  | none =>
    have hrun : call ((simEnv chain).traced.MissingHeadersForAll a b X) s
        = (Except.ok (s.world.1.headers.filter (fun h =>
            decide (a ≤ h.BlockNumber) && (decide (b = -1) || decide (h.BlockNumber ≤ b)) &&
              X.any (fun i => decide ((h.Id, i) ∉ s.world.1.checked)))),
            { s with world := (s.world.1, s.world.2 ++ [Call.MissingHeadersForAll a b X]) }) := by
      simp [call, Env.traced, simEnv, answer, hfail]
    rw [hrun]
    refine ⟨fun hs t ht => ?_, fun e2 t ht => (by cases ht)⟩
    cases ht
    refine ⟨⟨⟨hg.mono, hg.table, fun p hp => hg.fresh p (hm.1 ▸ hp), hm.1 ▸ hg.nodup⟩, ?_,
      hm.2, ?_, ?_⟩, rfl⟩
    · intro p hp hne
      exact hd p (hm.1 ▸ hp) hne
    · intro h hh hfull
      have hf := (List.mem_filter.mp hh).2
      simp only [Bool.and_eq_true, List.any_eq_true, decide_eq_true_eq] at hf
      obtain ⟨-, i, hi, hni⟩ := hf
      exact hni (hfull i hi)
    · exact (hg.table.sublist (List.Sublist.map _ (List.filter_sublist _)))

theorem watchResolver_good (chain : Chain) (C0 : List (Int × String))
    (entry : String × Contract) (s : State (World × List Call)) (hg : Good C0 s)
    (hd : DoneExcept none s) :
    Post (watchResolver (simEnv chain).traced entry s)
      (fun t => Good C0 t ∧ DoneExcept none t) (Good C0) := by
  have q1 := stays_Update chain entry.2 s
  unfold watchResolver
  rcases hu : call (fun w => (Except.ok (), (simEnv chain).traced.Update entry.2 w)) s
    with ⟨r0, s1⟩
  have hr0 : r0 = Except.ok () := by
    have : (call (fun w => (Except.ok (), (simEnv chain).traced.Update entry.2 w)) s).1
      = Except.ok () := rfl
    rw [hu] at this
    exact this
  subst hr0
  rw [hu] at q1
  simp only at q1
  rw [Prog.seq_ok hu, Prog.seq_ok (show getTr s1 = (Except.ok s1.tr, s1) from rfl)]
  obtain ⟨m1, m2⟩ := missing_step chain C0 s1.tr.resolverIndex (int64 (s1.tr.registryIndex - 1))
    (mapGet s1.tr.resolverEventIds entry.1 []) s1 (good_of_quiet q1 hg)
    (doneExcept_of_quiet q1 hd)
  rcases hm : call ((simEnv chain).traced.MissingHeadersForAll s1.tr.resolverIndex
      (int64 (s1.tr.registryIndex - 1)) (mapGet s1.tr.resolverEventIds entry.1 [])) s1
    with ⟨r, s2⟩
  cases r with
  | error e =>
    rw [Prog.seq_error hm]
    exact m2 e s2 hm
  | ok hs =>
    rw [Prog.seq_ok hm]
    obtain ⟨hr, ht⟩ := m1 hs s2 hm
    have hloop := forEach_ready C0 (mapGet s1.tr.resolverEventIds entry.1 [])
      (watchResolverHeader (simEnv chain).traced entry.1 entry.2)
      (fun t => mapGet t.tr.resolverEventIds entry.1 [] = mapGet s1.tr.resolverEventIds entry.1 [])
      (fun h rem t hrt hP => watchResolverHeader_ready chain C0 _ entry.1 entry.2 h rem t hrt hP)
      hs s2 hr (by show mapGet s2.tr.resolverEventIds entry.1 [] = _; rw [ht])
    rcases hl : forEach hs (watchResolverHeader (simEnv chain).traced entry.1 entry.2) s2
      with ⟨r2, s3⟩
    rw [hl] at hloop
    cases r2 with
    | error e => exact hloop
    | ok u => exact ⟨hloop.1, hloop.2.1⟩

theorem watchResolvers_good (chain : Chain) (C0 : List (Int × String))
    (s : State (World × List Call)) (hg : Good C0 s) (hd : DoneExcept none s) :
    Post (watchResolvers (simEnv chain).traced s)
      (fun t => Good C0 t ∧ DoneExcept none t) (Good C0) := by
  rw [watchResolvers_run]
  generalize s.tr.Resolvers = entries
  induction entries generalizing s with
  | nil => exact ⟨hg, hd⟩
  | cons entry rest ih =>
    have hb := watchResolver_good chain C0 entry s hg hd
    rw [forEach_cons]
    rcases hx : watchResolver (simEnv chain).traced entry s with ⟨r, s1⟩
    rw [hx] at hb
    cases r with
    | error e =>
      rw [Prog.bind_error hx]
      exact hb
    | ok u =>
      rw [Prog.bind_ok hx]
      exact ih s1 hb.1 hb.2

theorem advanceIndexes_world {σ : Type} (hs : List Header) (s : State σ) :
    (advanceIndexes hs s).1 = Except.ok () ∧ (advanceIndexes hs s).2.world = s.world := by
  unfold advanceIndexes
  cases hs.getLast? with
  | none => exact ⟨rfl, rfl⟩
  | some last => exact ⟨rfl, rfl⟩

/-- A recorded pass from a good state in which every fetched pair is fully checked ends in a
good state, whether it fails or not. -/
theorem Execute_good (chain : Chain) (C0 : List (Int × String))
    (s : State (World × List Call)) (hg : Good C0 s) (hd : DoneExcept none s) :
    Good C0 (Execute (simEnv chain).traced s).2 := by
  have q1 := stays_Update chain s.tr.Registry s
  unfold Execute
  rw [Prog.seq_ok (show getTr s = (Except.ok s.tr, s) from rfl)]
  rcases hu : call (fun w => (Except.ok (), (simEnv chain).traced.Update s.tr.Registry w)) s
    with ⟨r0, s1⟩
  have hr0 : r0 = Except.ok () := by
    have : (call (fun w => (Except.ok (), (simEnv chain).traced.Update s.tr.Registry w)) s).1
      = Except.ok () := rfl
    rw [hu] at this
    exact this
  have ht1 : s1.tr = s.tr := by
    have : (call (fun w => (Except.ok (), (simEnv chain).traced.Update s.tr.Registry w)) s).2.tr
      = s.tr := rfl
    rw [hu] at this
    exact this
  subst hr0
  rw [hu] at q1
  simp only at q1
  rw [Prog.seq_ok hu]
  obtain ⟨m1, m2⟩ := missing_step chain C0 s.tr.registryIndex (-1) s.tr.registryEventIds s1
    (good_of_quiet q1 hg) (doneExcept_of_quiet q1 hd)
  rcases hm : call ((simEnv chain).traced.MissingHeadersForAll s.tr.registryIndex (-1)
      s.tr.registryEventIds) s1 with ⟨r, s2⟩
  cases r with
  | error e =>
    rw [Prog.seq_error hm]
    exact m2 e s2 hm
  | ok hs =>
    rw [Prog.seq_ok hm]
    obtain ⟨hr, ht⟩ := m1 hs s2 hm
    have hloop := forEach_ready C0 s.tr.registryEventIds (executeHeader (simEnv chain).traced)
      (fun t => t.tr.registryEventIds = s.tr.registryEventIds)
      (fun h rem t hrt hP => executeHeader_ready chain C0 _ h rem t hrt hP)
      hs s2 hr (by show s2.tr.registryEventIds = _; rw [ht, ht1])
    rcases hl : forEach hs (executeHeader (simEnv chain).traced) s2 with ⟨r2, s3⟩
    rw [hl] at hloop
    cases r2 with
    | error e =>
      rw [Prog.seq_error hl]
      exact hloop
    | ok u =>
      rw [Prog.seq_ok hl]
      obtain ⟨a1, a2⟩ := advanceIndexes_world hs s3
      rcases ha : advanceIndexes hs s3 with ⟨r3, s4⟩
      rw [ha] at a1 a2
      simp only at a1 a2
      subst a1
      rw [Prog.seq_ok ha]
      have hg4 : Good C0 s4 :=
        ⟨a2 ▸ hloop.1.mono, a2 ▸ hloop.1.table, a2 ▸ hloop.1.fresh, a2 ▸ hloop.1.nodup⟩
      have hd4 : DoneExcept none s4 := by
        intro p hp hne
        rw [a2] at hp ⊢
        exact hloop.2.1 p hp hne
      have hw := watchResolvers_good chain C0 s4 hg4 hd4
      rcases hwr : watchResolvers (simEnv chain).traced s4 with ⟨r4, s5⟩
      rw [hwr] at hw
      cases r4 with
      | error e => exact hw
      | ok u2 => exact hw.1

theorem anyCall_repo (b : Int) : RepoCallsOk anyCall b :=
  ⟨fun _ => trivial, fun _ => trivial, fun _ _ => trivial⟩

theorem mapGet_mapSet_of_ne {V : Type} (m : List (String × V)) (k a : String) (v d : V)
    (h : k ≠ a) : mapGet (mapSet m k v) a d = mapGet m a d := by
  induction m with
  | nil => simp [mapSet, mapGet, h]
  | cons x rest ih =>
    obtain ⟨k1, v1⟩ := x
    by_cases h1 : k1 = k
    · subst h1
      simp [mapSet, mapGet, h]
    · by_cases h2 : k1 = a
      · subst h2
        simp [mapSet, mapGet, h1]
      · simp [mapSet, mapGet, h1, h2, ih]

/-- The registration of an event of an address `addr` that is not a known `a`. -/
theorem registerResolverEvent_sameIds {σ : Type} (env : Env σ) (X : List String) (a : String)
    (Y : List String) (known : Bool) (addr : String) (hne : known = true → addr ≠ a)
    (e : Event) :
    Emits (sameIds X a Y known) anyCall (registerResolverEvent env.traced addr e) := by
  unfold registerResolverEvent
  refine Emits.bind (Emits.call _ _ _ (fun _ => rfl) trivial) (fun _ =>
    Emits.bind (Emits.modifyTr _ (fun t h => ⟨h.1, fun hk => ⟨(h.2 hk).1, ?_⟩⟩)) (fun _ =>
      Emits.modifyTr _ (fun _ h => h)))
  show mapGet (mapSet t.resolverEventIds addr _) a [] = Y
  rw [mapGet_mapSet_of_ne _ _ _ _ _ (hne hk)]
  exact (h.2 hk).2

theorem probeResolver_sameIds {σ : Type} (env : Env σ) (X : List String) (a : String)
    (Y : List String) (known : Bool) (b : Int) (addr : String)
    (hne : known = true → addr ≠ a) :
    Emits (sameIds X a Y known) anyCall (probeResolver env.traced b addr) := by
  unfold probeResolver
  refine Emits.bind (Emits.callPure _ _ _ (fun _ => rfl) trivial) (fun abiStr =>
    Emits.ite (Emits.modifyTr _ (fun _ h => h)) ?_)
  refine Emits.bind (Emits.call _ _ _ (fun _ => rfl) trivial) (fun _ =>
    Emits.bind (Emits.getWorld _ _) (fun w =>
      Emits.bind (Emits.modifyTr _ (fun t h => ⟨h.1, fun hk => ⟨?_, (h.2 hk).2⟩⟩)) (fun _ =>
        Emits.bind (Emits.getTr _ _) (fun _ =>
          Emits.forEach (registerResolverEvent_sameIds env X a Y known addr hne) _))))
  show mapHas (mapSet t.Resolvers addr _) a = true
  rw [mapHas_mapSet_of_ne _ _ _ _ (hne hk)]
  exact (h.2 hk).1

theorem configResolver_sameIds {σ : Type} (env : Env σ) (X : List String) (a : String)
    (Y : List String) (known : Bool) (b : Int) (addr : String) :
    Emits (sameIds X a Y known) anyCall (configResolver env.traced b addr) := by
  intro s hI
  unfold configResolver
  apply EmitsAt.getTr_bind
  by_cases h1 : mapHas s.tr.Resolvers addr = true
  · rw [if_pos h1]
    exact Emits.pure _ _ _ s hI
  · rw [if_neg h1]
    by_cases h2 : mapHas s.tr.invalidResolvers addr = true
    · rw [if_pos h2]
      exact Emits.pure _ _ _ s hI
    · rw [if_neg h2]
      have hne : known = true → addr ≠ a := by
        intro hk h
        rw [h] at h1
        exact h1 (hI.2 hk).1
      exact probeResolver_sameIds env X a Y known b addr hne s hI

theorem configResolvers_sameIds {σ : Type} (env : Env σ) (X : List String) (a : String)
    (Y : List String) (known : Bool) (b : Int) :
    Emits (sameIds X a Y known) anyCall (configResolvers env.traced b) :=
  Emits.bind (Emits.getTr _ _) (fun _ =>
    Emits.forEach (configResolver_sameIds env X a Y known b) _)

theorem watchResolverHeader_sameIds {σ : Type} (env : Env σ) (X : List String) (a : String)
    (Y : List String) (known : Bool) (addr : String) (c : Contract) (h : Header) :
    Emits (sameIds X a Y known) anyCall (watchResolverHeader env.traced addr c h) :=
  Emits.bind (Emits.getTr _ _) (fun _ =>
    Emits.bind (Emits.call _ _ _ (fun _ => rfl) trivial) (fun _ =>
      Emits.ite (Emits.call _ _ _ (fun _ => rfl) trivial)
        (Emits.bind (Emits.call _ _ _ (fun _ => rfl) trivial) (fun _ =>
          Emits.bind (processResolverLogs_emits _ env _ (anyCall_repo _)) (fun _ =>
            Emits.bind (Emits.getTr _ _) (fun _ =>
              Emits.call _ _ _ (fun _ => rfl) trivial))))))

theorem watchResolver_sameIds {σ : Type} (env : Env σ) (X : List String) (a : String)
    (Y : List String) (known : Bool) (entry : String × Contract) :
    Emits (sameIds X a Y known) anyCall (watchResolver env.traced entry) :=
  Emits.bind (Emits.call _ _ _ (fun _ => rfl) trivial) (fun _ =>
    Emits.bind (Emits.getTr _ _) (fun _ =>
      Emits.bind (Emits.call _ _ _ (fun _ => rfl) trivial) (fun _ =>
        Emits.forEach (watchResolverHeader_sameIds env X a Y known _ _) _)))

theorem watchResolvers_sameIds {σ : Type} (env : Env σ) (X : List String) (a : String)
    (Y : List String) (known : Bool) :
    Emits (sameIds X a Y known) anyCall (watchResolvers env.traced) :=
  Emits.bind (Emits.getTr _ _) (fun _ =>
    Emits.forEach (watchResolver_sameIds env X a Y known) _)

theorem executeHeader_sameIds {σ : Type} (env : Env σ) (X : List String) (a : String)
    (Y : List String) (known : Bool) (h : Header) :
    Emits (sameIds X a Y known) anyCall (executeHeader env.traced h) :=
  Emits.bind (Emits.getTr _ _) (fun _ =>
    Emits.bind (Emits.call _ _ _ (fun _ => rfl) trivial) (fun _ =>
      Emits.ite (Emits.call _ _ _ (fun _ => rfl) trivial)
        (Emits.bind (Emits.call _ _ _ (fun _ => rfl) trivial) (fun _ =>
          Emits.bind
            (processRegistryLogs_emits (fun _ _ h => h) env _ (anyCall_repo _)) (fun _ =>
            Emits.bind (Emits.getTr _ _) (fun _ =>
              Emits.bind (Emits.call _ _ _ (fun _ => rfl) trivial) (fun _ =>
                configResolvers_sameIds env X a Y known _)))))))

theorem advanceIndexes_sameIds {σ : Type} (X : List String) (a : String) (Y : List String)
    (known : Bool) (hs : List Header) :
    Emits (sameIds X a Y known) anyCall (advanceIndexes hs : Prog (σ × List Call) Unit) := by
  unfold advanceIndexes
  cases hs.getLast? with
  | none => exact Emits.pure _ _ _
  | some last =>
    exact Emits.bind (Emits.modifyTr _ (fun _ h => h)) (fun _ => Emits.modifyTr _ (fun _ h => h))

/-- A pass changes neither the event ids of the registry nor those of a resolver that is in
`Resolvers` already, whether it fails or not. -/
theorem Execute_sameIds {σ : Type} (env : Env σ) (X : List String) (a : String)
    (Y : List String) (known : Bool) :
    Emits (sameIds X a Y known) anyCall (Execute env.traced) :=
  Emits.bind (Emits.getTr _ _) (fun _ =>
    Emits.bind (Emits.call _ _ _ (fun _ => rfl) trivial) (fun _ =>
      Emits.bind (Emits.call _ _ _ (fun _ => rfl) trivial) (fun hs =>
        Emits.bind (Emits.forEach (executeHeader_sameIds env X a Y known) _) (fun _ =>
          Emits.bind (advanceIndexes_sameIds X a Y known hs) (fun _ =>
            watchResolvers_sameIds env X a Y known)))))

theorem passes_traced {σ : Type} (env : Env σ) (n : Nat) (s : State σ) (l : List Call) :
    (passes env.traced n ⟨s.tr, (s.world, l)⟩).tr = (passes env n s).tr ∧
    (passes env.traced n ⟨s.tr, (s.world, l)⟩).world.1 = (passes env n s).world := by
  induction n with
  | zero => exact ⟨rfl, rfl⟩
  | succ n ih =>
    have h := Execute_traced env (passes env n s)
      (passes env.traced n ⟨s.tr, (s.world, l)⟩).world.2
    have he : (⟨(passes env n s).tr, ((passes env n s).world,
        (passes env.traced n ⟨s.tr, (s.world, l)⟩).world.2)⟩ : State (σ × List Call))
        = passes env.traced n ⟨s.tr, (s.world, l)⟩ := by
      rw [← ih.1, ← ih.2]
    rw [he] at h
    exact ⟨h.2.1, h.2.2⟩

theorem passes_sameIds {σ : Type} (env : Env σ) (n : Nat) (s : State σ) (a : String) :
    (passes env n s).tr.registryEventIds = s.tr.registryEventIds ∧
    (mapHas s.tr.Resolvers a = true →
      mapHas (passes env n s).tr.Resolvers a = true ∧
      mapGet (passes env n s).tr.resolverEventIds a [] = mapGet s.tr.resolverEventIds a []) := by
  have key : ∀ n, sameIds s.tr.registryEventIds a (mapGet s.tr.resolverEventIds a [])
      (mapHas s.tr.Resolvers a) (passes env.traced n ⟨s.tr, (s.world, [])⟩).tr := by
    intro n
    induction n with
    | zero => exact ⟨rfl, fun hk => ⟨hk, rfl⟩⟩
    | succ n ih => exact (Execute_sameIds env _ a _ _ _ ih).1
  have h := key n
  rw [(passes_traced env n s []).1] at h
  exact h

theorem good_start (s : State World) (C0 : List (Int × String))
    (hm : ∀ x ∈ C0, x ∈ s.world.checked) (hT : (s.world.headers.map Header.Id).Nodup) :
    Good C0 (startRecording s) ∧ DoneExcept none (startRecording s) :=
  ⟨⟨hm, hT, fun p hp => (by cases hp), List.nodup_nil⟩, fun p hp => (by cases hp)⟩

theorem passes_checked (chain : Chain) (s : State World)
    (hT : (s.world.headers.map Header.Id).Nodup) (n : Nat) :
    (∀ x ∈ s.world.checked, x ∈ (passes (simEnv chain) n s).world.checked) ∧
    ((passes (simEnv chain) n s).world.headers.map Header.Id).Nodup := by
  induction n with
  | zero => exact ⟨fun x hx => hx, hT⟩
  | succ n ih =>
    obtain ⟨g1, g2⟩ := good_start (passes (simEnv chain) n s) s.world.checked ih.1 ih.2
    have hg := Execute_good chain s.world.checked _ g1 g2
    have ha := (Execute_traced (simEnv chain) (passes (simEnv chain) n s) []).2.2
    have hmono := hg.mono
    have htab := hg.table
    unfold startRecording at hmono htab
    rw [ha] at hmono htab
    exact ⟨hmono, htab⟩

/-- C17: on the checkpoint store of the specification (`MissingHeadersForAll` returns only
headers with a flag unset for one of the given event ids, a successful
`MarkHeaderCheckedForAll` sets the flags of its header for its event ids), whatever calls fail:
once all flags of a header for the event ids of a contract are set, no later `Execute` pass
calls `FetchLogs` for that header in the loop that asked for the missing headers of these event
ids, nor `CreateRecord` after such a fetch; within one pass `FetchLogs` is called at most once
for a header in the loops of the same event ids, when no two headers of the table have the
same id; and the event ids that the loops ask for are those of the same contract in every
pass: the passes change neither the event ids of the registry nor those of a resolver that is
in `Resolvers`. -/
theorem at_most_once (chain : Chain) (s : State World)
    (hT : (s.world.headers.map Header.Id).Nodup) (n : Nat) :
    (∀ h0 ids0 w w1, (simEnv chain).MarkHeaderCheckedForAll h0 ids0 w = (Except.ok (), w1) →
      fullyChecked w1.checked (h0, ids0)) ∧
    (∀ h0 ids0, fullyChecked s.world.checked (h0, ids0) →
      (h0, ids0) ∉ (monitor (nextPassCalls chain n s)).fetched ∧
      (h0, ids0) ∉ (monitor (nextPassCalls chain n s)).created) ∧
    (monitor (nextPassCalls chain n s)).fetched.Nodup ∧
    (∀ a, (passes (simEnv chain) n s).tr.registryEventIds = s.tr.registryEventIds ∧
      (mapHas s.tr.Resolvers a = true →
        mapHas (passes (simEnv chain) n s).tr.Resolvers a = true ∧
        mapGet (passes (simEnv chain) n s).tr.resolverEventIds a []
          = mapGet s.tr.resolverEventIds a [])) := by
  obtain ⟨p1, p2⟩ := passes_checked chain s hT n
  obtain ⟨g1, g2⟩ := good_start (passes (simEnv chain) n s) s.world.checked p1 p2
  have hg := Execute_good chain s.world.checked _ g1 g2
  refine ⟨?_, ?_, hg.nodup, fun a => passes_sameIds (simEnv chain) n s a⟩
  · intro h0 ids0 w w1 hmark i hi
    simp only [simEnv, answer] at hmark
    split at hmark
    · cases hmark
    · cases hmark
      exact (mem_markChecked _ _ _ _).mpr (Or.inr ⟨rfl, hi⟩)
  · intro h0 ids0 hfull
    have hnf : (h0, ids0) ∉ (monitor (nextPassCalls chain n s)).fetched :=
      fun hm => hg.fresh _ hm hfull
    exact ⟨hnf, fun hc => hnf ((monitor_created_fetched _).1 _ hc)⟩

/-- C17 in scenario "early": the first pass fetches logs once for each of the headers 1 and 2
under the event ids of the registry and under those of the resolver, and it sets all their
flags; the pass that follows it fetches nothing and creates nothing. -/
theorem at_most_once_witness :
    (monitor (nextPassCalls (demoChain earlyLogs noFault) 0 demoStart)).fetched
      = [(1, demoTransformer.registryEventIds), (2, demoTransformer.registryEventIds),
         (1, ["addrchanged_r"]), (2, ["addrchanged_r"])] ∧
    fullyChecked (passes (simEnv (demoChain earlyLogs noFault)) 1 demoStart).world.checked
      (1, demoTransformer.registryEventIds) ∧
    (monitor (nextPassCalls (demoChain earlyLogs noFault) 1 demoStart)).fetched = [] ∧
    (monitor (nextPassCalls (demoChain earlyLogs noFault) 1 demoStart)).created = [] ∧
    ((1, ["addrchanged_r"]) ∉ (monitor (nextPassCalls (demoChain earlyLogs noFault) 0
        (passes (simEnv (demoChain earlyLogs noFault)) 1 demoStart))).fetched ∧
      (1, ["addrchanged_r"]) ∉ (monitor (nextPassCalls (demoChain earlyLogs noFault) 0
        (passes (simEnv (demoChain earlyLogs noFault)) 1 demoStart))).created) ∧
    (monitor (nextPassCalls (demoChain earlyLogs noFault) 0 demoStart)).fetched.Nodup :=
  ⟨by decide!, by decide!, by decide!, by decide!,
    (at_most_once (demoChain earlyLogs noFault)
      (passes (simEnv (demoChain earlyLogs noFault)) 1 demoStart) (by decide!) 0).2.1
      1 ["addrchanged_r"] (by decide!),
    (at_most_once (demoChain earlyLogs noFault) demoStart (by decide!) 0).2.2.1⟩

/-! ## The order of the records created by a registry fold -/

theorem updateRecord_emitted {σ : Type} (env : Env σ) (node : String) (b : Int)
    (assign : DomainModel → DomainModel) (s : State (σ × List Call))
    (hok : (updateRecord env.traced node b assign s).1 = Except.ok ()) :
    ∃ r : DomainModel, (updateRecord env.traced node b assign s).2.tr = s.tr ∧
      (updateRecord env.traced node b assign s).2.world.2
        = s.world.2 ++ [Call.GetRecord node b, Call.CreateRecord (assign { r with BlockNumber := b })] := by
  rcases h1 : call (env.traced.GetRecord node b) s with ⟨r1, s1⟩
  cases r1 with
  | error e =>
    rw [updateRecord_error env.traced node b assign s s1 e h1] at hok
    cases hok
  | ok r =>
    rw [updateRecord_ok env.traced node b assign s s1 r h1]
    have h2 : s1 = (call (env.traced.GetRecord node b) s).2 := by rw [h1]
    refine ⟨r, ?_, ?_⟩
    · rw [h2]; rfl
    · rw [h2]; simp [call, Env.traced]

theorem processNewOwner_emitted {σ : Type} (env : Env σ) (b : Int) (l : Log)
    (s : State (σ × List Call))
    (hok : (processNewOwner env.traced b l s).1 = Except.ok ()) :
    ∃ cs, (processNewOwner env.traced b l s).2.world.2 = s.world.2 ++ cs ∧
      (RegistryEvent.NewOwner l).emitted env.CreateSubnode b cs := by
  revert hok
  unfold processNewOwner
  simp only [Prog.bind_run, Prog.bind, call, Env.traced]
  cases h1 : env.RecordExists (env.CreateSubnode (l.value "node") (l.value "label")) s.world.1 with
  | mk res w1 =>
    cases res with
    | error e => intro hok; simp at hok
    | ok found =>
      cases found with
      | false =>
        simp only [Bool.false_eq_true, if_false]
        intro _
        refine ⟨[Call.RecordExists (env.CreateSubnode (l.value "node") (l.value "label")),
          Call.CreateRecord
            { NameHash := env.CreateSubnode (l.value "node") (l.value "label")
              ParentHash := l.value "node"
              LabelHash := l.value "label"
              Owner := l.value "owner"
              BlockNumber := b }], ?_,
          [Call.RecordExists (env.CreateSubnode (l.value "node") (l.value "label"))], _, rfl,
          ⟨rfl, rfl, rfl, rfl, rfl⟩, fun c hc => Or.inl (List.mem_singleton.mp hc)⟩
        simp [Pure.pure]
      | true =>
        simp only [if_true]
        cases h2 : env.GetRecord (env.CreateSubnode (l.value "node") (l.value "label")) b w1 with
        | mk res2 w2 =>
          cases res2 with
          | error e =>
            simp only [call, h2]
            intro hok
            cases hok
          | ok r =>
            simp only [call, h2]
            intro _
            refine ⟨[Call.RecordExists (env.CreateSubnode (l.value "node") (l.value "label")),
              Call.GetRecord (env.CreateSubnode (l.value "node") (l.value "label")) b,
              Call.CreateRecord
                { r with
                  NameHash := env.CreateSubnode (l.value "node") (l.value "label")
                  ParentHash := l.value "node"
                  LabelHash := l.value "label"
                  Owner := l.value "owner"
                  BlockNumber := b }], ?_,
              [Call.RecordExists (env.CreateSubnode (l.value "node") (l.value "label")),
                Call.GetRecord (env.CreateSubnode (l.value "node") (l.value "label")) b], _, rfl,
              ⟨rfl, rfl, rfl, rfl, rfl⟩, ?_⟩
            · simp
            · intro c hc
              simp only [List.mem_cons, List.mem_singleton, List.not_mem_nil, or_false] at hc
              exact hc

theorem foldRegistryEvent_emitted {σ : Type} (env : Env σ) (b : Int) (ev : RegistryEvent)
    (s : State (σ × List Call))
    (hok : (foldRegistryEvent env.traced b ev s).1 = Except.ok ()) :
    ∃ cs, (foldRegistryEvent env.traced b ev s).2.world.2 = s.world.2 ++ cs ∧
      ev.emitted env.CreateSubnode b cs := by
  cases ev with
  | NewOwner l => exact processNewOwner_emitted env b l s hok
  | Transfer l =>
    obtain ⟨r, _, h⟩ := updateRecord_emitted env (l.value "node") b
      (fun r => { r with Owner := l.value "owner" }) s hok
    exact ⟨_, h, [Call.GetRecord (l.value "node") b],
      { r with BlockNumber := b, Owner := l.value "owner" }, rfl, ⟨rfl, rfl⟩,
      fun c hc => Or.inr (List.mem_singleton.mp hc)⟩
  | NewTTL l =>
    obtain ⟨r, _, h⟩ := updateRecord_emitted env (l.value "node") b
      (fun r => { r with TTL := l.value "ttl" }) s hok
    exact ⟨_, h, [Call.GetRecord (l.value "node") b],
      { r with BlockNumber := b, TTL := l.value "ttl" }, rfl, ⟨rfl, rfl⟩,
      fun c hc => Or.inr (List.mem_singleton.mp hc)⟩
  | NewResolver l =>
    have hok1 : (updateRecord env.traced (l.value "node") b
        (fun r => { r with ResolverAddr := l.value "resolver" }) s).1 = Except.ok () := by
      rcases h1 : updateRecord env.traced (l.value "node") b
        (fun r => { r with ResolverAddr := l.value "resolver" }) s with ⟨r1, s1⟩
      cases r1 with
      | ok u => rfl
      | error e =>
        have : foldRegistryEvent env.traced b (RegistryEvent.NewResolver l) s
            = (Except.error e, s1) := Prog.seq_error h1
        rw [this] at hok
        cases hok
    obtain ⟨r, _, h⟩ := updateRecord_emitted env (l.value "node") b
      (fun r => { r with ResolverAddr := l.value "resolver" }) s hok1
    have hw : (foldRegistryEvent env.traced b (RegistryEvent.NewResolver l) s).2.world.2
        = (updateRecord env.traced (l.value "node") b
            (fun r => { r with ResolverAddr := l.value "resolver" }) s).2.world.2 := by
      rcases h1 : updateRecord env.traced (l.value "node") b
        (fun r => { r with ResolverAddr := l.value "resolver" }) s with ⟨r1, s1⟩
      rw [h1] at hok1
      cases r1 with
      | error e => cases hok1
      | ok u =>
        have : foldRegistryEvent env.traced b (RegistryEvent.NewResolver l) s
            = modifyTr (fun tr => { tr with
                ResolverAddresses := mapSet tr.ResolverAddresses (l.value "resolver") true }) s1 :=
          Prog.seq_ok h1
        rw [this]
        rfl
    exact ⟨_, hw.trans h, [Call.GetRecord (l.value "node") b],
      { r with BlockNumber := b, ResolverAddr := l.value "resolver" }, rfl, ⟨rfl, rfl⟩,
      fun c hc => Or.inr (List.mem_singleton.mp hc)⟩

theorem forEach_emitted {σ : Type} (env : Env σ) (b : Int) (evs : List RegistryEvent)
    (s : State (σ × List Call))
    (hok : (forEach evs (foldRegistryEvent env.traced b) s).1 = Except.ok ()) :
    ∃ css : List (List Call),
      (forEach evs (foldRegistryEvent env.traced b) s).2.world.2 = s.world.2 ++ css.flatten ∧
      List.Forall₂ (RegistryEvent.emitted env.CreateSubnode b) evs css := by
  induction evs generalizing s with
  | nil => exact ⟨[], by simp [forEach_nil, Prog.pure_run], List.Forall₂.nil⟩
  | cons ev rest ih =>
    rw [forEach_cons] at hok ⊢
    rcases h1 : foldRegistryEvent env.traced b ev s with ⟨r1, s1⟩
    cases r1 with
    | error e => rw [Prog.bind_error h1] at hok; cases hok
    | ok u =>
      rw [Prog.bind_ok h1] at hok ⊢
      obtain ⟨cs, hcs, hem⟩ := foldRegistryEvent_emitted env b ev s (by rw [h1])
      rw [h1] at hcs
      obtain ⟨css, hcss, hall⟩ := ih s1 hok
      refine ⟨cs :: css, ?_, List.Forall₂.cons hem hall⟩
      rw [hcss, hcs]
      simp

theorem createdRecords_emitted (subnode : String → String → String) (b : Int)
    (evs : List RegistryEvent) (css : List (List Call))
    (h : List.Forall₂ (RegistryEvent.emitted subnode b) evs css) :
    List.Forall₂ (RegistryEvent.writes subnode b) evs (createdRecords css.flatten) := by
  induction h with
  | nil => exact List.Forall₂.nil
  | @cons ev cs evs css hem _ ih =>
    obtain ⟨pre, r, hcs, hw, hpre⟩ := hem
    have hp : createdRecords pre = [] := by
      unfold createdRecords
      rw [List.filterMap_eq_nil_iff]
      intro c hc
      rcases hpre c hc with h | h <;> subst h <;> rfl
    rw [List.flatten_cons, createdRecords_append, hcs, createdRecords_append, hp]
    exact List.Forall₂.cons hw ih

/-- C21: when `processRegistryLogs` folds the decoded logs of a header at block b without error,
the calls it makes are, event after event, those of the NewOwner events, then of the Transfer
events, then of the NewTTL events, then of the NewResolver events, each list in its order: for
every event lookups of its name hash followed by one `CreateRecord`.  So the records created
are, one per event and in that order, records that carry the assignment of their event. -/
theorem registry_creates_follow_the_four_lists {σ : Type} (env : Env σ)
    (logs : List (String × List Log)) (b : Int) (s : State (σ × List Call))
    (hok : (processRegistryLogs env.traced logs b s).1 = Except.ok ()) :
    registryEvents logs
      = (logsOf logs "NewOwner").map RegistryEvent.NewOwner
        ++ ((logsOf logs "Transfer").map RegistryEvent.Transfer
        ++ ((logsOf logs "NewTTL").map RegistryEvent.NewTTL
        ++ (logsOf logs "NewResolver").map RegistryEvent.NewResolver)) ∧
    ∃ css : List (List Call),
      (processRegistryLogs env.traced logs b s).2.world.2 = s.world.2 ++ css.flatten ∧
      List.Forall₂ (RegistryEvent.emitted env.CreateSubnode b) (registryEvents logs) css ∧
      List.Forall₂ (RegistryEvent.writes env.CreateSubnode b) (registryEvents logs)
        (createdRecords css.flatten) ∧
      (createdRecords css.flatten).length
        = (logsOf logs "NewOwner").length + (logsOf logs "Transfer").length
          + (logsOf logs "NewTTL").length + (logsOf logs "NewResolver").length := by
  refine ⟨rfl, ?_⟩
  rw [processRegistryLogs_eq_forEach] at hok ⊢
  obtain ⟨css, h1, h2⟩ := forEach_emitted env b (registryEvents logs) s hok
  have h3 := createdRecords_emitted env.CreateSubnode b _ _ h2
  refine ⟨css, h1, h2, h3, ?_⟩
  rw [← h3.length_eq]
  simp [registryEvents]
  omega

/-- C21 on header 1 of scenario "early" (one NewOwner and one NewResolver event): the fold
succeeds and creates two records, the NewOwner one first. -/
theorem registry_creates_follow_the_four_lists_witness :
    (processRegistryLogs (simEnv (demoChain earlyLogs noFault)).traced earlyDecoded 100
      demoStartTraced).1 = Except.ok () ∧
    ∃ css : List (List Call),
      (processRegistryLogs (simEnv (demoChain earlyLogs noFault)).traced earlyDecoded 100
        demoStartTraced).2.world.2 = demoStartTraced.world.2 ++ css.flatten ∧
      List.Forall₂ (RegistryEvent.writes (simEnv (demoChain earlyLogs noFault)).CreateSubnode 100)
        (registryEvents earlyDecoded) (createdRecords css.flatten) ∧
      (createdRecords css.flatten).length = 2 := by
  have h := registry_creates_follow_the_four_lists (simEnv (demoChain earlyLogs noFault))
    earlyDecoded 100 demoStartTraced (by decide!)
  obtain ⟨_, css, h1, _, h3, h4⟩ := h
  exact ⟨by decide!, css, h1, h3, h4.trans (by decide!)⟩

/-! ## The stages of Init -/

theorem registerRegistryEvent_ok {σ : Type} (env : Env σ) (address : String) (e : Event)
    (s : State σ) (w : σ)
    (h : env.AddCheckColumn (eventIdOf env.ToLower address e) s.world = (Except.ok (), w)) :
    registerRegistryEvent env address e s
      = (Except.ok (), ⟨{ s.tr with
          registryEventIds := s.tr.registryEventIds ++ [eventIdOf env.ToLower address e]
          registryEventFilters := s.tr.registryEventFilters ++ [e.Sig] }, w⟩) := by
  unfold eventIdOf at h
  simp [registerRegistryEvent, Prog.bind_run, Prog.bind, call, modifyTr, h, eventIdOf]

theorem registerRegistryEvent_error {σ : Type} (env : Env σ) (address : String) (e : Event)
    (s : State σ) (w : σ) (err : Error)
    (h : env.AddCheckColumn (eventIdOf env.ToLower address e) s.world = (Except.error err, w)) :
    registerRegistryEvent env address e s = (Except.error err, ⟨s.tr, w⟩) := by
  unfold eventIdOf at h
  simp [registerRegistryEvent, Prog.bind_run, Prog.bind, call, h]

/-- The loop of `Init` over the registry's events, when it ends without error: every event has
added its id and its topic, in the order of the events; the other fields are untouched. -/
theorem registerRegistryEvents_ok {σ : Type} (env : Env σ) (address : String) (es : List Event)
    (s s1 : State σ)
    (h : forEach es (registerRegistryEvent env address) s = (Except.ok (), s1)) :
    s1.tr = { s.tr with
      registryEventIds := s.tr.registryEventIds ++ es.map (eventIdOf env.ToLower address)
      registryEventFilters := s.tr.registryEventFilters ++ es.map Event.Sig } := by
  induction es generalizing s with
  | nil =>
    rw [forEach_nil, Prog.pure_run] at h
    cases h
    simp
  | cons e rest ih =>
    rw [forEach_cons] at h
    rcases h1 : env.AddCheckColumn (eventIdOf env.ToLower address e) s.world with ⟨r, w⟩
    cases r with
    | error err =>
      rw [Prog.bind_error (registerRegistryEvent_error env address e s w err h1)] at h
      cases h
    | ok u =>
      rw [Prog.bind_ok (registerRegistryEvent_ok env address e s w h1)] at h
      rw [ih _ h]
      simp

/-- The run of `Init` when the parser calls succeed and the configuration has one address:
the assignments before the loop, the loop, the assignments after it. -/
theorem Init_run {σ : Type} (env : Env σ) (s : State σ) (w1 w2 : σ)
    (hlen : s.tr.RegistryConfig.Addresses.length = 1)
    (h1 : env.Parse EnsContractAddress s.world = (Except.ok (), w1))
    (h2 : env.ParseAbiStr (mapGet s.tr.RegistryConfig.Abis
      (((s.tr.RegistryConfig.Addresses.map Prod.fst).getLast?).getD "") "") w1
        = (Except.ok (), w2)) :
    Init env s
      = Prog.bind (forEach (env.GetEvents w2) (registerRegistryEvent env
          (((s.tr.RegistryConfig.Addresses.map Prod.fst).getLast?).getD "")))
        (fun _ => modifyTr initResolvers)
        ⟨initRegistry env (((s.tr.RegistryConfig.Addresses.map Prod.fst).getLast?).getD "") w2
          s.tr, w2⟩ := by
  unfold Init
  simp only [Prog.bind_run, Prog.bind, call, getTr, getWorld, modifyTr, h1, h2, hlen,
    ne_eq, not_true_eq_false, if_false]
  rfl

/-- What a successful `Init` leaves in the transformer: the configuration has one address, and
the fields are those assigned before the loop, the ids and topics of every event of the registry,
and the fields assigned after the loop. -/
theorem Init_ok_tr {σ : Type} (env : Env σ) (s : State σ)
    (hok : (Init env s).1 = Except.ok ()) :
    s.tr.RegistryConfig.Addresses.length = 1 ∧
    ∃ w2 : σ, (Init env s).2.tr = initResolvers
      { initRegistry env (((s.tr.RegistryConfig.Addresses.map Prod.fst).getLast?).getD "") w2
          s.tr with
        registryEventIds := (env.GetEvents w2).map
          (eventIdOf env.ToLower (((s.tr.RegistryConfig.Addresses.map Prod.fst).getLast?).getD ""))
        registryEventFilters := (env.GetEvents w2).map Event.Sig } := by
  rcases h1 : env.Parse EnsContractAddress s.world with ⟨r1, w1⟩
  cases r1 with
  | error e =>
    have : Init env s = (Except.error e, ⟨s.tr, w1⟩) := by
      unfold Init
      simp [Prog.bind_run, Prog.bind, call, h1]
    rw [this] at hok
    cases hok
  | ok u1 =>
    by_cases hlen : s.tr.RegistryConfig.Addresses.length = 1
    · refine ⟨hlen, ?_⟩
      rcases h2 : env.ParseAbiStr (mapGet s.tr.RegistryConfig.Abis
        (((s.tr.RegistryConfig.Addresses.map Prod.fst).getLast?).getD "") "") w1 with ⟨r2, w2⟩
      cases r2 with
      | error e =>
        have : Init env s = (Except.error e, ⟨s.tr, w2⟩) := by
          unfold Init
          simp only [Prog.bind_run, Prog.bind, call, getTr, h1, h2, hlen, ne_eq, not_true_eq_false,
            if_false]
        rw [this] at hok
        cases hok
      | ok u2 =>
        rw [Init_run env s w1 w2 hlen h1 h2] at hok ⊢
        rcases h3 : forEach (env.GetEvents w2) (registerRegistryEvent env
          (((s.tr.RegistryConfig.Addresses.map Prod.fst).getLast?).getD ""))
          ⟨initRegistry env (((s.tr.RegistryConfig.Addresses.map Prod.fst).getLast?).getD "") w2
            s.tr, w2⟩ with ⟨r3, s3⟩
        cases r3 with
        | error e =>
          rw [Prog.bind_error h3] at hok
          cases hok
        | ok u3 =>
          rw [Prog.bind_ok h3]
          refine ⟨w2, ?_⟩
          have h4 := registerRegistryEvents_ok env _ _ _ _ h3
          show initResolvers s3.tr = _
          rw [h4]
          simp [initRegistry]
    · have : Init env s = (Except.error
          "transformer configured with incorrect number of registry addresses", ⟨s.tr, w1⟩) := by
        unfold Init
        simp only [Prog.bind_run, Prog.bind, call, getTr, fail, h1, hlen, ne_eq, not_false_eq_true,
          if_true]
      rw [this] at hok
      cases hok

/-- C26: when `RegistryConfig.Addresses` does not hold exactly one address, `Init` returns an
error: the one of `Parser.Parse` if that call fails, and "transformer configured with incorrect
number of registry addresses" otherwise.  The only call made is that `Parse`, so no checkpoint
column is registered, and no field of the transformer is assigned: the Registry contract and
both cursors are what they were. -/
theorem Init_rejects_wrong_address_count {σ : Type} (env : Env σ) (s : State (σ × List Call))
    (hlen : s.tr.RegistryConfig.Addresses.length ≠ 1) :
    (∃ e, (Init env.traced s).1 = Except.error e) ∧
    ((env.Parse EnsContractAddress s.world.1).1 = Except.ok () →
      (Init env.traced s).1
        = Except.error "transformer configured with incorrect number of registry addresses") ∧
    (Init env.traced s).2.world.2 = s.world.2 ++ [Call.Parse EnsContractAddress] ∧
    (Init env.traced s).2.tr = s.tr ∧
    (Init env.traced s).2.tr.Registry = s.tr.Registry ∧
    indexes (Init env.traced s).2.tr = indexes s.tr := by
  rcases h1 : env.Parse EnsContractAddress s.world.1 with ⟨r1, w1⟩
  cases r1 with
  | error e =>
    have : Init env.traced s
        = (Except.error e, ⟨s.tr, (w1, s.world.2 ++ [Call.Parse EnsContractAddress])⟩) := by
      unfold Init
      simp [Prog.bind_run, Prog.bind, call, Env.traced, h1]
    rw [this]
    exact ⟨⟨e, rfl⟩, fun h => (by cases h), rfl, rfl, rfl, rfl⟩
  | ok u =>
    have : Init env.traced s
        = (Except.error "transformer configured with incorrect number of registry addresses",
            ⟨s.tr, (w1, s.world.2 ++ [Call.Parse EnsContractAddress])⟩) := by
      unfold Init
      simp only [Prog.bind_run, Prog.bind, call, getTr, fail, Env.traced, h1, hlen, ne_eq,
        not_false_eq_true, if_true]
    rw [this]
    exact ⟨⟨_, rfl⟩, fun _ => rfl, rfl, rfl, rfl, rfl⟩

/-- C26 on a configuration with two addresses: `Init` fails with the configuration error after
its `Parse` call and leaves the transformer as it was. -/
theorem Init_rejects_wrong_address_count_witness :
    twoAddresses.RegistryConfig.Addresses.length ≠ 1 ∧
    (Init (simEnv (demoChain earlyLogs noFault)).traced ⟨twoAddresses, ({}, [])⟩).1
      = Except.error "transformer configured with incorrect number of registry addresses" ∧
    (Init (simEnv (demoChain earlyLogs noFault)).traced ⟨twoAddresses, ({}, [])⟩).2.world.2
      = [Call.Parse EnsContractAddress] ∧
    (Init (simEnv (demoChain earlyLogs noFault)).traced ⟨twoAddresses, ({}, [])⟩).2.tr
      = twoAddresses :=
  have h := Init_rejects_wrong_address_count (simEnv (demoChain earlyLogs noFault))
    ⟨twoAddresses, ({}, [])⟩ (by decide)
  ⟨by decide, h.2.1 (by decide!), h.2.2.1, h.2.2.2.1⟩

/-- C27, counterexample: `Init` on the configured transformer of the scenarios (starting block
100, a new transformer with both cursors 0) succeeds and leaves `resolverIndex` at 0, not at the
registry's starting block 100; `Init` has no assignment to `resolverIndex`. -/
theorem Init_leaves_resolverIndex :
    (Init (simEnv (demoChain earlyLogs noFault))
      ⟨demoConfigured, { headers := [⟨1, 100⟩, ⟨2, 110⟩] }⟩).1 = Except.ok () ∧
    (Init (simEnv (demoChain earlyLogs noFault))
      ⟨demoConfigured, { headers := [⟨1, 100⟩, ⟨2, 110⟩] }⟩).2.tr.Registry.StartingBlock = 100 ∧
    (Init (simEnv (demoChain earlyLogs noFault))
      ⟨demoConfigured, { headers := [⟨1, 100⟩, ⟨2, 110⟩] }⟩).2.tr.registryIndex = 100 ∧
    (Init (simEnv (demoChain earlyLogs noFault))
      ⟨demoConfigured, { headers := [⟨1, 100⟩, ⟨2, 110⟩] }⟩).2.tr.resolverIndex = 0 := by
  decide!

/-- C27, amended: after a successful `Init` the registry cursor equals the registry's starting
block, `resolverIndex` is what it was before `Init` (0 for a new transformer), and
`invalidResolvers` holds the zero address and nothing else. -/
theorem Init_success_cursors {σ : Type} (env : Env σ) (s : State σ)
    (hok : (Init env s).1 = Except.ok ()) :
    (Init env s).2.tr.registryIndex = (Init env s).2.tr.Registry.StartingBlock ∧
    (Init env s).2.tr.resolverIndex = s.tr.resolverIndex ∧
    (Init env s).2.tr.invalidResolvers = [("0x0000000000000000000000000000000000000000", true)] ∧
    mapHas (Init env s).2.tr.invalidResolvers "0x0000000000000000000000000000000000000000"
      = true := by
  obtain ⟨_, w2, h⟩ := Init_ok_tr env s hok
  rw [h]
  exact ⟨rfl, rfl, rfl, rfl⟩

/-- C27, amended, on the configured transformer of the scenarios. -/
theorem Init_success_cursors_witness :
    (Init (simEnv (demoChain earlyLogs noFault))
      ⟨demoConfigured, { headers := [⟨1, 100⟩, ⟨2, 110⟩] }⟩).1 = Except.ok () ∧
    (Init (simEnv (demoChain earlyLogs noFault))
      ⟨demoConfigured, { headers := [⟨1, 100⟩, ⟨2, 110⟩] }⟩).2.tr.registryIndex
      = (Init (simEnv (demoChain earlyLogs noFault))
        ⟨demoConfigured, { headers := [⟨1, 100⟩, ⟨2, 110⟩] }⟩).2.tr.Registry.StartingBlock ∧
    (Init (simEnv (demoChain earlyLogs noFault))
      ⟨demoConfigured, { headers := [⟨1, 100⟩, ⟨2, 110⟩] }⟩).2.tr.resolverIndex
      = demoConfigured.resolverIndex :=
  have h := Init_success_cursors (simEnv (demoChain earlyLogs noFault))
    ⟨demoConfigured, { headers := [⟨1, 100⟩, ⟨2, 110⟩] }⟩ (by decide!)
  ⟨by decide!, h.1, h.2.1⟩

/-! ## The configuration of one resolver -/

theorem mapGet_mapSet_self {V : Type} (m : List (String × V)) (k : String) (v d : V) :
    mapGet (mapSet m k v) k d = v := by
  induction m with
  | nil => simp [mapSet, mapGet]
  | cons x rest ih =>
    obtain ⟨k1, v1⟩ := x
    by_cases h1 : k1 = k
    · simp [mapSet, mapGet, h1]
    · simp [mapSet, mapGet, h1, ih]

theorem registerResolverEvent_ok {σ : Type} (env : Env σ) (addr : String) (e : Event)
    (s : State σ) (w : σ)
    (h : env.AddCheckColumn (eventIdOf env.ToLower addr e) s.world = (Except.ok (), w)) :
    registerResolverEvent env addr e s
      = (Except.ok (), ⟨{ s.tr with
          resolverEventIds := mapSet s.tr.resolverEventIds addr
            (mapGet s.tr.resolverEventIds addr [] ++ [eventIdOf env.ToLower addr e])
          resolverEventFilters := mapSet s.tr.resolverEventFilters addr
            (mapGet s.tr.resolverEventFilters addr [] ++ [e.Sig]) }, w⟩) := by
  unfold eventIdOf at h
  simp [registerResolverEvent, Prog.bind_run, Prog.bind, call, modifyTr, h, eventIdOf]

theorem registerResolverEvent_error {σ : Type} (env : Env σ) (addr : String) (e : Event)
    (s : State σ) (w : σ) (err : Error)
    (h : env.AddCheckColumn (eventIdOf env.ToLower addr e) s.world = (Except.error err, w)) :
    registerResolverEvent env addr e s = (Except.error err, ⟨s.tr, w⟩) := by
  unfold eventIdOf at h
  simp [registerResolverEvent, Prog.bind_run, Prog.bind, call, h]

theorem registered_refl (lower : String → String) (addr : String) (t : Transformer) :
    registered lower addr [] t t :=
  ⟨rfl, by simp, by simp, fun _ _ => ⟨rfl, rfl⟩⟩

theorem registered_step (lower : String → String) (addr : String) (e : Event)
    (es : List Event) (t t1 : Transformer)
    (h : registered lower addr es
      { t with
        resolverEventIds := mapSet t.resolverEventIds addr
          (mapGet t.resolverEventIds addr [] ++ [eventIdOf lower addr e])
        resolverEventFilters := mapSet t.resolverEventFilters addr
          (mapGet t.resolverEventFilters addr [] ++ [e.Sig]) } t1) :
    registered lower addr (e :: es) t t1 := by
  obtain ⟨h1, h2, h3, h4⟩ := h
  refine ⟨h1, ?_, ?_, ?_⟩
  · rw [h2]
    simp [mapGet_mapSet_self]
  · rw [h3]
    simp [mapGet_mapSet_self]
  · intro a ha
    obtain ⟨h5, h6⟩ := h4 a ha
    rw [h5, h6]
    exact ⟨mapGet_mapSet_of_ne _ _ _ _ _ (Ne.symm ha), mapGet_mapSet_of_ne _ _ _ _ _ (Ne.symm ha)⟩

/-- The inner loop of `configResolvers`, whatever its outcome: the ids and topics of a prefix
of the events have been appended for the resolver, of all of them if the loop succeeded. -/
theorem registerResolverEvents_run {σ : Type} (env : Env σ) (addr : String) (es : List Event)
    (s : State σ) :
    ∃ k, k ≤ es.length ∧
      registered env.ToLower addr (es.take k) s.tr (forEach es (registerResolverEvent env addr) s).2.tr ∧
      ((forEach es (registerResolverEvent env addr) s).1 = Except.ok () → k = es.length) ∧
      ((forEach es (registerResolverEvent env addr) s).1 ≠ Except.ok () → k < es.length) := by
  induction es generalizing s with
  | nil => exact ⟨0, le_refl _, registered_refl env.ToLower addr s.tr, fun _ => rfl, fun h => absurd rfl h⟩
  | cons e rest ih =>
    rw [forEach_cons]
    rcases h1 : env.AddCheckColumn (eventIdOf env.ToLower addr e) s.world with ⟨r, w⟩
    cases r with
    | error err =>
      rw [Prog.bind_error (registerResolverEvent_error env addr e s w err h1)]
      exact ⟨0, Nat.zero_le _, registered_refl env.ToLower addr s.tr, fun h => (by cases h),
        fun _ => Nat.succ_pos _⟩
    | ok u =>
      rw [Prog.bind_ok (registerResolverEvent_ok env addr e s w h1)]
      obtain ⟨k, hk, hreg, hok, herr⟩ := ih ⟨_, w⟩
      exact ⟨k + 1, Nat.succ_le_succ hk, registered_step env.ToLower addr e _ _ _ hreg,
        fun h => (by rw [hok h]; rfl), fun h => Nat.succ_lt_succ (herr h)⟩

/-- The same loop for the registry in `Init`, whatever its outcome. -/
theorem registerRegistryEvents_run {σ : Type} (env : Env σ) (address : String)
    (es : List Event) (s : State σ) :
    ∃ k, k ≤ es.length ∧
      (forEach es (registerRegistryEvent env address) s).2.tr = { s.tr with
        registryEventIds := s.tr.registryEventIds ++ (es.take k).map (eventIdOf env.ToLower address)
        registryEventFilters := s.tr.registryEventFilters ++ (es.take k).map Event.Sig } ∧
      ((forEach es (registerRegistryEvent env address) s).1 = Except.ok () → k = es.length) := by
  induction es generalizing s with
  | nil => exact ⟨0, le_refl _, by simp [forEach_nil, Prog.pure_run], fun _ => rfl⟩
  | cons e rest ih =>
    rw [forEach_cons]
    rcases h1 : env.AddCheckColumn (eventIdOf env.ToLower address e) s.world with ⟨r, w⟩
    cases r with
    | error err =>
      rw [Prog.bind_error (registerRegistryEvent_error env address e s w err h1)]
      exact ⟨0, Nat.zero_le _, by simp, fun h => by cases h⟩
    | ok u =>
      rw [Prog.bind_ok (registerRegistryEvent_ok env address e s w h1)]
      obtain ⟨k, hk, hreg, hok⟩ := ih ⟨_, w⟩
      refine ⟨k + 1, Nat.succ_le_succ hk, ?_, fun h => by rw [hok h]; rfl⟩
      rw [hreg]
      simp

/-- The probe of an address for which the interface getter finds no ABI: the address is added
to `invalidResolvers`, nothing else changes. -/
theorem probeResolver_invalid {σ : Type} (env : Env σ) (b : Int) (addr : String) (s : State σ)
    (h : (env.GetABI addr (-1) s.world).1 = "") :
    probeResolver env b addr s
      = (Except.ok (), ⟨{ s.tr with invalidResolvers := mapSet s.tr.invalidResolvers addr true },
          (env.GetABI addr (-1) s.world).2⟩) := by
  unfold probeResolver
  simp [Prog.bind_run, Prog.bind, callPure, modifyTr, h]

/-- The probe of an address with an ABI that the parser rejects: the error is returned and no
field of the transformer is assigned. -/
theorem probeResolver_parse_error {σ : Type} (env : Env σ) (b : Int) (addr : String)
    (s : State σ) (w2 : σ) (err : Error)
    (h : (env.GetABI addr (-1) s.world).1 ≠ "")
    (h2 : env.ParseAbiStr (env.GetABI addr (-1) s.world).1 (env.GetABI addr (-1) s.world).2
      = (Except.error err, w2)) :
    probeResolver env b addr s = (Except.error err, ⟨s.tr, w2⟩) := by
  unfold probeResolver
  simp [Prog.bind_run, Prog.bind, callPure, call, h, h2]

/-- The probe of an address with an ABI that the parser accepts: the contract is stored in
`Resolvers`, then the loop over its events runs. -/
theorem probeResolver_parsed {σ : Type} (env : Env σ) (b : Int) (addr : String)
    (s : State σ) (w2 : σ)
    (h : (env.GetABI addr (-1) s.world).1 ≠ "")
    (h2 : env.ParseAbiStr (env.GetABI addr (-1) s.world).1 (env.GetABI addr (-1) s.world).2
      = (Except.ok (), w2)) :
    probeResolver env b addr s
      = forEach (env.GetEvents w2) (registerResolverEvent env addr)
          ⟨{ s.tr with
            Resolvers := mapSet s.tr.Resolvers addr (resolverContract env b addr w2 s.tr) }, w2⟩ := by
  unfold probeResolver
  simp only [Prog.bind_run, Prog.bind, callPure, call, h, h2, if_false, getWorld, modifyTr, getTr,
    mapGet_mapSet_self]
  rfl

theorem configResolver_known {σ : Type} (env : Env σ) (b : Int) (addr : String) (s : State σ)
    (h : mapHas s.tr.Resolvers addr = true ∨ mapHas s.tr.invalidResolvers addr = true) :
    configResolver env b addr s = (Except.ok (), s) := by
  unfold configResolver
  simp only [Prog.bind_run, Prog.bind, getTr]
  by_cases h1 : mapHas s.tr.Resolvers addr = true
  · rw [if_pos h1]; rfl
  · rw [if_neg h1]
    rcases h with h | h
    · exact absurd h h1
    · rw [if_pos h]; rfl

theorem configResolver_new {σ : Type} (env : Env σ) (b : Int) (addr : String) (s : State σ)
    (h1 : mapHas s.tr.Resolvers addr = false) (h2 : mapHas s.tr.invalidResolvers addr = false) :
    configResolver env b addr s = probeResolver env b addr s := by
  unfold configResolver
  simp [Prog.bind_run, Prog.bind, getTr, h1, h2]

/-! ## Invariants of a pass -/

theorem repoCallsOk_of_other {Q : Call → Prop} (hQ : ∀ c, isGetABI c = false → Q c) (b : Int) :
    RepoCallsOk Q b :=
  ⟨fun _ => hQ _ rfl, fun _ => hQ _ rfl, fun _ _ => hQ _ rfl⟩

theorem watchResolverHeader_invariant {σ : Type} (env : Env σ) (I : Transformer → Prop)
    {Q : Call → Prop} (hQ : ∀ c, isGetABI c = false → Q c) (addr : String) (c : Contract)
    (h : Header) : Emits I Q (watchResolverHeader env.traced addr c h) :=
  Emits.bind (Emits.getTr _ _) (fun _ =>
    Emits.bind (Emits.call _ _ _ (fun _ => rfl) (hQ _ rfl)) (fun _ =>
      Emits.ite (Emits.call _ _ _ (fun _ => rfl) (hQ _ rfl))
        (Emits.bind (Emits.call _ _ _ (fun _ => rfl) (hQ _ rfl)) (fun _ =>
          Emits.bind (processResolverLogs_emits _ env _ (repoCallsOk_of_other hQ _)) (fun _ =>
            Emits.bind (Emits.getTr _ _) (fun _ =>
              Emits.call _ _ _ (fun _ => rfl) (hQ _ rfl)))))))

theorem watchResolvers_invariant {σ : Type} (env : Env σ) (I : Transformer → Prop)
    {Q : Call → Prop} (hQ : ∀ c, isGetABI c = false → Q c) :
    Emits I Q (watchResolvers env.traced) :=
  Emits.bind (Emits.getTr _ _) (fun _ =>
    Emits.forEach (fun _ =>
      Emits.bind (Emits.call _ _ (Call.Update _) (fun _ => rfl) (hQ _ rfl)) (fun _ =>
        Emits.bind (Emits.getTr _ _) (fun _ =>
          Emits.bind (Emits.call _ _ (Call.MissingHeadersForAll _ _ _) (fun _ => rfl)
            (hQ _ rfl)) (fun _ =>
            Emits.forEach (watchResolverHeader_invariant env I hQ _ _) _)))) _)

theorem executeHeader_invariant {σ : Type} (env : Env σ) {I : Transformer → Prop}
    {Q : Call → Prop} (hQ : ∀ c, isGetABI c = false → Q c)
    (hI : ∀ t addrs, I t → I { t with ResolverAddresses := addrs })
    (hcfg : ∀ b, Emits I Q (configResolvers env.traced b)) (h : Header) :
    Emits I Q (executeHeader env.traced h) :=
  Emits.bind (Emits.getTr _ _) (fun _ =>
    Emits.bind (Emits.call _ _ _ (fun _ => rfl) (hQ _ rfl)) (fun _ =>
      Emits.ite (Emits.call _ _ _ (fun _ => rfl) (hQ _ rfl))
        (Emits.bind (Emits.call _ _ _ (fun _ => rfl) (hQ _ rfl)) (fun _ =>
          Emits.bind
            (processRegistryLogs_emits hI env _ (repoCallsOk_of_other hQ _)) (fun _ =>
            Emits.bind (Emits.getTr _ _) (fun _ =>
              Emits.bind (Emits.call _ _ _ (fun _ => rfl) (hQ _ rfl)) (fun _ =>
                hcfg _)))))))

/-- A pass keeps every invariant of the transformer that `configResolvers` keeps and that does
not depend on `ResolverAddresses` and the cursors; the calls outside `configResolvers` are not
`GetABI` calls. -/
theorem Execute_invariant {σ : Type} (env : Env σ) {I : Transformer → Prop}
    {Q : Call → Prop} (hQ : ∀ c, isGetABI c = false → Q c)
    (hI : ∀ t addrs, I t → I { t with ResolverAddresses := addrs })
    (hidx : ∀ t a b, I t → I { t with registryIndex := a, resolverIndex := b })
    (hcfg : ∀ b, Emits I Q (configResolvers env.traced b)) :
    Emits I Q (Execute env.traced) :=
  Emits.bind (Emits.getTr _ _) (fun _ =>
    Emits.bind (Emits.call _ _ _ (fun _ => rfl) (hQ _ rfl)) (fun _ =>
      Emits.bind (Emits.call _ _ _ (fun _ => rfl) (hQ _ rfl)) (fun hs =>
        Emits.bind (Emits.forEach (executeHeader_invariant env hQ hI hcfg) _) (fun _ =>
          Emits.bind
            (by
              unfold advanceIndexes
              cases hs.getLast? with
              | none => exact Emits.pure _ _ _
              | some last =>
                exact Emits.bind
                  (Emits.modifyTr _ (fun t h => hidx t t.registryIndex t.registryIndex h))
                  (fun _ => Emits.modifyTr _ (fun t h =>
                    hidx t (int64 (last.BlockNumber + 1)) t.resolverIndex h))) (fun _ =>
            watchResolvers_invariant env I hQ)))))

theorem passes_invariant {σ : Type} (env : Env σ) {I : Transformer → Prop}
    (hE : Emits I anyCall (Execute env.traced)) (n : Nat) (s : State σ) (h : I s.tr) :
    I (passes env n s).tr := by
  have key : ∀ n, I (passes env.traced n ⟨s.tr, (s.world, [])⟩).tr := by
    intro n
    induction n with
    | zero => exact h
    | succ n ih => exact (hE _ ih).1
  have h2 := key n
  rw [(passes_traced env n s []).1] at h2
  exact h2

theorem registerResolverEvent_atLatest {σ : Type} (env : Env σ) (addr : String) (e : Event) :
    Emits (fun _ => True) atLatest (registerResolverEvent env.traced addr e) :=
  Emits.bind (Emits.call _ _ (Call.AddCheckColumn _) (fun _ => rfl) trivial) (fun _ =>
    Emits.bind (Emits.modifyTr _ (fun _ h => h)) (fun _ => Emits.modifyTr _ (fun _ h => h)))

theorem probeResolver_atLatest {σ : Type} (env : Env σ) (b : Int) (addr : String) :
    Emits (fun _ => True) atLatest (probeResolver env.traced b addr) :=
  Emits.bind (Emits.callPure _ _ (Call.GetABI addr (-1)) (fun _ => rfl) rfl) (fun _ =>
    Emits.ite (Emits.modifyTr _ (fun _ h => h))
      (Emits.bind (Emits.call _ _ (Call.ParseAbiStr _) (fun _ => rfl) trivial) (fun _ =>
        Emits.bind (Emits.getWorld _ _) (fun _ =>
          Emits.bind (Emits.modifyTr _ (fun _ h => h)) (fun _ =>
            Emits.bind (Emits.getTr _ _) (fun _ =>
              Emits.forEach (registerResolverEvent_atLatest env addr) _))))))

/-- Every `GetABI` call of `configResolvers` asks for the latest block. -/
theorem configResolvers_atLatest {σ : Type} (env : Env σ) (b : Int) :
    Emits (fun _ => True) atLatest (configResolvers env.traced b) :=
  Emits.bind (Emits.getTr _ _) (fun _ =>
    Emits.forEach (fun addr =>
      Emits.bind (Emits.getTr _ _) (fun _ =>
        Emits.ite (Emits.pure _ _ _)
          (Emits.ite (Emits.pure _ _ _) (probeResolver_atLatest env b addr)))) _)

theorem atLatest_other (c : Call) (h : isGetABI c = false) : atLatest c := by
  cases c <;> trivial

/-! ## The block argument of the ABI probe -/

theorem probeResolver_first_call {σ : Type} (env : Env σ) (b : Int) (addr : String)
    (s : State (σ × List Call)) :
    ∃ l, (probeResolver env.traced b addr s).2.world.2
      = s.world.2 ++ Call.GetABI addr (-1) :: l := by
  by_cases h : (env.traced.GetABI addr (-1) s.world).1 = ""
  · rw [probeResolver_invalid env.traced b addr s h]
    exact ⟨[], rfl⟩
  · rcases h2 : env.traced.ParseAbiStr (env.traced.GetABI addr (-1) s.world).1
      (env.traced.GetABI addr (-1) s.world).2 with ⟨r, w2⟩
    have hw2 : w2.2 = s.world.2 ++ [Call.GetABI addr (-1),
        Call.ParseAbiStr (env.traced.GetABI addr (-1) s.world).1] := by
      have : w2 = (env.traced.ParseAbiStr (env.traced.GetABI addr (-1) s.world).1
        (env.traced.GetABI addr (-1) s.world).2).2 := by rw [h2]
      rw [this]
      simp [Env.traced]
    cases r with
    | error err =>
      rw [probeResolver_parse_error env.traced b addr s w2 err h h2]
      exact ⟨[Call.ParseAbiStr (env.traced.GetABI addr (-1) s.world).1], hw2.trans (by simp)⟩
    | ok u =>
      rw [probeResolver_parsed env.traced b addr s w2 h h2]
      obtain ⟨_, l, hl, _⟩ := Emits.forEach (registerResolverEvent_atLatest env addr)
        (env.traced.GetEvents w2)
        ⟨{ s.tr with
            Resolvers := mapSet s.tr.Resolvers addr (resolverContract env.traced b addr w2 s.tr) },
          w2⟩ trivial
      refine ⟨Call.ParseAbiStr (env.traced.GetABI addr (-1) s.world).1 :: l, ?_⟩
      rw [hl]
      show w2.2 ++ l = _
      rw [hw2]
      simp

/-- C22, counterexample: in scenario "early" the resolver `R` is announced in header 1, at block
100.  The pass probes `R` with `GetABI("R", -1)`; it makes no `GetABI` call with the block number
100 of the header. -/
theorem GetABI_not_at_header_block :
    (Execute (simEnv (demoChain earlyLogs noFault)).traced demoStartTraced).1 = Except.ok () ∧
    rawRes ∈ earlyLogs "reg" 1 ∧
    demoDecode rawRes = some ("NewResolver", ⟨[("node", "pl"), ("resolver", "R")]⟩) ∧
    Call.GetABI "R" (-1)
      ∈ (Execute (simEnv (demoChain earlyLogs noFault)).traced demoStartTraced).2.world.2 ∧
    Call.GetABI "R" 100
      ∉ (Execute (simEnv (demoChain earlyLogs noFault)).traced demoStartTraced).2.world.2 := by
  decide!

/-- C22, amended: every `GetABI` call of an `Execute` pass, failed or not, has the block
argument -1 (the latest block), whatever the block number of the header under discovery; and
for an address that is in neither `Resolvers` nor `invalidResolvers` the first call of the loop
body of `configResolvers` is `GetABI(address, -1)`. -/
theorem GetABI_asks_latest_block {σ : Type} (env : Env σ) (s : State (σ × List Call))
    (blockNumber : Int) (addr : String)
    (h1 : mapHas s.tr.Resolvers addr = false) (h2 : mapHas s.tr.invalidResolvers addr = false) :
    (∃ l, (Execute env.traced s).2.world.2 = s.world.2 ++ l ∧
      ∀ a b, Call.GetABI a b ∈ l → b = -1) ∧
    ∃ l, (configResolver env.traced blockNumber addr s).2.world.2
      = s.world.2 ++ Call.GetABI addr (-1) :: l := by
  constructor
  · obtain ⟨_, l, hl, hQ⟩ := Execute_invariant env atLatest_other (fun _ _ h => h)
      (fun _ _ _ h => h) (configResolvers_atLatest env) s trivial
    exact ⟨l, hl, fun a b hm => hQ _ hm⟩
  · rw [configResolver_new env.traced blockNumber addr s h1 h2]
    exact probeResolver_first_call env blockNumber addr s

/-- C22, amended, in scenario "early": `R` is new when `configResolvers` runs for the header at
block 100, and the probe starts with `GetABI("R", -1)`. -/
theorem GetABI_asks_latest_block_witness :
    mapHas announcedStart.tr.Resolvers "R" = false ∧
    mapHas announcedStart.tr.invalidResolvers "R" = false ∧
    (∃ l, (Execute (simEnv (demoChain earlyLogs noFault)).traced announcedStart).2.world.2
        = announcedStart.world.2 ++ l ∧ ∀ a b, Call.GetABI a b ∈ l → b = -1) ∧
    ∃ l, (configResolver (simEnv (demoChain earlyLogs noFault)).traced 100 "R"
        announcedStart).2.world.2 = announcedStart.world.2 ++ Call.GetABI "R" (-1) :: l :=
  have h := GetABI_asks_latest_block (simEnv (demoChain earlyLogs noFault)) announcedStart 100 "R"
    (by decide) (by decide)
  ⟨by decide, by decide, h.1, h.2⟩

/-! ## Every announced address ends in one of the two maps -/

theorem tidy_invalid (t : Transformer) (addr : String) (h : tidy t)
    (h1 : mapHas t.Resolvers addr = false) :
    tidy { t with invalidResolvers := mapSet t.invalidResolvers addr true } := by
  intro a
  obtain ⟨k1, k2, k3⟩ := h a
  refine ⟨fun hr => ?_, k2, k3⟩
  show mapHas (mapSet t.invalidResolvers addr true) a = false
  have hne : addr ≠ a := by
    intro e
    rw [e] at h1
    rw [h1] at hr
    cases hr
  rw [mapHas_mapSet_of_ne _ _ _ _ hne]
  exact k1 hr

theorem registered_fields {lower : String → String} (addr : String) (es : List Event)
    (t t1 : Transformer) (h : registered lower addr es t t1) :
    t1.Resolvers = t.Resolvers ∧ t1.invalidResolvers = t.invalidResolvers ∧
    t1.ResolverAddresses = t.ResolverAddresses ∧ t1.registryEventIds = t.registryEventIds ∧
    indexes t1 = indexes t ∧ t1.Registry = t.Registry := by
  have e := h.1
  have e1 := congrArg Transformer.Resolvers e
  have e2 := congrArg Transformer.invalidResolvers e
  have e3 := congrArg Transformer.ResolverAddresses e
  have e4 := congrArg Transformer.registryEventIds e
  have e5 := congrArg indexes e
  have e6 := congrArg Transformer.Registry e
  exact ⟨e1, e2, e3, e4, e5, e6⟩

theorem tidy_registered {lower : String → String} (t t1 : Transformer) (addr : String)
    (c : Contract) (es : List Event)
    (h : tidy t) (h2 : mapHas t.invalidResolvers addr = false)
    (hr : registered lower addr es { t with Resolvers := mapSet t.Resolvers addr c } t1) :
    tidy t1 := by
  obtain ⟨f1, f2, _, _, _, _⟩ := registered_fields _ _ _ _ hr
  obtain ⟨_, r2, r3, r4⟩ := hr
  intro a
  obtain ⟨k1, k2, k3⟩ := h a
  rw [f1, f2]
  by_cases ha : a = addr
  · subst ha
    refine ⟨fun _ => h2, fun hn => ?_, ?_⟩
    · rw [mapHas_mapSet] at hn
      simp at hn
    · rw [r2, r3]
      simp only [List.length_append, List.length_map]
      exact congrArg (· + es.length) k3
  · obtain ⟨r5, r6⟩ := r4 a ha
    rw [r5, r6]
    show (mapHas (mapSet t.Resolvers addr c) a = true → _) ∧ (mapHas (mapSet t.Resolvers addr c) a = false → _) ∧ _
    rw [mapHas_mapSet_of_ne _ _ _ _ (Ne.symm ha)]
    exact ⟨k1, k2, k3⟩

/-- The loop body of `configResolvers` keeps the resolver maps tidy, whether it fails or not. -/
theorem configResolver_tidy {σ : Type} (env : Env σ) (b : Int) (addr : String) (s : State σ)
    (h : tidy s.tr) : tidy (configResolver env b addr s).2.tr := by
  by_cases hk : mapHas s.tr.Resolvers addr = true ∨ mapHas s.tr.invalidResolvers addr = true
  · rw [configResolver_known env b addr s hk]
    exact h
  · have h1 : mapHas s.tr.Resolvers addr = false := by
      cases hx : mapHas s.tr.Resolvers addr
      · rfl
      · exact absurd (Or.inl hx) hk
    have h2 : mapHas s.tr.invalidResolvers addr = false := by
      cases hx : mapHas s.tr.invalidResolvers addr
      · rfl
      · exact absurd (Or.inr hx) hk
    rw [configResolver_new env b addr s h1 h2]
    by_cases ha : (env.GetABI addr (-1) s.world).1 = ""
    · rw [probeResolver_invalid env b addr s ha]
      exact tidy_invalid _ _ h h1
    · rcases hp : env.ParseAbiStr (env.GetABI addr (-1) s.world).1
        (env.GetABI addr (-1) s.world).2 with ⟨r, w2⟩
      cases r with
      | error err =>
        rw [probeResolver_parse_error env b addr s w2 err ha hp]
        exact h
      | ok u =>
        rw [probeResolver_parsed env b addr s w2 ha hp]
        obtain ⟨k, _, hreg, _, _⟩ := registerResolverEvents_run env addr (env.GetEvents w2)
          ⟨{ s.tr with
              Resolvers := mapSet s.tr.Resolvers addr (resolverContract env b addr w2 s.tr) },
            w2⟩
        exact tidy_registered _ _ addr _ _ h h2 hreg

/-- The loop body of `configResolvers` removes no address from `Resolvers` or from
`invalidResolvers`, whether it fails or not. -/
theorem configResolver_grows {σ : Type} (env : Env σ) (b : Int) (addr : String) (s : State σ)
    (a : String) :
    (mapHas s.tr.Resolvers a = true → mapHas (configResolver env b addr s).2.tr.Resolvers a = true) ∧
    (mapHas s.tr.invalidResolvers a = true →
      mapHas (configResolver env b addr s).2.tr.invalidResolvers a = true) := by
  by_cases hk : mapHas s.tr.Resolvers addr = true ∨ mapHas s.tr.invalidResolvers addr = true
  · rw [configResolver_known env b addr s hk]
    exact ⟨id, id⟩
  · have h1 : mapHas s.tr.Resolvers addr = false := by
      cases hx : mapHas s.tr.Resolvers addr
      · rfl
      · exact absurd (Or.inl hx) hk
    have h2 : mapHas s.tr.invalidResolvers addr = false := by
      cases hx : mapHas s.tr.invalidResolvers addr
      · rfl
      · exact absurd (Or.inr hx) hk
    rw [configResolver_new env b addr s h1 h2]
    by_cases ha : (env.GetABI addr (-1) s.world).1 = ""
    · rw [probeResolver_invalid env b addr s ha]
      refine ⟨id, fun hi => ?_⟩
      show mapHas (mapSet s.tr.invalidResolvers addr true) a = true
      rw [mapHas_mapSet, hi]
      simp
    · rcases hp : env.ParseAbiStr (env.GetABI addr (-1) s.world).1
        (env.GetABI addr (-1) s.world).2 with ⟨r, w2⟩
      cases r with
      | error err =>
        rw [probeResolver_parse_error env b addr s w2 err ha hp]
        exact ⟨id, id⟩
      | ok u =>
        rw [probeResolver_parsed env b addr s w2 ha hp]
        obtain ⟨k, _, hreg, _, _⟩ := registerResolverEvents_run env addr (env.GetEvents w2)
          ⟨{ s.tr with
              Resolvers := mapSet s.tr.Resolvers addr (resolverContract env b addr w2 s.tr) },
            w2⟩
        obtain ⟨f1, f2, _⟩ := registered_fields _ _ _ _ hreg
        rw [f1, f2]
        refine ⟨fun hr => ?_, id⟩
        show mapHas (mapSet s.tr.Resolvers addr _) a = true
        rw [mapHas_mapSet, hr]
        simp

/-- The loop of `configResolvers` when it ends without error: the resolver maps are still tidy
and every address of the loop is in `Resolvers` or in `invalidResolvers`. -/
theorem configResolvers_settles {σ : Type} (env : Env σ) (b : Int) (addrs : List String)
    (s s1 : State σ) (h : tidy s.tr)
    (hok : forEach addrs (configResolver env b) s = (Except.ok (), s1)) :
    tidy s1.tr ∧ (∀ a, settled a s.tr → settled a s1.tr) ∧ ∀ a ∈ addrs, settled a s1.tr := by
  induction addrs generalizing s with
  | nil =>
    rw [forEach_nil, Prog.pure_run] at hok
    cases hok
    exact ⟨h, fun _ => id, fun _ ha => (by cases ha)⟩
  | cons addr rest ih =>
    rw [forEach_cons] at hok
    rcases h1 : configResolver env b addr s with ⟨r, s2⟩
    cases r with
    | error err =>
      rw [Prog.bind_error h1] at hok
      cases hok
    | ok u =>
      rw [Prog.bind_ok h1] at hok
      have ht : tidy s2.tr := by
        have := configResolver_tidy env b addr s h
        rw [h1] at this
        exact this
      have hg : ∀ a, settled a s.tr → settled a s2.tr := by
        intro a ha
        have := configResolver_grows env b addr s a
        rw [h1] at this
        exact ha.imp this.1 this.2
      have hs : settled addr s2.tr := by
        by_cases hk : mapHas s.tr.Resolvers addr = true ∨ mapHas s.tr.invalidResolvers addr = true
        · exact hg addr hk
        · have k1 : mapHas s.tr.Resolvers addr = false := by
            cases hx : mapHas s.tr.Resolvers addr
            · rfl
            · exact absurd (Or.inl hx) hk
          have k2 : mapHas s.tr.invalidResolvers addr = false := by
            cases hx : mapHas s.tr.invalidResolvers addr
            · rfl
            · exact absurd (Or.inr hx) hk
          rw [configResolver_new env b addr s k1 k2] at h1
          by_cases ha : (env.GetABI addr (-1) s.world).1 = ""
          · rw [probeResolver_invalid env b addr s ha] at h1
            cases h1
            refine Or.inr ?_
            show mapHas (mapSet s.tr.invalidResolvers addr true) addr = true
            rw [mapHas_mapSet]
            simp
          · rcases hp : env.ParseAbiStr (env.GetABI addr (-1) s.world).1
              (env.GetABI addr (-1) s.world).2 with ⟨r, w2⟩
            cases r with
            | error err =>
              rw [probeResolver_parse_error env b addr s w2 err ha hp] at h1
              cases h1
            | ok u =>
              rw [probeResolver_parsed env b addr s w2 ha hp] at h1
              obtain ⟨k, _, hreg, _, _⟩ := registerResolverEvents_run env addr (env.GetEvents w2)
                ⟨{ s.tr with
                    Resolvers := mapSet s.tr.Resolvers addr (resolverContract env b addr w2 s.tr) },
                  w2⟩
              rw [h1] at hreg
              obtain ⟨f1, _⟩ := registered_fields _ _ _ _ hreg
              refine Or.inl ?_
              rw [f1]
              show mapHas (mapSet s.tr.Resolvers addr _) addr = true
              rw [mapHas_mapSet]
              simp
      obtain ⟨i1, i2, i3⟩ := ih s2 ht hok
      refine ⟨i1, fun a ha => i2 a (hg a ha), fun a ha => ?_⟩
      rcases List.mem_cons.mp ha with e | e
      · rw [e]
        exact i2 addr hs
      · exact i3 a e

/-- The calls of the inner loop of `configResolvers` when it ends without error: one
`AddCheckColumn` per event, with the event's id. -/
theorem registerResolverEvents_columns {σ : Type} (env : Env σ) (addr : String)
    (es : List Event) (s s1 : State (σ × List Call))
    (hok : forEach es (registerResolverEvent env.traced addr) s = (Except.ok (), s1)) :
    s1.world.2 = s.world.2 ++ es.map (fun e => Call.AddCheckColumn (eventIdOf env.ToLower addr e)) := by
  induction es generalizing s with
  | nil =>
    rw [forEach_nil, Prog.pure_run] at hok
    cases hok
    simp
  | cons e rest ih =>
    rw [forEach_cons] at hok
    rcases h1 : env.traced.AddCheckColumn (eventIdOf env.ToLower addr e) s.world with ⟨r, w⟩
    have hw : w.2 = s.world.2 ++ [Call.AddCheckColumn (eventIdOf env.ToLower addr e)] := by
      have : w = (env.traced.AddCheckColumn (eventIdOf env.ToLower addr e) s.world).2 := by rw [h1]
      rw [this]
      rfl
    cases r with
    | error err =>
      rw [Prog.bind_error (registerResolverEvent_error env.traced addr e s w err h1)] at hok
      cases hok
    | ok u =>
      rw [Prog.bind_ok (registerResolverEvent_ok env.traced addr e s w h1)] at hok
      rw [ih _ hok]
      show w.2 ++ _ = _
      rw [hw]
      simp

theorem Init_tidy {σ : Type} (env : Env σ) (s : State σ)
    (hok : (Init env s).1 = Except.ok ()) : tidy (Init env s).2.tr := by
  obtain ⟨_, w2, h⟩ := Init_ok_tr env s hok
  rw [h]
  intro a
  exact ⟨fun h => (by cases h), fun _ => ⟨rfl, rfl⟩, rfl⟩

theorem configResolvers_tidy {σ : Type} (env : Env σ) (b : Int) :
    Emits tidy anyCall (configResolvers env.traced b) := by
  intro s hI
  refine ⟨?_, (configResolvers_sameIds env s.tr.registryEventIds "" [] false b s
    ⟨rfl, fun h => (by cases h)⟩).2⟩
  have key : ∀ (addrs : List String) (s : State (σ × List Call)), tidy s.tr →
      tidy (forEach addrs (configResolver env.traced b) s).2.tr := by
    intro addrs
    induction addrs with
    | nil => exact fun s h => h
    | cons addr rest ih =>
      intro s h
      rw [forEach_cons]
      have h1 := configResolver_tidy env.traced b addr s h
      rcases hc : configResolver env.traced b addr s with ⟨r, s2⟩
      rw [hc] at h1
      cases r with
      | error err =>
        rw [Prog.bind_error hc]
        exact h1
      | ok u =>
        rw [Prog.bind_ok hc]
        exact ih s2 h1
  exact key _ s hI

/-- A pass keeps the resolver maps tidy, whether it fails or not. -/
theorem Execute_tidy {σ : Type} (env : Env σ) : Emits tidy anyCall (Execute env.traced) :=
  Execute_invariant env (fun _ _ => trivial) (fun _ _ h => h) (fun _ _ _ h => h)
    (configResolvers_tidy env)

/-- C23: let the resolver maps be tidy, as `Init` leaves them and every pass keeps them (no
address in both `Resolvers` and `invalidResolvers`, no event ids for an address outside
`Resolvers`).  For an address that is in neither map, the loop body of `configResolvers` at a
header of block b does the following.  If `GetABI` returns the empty string, the address is
added to `invalidResolvers`, not to `Resolvers`, and nothing else changes.  Otherwise, if the
body ends without error (the parse and every `AddCheckColumn` succeeded), the address is in
`Resolvers` and not in `invalidResolvers`; the contract stored for it has the ABI, the parsed
ABI and the events that the parser holds after `ParseAbiStr` of the string that `GetABI`
returned; and for these events of the ABI there is one `AddCheckColumn` call, one event id and
one topic filter per event, in the order of the events, the calls of the body being `GetABI`,
`ParseAbiStr` and these `AddCheckColumn` calls.  For an address that is already in one of the two maps the body does nothing.  After
a `configResolvers` that returns no error every address of `ResolverAddresses` is in exactly one
of the two maps. -/
theorem configResolvers_sorts_new_addresses {σ : Type} (env : Env σ) (b : Int)
    (s : State (σ × List Call)) (htidy : tidy s.tr) :
    (∀ addr, mapHas s.tr.Resolvers addr = false → mapHas s.tr.invalidResolvers addr = false →
      ((env.GetABI addr (-1) s.world.1).1 = "" →
        (configResolver env.traced b addr s).1 = Except.ok () ∧
        (configResolver env.traced b addr s).2.tr
          = { s.tr with invalidResolvers := mapSet s.tr.invalidResolvers addr true } ∧
        mapHas (configResolver env.traced b addr s).2.tr.invalidResolvers addr = true ∧
        mapHas (configResolver env.traced b addr s).2.tr.Resolvers addr = false) ∧
      ((env.GetABI addr (-1) s.world.1).1 ≠ "" →
        (configResolver env.traced b addr s).1 = Except.ok () →
        mapHas (configResolver env.traced b addr s).2.tr.Resolvers addr = true ∧
        mapHas (configResolver env.traced b addr s).2.tr.invalidResolvers addr = false ∧
        (mapGet (configResolver env.traced b addr s).2.tr.Resolvers addr {}).Address = addr ∧
        (mapGet (configResolver env.traced b addr s).2.tr.Resolvers addr {}).StartingBlock = b ∧
        mapGet (configResolver env.traced b addr s).2.tr.Resolvers addr {}
          = { Name := "ENS-Resolver"
              Network := s.tr.RegistryConfig.Network
              Address := addr
              Abi := env.Abi (parsedAbiWorld env addr s.world.1)
              ParsedAbi := env.ParsedAbi (parsedAbiWorld env addr s.world.1)
              StartingBlock := b
              Events := env.GetEvents (parsedAbiWorld env addr s.world.1) } ∧
        mapGet (configResolver env.traced b addr s).2.tr.resolverEventIds addr []
          = (env.GetEvents (parsedAbiWorld env addr s.world.1)).map
              (fun e => env.ToLower (e.Name ++ "_" ++ addr)) ∧
        mapGet (configResolver env.traced b addr s).2.tr.resolverEventFilters addr []
          = (env.GetEvents (parsedAbiWorld env addr s.world.1)).map Event.Sig ∧
        (configResolver env.traced b addr s).2.world.2
          = s.world.2 ++ [Call.GetABI addr (-1),
              Call.ParseAbiStr (env.GetABI addr (-1) s.world.1).1]
            ++ (env.GetEvents (parsedAbiWorld env addr s.world.1)).map
              (fun e => Call.AddCheckColumn (env.ToLower (e.Name ++ "_" ++ addr))) ∧
        mapGet (configResolver env.traced b addr s).2.tr.resolverEventIds addr []
          = (mapGet (configResolver env.traced b addr s).2.tr.Resolvers addr {}).Events.map
              (fun e => env.ToLower (e.Name ++ "_" ++ addr)) ∧
        mapGet (configResolver env.traced b addr s).2.tr.resolverEventFilters addr []
          = (mapGet (configResolver env.traced b addr s).2.tr.Resolvers addr {}).Events.map
              Event.Sig ∧
        (configResolver env.traced b addr s).2.world.2
          = s.world.2 ++ [Call.GetABI addr (-1),
              Call.ParseAbiStr (env.GetABI addr (-1) s.world.1).1]
            ++ (mapGet (configResolver env.traced b addr s).2.tr.Resolvers addr {}).Events.map
              (fun e => Call.AddCheckColumn (env.ToLower (e.Name ++ "_" ++ addr))))) ∧
    (∀ addr, mapHas s.tr.Resolvers addr = true ∨ mapHas s.tr.invalidResolvers addr = true →
      configResolver env.traced b addr s = (Except.ok (), s)) ∧
    ((configResolvers env.traced b s).1 = Except.ok () →
      ∀ addr ∈ s.tr.ResolverAddresses.map Prod.fst,
        (mapHas (configResolvers env.traced b s).2.tr.Resolvers addr = true ∧
          mapHas (configResolvers env.traced b s).2.tr.invalidResolvers addr = false) ∨
        (mapHas (configResolvers env.traced b s).2.tr.Resolvers addr = false ∧
          mapHas (configResolvers env.traced b s).2.tr.invalidResolvers addr = true)) := by
  refine ⟨fun addr h1 h2 => ⟨fun ha => ?_, fun ha hok => ?_⟩,
    fun addr hk => configResolver_known env.traced b addr s hk, fun hok addr hmem => ?_⟩
  · rw [configResolver_new env.traced b addr s h1 h2,
      probeResolver_invalid env.traced b addr s ha]
    refine ⟨rfl, rfl, ?_, h1⟩
    show mapHas (mapSet s.tr.invalidResolvers addr true) addr = true
    rw [mapHas_mapSet]
    simp
  · rw [configResolver_new env.traced b addr s h1 h2] at hok ⊢
    have ha2 : (env.traced.GetABI addr (-1) s.world).1 ≠ "" := ha
    rcases hp : env.traced.ParseAbiStr (env.traced.GetABI addr (-1) s.world).1
      (env.traced.GetABI addr (-1) s.world).2 with ⟨r, w2⟩
    have hw1 : w2.1 = parsedAbiWorld env addr s.world.1 := by
      have : w2 = (env.traced.ParseAbiStr (env.traced.GetABI addr (-1) s.world).1
        (env.traced.GetABI addr (-1) s.world).2).2 := by rw [hp]
      rw [this]
      rfl
    have hw2 : w2.2 = s.world.2 ++ [Call.GetABI addr (-1),
        Call.ParseAbiStr (env.GetABI addr (-1) s.world.1).1] := by
      have : w2 = (env.traced.ParseAbiStr (env.traced.GetABI addr (-1) s.world).1
        (env.traced.GetABI addr (-1) s.world).2).2 := by rw [hp]
      rw [this]
      simp [Env.traced]
    cases r with
    | error err =>
      rw [probeResolver_parse_error env.traced b addr s w2 err ha2 hp] at hok
      cases hok
    | ok u =>
      rw [probeResolver_parsed env.traced b addr s w2 ha2 hp] at hok ⊢
      rcases hf : forEach (env.traced.GetEvents w2) (registerResolverEvent env.traced addr)
        ⟨{ s.tr with
            Resolvers := mapSet s.tr.Resolvers addr (resolverContract env.traced b addr w2 s.tr) },
          w2⟩ with ⟨r3, s3⟩
      rw [hf] at hok
      cases r3 with
      | error err => cases hok
      | ok u3 =>
        obtain ⟨k, _, hreg, hk, _⟩ := registerResolverEvents_run env.traced addr
          (env.traced.GetEvents w2)
          ⟨{ s.tr with
              Resolvers := mapSet s.tr.Resolvers addr (resolverContract env.traced b addr w2 s.tr) },
            w2⟩
        have hcol := registerResolverEvents_columns env addr _ _ _ hf
        rw [hf] at hreg hk
        rw [hk rfl, List.take_length] at hreg
        obtain ⟨f1, f2, _⟩ := registered_fields _ _ _ _ hreg
        obtain ⟨_, r2, r3, _⟩ := hreg
        have hc : mapGet s3.tr.Resolvers addr {} = resolverContract env.traced b addr w2 s.tr := by
          rw [f1]
          exact mapGet_mapSet_self _ _ _ _
        have hi := (htidy addr).2.1 h1
        have hcW : resolverContract env.traced b addr w2 s.tr
            = { Name := "ENS-Resolver"
                Network := s.tr.RegistryConfig.Network
                Address := addr
                Abi := env.Abi (parsedAbiWorld env addr s.world.1)
                ParsedAbi := env.ParsedAbi (parsedAbiWorld env addr s.world.1)
                StartingBlock := b
                Events := env.GetEvents (parsedAbiWorld env addr s.world.1) } := by
          rw [← hw1]
          rfl
        have hev : env.traced.GetEvents w2
            = env.GetEvents (parsedAbiWorld env addr s.world.1) := by
          rw [← hw1]
          rfl
        refine ⟨?_, ?_, ?_, ?_, ?_, ?_, ?_, ?_, ?_, ?_, ?_⟩
        · show mapHas s3.tr.Resolvers addr = true
          rw [f1]
          show mapHas (mapSet s.tr.Resolvers addr _) addr = true
          rw [mapHas_mapSet]
          simp
        · show mapHas s3.tr.invalidResolvers addr = false
          rw [f2]
          exact h2
        · show (mapGet s3.tr.Resolvers addr {}).Address = addr
          rw [hc]
          rfl
        · show (mapGet s3.tr.Resolvers addr {}).StartingBlock = b
          rw [hc]
          rfl
        · show mapGet s3.tr.Resolvers addr {} = _
          rw [hc]
          exact hcW
        · show mapGet s3.tr.resolverEventIds addr [] = _
          rw [r2, ← hev]
          show mapGet s.tr.resolverEventIds addr [] ++ _ = _
          rw [hi.1]
          rfl
        · show mapGet s3.tr.resolverEventFilters addr [] = _
          rw [r3, ← hev]
          show mapGet s.tr.resolverEventFilters addr [] ++ _ = _
          rw [hi.2]
          rfl
        · show s3.world.2 = _
          rw [hcol, ← hev]
          show w2.2 ++ _ = _
          rw [hw2]
          rfl
        · show mapGet s3.tr.resolverEventIds addr [] = (mapGet s3.tr.Resolvers addr {}).Events.map _
          rw [hc, r2]
          show mapGet s.tr.resolverEventIds addr [] ++ _ = _
          rw [hi.1]
          rfl
        · show mapGet s3.tr.resolverEventFilters addr []
            = (mapGet s3.tr.Resolvers addr {}).Events.map _
          rw [hc, r3]
          show mapGet s.tr.resolverEventFilters addr [] ++ _ = _
          rw [hi.2]
          rfl
        · show s3.world.2 = _ ++ (mapGet s3.tr.Resolvers addr {}).Events.map _
          rw [hc, hcol]
          show w2.2 ++ _ = _
          rw [hw2]
          rfl
  · rcases hf : forEach (s.tr.ResolverAddresses.map Prod.fst) (configResolver env.traced b) s
      with ⟨r, s1⟩
    have hrun : configResolvers env.traced b s
        = forEach (s.tr.ResolverAddresses.map Prod.fst) (configResolver env.traced b) s := rfl
    rw [hrun] at hok ⊢
    rw [hf] at hok ⊢
    cases r with
    | error err => cases hok
    | ok u =>
      obtain ⟨t1, _, t3⟩ := configResolvers_settles env.traced b _ s s1 htidy hf
      rcases t3 addr hmem with h | h
      · exact Or.inl ⟨h, (t1 addr).1 h⟩
      · refine Or.inr ⟨?_, h⟩
        cases hx : mapHas s1.tr.Resolvers addr
        · rfl
        · have := (t1 addr).1 hx
          rw [h] at this
          cases this

/-- The resolver maps are tidy after any number of passes, failed or not, if they were before,
as they are after `Init`. -/
theorem passes_tidy {σ : Type} (env : Env σ) (n : Nat) (s : State σ) (h : tidy s.tr) :
    tidy (passes env n s).tr :=
  passes_invariant env (Execute_tidy env) n s h

theorem tidy_announcedStart : tidy announcedStart.tr :=
  fun _ => ⟨fun h => (by cases h), fun _ => ⟨rfl, rfl⟩, rfl⟩

/-- C23 in scenario "early", when `configResolvers` runs for header 1: the maps are tidy, the
method succeeds, and the announced address `R` ends in exactly one of the two maps.  The ABI of
`R` has the one event AddrChanged: the body of the loop for `R` makes the calls `GetABI`,
`ParseAbiStr` and one `AddCheckColumn`, and registers one event id and one topic filter. -/
theorem configResolvers_sorts_new_addresses_witness :
    tidy announcedStart.tr ∧
    (configResolvers (simEnv (demoChain earlyLogs noFault)).traced 100 announcedStart).1
      = Except.ok () ∧
    ((mapHas (configResolvers (simEnv (demoChain earlyLogs noFault)).traced 100
          announcedStart).2.tr.Resolvers "R" = true ∧
        mapHas (configResolvers (simEnv (demoChain earlyLogs noFault)).traced 100
          announcedStart).2.tr.invalidResolvers "R" = false) ∨
      (mapHas (configResolvers (simEnv (demoChain earlyLogs noFault)).traced 100
          announcedStart).2.tr.Resolvers "R" = false ∧
        mapHas (configResolvers (simEnv (demoChain earlyLogs noFault)).traced 100
          announcedStart).2.tr.invalidResolvers "R" = true)) ∧
    (mapGet (configResolver (simEnv (demoChain earlyLogs noFault)).traced 100 "R"
        announcedStart).2.tr.Resolvers "R" {}).Events
      = (simEnv (demoChain earlyLogs noFault)).GetEvents
          (parsedAbiWorld (simEnv (demoChain earlyLogs noFault)) "R" announcedStart.world.1) ∧
    mapGet (configResolver (simEnv (demoChain earlyLogs noFault)).traced 100 "R"
        announcedStart).2.tr.resolverEventIds "R" []
      = ((simEnv (demoChain earlyLogs noFault)).GetEvents
          (parsedAbiWorld (simEnv (demoChain earlyLogs noFault)) "R"
            announcedStart.world.1)).map
          (fun e => (simEnv (demoChain earlyLogs noFault)).ToLower (e.Name ++ "_" ++ "R")) ∧
    mapGet (configResolver (simEnv (demoChain earlyLogs noFault)).traced 100 "R"
        announcedStart).2.tr.resolverEventFilters "R" []
      = ((simEnv (demoChain earlyLogs noFault)).GetEvents
          (parsedAbiWorld (simEnv (demoChain earlyLogs noFault)) "R"
            announcedStart.world.1)).map Event.Sig ∧
    ((simEnv (demoChain earlyLogs noFault)).GetEvents
        (parsedAbiWorld (simEnv (demoChain earlyLogs noFault)) "R"
          announcedStart.world.1)).map (fun e => (e.Name, e.Sig)) = [("AddrChanged", "t1")] ∧
    (configResolver (simEnv (demoChain earlyLogs noFault)).traced 100 "R"
        announcedStart).2.tr.resolverEventIds = [("R", ["addrchanged_r"])] ∧
    (configResolver (simEnv (demoChain earlyLogs noFault)).traced 100 "R"
        announcedStart).2.tr.resolverEventFilters = [("R", ["t1"])] ∧
    (configResolver (simEnv (demoChain earlyLogs noFault)).traced 100 "R"
        announcedStart).2.world.2
      = [Call.GetABI "R" (-1), Call.ParseAbiStr "resolver-abi",
          Call.AddCheckColumn "addrchanged_r"] :=
  have h := ((configResolvers_sorts_new_addresses (simEnv (demoChain earlyLogs noFault)) 100
    announcedStart tidy_announcedStart).1 "R" (by decide!) (by decide!)).2
      (by decide!) (by decide!)
  ⟨tidy_announcedStart, by decide!,
    (configResolvers_sorts_new_addresses (simEnv (demoChain earlyLogs noFault)) 100
      announcedStart tidy_announcedStart).2.2 (by decide!) "R" (by decide),
    congrArg Contract.Events h.2.2.2.2.1, h.2.2.2.2.2.1, h.2.2.2.2.2.2.1,
    by decide!, by decide!, by decide!, by decide!⟩

/-! ## The event ids of the registry and of a resolver -/

/-- C25: the event id that `Init` builds for an event of the registry and `configResolvers` for
an event of a resolver is `strings.ToLower(e.Name + "_" + address)`, the lower-casing of the
Go standard library (`env.ToLower`, for every function in its place) applied to the
concatenation of the name, an underscore and the address.  In both loops, if
`AddCheckColumn` fails for the id, the error is returned and the id is not appended; if it
succeeds, the id is appended to the event ids of the contract, and the topic to its filters.
So whatever the outcome of a loop, the ids appended are those of the first events, for which
`AddCheckColumn` has succeeded; and after a successful `Init` the registry's event ids are
those of all events of the registry contract. -/
theorem event_ids_are_lowercase_name_address {σ : Type} (env : Env σ) (address : String)
    (e : Event) (s : State σ) :
    (∀ w err,
      env.AddCheckColumn (env.ToLower (e.Name ++ "_" ++ address)) s.world = (Except.error err, w) →
      registerRegistryEvent env address e s = (Except.error err, ⟨s.tr, w⟩) ∧
      registerResolverEvent env address e s = (Except.error err, ⟨s.tr, w⟩)) ∧
    (∀ w, env.AddCheckColumn (env.ToLower (e.Name ++ "_" ++ address)) s.world = (Except.ok (), w) →
      registerRegistryEvent env address e s
        = (Except.ok (), ⟨{ s.tr with
            registryEventIds := s.tr.registryEventIds ++ [env.ToLower (e.Name ++ "_" ++ address)]
            registryEventFilters := s.tr.registryEventFilters ++ [e.Sig] }, w⟩) ∧
      registerResolverEvent env address e s
        = (Except.ok (), ⟨{ s.tr with
            resolverEventIds := mapSet s.tr.resolverEventIds address
              (mapGet s.tr.resolverEventIds address [] ++ [env.ToLower (e.Name ++ "_" ++ address)])
            resolverEventFilters := mapSet s.tr.resolverEventFilters address
              (mapGet s.tr.resolverEventFilters address [] ++ [e.Sig]) }, w⟩)) ∧
    (∀ es : List Event, ∃ k, k ≤ es.length ∧
      ((forEach es (registerRegistryEvent env address) s).1 = Except.ok () → k = es.length) ∧
      (forEach es (registerRegistryEvent env address) s).2.tr.registryEventIds
        = s.tr.registryEventIds
          ++ (es.take k).map (fun e => env.ToLower (e.Name ++ "_" ++ address))) ∧
    (∀ es : List Event, ∃ k, k ≤ es.length ∧
      ((forEach es (registerResolverEvent env address) s).1 = Except.ok () → k = es.length) ∧
      mapGet (forEach es (registerResolverEvent env address) s).2.tr.resolverEventIds address []
        = mapGet s.tr.resolverEventIds address []
          ++ (es.take k).map (fun e => env.ToLower (e.Name ++ "_" ++ address))) ∧
    ((Init env s).1 = Except.ok () →
      (Init env s).2.tr.registryEventIds
        = (Init env s).2.tr.Registry.Events.map
            (fun e => env.ToLower (e.Name ++ "_" ++ (Init env s).2.tr.Registry.Address))) := by
  refine ⟨fun w err h => ⟨registerRegistryEvent_error env address e s w err h,
      registerResolverEvent_error env address e s w err h⟩,
    fun w h => ⟨registerRegistryEvent_ok env address e s w h,
      registerResolverEvent_ok env address e s w h⟩, fun es => ?_, fun es => ?_, fun hok => ?_⟩
  · obtain ⟨k, hk, h1, h2⟩ := registerRegistryEvents_run env address es s
    refine ⟨k, hk, h2, ?_⟩
    rw [h1]
    rfl
  · obtain ⟨k, hk, h1, h2, _⟩ := registerResolverEvents_run env address es s
    exact ⟨k, hk, h2, h1.2.1⟩
  · obtain ⟨_, w2, h⟩ := Init_ok_tr env s hok
    rw [h]
    rfl

/-- C25 on examples.  On the configured transformer of the scenarios `Init` succeeds and the
registry's event ids are the lower-cased names of its four events, each followed by `_reg`.
For an event of the resolver `R` whose name has letters outside ASCII, the id that the inner
loop of `configResolvers` appends after the successful `AddCheckColumn` is the lower-cased
string with these letters lower-cased too. -/
theorem event_ids_are_lowercase_name_address_witness :
    ((Init (simEnv (demoChain earlyLogs noFault))
      ⟨demoConfigured, { headers := [⟨1, 100⟩, ⟨2, 110⟩] }⟩).1 = Except.ok () ∧
    (Init (simEnv (demoChain earlyLogs noFault))
      ⟨demoConfigured, { headers := [⟨1, 100⟩, ⟨2, 110⟩] }⟩).2.tr.registryEventIds
      = ["newowner_reg", "transfer_reg", "newttl_reg", "newresolver_reg"]) ∧
    (unicodeEnv.AddCheckColumn (unicodeEnv.ToLower ("ÄddrÇhanged" ++ "_" ++ "R"))
        demoStart.world).1 = Except.ok () ∧
    (registerResolverEvent unicodeEnv "R" ⟨"ÄddrÇhanged", "t9"⟩ demoStart).1 = Except.ok () ∧
    (registerResolverEvent unicodeEnv "R" ⟨"ÄddrÇhanged", "t9"⟩ demoStart).2.tr.resolverEventIds
      = mapSet demoStart.tr.resolverEventIds "R"
          (mapGet demoStart.tr.resolverEventIds "R" []
            ++ [unicodeEnv.ToLower ("ÄddrÇhanged" ++ "_" ++ "R")]) ∧
    unicodeEnv.ToLower ("ÄddrÇhanged" ++ "_" ++ "R") = "äddrçhanged_r" ∧
    (registerResolverEvent unicodeEnv "R" ⟨"ÄddrÇhanged", "t9"⟩ demoStart).2.tr.resolverEventIds
      = [("R", ["äddrçhanged_r"])] :=
  have hw : unicodeEnv.AddCheckColumn (unicodeEnv.ToLower ("ÄddrÇhanged" ++ "_" ++ "R"))
      demoStart.world
        = (Except.ok (), (unicodeEnv.AddCheckColumn
            (unicodeEnv.ToLower ("ÄddrÇhanged" ++ "_" ++ "R")) demoStart.world).2) :=
    Prod.ext (by decide!) rfl
  have h := ((event_ids_are_lowercase_name_address unicodeEnv "R" ⟨"ÄddrÇhanged", "t9"⟩
    demoStart).2.1 _ hw).2
  ⟨⟨by decide!,
    ((event_ids_are_lowercase_name_address (simEnv (demoChain earlyLogs noFault)) "reg"
      ⟨"NewOwner", "s1"⟩ ⟨demoConfigured, { headers := [⟨1, 100⟩, ⟨2, 110⟩] }⟩).2.2.2.2
        (by decide!)).trans (by decide!)⟩,
    by decide!, congrArg Prod.fst h,
    congrArg (fun r => r.2.tr.resolverEventIds) h, by decide!, by decide!⟩

/-! ## The starting block and the event ids of a configured resolver -/

theorem configResolver_knownAs {σ : Type} (env : Env σ) (b : Int) (addr : String) (s : State σ)
    (a : String) (c : Contract) (h : knownAs a c s.tr) :
    knownAs a c (configResolver env b addr s).2.tr := by
  by_cases hk : mapHas s.tr.Resolvers addr = true ∨ mapHas s.tr.invalidResolvers addr = true
  · rw [configResolver_known env b addr s hk]
    exact h
  · have h1 : mapHas s.tr.Resolvers addr = false := by
      cases hx : mapHas s.tr.Resolvers addr
      · rfl
      · exact absurd (Or.inl hx) hk
    have h2 : mapHas s.tr.invalidResolvers addr = false := by
      cases hx : mapHas s.tr.invalidResolvers addr
      · rfl
      · exact absurd (Or.inr hx) hk
    have hne : addr ≠ a := by
      intro e
      rw [e, h.1] at h1
      cases h1
    rw [configResolver_new env b addr s h1 h2]
    by_cases ha : (env.GetABI addr (-1) s.world).1 = ""
    · rw [probeResolver_invalid env b addr s ha]
      exact h
    · rcases hp : env.ParseAbiStr (env.GetABI addr (-1) s.world).1
        (env.GetABI addr (-1) s.world).2 with ⟨r, w2⟩
      cases r with
      | error err =>
        rw [probeResolver_parse_error env b addr s w2 err ha hp]
        exact h
      | ok u =>
        rw [probeResolver_parsed env b addr s w2 ha hp]
        obtain ⟨k, _, hreg, _, _⟩ := registerResolverEvents_run env addr (env.GetEvents w2)
          ⟨{ s.tr with
              Resolvers := mapSet s.tr.Resolvers addr (resolverContract env b addr w2 s.tr) },
            w2⟩
        obtain ⟨f1, _⟩ := registered_fields _ _ _ _ hreg
        unfold knownAs
        rw [f1]
        show mapHas (mapSet s.tr.Resolvers addr _) a = true ∧ mapGet (mapSet s.tr.Resolvers addr _) a {} = c
        rw [mapHas_mapSet_of_ne _ _ _ _ hne, mapGet_mapSet_of_ne _ _ _ _ _ hne]
        exact h

theorem configResolvers_knownAs {σ : Type} (env : Env σ) (a : String) (c : Contract) (b : Int) :
    Emits (knownAs a c) anyCall (configResolvers env.traced b) := by
  intro s hI
  refine ⟨?_, (configResolvers_sameIds env s.tr.registryEventIds "" [] false b s
    ⟨rfl, fun h => (by cases h)⟩).2⟩
  have key : ∀ (addrs : List String) (s : State (σ × List Call)), knownAs a c s.tr →
      knownAs a c (forEach addrs (configResolver env.traced b) s).2.tr := by
    intro addrs
    induction addrs with
    | nil => exact fun s h => h
    | cons addr rest ih =>
      intro s h
      rw [forEach_cons]
      have h1 := configResolver_knownAs env.traced b addr s a c h
      rcases hc : configResolver env.traced b addr s with ⟨r, s2⟩
      rw [hc] at h1
      cases r with
      | error err =>
        rw [Prog.bind_error hc]
        exact h1
      | ok u =>
        rw [Prog.bind_ok hc]
        exact ih s2 h1
  exact key _ s hI

/-- The contract stored for a resolver, its `StartingBlock` and its events included, is never
replaced: it is the same after any number of passes, failed or not. -/
theorem passes_knownAs {σ : Type} (env : Env σ) (n : Nat) (s : State σ) (a : String)
    (h : mapHas s.tr.Resolvers a = true) :
    mapHas (passes env n s).tr.Resolvers a = true ∧
    mapGet (passes env n s).tr.Resolvers a {} = mapGet s.tr.Resolvers a {} :=
  passes_invariant env
    (Execute_invariant env (fun _ _ => trivial) (fun _ _ h => h) (fun _ _ _ h => h)
      (configResolvers_knownAs env a (mapGet s.tr.Resolvers a {}))) n s ⟨h, rfl⟩

/-- C24, at the failing input: in scenario "early" the resolver `R` is first emitted by the
NewResolver event of header 1, at block 100, and not in header 2.  The pass in which the parser
rejects the ABI of `R` is aborted in `configResolvers` after header 1 was marked checked; `R`
stays in `ResolverAddresses` and is not in `Resolvers`.  The next pass, in which nothing fails,
folds header 2 (block 110), configures `R` there and stores the contract with `StartingBlock`
110, not 100. -/
theorem StartingBlock_is_block_of_configuring_header :
    rawRes ∈ earlyLogs "reg" 1 ∧ rawRes ∉ earlyLogs "reg" 2 ∧
    demoDecode rawRes = some ("NewResolver", ⟨[("node", "pl"), ("resolver", "R")]⟩) ∧
    (Execute (simEnv (demoChain earlyLogs parseFault)) demoStart).1
      = Except.error "ParseFailed" ∧
    (∀ i, (1, i) ∈ afterParseAbort.world.checked ↔ i ∈ demoStart.tr.registryEventIds) ∧
    mapHas afterParseAbort.tr.ResolverAddresses "R" = true ∧
    mapHas afterParseAbort.tr.Resolvers "R" = false ∧
    (Execute (simEnv (demoChain earlyLogs noFault)) afterParseAbort).1 = Except.ok () ∧
    mapHas (Execute (simEnv (demoChain earlyLogs noFault)) afterParseAbort).2.tr.Resolvers "R"
      = true ∧
    (mapGet (Execute (simEnv (demoChain earlyLogs noFault)) afterParseAbort).2.tr.Resolvers
      "R" {}).StartingBlock = 110 := by
  refine ⟨by decide, by decide, by decide, by decide!, ?_, by decide!, by decide!, by decide!,
    by decide!, by decide!⟩
  have h : afterParseAbort.world.checked
      = [(1, "newowner_reg"), (1, "transfer_reg"), (1, "newttl_reg"), (1, "newresolver_reg")] := by
    decide!
  intro i
  rw [h]
  simp [demoStart, demoTransformer]

/-- C30, at the failing input: the resolver `R` has the events AddrChanged and NameChanged, and
`AddCheckColumn` fails for the second in the pass that discovers `R`.  The pass is aborted with
`R` in `Resolvers` and one event id and one topic filter.  After any number of further passes
in which nothing fails, `R` is still in `Resolvers` with its two events, and it still has the
one event id `addrchanged_r`: no pass registers NameChanged for it. -/
theorem partially_configured_resolver_is_never_completed (n : Nat) :
    (Execute (simEnv (twoEventChain columnFault)) demoStart).1 = Except.error "ColumnFailed" ∧
    mapGet afterColumnAbort.tr.resolverEventFilters "R" [] = ["t1"] ∧
    mapHas (passes (simEnv (twoEventChain noFault)) n afterColumnAbort).tr.Resolvers "R" = true ∧
    (mapGet (passes (simEnv (twoEventChain noFault)) n afterColumnAbort).tr.Resolvers
      "R" {}).Events = [⟨"AddrChanged", "t1"⟩, ⟨"NameChanged", "t2"⟩] ∧
    mapGet (passes (simEnv (twoEventChain noFault)) n afterColumnAbort).tr.resolverEventIds
      "R" [] = ["addrchanged_r"] := by
  have h1 : mapHas afterColumnAbort.tr.Resolvers "R" = true := by decide!
  have h2 := passes_knownAs (simEnv (twoEventChain noFault)) n afterColumnAbort "R" h1
  have h3 := (passes_sameIds (simEnv (twoEventChain noFault)) n afterColumnAbort "R").2 h1
  refine ⟨by decide!, by decide!, h2.1, ?_, ?_⟩
  · rw [h2.2]
    decide!
  · rw [h3.2]
    decide!

/-! ## The order of the cursors -/

/-- The header repository of the scenarios returns headers from the requested start on. -/
theorem fromStart_simEnv (chain : Chain) : fromStart (simEnv chain) := by
  intro a b ids w w1 hs h x hx
  simp only [simEnv, answer] at h
  cases hf : chain.fails (Call.MissingHeadersForAll a b ids) with
  | some e =>
    rw [hf] at h
    cases h
  | none =>
    rw [hf] at h
    simp only [Prod.mk.injEq, Except.ok.injEq] at h
    rw [← h.1] at hx
    have := (List.mem_filter.mp hx).2
    simp only [Bool.and_eq_true, decide_eq_true_eq] at this
    exact this.1.1

/-- The cursors after a pass: unchanged, or advanced past the last header returned, which is at
or above the old registry cursor and below the largest `int64` value. -/
theorem Execute_indexes_cases {σ : Type} (env : Env σ) (hM : fromStart env) (s : State σ)
    (hB : belowLargest env s) :
    indexes (Execute env s).2.tr = indexes s.tr ∨
    ∃ last : Header, s.tr.registryIndex ≤ last.BlockNumber ∧
      last.BlockNumber < 9223372036854775807 ∧
      indexes (Execute env s).2.tr = (int64 (last.BlockNumber + 1), s.tr.registryIndex) := by
  rcases hm : env.MissingHeadersForAll s.tr.registryIndex (-1) s.tr.registryEventIds
    (afterUpdate env s).world with ⟨r, w1⟩
  cases r with
  | error e => exact Or.inl ((Execute_registry_error_keeps_indexes env s).1 e w1 hm)
  | ok hs =>
    rcases h1 : forEach hs (executeHeader env) { s with world := w1 } with ⟨r1, s2⟩
    cases r1 with
    | error e => exact Or.inl ((Execute_registry_error_keeps_indexes env s).2 hs w1 e s2 hm h1).2
    | ok u =>
      have key := executeRest_indexes env hs _ s2 h1
      rw [← Execute_ok env s hs w1 hm] at key
      cases hl : hs.getLast? with
      | none =>
        rw [hl] at key
        exact Or.inl key
      | some last =>
        rw [hl] at key
        have hmem : last ∈ hs := List.mem_of_mem_getLast? (Option.mem_def.mpr hl)
        exact Or.inr ⟨last, hM _ _ _ _ _ _ hm last hmem, hB hs w1 hm last hmem, key⟩

/-- The sum of a block number below the largest `int64` value and 1 does not wrap around to a
smaller value. -/
theorem lt_int64_succ (x : Int) (h : x < 9223372036854775807) : x < int64 (x + 1) := by
  unfold int64
  omega

/-- The `int64` sum wraps around at the largest block number: a pass over a header at block
9223372036854775807 leaves `registryIndex` at -9223372036854775808, below the old cursor 100
and below `resolverIndex`. -/
theorem registryIndex_wraps_at_largest_block :
    (Execute (simEnv (demoChain (fun _ _ => []) noFault)) largestBlockStart).1 = Except.ok () ∧
    largestBlockStart.tr.registryIndex = 100 ∧
    (Execute (simEnv (demoChain (fun _ _ => []) noFault)) largestBlockStart).2.tr.registryIndex
      = -9223372036854775808 ∧
    (Execute (simEnv (demoChain (fun _ _ => []) noFault)) largestBlockStart).2.tr.resolverIndex
      = 100 := by
  decide!

/-- C29, counterexample: in scenario "lost" `MissingHeadersForAll` returns the two headers of the
registry, at blocks 100 and 110, for the start 100.  The fold of header 1 fails, the pass is
aborted before the cursors are assigned, and `registryIndex` is 100 after the pass as before:
not strictly larger, although registry headers were returned. -/
theorem aborted_pass_keeps_registryIndex :
    ((simEnv (demoChain lostLogs noFault)).MissingHeadersForAll demoStart.tr.registryIndex (-1)
      demoStart.tr.registryEventIds
      (afterUpdate (simEnv (demoChain lostLogs noFault)) demoStart).world).1
        = Except.ok [⟨1, 100⟩, ⟨2, 110⟩] ∧
    (Execute (simEnv (demoChain lostLogs noFault)) demoStart).1 = Except.error "NotFound" ∧
    demoStart.tr.registryIndex = 100 ∧
    (Execute (simEnv (demoChain lostLogs noFault)) demoStart).2.tr.registryIndex = 100 := by
  decide!

/-- C29, amended: let `MissingHeadersForAll` return only headers at or above the requested
start, and let the registry headers returned in a pass have block numbers below the largest
`int64` value 9223372036854775807 (at which the `int64` sum block number + 1 wraps around).
Then the pass, failed or not, does not lower `registryIndex`; it keeps
`resolverIndex ≤ registryIndex` if that held before the pass; and `registryIndex` is strictly
larger after the pass when at least one registry header was returned and the header loop of the
registry ended without error.  So after any number of such passes that follow a successful
`Init`, `resolverIndex ≤ registryIndex` holds provided `resolverIndex` was at most the
registry's starting block when `Init` ran, as it is for a new transformer with a starting block
that is not negative (`Init` does not assign `resolverIndex`). -/
theorem cursors_stay_ordered {σ : Type} (env : Env σ) (hM : fromStart env) (s : State σ) :
    (belowLargest env s →
      s.tr.registryIndex ≤ (Execute env s).2.tr.registryIndex ∧
      (s.tr.resolverIndex ≤ s.tr.registryIndex →
        (Execute env s).2.tr.resolverIndex ≤ (Execute env s).2.tr.registryIndex) ∧
      (∀ hs w1 s2, env.MissingHeadersForAll s.tr.registryIndex (-1) s.tr.registryEventIds
          (afterUpdate env s).world = (Except.ok hs, w1) → hs ≠ [] →
        forEach hs (executeHeader env) { s with world := w1 } = (Except.ok (), s2) →
        s.tr.registryIndex < (Execute env s).2.tr.registryIndex)) ∧
    (∀ n, (∀ k, k < n → belowLargest env (passes env k s)) →
      s.tr.resolverIndex ≤ s.tr.registryIndex →
      (passes env n s).tr.resolverIndex ≤ (passes env n s).tr.registryIndex ∧
      s.tr.registryIndex ≤ (passes env n s).tr.registryIndex) ∧
    ((Init env s).1 = Except.ok () →
      s.tr.resolverIndex ≤ (Init env s).2.tr.Registry.StartingBlock →
      ∀ n, (∀ k, k < n → belowLargest env (passes env k (Init env s).2)) →
        (passes env n (Init env s).2).tr.resolverIndex
          ≤ (passes env n (Init env s).2).tr.registryIndex) := by
  have step : ∀ s : State σ, belowLargest env s →
      s.tr.registryIndex ≤ (Execute env s).2.tr.registryIndex ∧
      (s.tr.resolverIndex ≤ s.tr.registryIndex →
        (Execute env s).2.tr.resolverIndex ≤ (Execute env s).2.tr.registryIndex) := by
    intro s hB
    rcases Execute_indexes_cases env hM s hB with h | ⟨last, hl, hb, h⟩
    · simp only [indexes, Prod.mk.injEq] at h
      rw [h.1, h.2]
      exact ⟨le_refl _, id⟩
    · simp only [indexes, Prod.mk.injEq] at h
      rw [h.1, h.2]
      have := lt_int64_succ last.BlockNumber hb
      exact ⟨by omega, fun _ => by omega⟩
  have many : ∀ (s : State σ) (n : Nat), (∀ k, k < n → belowLargest env (passes env k s)) →
      s.tr.resolverIndex ≤ s.tr.registryIndex →
      (passes env n s).tr.resolverIndex ≤ (passes env n s).tr.registryIndex ∧
      s.tr.registryIndex ≤ (passes env n s).tr.registryIndex := by
    intro s n hB h
    induction n with
    | zero => exact ⟨h, le_refl _⟩
    | succ n ih =>
      have ih2 := ih (fun k hk => hB k (Nat.lt_succ_of_lt hk))
      have := step (passes env n s) (hB n (Nat.lt_succ_self n))
      exact ⟨this.2 ih2.1, le_trans ih2.2 this.1⟩
  refine ⟨fun hB => ⟨(step s hB).1, (step s hB).2, ?_⟩, many s, ?_⟩
  · intro hs w1 s2 hm hne h1
    have key := executeRest_indexes env hs _ s2 h1
    rw [← Execute_ok env s hs w1 hm, List.getLast?_eq_getLast hs hne] at key
    simp only [indexes, Prod.mk.injEq] at key
    rw [key.1]
    have h2 := hM _ _ _ _ _ _ hm (hs.getLast hne) (List.getLast_mem hne)
    have h3 := lt_int64_succ _ (hB hs w1 hm (hs.getLast hne) (List.getLast_mem hne))
    omega
  · intro hok hle n hB
    obtain ⟨_, w2, h⟩ := Init_ok_tr env s hok
    refine (many (Init env s).2 n hB ?_).1
    rw [h] at hle ⊢
    exact hle

theorem belowLargest_demoStart :
    belowLargest (simEnv (demoChain earlyLogs noFault)) demoStart := by
  intro hs w1 h x hx
  have hcalc : ((simEnv (demoChain earlyLogs noFault)).MissingHeadersForAll
      demoStart.tr.registryIndex (-1) demoStart.tr.registryEventIds
      (afterUpdate (simEnv (demoChain earlyLogs noFault)) demoStart).world).1
        = Except.ok [⟨1, 100⟩, ⟨2, 110⟩] := by decide!
  rw [h] at hcalc
  simp only [Except.ok.injEq] at hcalc
  rw [hcalc] at hx
  simp only [List.mem_cons, List.mem_singleton, List.not_mem_nil, or_false] at hx
  rcases hx with e | e <;> rw [e] <;> decide

/-- C29, amended, in scenario "early": the first pass after `Init` starts with the cursors
(100, 0), gets the headers at blocks 100 and 110, and ends with `resolverIndex` ≤
`registryIndex` and a `registryIndex` that is not smaller. -/
theorem cursors_stay_ordered_witness :
    fromStart (simEnv (demoChain earlyLogs noFault)) ∧
    belowLargest (simEnv (demoChain earlyLogs noFault)) demoStart ∧
    demoStart.tr.registryIndex
      ≤ (Execute (simEnv (demoChain earlyLogs noFault)) demoStart).2.tr.registryIndex ∧
    (Execute (simEnv (demoChain earlyLogs noFault)) demoStart).2.tr.resolverIndex
      ≤ (Execute (simEnv (demoChain earlyLogs noFault)) demoStart).2.tr.registryIndex :=
  have h := (cursors_stay_ordered (simEnv (demoChain earlyLogs noFault))
    (fromStart_simEnv _) demoStart).1 belowLargest_demoStart
  ⟨fromStart_simEnv _, belowLargest_demoStart, h.1, h.2.1 (by decide)⟩

/-! ## Atomicity of the single-event repositories -/

theorem rowAt_upsertRow_self {ρ : Type} (rows : List (RowKey × ρ)) (k : RowKey) (r : ρ) :
    rowAt (upsertRow rows k r) k = some r := by
  induction rows with
  | nil => simp [upsertRow, rowAt]
  | cons x rest ih =>
    obtain ⟨k1, r1⟩ := x
    by_cases h : k1 = k
    · simp [upsertRow, rowAt, h]
    · simp [upsertRow, rowAt, h, ih]

theorem rowAt_upsertRow_of_ne {ρ : Type} (rows : List (RowKey × ρ)) (k a : RowKey) (r : ρ)
    (h : k ≠ a) : rowAt (upsertRow rows k r) a = rowAt rows a := by
  induction rows with
  | nil => simp [upsertRow, rowAt, h]
  | cons x rest ih =>
    obtain ⟨k1, r1⟩ := x
    by_cases h1 : k1 = k
    · subst h1
      simp [upsertRow, rowAt, h]
    · by_cases h2 : k1 = a
      · subst h2
        simp [upsertRow, rowAt, h1]
      · simp [upsertRow, rowAt, h1, h2, ih]

theorem rowAt_insertAll_of_not_mem {ρ : Type} (key : ρ → Nat × Nat) (headerID : Int)
    (xs : List ρ) (rows : List (RowKey × ρ)) (k : RowKey)
    (h : ∀ x ∈ xs, (headerID, (key x).1, (key x).2) ≠ k) :
    rowAt (insertAll key headerID rows xs) k = rowAt rows k := by
  induction xs generalizing rows with
  | nil => rfl
  | cons x rest ih =>
    show rowAt (insertAll key headerID (upsertRow rows _ x) rest) k = _
    rw [ih _ (fun y hy => h y (List.mem_cons_of_mem _ hy)),
      rowAt_upsertRow_of_ne _ _ _ _ (h x (List.mem_cons_self _ _))]

theorem rowAt_insertAll_keeps {ρ : Type} (key : ρ → Nat × Nat) (headerID : Int)
    (xs : List ρ) (rows : List (RowKey × ρ)) (k : RowKey)
    (h : (rowAt rows k).isSome = true) :
    (rowAt (insertAll key headerID rows xs) k).isSome = true := by
  induction xs generalizing rows with
  | nil => exact h
  | cons x rest ih =>
    show (rowAt (insertAll key headerID (upsertRow rows _ x) rest) k).isSome = true
    apply ih
    by_cases hk : (headerID, (key x).1, (key x).2) = k
    · rw [hk, rowAt_upsertRow_self]
      rfl
    · rw [rowAt_upsertRow_of_ne _ _ _ _ hk]
      exact h

/-- Every model of the batch has a row under its key after the inserts. -/
theorem rowAt_insertAll_isSome {ρ : Type} (key : ρ → Nat × Nat) (headerID : Int)
    (xs : List ρ) (rows : List (RowKey × ρ)) (x : ρ) (hx : x ∈ xs) :
    (rowAt (insertAll key headerID rows xs) (headerID, (key x).1, (key x).2)).isSome = true := by
  induction xs generalizing rows with
  | nil => cases hx
  | cons y rest ih =>
    rcases List.mem_cons.mp hx with e | e
    · subst e
      show (rowAt (insertAll key headerID (upsertRow rows _ x) rest) _).isSome = true
      apply rowAt_insertAll_keeps
      rw [rowAt_upsertRow_self]
      rfl
    · exact ih _ e

/-- With distinct keys in the batch, the row under the key of a model is that model. -/
theorem rowAt_insertAll_nodup {ρ : Type} (key : ρ → Nat × Nat) (headerID : Int)
    (xs : List ρ) (rows : List (RowKey × ρ)) (hn : (xs.map key).Nodup) (x : ρ) (hx : x ∈ xs) :
    rowAt (insertAll key headerID rows xs) (headerID, (key x).1, (key x).2) = some x := by
  induction xs generalizing rows with
  | nil => cases hx
  | cons y rest ih =>
    rw [List.map_cons, List.nodup_cons] at hn
    rcases List.mem_cons.mp hx with e | e
    · subst e
      show rowAt (insertAll key headerID (upsertRow rows _ x) rest) _ = _
      rw [rowAt_insertAll_of_not_mem, rowAt_upsertRow_self]
      intro z hz hk
      apply hn.1
      have : key z = key x := by
        simp only [Prod.mk.injEq, true_and] at hk
        exact Prod.ext hk.1 hk.2
      rw [← this]
      exact List.mem_map_of_mem key hz
    · exact ih _ hn.2 e

theorem insertModels_error {ρ : Type} (f : DbFaults) (cast : ModelValue → Option ρ)
    (key : ρ → Nat × Nat) (expected : String) (headerID : Int)
    (models : List ModelValue) (s : Session ρ) (e : Error)
    (h : (insertModels f cast key expected headerID models s).1 = Except.error e) :
    (insertModels f cast key expected headerID models s).2.db = s.db ∧
    (insertModels f cast key expected headerID models s).2.tx = none ∧
    ∃ l, (insertModels f cast key expected headerID models s).2.calls
        = s.calls ++ l ++ [DbCall.Rollback] ∧ DbCall.Commit ∉ l := by
  induction models generalizing s with
  | nil =>
    unfold insertModels at h
    cases h
  | cons m rest ih =>
    unfold insertModels at h ⊢
    cases hc : cast m with
    | none => exact ⟨rfl, rfl, [], by simp [Session.Rollback], by simp⟩
    | some y =>
      rw [hc] at h
      simp only at h ⊢
      cases hx : f.exec (headerID, (key y).1, (key y).2) with
      | some err =>
        simp only [Session.Exec, hx]
        exact ⟨rfl, rfl, [DbCall.Exec (headerID, (key y).1, (key y).2)],
          by simp [Session.Rollback], by simp⟩
      | none =>
        simp only [Session.Exec, hx] at h ⊢
        obtain ⟨h1, h2, l, h3, h4⟩ := ih _ h
        refine ⟨h1, h2, DbCall.Exec (headerID, (key y).1, (key y).2) :: l, ?_, ?_⟩
        · rw [h3]
          simp
        · simp [h4]

/-- The loop when it ends without error: every element was of the model type, and the
transaction holds the inserts of the models, in order; nothing is committed yet. -/
theorem insertModels_ok {ρ : Type} (f : DbFaults) (cast : ModelValue → Option ρ)
    (key : ρ → Nat × Nat) (expected : String) (headerID : Int)
    (models : List ModelValue) (s : Session ρ)
    (h : (insertModels f cast key expected headerID models s).1 = Except.ok ()) :
    ∃ xs : List ρ, models.map cast = xs.map some ∧
      (insertModels f cast key expected headerID models s).2.db = s.db ∧
      (insertModels f cast key expected headerID models s).2.tx
        = s.tx.map (fun t => { t with rows := insertAll key headerID t.rows xs }) ∧
      (insertModels f cast key expected headerID models s).2.calls
        = s.calls ++ xs.map (fun x => DbCall.Exec (headerID, (key x).1, (key x).2)) := by
  induction models generalizing s with
  | nil =>
    refine ⟨[], rfl, rfl, ?_, by simp [insertModels]⟩
    show s.tx = _
    cases s.tx <;> rfl
  | cons m rest ih =>
    unfold insertModels at h ⊢
    cases hc : cast m with
    | none =>
      rw [hc] at h
      cases h
    | some y =>
      rw [hc] at h
      simp only at h ⊢
      cases hx : f.exec (headerID, (key y).1, (key y).2) with
      | some err =>
        simp only [Session.Exec, hx] at h
        cases h
      | none =>
        simp only [Session.Exec, hx] at h ⊢
        obtain ⟨xs, h1, h2, h3, h4⟩ := ih _ h
        refine ⟨y :: xs, by simp [hc, h1], h2, ?_, ?_⟩
        · rw [h3]
          cases s.tx <;> rfl
        · rw [h4]
          simp

theorem insertModels_succeeds {ρ : Type} (f : DbFaults) (cast : ModelValue → Option ρ)
    (key : ρ → Nat × Nat) (expected : String) (headerID : Int)
    (models : List ModelValue) (s : Session ρ)
    (hall : ∀ m ∈ models, ∃ y, cast m = some y ∧ f.exec (headerID, (key y).1, (key y).2) = none) :
    (insertModels f cast key expected headerID models s).1 = Except.ok () := by
  induction models generalizing s with
  | nil => rfl
  | cons m rest ih =>
    obtain ⟨y, hy, hx⟩ := hall m (List.mem_cons_self _ _)
    unfold insertModels
    rw [hy]
    simp only [Session.Exec, hx]
    exact ih _ (fun z hz => hall z (List.mem_cons_of_mem _ hz))

theorem insertModels_wrong_type {ρ : Type} (f : DbFaults) (cast : ModelValue → Option ρ)
    (key : ρ → Nat × Nat) (expected : String) (headerID : Int)
    (pre post : List ModelValue) (m : ModelValue) (s : Session ρ) (hm : cast m = none)
    (hpre : ∀ x ∈ pre, ∃ y, cast x = some y ∧ f.exec (headerID, (key y).1, (key y).2) = none) :
    (insertModels f cast key expected headerID (pre ++ m :: post) s).1
      = Except.error ("model of type " ++ m.typeName ++ ", not " ++ expected) := by
  induction pre generalizing s with
  | nil =>
    show (insertModels f cast key expected headerID (m :: post) s).1 = _
    unfold insertModels
    rw [hm]
  | cons x rest ih =>
    obtain ⟨y, hy, hx⟩ := hpre x (List.mem_cons_self _ _)
    show (insertModels f cast key expected headerID (x :: (rest ++ m :: post)) s).1 = _
    unfold insertModels
    rw [hy]
    simp only [Session.Exec, hx]
    exact ih _ (fun z hz => hpre z (List.mem_cons_of_mem _ hz))

/-- The loop fails whenever a model is not of the model type or an insert fails. -/
theorem insertModels_fails {ρ : Type} (f : DbFaults) (cast : ModelValue → Option ρ)
    (key : ρ → Nat × Nat) (expected : String) (headerID : Int)
    (models : List ModelValue) (s : Session ρ)
    (h : (∃ m ∈ models, cast m = none) ∨
      (∃ m ∈ models, ∃ y, cast m = some y ∧ f.exec (headerID, (key y).1, (key y).2) ≠ none)) :
    ∃ e, (insertModels f cast key expected headerID models s).1 = Except.error e := by
  rcases hr : (insertModels f cast key expected headerID models s).1 with e | u
  · exact ⟨e, rfl⟩
  · exfalso
    induction models generalizing s with
    | nil =>
      rcases h with ⟨m, hm, _⟩ | ⟨m, hm, _⟩
      · cases hm
      · cases hm
    | cons m rest ih =>
      unfold insertModels at hr
      cases hc : cast m with
      | none =>
        rw [hc] at hr
        cases hr
      | some y =>
        rw [hc] at hr
        simp only at hr
        cases hx : f.exec (headerID, (key y).1, (key y).2) with
        | some err =>
          simp only [Session.Exec, hx] at hr
          cases hr
        | none =>
          simp only [Session.Exec, hx] at hr
          refine ih _ ?_ hr
          rcases h with ⟨z, hz, hz1⟩ | ⟨z, hz, y1, hz1, hz2⟩
          · rcases List.mem_cons.mp hz with e | e
            · rw [e, hc] at hz1
              cases hz1
            · exact Or.inl ⟨z, e, hz1⟩
          · rcases List.mem_cons.mp hz with e | e
            · rw [e, hc] at hz1
              cases hz1
              exact absurd hx hz2
            · exact Or.inr ⟨z, e, y1, hz1, hz2⟩

/-- The shared shape of `Create` is atomic. -/
theorem createWith_atomic {ρ : Type} (cast : ModelValue → Option ρ) (key : ρ → Nat × Nat)
    (expected column : String) :
    AtomicCreate (fun f db headerID models =>
      createWith f cast key expected column db headerID models) cast key expected column := by
  intro f db headerID models
  simp only
  cases hb : f.begin with
  | some err =>
    have hrun : createWith f cast key expected column db headerID models
        = (Except.error err, { db := db, calls := [DbCall.Beginx] }) := by
      unfold createWith
      simp only [Session.Beginx, hb, List.nil_append]
    rw [hrun]
    exact ⟨rfl, fun _ _ => rfl, fun _ => ⟨err, rfl⟩, fun h => (by cases h),
      fun _ _ _ _ _ h => (by cases h), fun h => (by cases h), fun h => (by cases h)⟩
  | none =>
    have hbegin : Session.Beginx f ({ db := db } : Session ρ)
        = (Except.ok (), { db := db, tx := some db, calls := [DbCall.Beginx] }) := by
      simp only [Session.Beginx, hb, List.nil_append]
    rcases hl : insertModels f cast key expected headerID models
      { db := db, tx := some db, calls := [DbCall.Beginx] } with ⟨r, s1⟩
    cases r with
    | error e1 =>
      have hrun : createWith f cast key expected column db headerID models
          = (Except.error e1, s1) := by
        unfold createWith
        simp only [hbegin, hl]
      obtain ⟨hdb, htx, l, hcalls, hco⟩ := insertModels_error f cast key expected headerID
        models { db := db, tx := some db, calls := [DbCall.Beginx] } e1 (by rw [hl])
      rw [hl] at hdb htx hcalls
      rw [hrun]
      refine ⟨htx, fun _ _ => hdb, fun h => absurd rfl h, fun _ _ => ⟨⟨e1, rfl⟩, ?_, ?_, ?_⟩,
        fun pre m post hm hc _ hpre => ?_, fun h => (by cases h), fun _ hall _ _ => ?_⟩
      · show s1.calls.head? = _
        rw [hcalls]
        rfl
      · show s1.calls.getLast? = _
        rw [hcalls]
        exact List.getLast?_concat _
      · show DbCall.Commit ∉ s1.calls
        rw [hcalls]
        simp [hco]
      · have := insertModels_wrong_type f cast key expected headerID pre post m
          { db := db, tx := some db, calls := [DbCall.Beginx] } hc hpre
        rw [← hm, hl] at this
        exact this
      · have := insertModels_succeeds f cast key expected headerID models
          { db := db, tx := some db, calls := [DbCall.Beginx] } hall
        rw [hl] at this
        cases this
    | ok u =>
      obtain ⟨xs, h1, h2, h3, h4⟩ := insertModels_ok f cast key expected headerID models
        { db := db, tx := some db, calls := [DbCall.Beginx] } (by rw [hl])
      rw [hl] at h2 h3 h4
      simp only [Option.map_some'] at h3
      have nofail : ¬ ((∃ m ∈ models, cast m = none) ∨
          (∃ m ∈ models, ∃ y, cast m = some y ∧
            f.exec (headerID, (key y).1, (key y).2) ≠ none)) := by
        intro h
        obtain ⟨e, he⟩ := insertModels_fails f cast key expected headerID models
          { db := db, tx := some db, calls := [DbCall.Beginx] } h
        rw [hl] at he
        cases he
      have nowrong : ∀ pre m post, models = pre ++ m :: post → cast m = none → False := by
        intro pre m post hmod hc
        exact nofail (Or.inl ⟨m, by rw [hmod]; simp, hc⟩)
      cases hm : f.mark headerID column with
      | some e2 =>
        have hrun : createWith f cast key expected column db headerID models
            = (Except.error e2,
                Session.Rollback f { s1 with
                  calls := s1.calls
                    ++ [DbCall.MarkHeaderCheckedInTransaction headerID column] }) := by
          unfold createWith
          simp only [hbegin, hl, Session.MarkHeaderCheckedInTransaction, hm]
        rw [hrun]
        refine ⟨rfl, fun _ _ => h2, fun h => absurd rfl h, fun _ _ => ⟨⟨e2, rfl⟩, ?_, ?_, ?_⟩,
          fun pre m post hmod hc _ _ => (nowrong pre m post hmod hc).elim,
          fun h => (by cases h), fun _ _ h _ => (by cases h)⟩
        · show (s1.calls ++ _ ++ [DbCall.Rollback]).head? = _
          rw [h4]
          rfl
        · show (s1.calls ++ _ ++ [DbCall.Rollback]).getLast? = _
          exact List.getLast?_concat _
        · show DbCall.Commit ∉ (s1.calls ++ _ ++ [DbCall.Rollback])
          rw [h4]
          simp
      | none =>
        have hmark : Session.MarkHeaderCheckedInTransaction f headerID column s1
            = (Except.ok (), { s1 with
                tx := some { rows := insertAll key headerID db.rows xs
                             checked :=
                              if (headerID, column) ∈ db.checked then db.checked
                              else db.checked ++ [(headerID, column)] }
                calls := s1.calls
                  ++ [DbCall.MarkHeaderCheckedInTransaction headerID column] }) := by
          simp only [Session.MarkHeaderCheckedInTransaction, hm, h3, Option.map_some']
        have hfail : ¬ ((∃ m ∈ models, cast m = none) ∨
            (∃ m ∈ models, ∃ y, cast m = some y ∧
              f.exec (headerID, (key y).1, (key y).2) ≠ none) ∨
            f.mark headerID column ≠ none) := by
          rintro (h | h | h)
          · exact nofail (Or.inl h)
          · exact nofail (Or.inr h)
          · exact h hm
        cases hc : f.commit with
        | some e3 =>
          have hrun : createWith f cast key expected column db headerID models
              = (Except.error e3, { s1 with
                  tx := none
                  calls := s1.calls
                    ++ [DbCall.MarkHeaderCheckedInTransaction headerID column]
                    ++ [DbCall.Commit] }) := by
            unfold createWith
            simp only [hbegin, hl, hmark, Session.Commit, hc]
          rw [hrun]
          exact ⟨rfl, fun _ _ => h2, fun h => absurd rfl h, fun _ h => absurd (by rw [hm]; exact h) hfail,
            fun pre m post hmod hc2 _ _ => (nowrong pre m post hmod hc2).elim,
            fun h => (by cases h), fun _ _ _ h => (by cases h)⟩
        | none =>
          have hrun : createWith f cast key expected column db headerID models
              = (Except.ok (), { s1 with
                  db := { rows := insertAll key headerID db.rows xs
                          checked :=
                            if (headerID, column) ∈ db.checked then db.checked
                            else db.checked ++ [(headerID, column)] }
                  tx := none
                  calls := s1.calls
                    ++ [DbCall.MarkHeaderCheckedInTransaction headerID column]
                    ++ [DbCall.Commit] }) := by
            unfold createWith
            simp only [hbegin, hl, hmark, Session.Commit, hc, Option.getD_some]
          rw [hrun]
          refine ⟨rfl, fun _ h => (by cases h), fun h => absurd rfl h,
            fun _ h => absurd (by rw [hm]; exact h) hfail,
            fun pre m post hmod hc2 _ _ => (nowrong pre m post hmod hc2).elim, fun _ => ?_,
            fun _ _ _ _ => rfl⟩
          refine ⟨xs, h1, ?_, rfl, ?_, ?_, ?_, ?_⟩
          · show s1.calls ++ _ ++ [DbCall.Commit] = _
            rw [h4]
            simp [committedCalls]
          · show (headerID, column) ∈ (if (headerID, column) ∈ db.checked then
              db.checked else db.checked ++ [(headerID, column)])
            split
            · assumption
            · simp
          · intro p hp
            show p ∈ (if (headerID, column) ∈ db.checked then
              db.checked else db.checked ++ [(headerID, column)])
            split
            · exact hp
            · exact List.mem_append_left _ hp
          · intro x hx
            exact rowAt_insertAll_isSome key headerID xs _ x hx
          · intro hn x hx
            exact rowAt_insertAll_nodup key headerID xs _ hn x hx

/-- C28: the `Create` of `NewTtlRepository`, of `NameChangedRepository` and of
`HashInvalidatedRepository` is atomic.  If `Beginx` fails, if an element of `models` is not of
the repository's model type, or if an insert or the header mark fails, `Create` returns an
error (for a wrong type, reached without an earlier failure, the error "model of type <actual>,
not <expected>"), and whenever it returns an error the committed database is what it was: no
row of the batch is stored and the header is not marked.  When it returns no error, every
element of `models` is of the model type, the committed table holds a row under the key
(header id, tx index, log index) of every model (the model itself when the keys of the batch
are distinct) and the header is marked; and it returns no error when no call fails and every
model is of the model type, in particular for an empty `models`. -/
theorem single_event_Create_is_atomic (NewTtlChecked NameChangedChecked
    HashInvalidatedChecked : String) :
    AtomicCreate (NewTtlRepository.Create NewTtlChecked) ModelValue.asNewTTL
      (fun m => (m.TransactionIndex, m.LogIndex)) "new_ttl.NewTTLModel" NewTtlChecked ∧
    AtomicCreate (NameChangedRepository.Create NameChangedChecked) ModelValue.asNameChanged
      (fun m => (m.TransactionIndex, m.LogIndex)) "name_changed.NameChangedModel"
      NameChangedChecked ∧
    AtomicCreate (HashInvalidatedRepository.Create HashInvalidatedChecked)
      ModelValue.asHashInvalidated (fun m => (m.TransactionIndex, m.LogIndex))
      "hash_invalidated.HashInvalidatedModel" HashInvalidatedChecked :=
  ⟨createWith_atomic _ _ _ _, createWith_atomic _ _ _ _, createWith_atomic _ _ _ _⟩

/-- The repositories on examples, with the state of the database after the call.  A batch of
two NewTTL models is stored with the header mark by the calls of one committed transaction; the
empty batch only marks the header; a batch with a model of another package after a good one, a
failing second insert, a failing header mark (whose rollback fails too, which is logged) and a
failing `Beginx` each return an error and leave the committed table as it was, with no
transaction open; before the rollback the transaction did hold the row of the first model. -/
theorem NewTtlRepository_Create_examples :
    ((NewTtlRepository.Create "new_ttl_checked" {} {} 7
        [ModelValue.NewTTL ttlA, ModelValue.NewTTL ttlB]).1 = Except.ok () ∧
      (NewTtlRepository.Create "new_ttl_checked" {} {} 7
        [ModelValue.NewTTL ttlA, ModelValue.NewTTL ttlB]).2
          = { db := { rows := [((7, 1, 0), ttlA), ((7, 1, 1), ttlB)]
                      checked := [(7, "new_ttl_checked")] }
              tx := none
              calls := [DbCall.Beginx, DbCall.Exec (7, 1, 0), DbCall.Exec (7, 1, 1),
                DbCall.MarkHeaderCheckedInTransaction 7 "new_ttl_checked", DbCall.Commit]
              logged := [] }) ∧
    ((NewTtlRepository.Create "new_ttl_checked" {} {} 7 []).1 = Except.ok () ∧
      (NewTtlRepository.Create "new_ttl_checked" {} {} 7 []).2
          = { db := { rows := [], checked := [(7, "new_ttl_checked")] }
              tx := none
              calls := [DbCall.Beginx,
                DbCall.MarkHeaderCheckedInTransaction 7 "new_ttl_checked", DbCall.Commit]
              logged := [] }) ∧
    ((NewTtlRepository.Create "new_ttl_checked" {} oneRowTable 7 mixedBatch).1
          = Except.error "model of type name_changed.NameChangedModel, not new_ttl.NewTTLModel" ∧
      (NewTtlRepository.Create "new_ttl_checked" {} oneRowTable 7 mixedBatch).2
          = { db := oneRowTable
              tx := none
              calls := [DbCall.Beginx, DbCall.Exec (7, 1, 1), DbCall.Rollback]
              logged := [] }) ∧
    ((NewTtlRepository.Create "new_ttl_checked" secondInsertFails oneRowTable 7
        [ModelValue.NewTTL ttlA, ModelValue.NewTTL ttlB]).1 = Except.error "insert failed" ∧
      (NewTtlRepository.Create "new_ttl_checked" secondInsertFails oneRowTable 7
        [ModelValue.NewTTL ttlA, ModelValue.NewTTL ttlB]).2.db = oneRowTable ∧
      (NewTtlRepository.Create "new_ttl_checked" secondInsertFails oneRowTable 7
        [ModelValue.NewTTL ttlA, ModelValue.NewTTL ttlB]).2.tx = none ∧
      (NewTtlRepository.Create "new_ttl_checked" secondInsertFails oneRowTable 7
        [ModelValue.NewTTL ttlA, ModelValue.NewTTL ttlB]).2.calls
          = [DbCall.Beginx, DbCall.Exec (7, 1, 0), DbCall.Exec (7, 1, 1), DbCall.Rollback]) ∧
    ((NewTtlRepository.Create "new_ttl_checked"
        { mark := fun _ _ => some "mark failed", rollback := some "gone" } oneRowTable 7
        [ModelValue.NewTTL ttlA]).1 = Except.error "mark failed" ∧
      (NewTtlRepository.Create "new_ttl_checked"
        { mark := fun _ _ => some "mark failed", rollback := some "gone" } oneRowTable 7
        [ModelValue.NewTTL ttlA]).2
          = { db := oneRowTable
              tx := none
              calls := [DbCall.Beginx, DbCall.Exec (7, 1, 0),
                DbCall.MarkHeaderCheckedInTransaction 7 "new_ttl_checked", DbCall.Rollback]
              logged := ["failed to rollback gone"] }) ∧
    ((NewTtlRepository.Create "new_ttl_checked" { begin := some "no connection" } oneRowTable 7
        [ModelValue.NewTTL ttlA]).1 = Except.error "no connection" ∧
      (NewTtlRepository.Create "new_ttl_checked" { begin := some "no connection" } oneRowTable 7
        [ModelValue.NewTTL ttlA]).2
          = { db := oneRowTable, tx := none, calls := [DbCall.Beginx], logged := [] }) ∧
    (insertModels {} ModelValue.asNewTTL (fun m => (m.TransactionIndex, m.LogIndex))
        "new_ttl.NewTTLModel" 7 [ModelValue.NewTTL ttlB]
        { db := oneRowTable, tx := some oneRowTable, calls := [DbCall.Beginx] }).2.tx
          = some { rows := [((3, 1, 0), ttlA), ((7, 1, 1), ttlB)]
                   checked := [(3, "new_ttl_checked")] } := by
  refine ⟨⟨?_, ?_⟩, ⟨?_, ?_⟩, ⟨?_, ?_⟩, ⟨?_, ?_, ?_, ?_⟩, ⟨?_, ?_⟩, ⟨?_, ?_⟩, ?_⟩ <;> decide!

/-- C28 on two batches for header 7, on a table that holds a row of header 3.  The batch
`mixedBatch` has a model of another repository after a NewTTL model: `Create` returns the
type error, the insert of the first model is rolled back (the last call is `Rollback`, no
transaction stays open, `Commit` is never called) and the committed table is the one before
the call.  The batch of `ttlA` and `ttlB` is stored, with the header mark, by the calls of one
committed transaction. -/
theorem single_event_Create_is_atomic_witness :
    ((NewTtlRepository.Create "new_ttl_checked" {} oneRowTable 7 mixedBatch).1
        = Except.error "model of type name_changed.NameChangedModel, not new_ttl.NewTTLModel" ∧
      (NewTtlRepository.Create "new_ttl_checked" {} oneRowTable 7 mixedBatch).2.db
        = oneRowTable ∧
      (NewTtlRepository.Create "new_ttl_checked" {} oneRowTable 7 mixedBatch).2.tx = none ∧
      (NewTtlRepository.Create "new_ttl_checked" {} oneRowTable 7 mixedBatch).2.calls.getLast?
        = some DbCall.Rollback ∧
      DbCall.Commit ∉
        (NewTtlRepository.Create "new_ttl_checked" {} oneRowTable 7 mixedBatch).2.calls) ∧
    ((NewTtlRepository.Create "new_ttl_checked" {} oneRowTable 7
        [ModelValue.NewTTL ttlA, ModelValue.NewTTL ttlB]).1 = Except.ok () ∧
      (∃ xs, [ModelValue.NewTTL ttlA, ModelValue.NewTTL ttlB].map ModelValue.asNewTTL
          = xs.map some ∧
        (NewTtlRepository.Create "new_ttl_checked" {} oneRowTable 7
          [ModelValue.NewTTL ttlA, ModelValue.NewTTL ttlB]).2.calls
          = committedCalls (fun m : NewTTLModel => (m.TransactionIndex, m.LogIndex)) 7
              "new_ttl_checked" xs) ∧
      (7, "new_ttl_checked") ∈ (NewTtlRepository.Create "new_ttl_checked" {} oneRowTable 7
        [ModelValue.NewTTL ttlA, ModelValue.NewTTL ttlB]).2.db.checked) :=
  have h := (single_event_Create_is_atomic "new_ttl_checked" "name_changed_checked"
    "hash_invalidated_checked").1 {} oneRowTable 7 mixedBatch
  have hmsg := h.2.2.2.2.1 [ModelValue.NewTTL ttlB] (ModelValue.NameChanged {}) [] rfl rfl rfl
    (fun x hx => ⟨ttlB, by
      rw [List.mem_singleton.mp hx]
      exact ⟨rfl, rfl⟩⟩)
  have hroll := h.2.2.2.1 rfl
    (Or.inl ⟨ModelValue.NameChanged {}, by simp [mixedBatch], rfl⟩)
  have g := (single_event_Create_is_atomic "new_ttl_checked" "name_changed_checked"
    "hash_invalidated_checked").1 {} oneRowTable 7
      [ModelValue.NewTTL ttlA, ModelValue.NewTTL ttlB]
  have hok := g.2.2.2.2.2.2 rfl
    (fun m hm => by
      rcases List.mem_cons.mp hm with e | e
      · exact ⟨ttlA, by rw [e]; rfl, rfl⟩
      · exact ⟨ttlB, by rw [List.mem_singleton.mp e]; rfl, rfl⟩) rfl rfl
  ⟨⟨hmsg, h.2.1 _ hmsg, h.1, hroll.2.2.1, hroll.2.2.2⟩,
    hok, by
      obtain ⟨xs, h1, h2, _⟩ := g.2.2.2.2.2.1 hok
      exact ⟨xs, h1, h2⟩, by
      obtain ⟨_, _, _, _, h4, _⟩ := g.2.2.2.2.2.1 hok
      exact h4⟩

end DomainRecords
